import Mathlib

/-!
# TinyInfiniTensor: allocator, graph rewriting, shape inference and memory planning

A shallow embedding of `src/core/allocator.cc`, of the parts of
`src/core/graph.cc` the verified properties are about (`addOperatorAndConnect`,
`topo_sort`, `optimize`, `shape_infer`, `dataMalloc`, `checkValid`) and of
`MatmulObj::inferShape` of `src/operators/matmul.cc`.

Conventions of the embedding.

* `size_t` values are natural numbers below `2 ^ 64`; every arithmetic
  operation of the source is written with its wrap-around (`addW`, `subW`,
  `mulW`).
* `IT_ASSERT` throws: a call whose assertion fails returns no value and the
  state it started from.
* A `std::set` ordered by a comparator is a list kept in ascending order; a
  (hash) map from `size_t` to `size_t` is a function to `Option`.
* Tensors and operators are referred to by their address, a natural number;
  the objects behind the addresses are the functions `tensorObj` and `opObj`
  of the graph state.
* An access outside a vector, and a read through an iterator whose node has
  been erased, have no defined result and are treated like a failed
  assertion.
-/

namespace infini

/-! ## size_t arithmetic -/

/-- Number of values of a 64-bit `size_t`. -/
def sizeMod : Nat := 18446744073709551616

/-- Wrap-around addition of `size_t`. -/
def addW (a b : Nat) : Nat := (a + b) % sizeMod

/-- Wrap-around subtraction of `size_t`. -/
def subW (a b : Nat) : Nat := (a % sizeMod + sizeMod - b % sizeMod) % sizeMod

/-- Wrap-around multiplication of `size_t`. -/
def mulW (a b : Nat) : Nat := (a * b) % sizeMod

/-! ## Free blocks and their three indices -/

/-- Modelled from the spec: the record `freeBlockInfo` of `core/allocator.h`
(the header is not part of the sources at hand); a contiguous reusable address
span `[addr, addr + blockSize)`, fields in the order the aggregate
initialisers of `allocator.cc` use. -/
structure freeBlockInfo where
  addr : Nat
  blockSize : Nat
  deriving DecidableEq, Repr

/-- Modelled from the spec: the comparator of the free-block set declared in
`core/allocator.h`, "ordered by (size, addr) for best-fit search", ties broken
by address. -/
def cmpFreeBlockInfo (a b : freeBlockInfo) : Bool :=
  if a.blockSize ≠ b.blockSize then decide (a.blockSize < b.blockSize)
  else decide (a.addr < b.addr)

/-- The call `std::set::lower_bound(key)`: the first element, in ascending order, that
is not less than `key`. -/
def setLowerBound (key : freeBlockInfo) (l : List freeBlockInfo) : Option freeBlockInfo :=
  l.find? (fun b => !cmpFreeBlockInfo b key)

/-- The call `std::set::insert(b)`: ordered insertion, nothing happens when an
equivalent element is present. -/
def setInsert (b : freeBlockInfo) : List freeBlockInfo → List freeBlockInfo
  | [] => [b]
  | x :: xs =>
    if cmpFreeBlockInfo b x then b :: x :: xs
    else if cmpFreeBlockInfo x b then x :: setInsert b xs
    else x :: xs

/-- The call `std::set::erase(b)` (by key, or through an iterator to `b`): the element
equivalent to `b` is removed. -/
def setErase (b : freeBlockInfo) (l : List freeBlockInfo) : List freeBlockInfo :=
  l.filter (fun x => cmpFreeBlockInfo x b || cmpFreeBlockInfo b x)

/-- A map from `size_t` to `size_t`. -/
abbrev AddrMap := Nat → Option Nat

/-- The assignment `m[k] = v`. -/
def mapSet (m : AddrMap) (k v : Nat) : AddrMap :=
  fun x => if x = k then some v else m x

/-- The call `m.erase(k)`. -/
def mapErase (m : AddrMap) (k : Nat) : AddrMap :=
  fun x => if x = k then none else m x

/-- The update `m[k] += v`; `operator[]` creates a missing entry with value 0. -/
def mapAdd (m : AddrMap) (k v : Nat) : AddrMap :=
  fun x => if x = k then some (addW ((m k).getD 0) v) else m x

/-! ## The allocator -/

/-- State of `Allocator`. `ptr = 0` is `nullptr`. -/
structure Allocator where
  used : Nat
  peak : Nat
  ptr : Nat
  alignment : Nat
  freeBlocks : List freeBlockInfo
  headAddrToBlockSize : AddrMap
  tailAddrToBlockSize : AddrMap

namespace Allocator

/-- The constructor `Allocator::Allocator`: nothing used, `alignment = sizeof(uint64_t)`. -/
def init : Allocator :=
  { used := 0, peak := 0, ptr := 0, alignment := 8, freeBlocks := [],
    headAddrToBlockSize := fun _ => none, tailAddrToBlockSize := fun _ => none }

/-- The function `Allocator::getAlignedSize`. -/
def getAlignedSize (s : Allocator) (size : Nat) : Nat :=
  mulW (addW (subW size 1 / s.alignment) 1) s.alignment

/-- The function `Allocator::alloc`. The first component is the returned offset, `none`
when an `IT_ASSERT` fails. -/
def alloc (s : Allocator) (size0 : Nat) : Option Nat × Allocator :=
  if s.ptr ≠ 0 then (none, s)
  else
    let size := s.getAlignedSize size0
    match setLowerBound ⟨0, size⟩ s.freeBlocks with
    | some it =>
      let blockSize := it.blockSize
      let retAddr := it.addr
      let tailAddr := addW retAddr size
      let head1 := mapErase s.headAddrToBlockSize retAddr
      let tail1 := mapErase s.tailAddrToBlockSize tailAddr
      let split : Bool := decide (blockSize > subW tailAddr retAddr)
      let newBlock : freeBlockInfo := ⟨tailAddr, subW blockSize (subW tailAddr retAddr)⟩
      let head2 := if split then mapSet head1 tailAddr newBlock.blockSize else head1
      let tail2 :=
        if split then mapSet tail1 (addW retAddr blockSize) newBlock.blockSize else tail1
      let blocks2 := if split then setInsert newBlock s.freeBlocks else s.freeBlocks
      (some retAddr,
        { s with
          freeBlocks := setErase it blocks2
          headAddrToBlockSize := head2
          tailAddrToBlockSize := tail2
          used := addW s.used (subW tailAddr retAddr) })
    | none =>
      match s.tailAddrToBlockSize s.peak with
      | some tailSize =>
        let retAddr := subW s.peak tailSize
        if ¬ (tailSize < size) then (none, s)
        else
          let endBlock : freeBlockInfo := ⟨retAddr, tailSize⟩
          (some retAddr,
            { s with
              peak := addW s.peak (subW size tailSize)
              freeBlocks := setErase endBlock s.freeBlocks
              headAddrToBlockSize := mapErase s.headAddrToBlockSize endBlock.addr
              tailAddrToBlockSize :=
                mapErase s.tailAddrToBlockSize (addW endBlock.addr endBlock.blockSize)
              used := addW s.used size })
      | none =>
        (some s.peak, { s with peak := addW s.peak size, used := addW s.used size })

/-- The function `Allocator::free`. The first component is `false` when the `IT_ASSERT`
fails. The iterator `subFreeBlockIter` is taken before the first merge and read
after it: it is found in the map as it was at the `find`, and read in the map as
it is at the read. When the aligned size is 0, `tailAddr` is `addr`: the two
`find`s return the entries just written, the first merge erases the node
`subFreeBlockIter` points to and the second merge reads it; that read has no
defined result and is treated like a failed assertion. In every other case the
node is still there at the read. -/
def free (s : Allocator) (addr size0 : Nat) : Bool × Allocator :=
  if s.ptr ≠ 0 then (false, s)
  else
    let size := s.getAlignedSize size0
    let tailAddr := addW addr size
    if tailAddr = addr then (false, s)
    else
      let block0 : freeBlockInfo := ⟨addr, subW tailAddr addr⟩
      let head1 := mapSet s.headAddrToBlockSize addr block0.blockSize
      let tail1 := mapSet s.tailAddrToBlockSize tailAddr block0.blockSize
      let preFreeBlockIter := tail1 addr
      let subFreeBlockIter := head1 tailAddr
      let afterPre : freeBlockInfo × AddrMap × AddrMap × List freeBlockInfo :=
        match preFreeBlockIter with
        | some preBlockSize =>
          let head2 := mapAdd (mapErase head1 block0.addr)
            (subW block0.addr preBlockSize) block0.blockSize
          let tail2 := mapAdd (mapErase tail1 block0.addr) tailAddr preBlockSize
          let block1 : freeBlockInfo :=
            ⟨subW block0.addr preBlockSize, addW block0.blockSize preBlockSize⟩
          (block1, head2, tail2, setErase ⟨block1.addr, preBlockSize⟩ s.freeBlocks)
        | none => (block0, head1, tail1, s.freeBlocks)
      let block1 := afterPre.1
      let head2 := afterPre.2.1
      let tail2 := afterPre.2.2.1
      let blocks2 := afterPre.2.2.2
      let afterSub : freeBlockInfo × AddrMap × AddrMap × List freeBlockInfo :=
        match subFreeBlockIter with
        | some atFind =>
          let subBlockSize := (head2 tailAddr).getD atFind
          let head3 := mapAdd (mapErase head2 tailAddr) block1.addr subBlockSize
          let tail3 :=
            mapAdd (mapErase tail2 tailAddr) (addW tailAddr subBlockSize) block1.blockSize
          let tailAddr2 := addW tailAddr subBlockSize
          let block2 : freeBlockInfo := ⟨block1.addr, addW block1.blockSize subBlockSize⟩
          (block2, head3, tail3, setErase ⟨subW tailAddr2 subBlockSize, subBlockSize⟩ blocks2)
        | none => (block1, head2, tail2, blocks2)
      (true,
        { s with
          freeBlocks := setInsert afterSub.1 afterSub.2.2.2
          headAddrToBlockSize := afterSub.2.1
          tailAddrToBlockSize := afterSub.2.2.1
          used := subW s.used size })

/-- The function `Allocator::getPtr`, with the runtime's `alloc` as the function
`runtimeAlloc` from a byte count to the pointer it returns. The result is the
returned pointer, the byte count requested from the runtime in this call (if
any), and the new state. -/
def getPtr (runtimeAlloc : Nat → Nat) (s : Allocator) : Nat × Option Nat × Allocator :=
  if s.ptr = 0 then
    (runtimeAlloc s.peak, some s.peak, { s with ptr := runtimeAlloc s.peak })
  else (s.ptr, none, s)

end Allocator

/-- The least multiple of 8 that is not below `n`. -/
def alignUp (n : Nat) : Nat := 8 * ((n + 7) / 8)

/-- Ascending order of the free-block set. -/
def Ascending (l : List freeBlockInfo) : Prop :=
  l.Pairwise (fun a b => cmpFreeBlockInfo a b = true)

/-- Aligned end of a live allocation `(addr, size)`. -/
def liveEnd (l : Nat × Nat) : Nat := l.1 + alignUp l.2

/-- Representation invariant of the planning phase: `live` are the allocations handed out
and not yet freed. -/
structure Inv (s : Allocator) (live : List (Nat × Nat)) : Prop where
  ptr0 : s.ptr = 0
  align : s.alignment = 8
  sorted : Ascending s.freeBlocks
  head : ∀ a sz, s.headAddrToBlockSize a = some sz ↔ (⟨a, sz⟩ : freeBlockInfo) ∈ s.freeBlocks
  tail : ∀ t sz, s.tailAddrToBlockSize t = some sz ↔
    ∃ b ∈ s.freeBlocks, b.addr + b.blockSize = t ∧ b.blockSize = sz
  pos : ∀ b ∈ s.freeBlocks, 0 < b.blockSize
  range : ∀ b ∈ s.freeBlocks, b.addr + b.blockSize ≤ s.peak
  sep : ∀ b1 ∈ s.freeBlocks, ∀ b2 ∈ s.freeBlocks, b1 ≠ b2 →
    b1.addr + b1.blockSize < b2.addr ∨ b2.addr + b2.blockSize < b1.addr
  livePos : ∀ l ∈ live, 0 < l.2
  liveRange : ∀ l ∈ live, liveEnd l ≤ s.peak
  liveSep : live.Pairwise (fun l1 l2 => liveEnd l1 ≤ l2.1 ∨ liveEnd l2 ≤ l1.1)
  freeLive : ∀ b ∈ s.freeBlocks, ∀ l ∈ live, b.addr + b.blockSize ≤ l.1 ∨ liveEnd l ≤ b.addr
  cover : ∀ x, x < s.peak →
    (∃ b ∈ s.freeBlocks, b.addr ≤ x ∧ x < b.addr + b.blockSize) ∨
    (∃ l ∈ live, l.1 ≤ x ∧ x < liveEnd l)
  usedEq : s.used = (live.map (fun l => alignUp l.2)).sum
  total : s.used + (s.freeBlocks.map (·.blockSize)).sum = s.peak

/-- What `free(a, n)` leaves behind, with `p` the size of the free block that ends at `a`
and `q` the size of the free block that starts at `a + sz` (0 when there is none). -/
structure FreeShape (s s' : Allocator) (a sz p q : Nat) : Prop where
  ptr : s'.ptr = s.ptr
  align : s'.alignment = s.alignment
  peak : s'.peak = s.peak
  used : s'.used = s.used - sz
  sorted : Ascending s'.freeBlocks
  mem : ∀ x, x ∈ s'.freeBlocks ↔ x = ⟨a - p, p + sz + q⟩ ∨
    (x ∈ s.freeBlocks ∧ x.addr + x.blockSize ≠ a ∧ x.addr ≠ a + sz)
  sum : (s'.freeBlocks.map (·.blockSize)).sum = (s.freeBlocks.map (·.blockSize)).sum + sz
  head : ∀ k, s'.headAddrToBlockSize k =
    if k = a - p then some (p + sz + q) else if k = a ∨ k = a + sz then none
    else s.headAddrToBlockSize k
  tail : ∀ t, s'.tailAddrToBlockSize t =
    if t = a + sz + q then some (p + sz + q) else if t = a ∨ t = a + sz then none
    else s.tailAddrToBlockSize t

/-- One call of the planning phase. -/
inductive Call where
  | alloc (size : Nat)
  | free (addr size : Nat)
  deriving DecidableEq, Repr

/-- An allocator together with the allocations that are live: for each `alloc` that has
not been freed, the offset it returned and the size it was asked for. -/
structure Planning where
  allocator : Allocator
  live : List (Nat × Nat)

/-- The state before any call. -/
def Planning.start : Planning := ⟨Allocator.init, []⟩

/-- Performs one call. -/
def Planning.step (σ : Planning) : Call → Planning
  | .alloc n =>
    match σ.allocator.alloc n with
    | (some a, s') => ⟨s', (a, n) :: σ.live⟩
    | (none, s') => ⟨s', σ.live⟩
  | .free a n => ⟨(σ.allocator.free a n).2, σ.live.erase (a, n)⟩

/-- Performs a sequence of calls. -/
def Planning.runFrom (σ : Planning) (cs : List Call) : Planning := cs.foldl Planning.step σ

/-- Performs a sequence of calls on a fresh allocator. -/
def Planning.run (cs : List Call) : Planning := Planning.start.runFrom cs

/-- A matched sequence: sizes are positive and every `free(addr, size)` names an allocation
that is live when it is called, with the size it was allocated with. -/
def Planning.matchedFrom (σ : Planning) : List Call → Prop
  | [] => True
  | .alloc n :: cs => 0 < n ∧ Planning.matchedFrom (σ.step (.alloc n)) cs
  | .free a n :: cs => 0 < n ∧ (a, n) ∈ σ.live ∧ Planning.matchedFrom (σ.step (.free a n)) cs

instance Planning.decMatchedFrom : (σ : Planning) → (cs : List Call) →
    Decidable (Planning.matchedFrom σ cs)
  | _, [] => isTrue trivial
  | σ, .alloc n :: cs =>
    @instDecidableAnd _ _ _ (Planning.decMatchedFrom (σ.step (.alloc n)) cs)
  | σ, .free a n :: cs =>
    @instDecidableAnd _ _ _
      (@instDecidableAnd _ _ _ (Planning.decMatchedFrom (σ.step (.free a n)) cs))

/-- A matched sequence of calls on a fresh allocator. -/
def Matched (cs : List Call) : Prop := Planning.matchedFrom Planning.start cs

instance (cs : List Call) : Decidable (Matched cs) := Planning.decMatchedFrom _ cs

/-- Total of the aligned sizes a sequence of calls asks for. -/
def demand : List Call → Nat
  | [] => 0
  | .alloc n :: cs => alignUp n + demand cs
  | .free _ _ :: cs => demand cs

/-- The address space a sequence of calls asks for is representable in `size_t`. -/
def Fits (cs : List Call) : Prop := demand cs < sizeMod

instance (cs : List Call) : Decidable (Fits cs) := by unfold Fits; infer_instance

/-- Operator variants the graph core distinguishes. -/
inductive OpType where
  | Transpose
  | MatMul
  | Other
  deriving DecidableEq, Repr

/-- Modelled from the spec: the tensor record of `core/tensor.h` (not among the sources at
hand). Operators are referred to by their address, a natural number; `source` is the producer
(`none` for `nullptr`), `targets` the consumers in registration order, `data` the bound
address, `dims` the shape and `dtypeSize` the width of the element type. -/
structure TensorObj where
  fuid : Nat
  dims : List Nat
  dtypeSize : Nat
  source : Option Nat
  targets : List Nat
  data : Option Nat
  deriving Repr

/-- Modelled from the spec: the byte size of a tensor, "derived from shape × type width",
a `size_t`. -/
def TensorObj.getBytes (t : TensorObj) : Nat := mulW (t.dims.prod % sizeMod) t.dtypeSize

/-- Modelled from the spec: the operator record of `core/operator.h` (not among the sources
at hand): ordered input and output tensor lists (tensors referred to by their address) and
predecessor/successor operators, together with the attributes of the two variants the core
looks into, "Transpose: permutation array; Matmul: transA, transB flags, and derived m, n, k
after shape inference". -/
structure OperatorObj where
  opType : OpType
  inputs : List Nat
  outputs : List Nat
  predecessors : List Nat
  successors : List Nat
  permute : List Nat := []
  transA : Bool := false
  transB : Bool := false
  m : Nat := 0
  n : Nat := 0
  k : Nat := 0
  deriving Repr

/-- State of `GraphObj`: the tensor vector, the operator vector, the `sorted` flag, the
allocator, and the objects the references point to. -/
structure GraphObj where
  tensors : List Nat
  ops : List Nat
  sorted : Bool
  allocator : Allocator
  tensorObj : Nat → TensorObj
  opObj : Nat → OperatorObj

namespace GraphObj

/-- Local state of `topo_sort`: the vector `sorted`, the set `flags`, and the flag
`modified` of the current pass. -/
structure TopoState where
  sorted : List Nat
  flags : List Nat
  modified : Bool

/-- The test of the `if` in the scan of `topo_sort`: `op` is not flagged and every input has
no source or a flagged source. -/
def topoReady (g : GraphObj) (flags : List Nat) (op : Nat) : Bool :=
  !(flags.contains op) &&
    (g.opObj op).inputs.all (fun input =>
      match (g.tensorObj input).source with
      | none => true
      | some ptr => flags.contains ptr)

/-- Body of the `for` over `ops` in `topo_sort`. -/
def topoVisit (g : GraphObj) (st : TopoState) (op : Nat) : TopoState :=
  if g.topoReady st.flags op then
    { sorted := st.sorted ++ [op], flags := op :: st.flags, modified := true }
  else st

/-- One pass of the `while` of `topo_sort`: `modified` is reset and all of `ops` are
scanned. -/
def topoPass (g : GraphObj) (st : TopoState) : TopoState :=
  g.ops.foldl g.topoVisit { st with modified := false }

/-- The `while` loop of `topo_sort` with a bound on the number of passes: `none` when the
bound is used up, `some none` for `return false`, `some (some l)` when the loop ends with
`sorted = l`. -/
def topoLoop (g : GraphObj) : Nat → TopoState → Option (Option (List Nat))
  | 0, _ => none
  | fuel + 1, st =>
    if st.sorted.length < g.ops.length then
      let st' := g.topoPass st
      if !st'.modified then some none else topoLoop g fuel st'
    else some (some st.sorted)

/-- The function `GraphObj::topo_sort`: the returned flag and the graph afterwards. Every pass
but the last adds an operator to `sorted`, so `ops.size() + 1` passes are enough (see
`topo_sort_terminates`); `none` stands for a loop that would need more. -/
def topo_sort (g : GraphObj) : Option (Bool × GraphObj) :=
  if g.sorted then some (true, g)
  else
    match g.topoLoop (g.ops.length + 1) ⟨[], [], false⟩ with
    | none => none
    | some none => some (false, g)
    | some (some l) => some (true, { g with ops := l, sorted := true })

/-- The last loop of `checkValid`: no Fuid occurs twice; `seen` is the set `s`. -/
def fuidsDistinct : List Nat → List Nat → Bool
  | [], _ => true
  | f :: fs, seen => if seen.contains f then false else fuidsDistinct fs (f :: seen)

/-- The function `GraphObj::checkValid`: `true` when it returns `true`, `false` when one of
its assertions fails. -/
def checkValid (g : GraphObj) : Bool :=
  g.tensors.all (fun t =>
    !((g.tensorObj t).targets.length == 0 && (g.tensorObj t).source.isNone) &&
    (g.tensorObj t).targets.all (fun op => g.ops.contains op) &&
    (match (g.tensorObj t).source with
      | none => true
      | some op => g.ops.contains op)) &&
  g.ops.all (fun op =>
    (g.opObj op).inputs.all (fun t => g.tensors.contains t) &&
    (g.opObj op).outputs.all (fun t => g.tensors.contains t) &&
    (g.opObj op).predecessors.all (fun pre => g.ops.contains pre) &&
    (g.opObj op).successors.all (fun suc => g.ops.contains suc)) &&
  fuidsDistinct (g.tensors.map (fun t => (g.tensorObj t).fuid)) []

/-- Operator `p` produces an input tensor of operator `o`, an operator of the graph. -/
def Produces (g : GraphObj) (p o : Nat) : Prop :=
  o ∈ g.ops ∧ ∃ t ∈ (g.opObj o).inputs, (g.tensorObj t).source = some p

/-- The producer relation has no cycle. -/
def Acyclic (g : GraphObj) : Prop := ∀ o, ¬ Relation.TransGen g.Produces o o

/-- In the sequence `l` every operator comes after all operators that produce any of its
inputs. -/
def TopoOrdered (g : GraphObj) (l : List Nat) : Prop :=
  ∀ (k : Nat) (o : Nat), l[k]? = some o →
    ∀ t ∈ (g.opObj o).inputs, ∀ p, (g.tensorObj t).source = some p → p ∈ l.take k

/-- Monotonicity facts of a scan. -/
structure ScanLe (st st' : TopoState) : Prop where
  len : st.sorted.length ≤ st'.sorted.length
  flags : ∀ x ∈ st.flags, x ∈ st'.flags
  modified : st.modified = true → st'.modified = true
  grown : st'.modified = true → st.modified = true ∨ st.sorted.length < st'.sorted.length

/-- What the scan of `topo_sort` keeps true of `sorted` and `flags`. -/
structure ScanOk (g : GraphObj) (st : TopoState) : Prop where
  nodup : st.sorted.Nodup
  sub : ∀ x ∈ st.sorted, x ∈ g.ops
  flags : ∀ x, x ∈ st.flags ↔ x ∈ st.sorted
  ordered : g.TopoOrdered st.sorted

/-- The facts `checkValid` asserts. -/
structure Valid (g : GraphObj) : Prop where
  notOrphan : ∀ t ∈ g.tensors,
    ¬ ((g.tensorObj t).targets = [] ∧ (g.tensorObj t).source = none)
  targets : ∀ t ∈ g.tensors, ∀ op ∈ (g.tensorObj t).targets, op ∈ g.ops
  source : ∀ t ∈ g.tensors, ∀ op, (g.tensorObj t).source = some op → op ∈ g.ops
  inputs : ∀ op ∈ g.ops, ∀ t ∈ (g.opObj op).inputs, t ∈ g.tensors
  outputs : ∀ op ∈ g.ops, ∀ t ∈ (g.opObj op).outputs, t ∈ g.tensors
  predecessors : ∀ op ∈ g.ops, ∀ p ∈ (g.opObj op).predecessors, p ∈ g.ops
  successors : ∀ op ∈ g.ops, ∀ p ∈ (g.opObj op).successors, p ∈ g.ops
  fuids : (g.tensors.map (fun t => (g.tensorObj t).fuid)).Nodup

/-- A rank that grows along every producer edge of the graph. -/
def rankOk (g : GraphObj) (rank : Nat → Nat) : Bool :=
  g.ops.all (fun o =>
    (g.opObj o).inputs.all (fun t =>
      match (g.tensorObj t).source with
      | none => true
      | some p => decide (rank p < rank o)))

end GraphObj

/-- A loop whose body may fail an assertion: the state after the last element, `none` as
soon as the body fails. -/
def foldOpt {σ α : Type} (f : σ → α → Option σ) : σ → List α → Option σ
  | s, [] => some s
  | s, x :: xs =>
    match f s x with
    | none => none
    | some s' => foldOpt f s' xs

namespace GraphObj

/-- Local state of the planning loops of `dataMalloc`: the graph's allocator and the maps
`tensorToRefCount` and `tensorToOffset`. -/
structure MallocState where
  allocator : Allocator
  tensorToRefCount : AddrMap
  tensorToOffset : AddrMap

/-- Body of the first loop of `dataMalloc`: the reference count of `t` is its number of
targets (the size of a vector, a `size_t`), and a tensor without source is allocated. -/
def mallocLeaf (g : GraphObj) (st : MallocState) (t : Nat) : Option MallocState :=
  let count := mapSet st.tensorToRefCount t (g.tensorObj t).targets.length
  if (g.tensorObj t).source.isNone then
    match st.allocator.alloc (g.tensorObj t).getBytes with
    | (some off, a) => some ⟨a, count, mapSet st.tensorToOffset t off⟩
    | (none, _) => none
  else some { st with tensorToRefCount := count }

/-- Body of the loop over the outputs of an operator. -/
def mallocOutput (g : GraphObj) (st : MallocState) (t : Nat) : Option MallocState :=
  match st.allocator.alloc (g.tensorObj t).getBytes with
  | (some off, a) =>
    some { st with allocator := a, tensorToOffset := mapSet st.tensorToOffset t off }
  | (none, _) => none

/-- Body of the loop over the inputs of an operator: the two assertions, the decrement (of a
count the second assertion found positive), and the `free` when the count reaches zero
(`tensorToOffset[t]` creates a missing entry with value 0). -/
def mallocInput (g : GraphObj) (st : MallocState) (t : Nat) : Option MallocState :=
  match st.tensorToRefCount t with
  | none => none
  | some c =>
    if c > 0 then
      let count := mapSet st.tensorToRefCount t (c - 1)
      if c - 1 = 0 then
        let offsets :=
          match st.tensorToOffset t with
          | some _ => st.tensorToOffset
          | none => mapSet st.tensorToOffset t 0
        match st.allocator.free ((st.tensorToOffset t).getD 0) (g.tensorObj t).getBytes with
        | (true, a) => some ⟨a, mapErase count t, offsets⟩
        | (false, _) => none
      else some { st with tensorToRefCount := count }
    else none

/-- Body of the loop over `ops`: outputs first, then inputs. -/
def mallocOp (g : GraphObj) (st : MallocState) (op : Nat) : Option MallocState :=
  match foldOpt g.mallocOutput st (g.opObj op).outputs with
  | none => none
  | some st' => foldOpt g.mallocInput st' (g.opObj op).inputs

/-- The two planning loops of `dataMalloc` on the graph as `topo_sort` left it. -/
def plan (g : GraphObj) : Option MallocState :=
  match foldOpt g.mallocLeaf ⟨g.allocator, fun _ => none, fun _ => none⟩ g.tensors with
  | none => none
  | some st => foldOpt g.mallocOp st g.ops

/-- Body of the last loop of `dataMalloc`: the offset of `t` must be known; the tensor is bound
to `getPtr() + offset`. The state is the allocator and the tensor objects. -/
def bindTensor (runtimeAlloc : Nat → Nat) (offsets : AddrMap)
    (st : Allocator × (Nat → TensorObj)) (t : Nat) : Option (Allocator × (Nat → TensorObj)) :=
  match offsets t with
  | none => none
  | some off =>
    let r := st.1.getPtr runtimeAlloc
    some (r.2.2, fun x => if x = t then { st.2 x with data := some (r.1 + off) } else st.2 x)

/-- The function `GraphObj::dataMalloc`: the graph afterwards and the map `tensorToOffset`, `none`
when an assertion fails. -/
def dataMalloc (runtimeAlloc : Nat → Nat) (g : GraphObj) : Option (GraphObj × AddrMap) :=
  match g.topo_sort with
  | some (true, g1) =>
    match g1.plan with
    | none => none
    | some st =>
      match foldOpt (bindTensor runtimeAlloc st.tensorToOffset) (st.allocator, g1.tensorObj)
          g1.tensors with
      | none => none
      | some (a, objs) => some ({ g1 with allocator := a, tensorObj := objs }, st.tensorToOffset)
  | _ => none

/-- The chain `T1 → Op1 → T2 → Op2 → T3` with byte sizes `b1`, `b2`, `b3`: tensors 1, 2, 3 and
operators 1, 2, as built by adding `T1`, `Op1` with output `T2`, and `Op2` with output
`T3`. -/
def chainGraph (b1 b2 b3 : Nat) : GraphObj where
  tensors := [1, 2, 3]
  ops := [1, 2]
  sorted := false
  allocator := Allocator.init
  tensorObj := fun t =>
    if t = 1 then ⟨1, [b1], 1, none, [1], none⟩
    else if t = 2 then ⟨2, [b2], 1, some 1, [2], none⟩
    else ⟨3, [b3], 1, some 2, [], none⟩
  opObj := fun o =>
    if o = 1 then
      { opType := .Other, inputs := [1], outputs := [2], predecessors := [], successors := [2] }
    else
      { opType := .Other, inputs := [2], outputs := [3], predecessors := [1], successors := [] }

/-- Two operators that feed each other: tensor 1 goes from operator 1 to operator 2 and
tensor 2 from operator 2 back to operator 1. -/
def loopGraph : GraphObj where
  tensors := [1, 2]
  ops := [1, 2]
  sorted := false
  allocator := Allocator.init
  tensorObj := fun t =>
    if t = 1 then ⟨1, [8], 1, some 1, [2], none⟩ else ⟨2, [8], 1, some 2, [1], none⟩
  opObj := fun o =>
    if o = 1 then
      { opType := .Other, inputs := [2], outputs := [1], predecessors := [2], successors := [2] }
    else
      { opType := .Other, inputs := [1], outputs := [2], predecessors := [1], successors := [1] }

/-- The input occurrences of a sequence of operators, in the order `dataMalloc` meets
them. -/
def inputsOf (g : GraphObj) : List Nat → List Nat
  | [] => []
  | o :: os => (g.opObj o).inputs ++ g.inputsOf os

/-- Aligned byte size of tensor `t`. -/
def alignedBytes (g : GraphObj) (t : Nat) : Nat := alignUp (g.tensorObj t).getBytes

/-- The time at which tensor `t` is allocated when the operators are processed in the order
`S`: 0, the start of planning, for a tensor without source, and `k + 1`, the processing of the
operator at position `k`, for a tensor whose source is that operator. -/
def birth (g : GraphObj) (S : List Nat) (t : Nat) : Nat :=
  match (g.tensorObj t).source with
  | none => 0
  | some p => S.indexOf p + 1

/-- Tensor `t` is live at time `τ`: it has been allocated, and it has no consumer at all or a
consumer at a position that is still to be processed at time `τ`. -/
def LiveAt (g : GraphObj) (S : List Nat) (t τ : Nat) : Prop :=
  g.birth S t ≤ τ ∧
    ((∀ o ∈ S, t ∉ (g.opObj o).inputs) ∨
      ∃ j o, S[j]? = some o ∧ t ∈ (g.opObj o).inputs ∧ τ ≤ j + 1)

/-- Producer and consumer edges mirror the operators' output and input lists: a tensor's
source is the operator that lists it as an output, no operator lists an output twice, and a
tensor lists each consumer once per occurrence among that operator's inputs. -/
structure Wired (g : GraphObj) : Prop where
  producer : ∀ t ∈ g.tensors, ∀ p ∈ g.ops,
    ((g.tensorObj t).source = some p ↔ t ∈ (g.opObj p).outputs)
  outputs : ∀ o ∈ g.ops, (g.opObj o).outputs.Nodup
  consumer : ∀ t ∈ g.tensors, ∀ o ∈ g.ops,
    (g.tensorObj t).targets.count o = (g.opObj o).inputs.count t

/-- Tensor `t` is still needed when the input occurrences `fut` are still to come: it is
never consumed, or it is among them. -/
def Needed (g : GraphObj) (fut : List Nat) (t : Nat) : Prop :=
  (g.inputsOf g.ops).count t = 0 ∨ 0 < fut.count t

/-- Two planned ranges do not overlap. -/
def Apart (g : GraphObj) (offsets : AddrMap) (t u : Nat) : Prop :=
  ∀ a b, offsets t = some a → offsets u = some b →
    a + g.alignedBytes t ≤ b ∨ b + g.alignedBytes u ≤ a

/-- Invariant of the planning loops: `A` are the tensors allocated so far and `fut` the input
occurrences still to come. -/
structure PlanInv (g : GraphObj) (A fut : List Nat) (al : Allocator) (offsets : AddrMap) :
    Prop where
  nodup : A.Nodup
  sub : ∀ t ∈ A, t ∈ g.tensors
  peakLe : al.peak ≤ (A.map g.alignedBytes).sum
  offs : ∀ t ∈ A, ∃ off, offsets t = some off
  held : ∃ live, Inv al live ∧
    ∀ t ∈ A, g.Needed fut t → ∃ off, offsets t = some off ∧ (off, (g.tensorObj t).getBytes) ∈ live
  sep : ∀ t ∈ A, ∀ u ∈ A, t ≠ u → g.Needed fut t → g.Needed fut u → g.Apart offsets t u
  pairs : ∀ t ∈ A, ∀ u ∈ A, t ≠ u → (∃ τ, g.LiveAt g.ops t τ ∧ g.LiveAt g.ops u τ) →
    g.Apart offsets t u

/-- The reference counts when the input occurrences `fut` are still to come. -/
def RefInv (g : GraphObj) (fut : List Nat) (counts : AddrMap) : Prop :=
  ∀ t ∈ g.tensors, counts t =
    if fut.count t = 0 ∧ 0 < (g.inputsOf g.ops).count t then none else some (fut.count t)

/-- What the planning loops of `dataMalloc` need of a graph that `topo_sort` has ordered. -/
structure Planable (g : GraphObj) : Prop where
  valid : g.Valid
  wired : g.Wired
  opsNodup : g.ops.Nodup
  ordered : g.TopoOrdered g.ops
  pos : ∀ t ∈ g.tensors, 0 < (g.tensorObj t).getBytes
  fit : (g.tensors.map g.alignedBytes).sum < sizeMod

end GraphObj

/-- Modelled from the spec: one pair of dimensions of a broadcast, "each dimension pair must
be equal or one of them must be 1"; the result is the dimension that is not 1. -/
def broadcastDim (a b : Nat) : Option Nat :=
  if a = b ∨ b = 1 then some a else if a = 1 then some b else none

/-- Modelled from the spec: the broadcast of two shapes given last dimension first, "a
missing dimension counts as 1". -/
def broadcastRev : List Nat → List Nat → Option (List Nat)
  | [], ys => some ys
  | x :: xs, [] => some (x :: xs)
  | x :: xs, y :: ys =>
    match broadcastDim x y, broadcastRev xs ys with
    | some d, some r => some (d :: r)
    | _, _ => none

/-- Modelled from the spec: the function `infer_broadcast` of `utils/operator_utils.h` (not
among the sources at hand), "broadcast the remaining leading dimensions (right-aligned; each
dimension pair must be equal or one of them must be 1; a missing dimension counts as 1)";
`none` when the shapes are incompatible. -/
def infer_broadcast (A B : List Nat) : Option (List Nat) :=
  (broadcastRev A.reverse B.reverse).map List.reverse

/-- The function `MatmulObj::inferShape`, `op` being the operator and `inputs` the tensors
it is given: the returned shapes (`none` when an assertion fails or an access leaves the
vector) and the operator afterwards, with `m`, `n`, `k` set. -/
def MatmulObj.inferShape (op : OperatorObj) (inputs : List TensorObj) :
    Option (List (List Nat)) × OperatorObj :=
  match inputs[0]?, inputs[1]? with
  | some A, some B =>
    let shapeA := A.dims
    let shapeB := B.dims
    let rankA := shapeA.length
    let rankB := shapeB.length
    if rankA < 2 ∨ rankB < 2 then (none, op)
    else
      let shapeA1 := shapeA.take (rankA - 2)
      let shapeB1 := shapeB.take (rankB - 2)
      match infer_broadcast shapeA1 shapeB1 with
      | none => (none, op)
      | some ret =>
        let kA := if op.transA then shapeA.reverse.getD 1 0 else shapeA.reverse.getD 0 0
        let kB := if op.transB then shapeB.reverse.getD 0 0 else shapeB.reverse.getD 1 0
        if kA ≠ kB then (none, op)
        else
          let m := if op.transA then shapeA.reverse.getD 0 0 else shapeA.reverse.getD 1 0
          let n := if op.transB then shapeB.reverse.getD 1 0 else shapeB.reverse.getD 0 0
          (some [ret ++ [m, n]], { op with m := m, n := n, k := kA })
  | _, _ => (none, op)

/-- Two shapes are broadcast-compatible: right-aligned, "each dimension pair must be equal or
one of them must be 1; a missing dimension counts as 1". -/
def BroadcastCompatible (A B : List Nat) : Prop :=
  ∀ i, A.reverse.getD i 1 = B.reverse.getD i 1 ∨ A.reverse.getD i 1 = 1 ∨
    B.reverse.getD i 1 = 1

/-- Modelled from the spec: `TensorObj::addTarget` of `core/tensor.h` (not among the sources
at hand), which "registers the operator as that input's consumer": the operator is appended
to the consumer list. -/
def TensorObj.addTarget (t : TensorObj) (op : Nat) : TensorObj :=
  { t with targets := t.targets ++ [op] }

/-- Modelled from the spec: `TensorObj::setSource` of `core/tensor.h`, by which a "tensor is
marked with the operator as its sole producer". -/
def TensorObj.setSource (t : TensorObj) (op : Nat) : TensorObj :=
  { t with source := some op }

/-- Modelled from the spec: `OperatorObj::addPredecessors` of `core/operator.h` (not among
the sources at hand): the operator is added to the predecessors. -/
def OperatorObj.addPredecessors (o : OperatorObj) (p : Nat) : OperatorObj :=
  { o with predecessors := o.predecessors ++ [p] }

/-- Modelled from the spec: `OperatorObj::addSuccessors` of `core/operator.h`: the operator
is added to the successors. -/
def OperatorObj.addSuccessors (o : OperatorObj) (s : Nat) : OperatorObj :=
  { o with successors := o.successors ++ [s] }

namespace GraphObj

/-- A call of a member function that changes the tensor at address `t`. -/
def updTensor (g : GraphObj) (t : Nat) (f : TensorObj → TensorObj) : GraphObj :=
  { g with tensorObj := fun x => if x = t then f (g.tensorObj x) else g.tensorObj x }

/-- A call of a member function that changes the operator at address `o`. -/
def updOp (g : GraphObj) (o : Nat) (f : OperatorObj → OperatorObj) : GraphObj :=
  { g with opObj := fun x => if x = o then f (g.opObj x) else g.opObj x }

/-- Body of the first loop of `addOperatorAndConnect`, for the input `input` of `op`. -/
def connectInput (op : Nat) (g : GraphObj) (input : Nat) : GraphObj :=
  let g1 := g.updTensor input (fun t => t.addTarget op)
  match (g1.tensorObj input).source with
  | some pred =>
    (g1.updOp pred (fun o => o.addSuccessors op)).updOp op (fun o => o.addPredecessors pred)
  | none => g1

/-- Body of the loop over the consumers of an output in `addOperatorAndConnect`. -/
def connectTarget (op : Nat) (g : GraphObj) (succ : Nat) : GraphObj :=
  (g.updOp succ (fun o => o.addPredecessors op)).updOp op (fun o => o.addSuccessors succ)

/-- Body of the second loop of `addOperatorAndConnect`, for the output `output` of `op`. -/
def connectOutput (op : Nat) (g : GraphObj) (output : Nat) : GraphObj :=
  let g1 := g.updTensor output (fun t => t.setSource op)
  (g1.tensorObj output).targets.foldl (connectTarget op) g1

/-- The function `GraphObj::addOperatorAndConnect`, `op` being the address of the operator
(tensors and operators are referred to by address, so no reference is null). -/
def addOperatorAndConnect (g : GraphObj) (op : Nat) : GraphObj :=
  let g0 : GraphObj := { g with sorted := false, ops := g.ops ++ [op] }
  let g1 := (g0.opObj op).inputs.foldl (connectInput op) g0
  (g1.opObj op).outputs.foldl (connectOutput op) g1

/-- The predecessor and successor lists of operator `o` mirror the producer and consumer
edges of the tensors: `p` is a predecessor of `o` iff `p` produces a tensor that `o`
consumes, and `s` is a successor of `o` iff `s` consumes a tensor that `o` produces. -/
def MirrorAt (g : GraphObj) (o : Nat) : Prop :=
  (∀ p, p ∈ (g.opObj o).predecessors ↔
    ∃ t, o ∈ (g.tensorObj t).targets ∧ (g.tensorObj t).source = some p) ∧
  (∀ s, s ∈ (g.opObj o).successors ↔
    ∃ t, (g.tensorObj t).source = some o ∧ s ∈ (g.tensorObj t).targets)

end GraphObj

/-- The tensor with `l` appended to its consumers. -/
def TensorObj.grow (t : TensorObj) (l : List Nat) : TensorObj :=
  { t with targets := t.targets ++ l }

/-- The operator with `ps` appended to its predecessors and `ss` to its successors. -/
def OperatorObj.grow (o : OperatorObj) (ps ss : List Nat) : OperatorObj :=
  { o with predecessors := o.predecessors ++ ps, successors := o.successors ++ ss }

namespace GraphObj

/-- What a loop of `addOperatorAndConnect` has done: consumers `T t` were appended to tensor
`t`, predecessors `P o` and successors `S o` to operator `o`, and the tensors in `src` got
the producer `op`; nothing else changed. -/
structure Connected (g g' : GraphObj) (op : Nat) (src : List Nat) (T P S : Nat → List Nat) :
    Prop where
  tensors : g'.tensors = g.tensors
  ops : g'.ops = g.ops
  sorted : g'.sorted = g.sorted
  allocator : g'.allocator = g.allocator
  tensorObj : ∀ t, g'.tensorObj t =
    if t ∈ src then ((g.tensorObj t).grow (T t)).setSource op else (g.tensorObj t).grow (T t)
  opObj : ∀ o, g'.opObj o = (g.opObj o).grow (P o) (S o)

/-- Three tensors and two operators before any `addOperatorAndConnect`: operator 1 is to
read tensor 1 and write tensor 2, operator 2 is to read tensor 2 and write tensor 3; no edge
is registered yet. -/
def unwiredChain : GraphObj where
  tensors := [1, 2, 3]
  ops := []
  sorted := true
  allocator := Allocator.init
  tensorObj := fun t => ⟨t, [8], 1, none, [], none⟩
  opObj := fun o =>
    if o = 1 then
      { opType := .Other, inputs := [1], outputs := [2], predecessors := [], successors := [] }
    else
      { opType := .Other, inputs := [2], outputs := [3], predecessors := [], successors := [] }

end GraphObj

/-- Modelled from the spec: `TensorObj::removeTarget` of `core/tensor.h` (not among the
sources at hand), the disconnect primitive "symmetric" to `addTarget`: the operator is no
longer among the consumers. -/
def TensorObj.removeTarget (t : TensorObj) (op : Nat) : TensorObj :=
  { t with targets := t.targets.filter (fun x => x != op) }

/-- Modelled from the spec: `OperatorObj::removePredecessors` of `core/operator.h` (not among
the sources at hand): the operator is taken out of the predecessor set. -/
def OperatorObj.removePredecessors (o : OperatorObj) (p : Nat) : OperatorObj :=
  { o with predecessors := o.predecessors.filter (fun x => x != p) }

/-- Modelled from the spec: `OperatorObj::removeSuccessors` of `core/operator.h`: the
operator is taken out of the successor set. -/
def OperatorObj.removeSuccessors (o : OperatorObj) (s : Nat) : OperatorObj :=
  { o with successors := o.successors.filter (fun x => x != s) }

/-- Modelled from the spec: `OperatorObj::replaceInput` of `core/operator.h`, the
"replace-input operation": every input that is `t1` becomes `t2`. -/
def OperatorObj.replaceInput (o : OperatorObj) (t1 t2 : Nat) : OperatorObj :=
  { o with inputs := o.inputs.map (fun t => if t = t1 then t2 else t) }

/-- Modelled from the spec: `OperatorObj::getOutput` of `core/operator.h`, "its output
tensor": the output of an operator with one output, `none` for any other operator. -/
def OperatorObj.getOutput (o : OperatorObj) : Option Nat :=
  match o.outputs with
  | [t] => some t
  | _ => none

/-- The test `permute[2] == 3 && permute[3] == 2` of `optimize`; `none` when it reads
outside the vector. -/
def swapsLastTwo (permute : List Nat) : Option Bool :=
  match permute[2]? with
  | none => none
  | some p2 =>
    if p2 = 3 then
      match permute[3]? with
      | none => none
      | some p3 => some (decide (p3 = 2))
    else some false

namespace GraphObj

/-- Modelled from the spec: `GraphObj::removeTensor` of `core/graph.h` (not among the sources
at hand), by which a rewrite "removes" a tensor from the tensor set: the entry is erased
from the tensor vector. -/
def removeTensor (g : GraphObj) (t : Nat) : GraphObj :=
  { g with tensors := g.tensors.erase t }

/-- The function `GraphObj::deleteConnection`; `none` when the assertion fails. The
assertion is read as the test it is written to be, that `op` is among the targets of the
tensor: the three calls of `getTargets()` (declared in `core/tensor.h`, not among the sources
at hand) are taken to name the same vector. -/
def deleteConnection (g : GraphObj) (tensor op : Nat) : Option GraphObj :=
  if op ∈ (g.tensorObj tensor).targets then
    let g1 := g.updTensor tensor (fun t => t.removeTarget op)
    match (g1.tensorObj tensor).source with
    | some s =>
      some ((g1.updOp s (fun o => o.removeSuccessors op)).updOp op
        (fun o => o.removePredecessors s))
    | none => some g1
  else none

/-- The function `GraphObj::addConnection`. -/
def addConnection (g : GraphObj) (tensor op : Nat) : GraphObj :=
  let g1 := g.updTensor tensor (fun t => t.addTarget op)
  match (g1.tensorObj tensor).source with
  | some s =>
    (g1.updOp s (fun o => o.addSuccessors op)).updOp op (fun o => o.addPredecessors s)
  | none => g1

/-- The rewrite of `case OpType::Transpose` in `optimize` for the operator `op` and its
first successor `next`, up to the erasure of the two operators: `none` when an assertion
fails or an access leaves a vector. -/
def eliminatePair (g : GraphObj) (op next : Nat) : Option GraphObj :=
  match (g.opObj op).inputs[0]?, (g.opObj next).inputs[0]?, (g.opObj next).getOutput with
  | some input, some input2, some output =>
    let g1 := (g.removeTensor input2).removeTensor output
    let predecessors_all := (g1.opObj op).predecessors
    let g2 :=
      match predecessors_all with
      | p :: _ => g1.updOp p (fun o => o.removeSuccessors op)
      | [] => g1
    match g2.deleteConnection input op with
    | none => none
    | some g3 =>
      match (g3.opObj next).successors with
      | nn :: _ =>
        let g4 := g3.addConnection input nn
        let g5 := g4.updOp nn (fun o => o.replaceInput output input)
        let g6 := g5.updOp nn (fun o => o.removePredecessors next)
        match predecessors_all with
        | p :: _ =>
          some ((g6.updOp p (fun o => o.addSuccessors nn)).updOp nn
            (fun o => o.addPredecessors p))
        | [] => some g6
      | [] => some g3
  | _, _, _ => none

/-- The update of `transA` (first input, `freq = 0`) or `transB` (second input, `freq = 1`)
of the Matmul `op` in `optimize`. -/
def flipTrans (g : GraphObj) (op freq : Nat) : GraphObj :=
  if freq = 0 then g.updOp op (fun o => { o with transA := !o.transA })
  else if freq = 1 then g.updOp op (fun o => { o with transB := !o.transB })
  else g

/-- The rewrite of `case OpType::MatMul` in `optimize` after the flag update: the Transpose
`predecessor`, producer of `input`, is absorbed by the Matmul `op`. The result is the graph
and the iterator `it`; `none` when an assertion fails or an access leaves a vector. -/
def absorbTranspose (g : GraphObj) (op predecessor input : Nat) : Option (GraphObj × Nat) :=
  match (g.opObj predecessor).getOutput with
  | none => none
  | some out1 =>
    match g.deleteConnection out1 op with
    | none => none
    | some g2 =>
      let g3 := g2.removeTensor input
      match (g3.opObj predecessor).inputs[0]?, (g3.opObj predecessor).getOutput with
      | some transpose_input, some transpose_output =>
        let g4 := g3.updOp op (fun o => { o with inputs := o.inputs ++ [transpose_input] })
        let g5 := g4.updTensor transpose_output (fun t => t.removeTarget op)
        match g5.deleteConnection transpose_input predecessor with
        | none => none
        | some g6 =>
          let g7 := g6.addConnection transpose_input op
          let g8 := g7.updOp op (fun o => o.replaceInput input transpose_input)
          let g9 := (g8.opObj predecessor).predecessors.foldl
            (fun g p =>
              (g.updOp op (fun o => o.addPredecessors p)).updOp p
                (fun o => o.addPredecessors op)) g8
          if predecessor ∈ g9.ops then
            some ({ g9 with ops := g9.ops.erase predecessor },
              (g9.ops.erase predecessor).indexOf op)
          else none
      | _, _ => none

/-- Body of the loop over the inputs of a Matmul in `optimize`, for the operator `op`: the
state is the graph, the iterator `it` and the counter `freq`. -/
def fuseInput (op : Nat) (st : GraphObj × Nat × Nat) (input : Nat) :
    Option (GraphObj × Nat × Nat) :=
  match (st.1.tensorObj input).source with
  | none => some (st.1, st.2.1, st.2.2 + 1)
  | some predecessor =>
    if (st.1.opObj predecessor).opType = .Transpose then
      match swapsLastTwo (st.1.opObj predecessor).permute with
      | none => none
      | some false => some (st.1, st.2.1, st.2.2 + 1)
      | some true =>
        match (st.1.flipTrans op st.2.2).absorbTranspose op predecessor input with
        | none => none
        | some r => some (r.1, r.2, st.2.2 + 1)
    else some (st.1, st.2.1, st.2.2 + 1)

/-- Body of the loop of `optimize` with the iterator at position `it`: the graph and the
iterator afterwards, `none` when an assertion fails or an access leaves a vector. -/
def optStep (g : GraphObj) (it : Nat) : Option (GraphObj × Nat) :=
  match g.ops[it]? with
  | none => none
  | some op =>
    match (g.opObj op).opType with
    | .Transpose =>
      match (g.opObj op).successors with
      | next :: _ =>
        if (g.opObj next).opType = .Transpose ∧
            (g.opObj op).permute = (g.opObj next).permute then
          match g.eliminatePair op next with
          | none => none
          | some g1 =>
            let ops1 := g1.ops.eraseIdx it
            some ({ g1 with ops := if it < ops1.length then ops1.eraseIdx it else ops1 }, it)
        else some (g, it + 1)
      | [] => some (g, it + 1)
    | .MatMul =>
      match foldOpt (fuseInput op) (g, it, 0) (g.opObj op).inputs with
      | none => none
      | some st => some (st.1, st.2.1 + 1)
    | .Other => some (g, it + 2)

/-- The loop of `optimize` with a bound on the number of iterations: `none` when the bound
is used up, `some none` when an assertion fails or the iterator leaves the vector, and
`some (some g)` when the loop ends with the graph `g`. -/
def optLoop : Nat → GraphObj → Nat → Option (Option GraphObj)
  | 0, _, _ => none
  | fuel + 1, g, it =>
    if it = g.ops.length then some (some g)
    else if g.ops.length < it then some none
    else
      match g.optStep it with
      | none => some none
      | some st => optLoop fuel st.1 st.2

/-- The function `GraphObj::optimize`: the graph afterwards, `none` when an assertion fails
or an iterator leaves its vector. Every iteration erases an operator or moves the iterator
forward, so `(n + 1) * (n + 2) + 1` iterations are enough for `n` operators (see
`optimize_terminates`). -/
def optimize (g : GraphObj) : Option GraphObj :=
  match optLoop ((g.ops.length + 1) * (g.ops.length + 2) + 1) g 0 with
  | none => none
  | some r => r

/-- What the rewrites of `optimize` never change: the operator sequence is edited only by
the erasures at the end of a rewrite, producers, operator variants, permutations and output
lists are not edited at all. -/
structure Core (g g' : GraphObj) : Prop where
  ops : g'.ops = g.ops
  source : ∀ t, (g'.tensorObj t).source = (g.tensorObj t).source
  opType : ∀ o, (g'.opObj o).opType = (g.opObj o).opType
  permute : ∀ o, (g'.opObj o).permute = (g.opObj o).permute
  outputs : ∀ o, (g'.opObj o).outputs = (g.opObj o).outputs

/-- What the edits of edges (consumer lists of tensors, predecessor and successor lists of
operators) keep. -/
structure Kept (g g' : GraphObj) extends Core g g' : Prop where
  tensors : g'.tensors = g.tensors
  inputs : ∀ o, (g'.opObj o).inputs = (g.opObj o).inputs
  transA : ∀ o, (g'.opObj o).transA = (g.opObj o).transA
  transB : ∀ o, (g'.opObj o).transB = (g.opObj o).transB

/-- The loop over the inputs of a Matmul passes over `input`: it has no producer, or its
producer is no Transpose, or a Transpose on whose permutation the test
`permute[2] == 3 && permute[3] == 2` reads inside the vector and is false. -/
def skips (g : GraphObj) (input : Nat) : Bool :=
  match (g.tensorObj input).source with
  | none => true
  | some p =>
    if (g.opObj p).opType = .Transpose then swapsLastTwo (g.opObj p).permute == some false
    else true

/-- Operator `o` is inert: no rewrite fires on it and the scan moves on to the next
position. It is a Transpose whose first successor is no Transpose with the same permutation,
or a Matmul all of whose inputs are passed over; an operator of another variant is not
inert, the scan advancing twice on it. -/
def inert (g : GraphObj) (o : Nat) : Bool :=
  match (g.opObj o).opType with
  | .Transpose =>
    match (g.opObj o).successors with
    | next :: _ =>
      !(decide ((g.opObj next).opType = .Transpose ∧
        (g.opObj o).permute = (g.opObj next).permute))
    | [] => true
  | .MatMul => (g.opObj o).inputs.all g.skips
  | .Other => false

/-- A tensor of shape `[2, 3, 4, 5]` with 4-byte elements, producer `src` and consumers
`tg`. -/
def tensorOf (fuid : Nat) (src : Option Nat) (tg : List Nat) : TensorObj :=
  ⟨fuid, [2, 3, 4, 5], 4, src, tg, none⟩

/-- A Transpose with permutation `[0, 1, 3, 2]`. -/
def transposeOf (input output : Nat) (preds succs : List Nat) : OperatorObj :=
  { opType := .Transpose, inputs := [input], outputs := [output], predecessors := preds,
    successors := succs, permute := [0, 1, 3, 2] }

/-- A Matmul with both flags off. -/
def matmulOf (a b output : Nat) (preds succs : List Nat) : OperatorObj :=
  { opType := .MatMul, inputs := [a, b], outputs := [output], predecessors := preds,
    successors := succs }

/-- Two Transposes in a row feeding a Matmul: `10 → Op1 → 11 → Op2 → 12`,
`Matmul(12, 5) = Op4 → 30`. -/
def pairIntoMatmul : GraphObj where
  tensors := [10, 11, 12, 5, 30]
  ops := [1, 2, 4]
  sorted := false
  allocator := Allocator.init
  tensorObj := fun t =>
    if t = 10 then tensorOf 10 none [1] else if t = 11 then tensorOf 11 (some 1) [2]
    else if t = 12 then tensorOf 12 (some 2) [4] else if t = 5 then tensorOf 5 none [4]
    else tensorOf 30 (some 4) []
  opObj := fun o =>
    if o = 1 then transposeOf 10 11 [] [2] else if o = 2 then transposeOf 11 12 [1] [4]
    else matmulOf 12 5 30 [2] []

/-- The graph `pairIntoMatmul` with a third Transpose on the second operand:
`20 → Op3 → 21`, `Matmul(12, 21) = Op4 → 30`; `ops` gives the operator sequence. -/
def pairAndFusable (ops : List Nat) : GraphObj where
  tensors := [10, 20, 11, 12, 21, 30]
  ops := ops
  sorted := false
  allocator := Allocator.init
  tensorObj := fun t =>
    if t = 10 then tensorOf 10 none [1] else if t = 20 then tensorOf 20 none [3]
    else if t = 11 then tensorOf 11 (some 1) [2] else if t = 12 then tensorOf 12 (some 2) [4]
    else if t = 21 then tensorOf 21 (some 3) [4] else tensorOf 30 (some 4) []
  opObj := fun o =>
    if o = 1 then transposeOf 10 11 [] [2] else if o = 2 then transposeOf 11 12 [1] [4]
    else if o = 3 then transposeOf 20 21 [] [4] else matmulOf 12 21 30 [2, 3] []

/-- The graph `Matmul(10, Transpose(20))`: `20 → Op3 → 21`, `Matmul(10, 21) = Op4 → 30`. -/
def matmulOfTransposed : GraphObj where
  tensors := [10, 20, 21, 30]
  ops := [3, 4]
  sorted := false
  allocator := Allocator.init
  tensorObj := fun t =>
    if t = 10 then tensorOf 10 none [4] else if t = 20 then tensorOf 20 none [3]
    else if t = 21 then tensorOf 21 (some 3) [4] else tensorOf 30 (some 4) []
  opObj := fun o =>
    if o = 3 then transposeOf 20 21 [] [4] else matmulOf 10 21 30 [3] []

/-- The graph `Matmul(Transpose(10), Transpose(20))`: `10 → Op2 → 11`, `20 → Op3 → 21`,
`Matmul(11, 21) = Op4 → 30`. -/
def matmulOfTwoTransposed : GraphObj where
  tensors := [10, 11, 20, 21, 30]
  ops := [2, 3, 4]
  sorted := false
  allocator := Allocator.init
  tensorObj := fun t =>
    if t = 10 then tensorOf 10 none [2] else if t = 11 then tensorOf 11 (some 2) [4]
    else if t = 20 then tensorOf 20 none [3]
    else if t = 21 then tensorOf 21 (some 3) [4] else tensorOf 30 (some 4) []
  opObj := fun o =>
    if o = 2 then transposeOf 10 11 [] [4] else if o = 3 then transposeOf 20 21 [] [4]
    else matmulOf 11 21 30 [2, 3] []

/-- Two Transposes in a row on a graph input, the result unused:
`10 → Op1 → 11 → Op2 → 12`. -/
def transposePair : GraphObj where
  tensors := [10, 11, 12]
  ops := [1, 2]
  sorted := false
  allocator := Allocator.init
  tensorObj := fun t =>
    if t = 10 then tensorOf 10 none [1] else if t = 11 then tensorOf 11 (some 1) [2]
    else tensorOf 12 (some 2) []
  opObj := fun o => if o = 1 then transposeOf 10 11 [] [2] else transposeOf 11 12 [1] []

/-- A Transpose on the second operand of a Matmul, fed by a pair of Transposes with the
permutation `[1, 0, 2, 3]` that stands after the Matmul in the operator sequence:
`9 → Op1 → 11 → Op2 → 12 → Op3 → 21`, `Matmul(10, 21) = Op4 → 30`. -/
def fusedThenPair : GraphObj where
  tensors := [9, 11, 12, 21, 10, 30]
  ops := [3, 4, 1, 2]
  sorted := false
  allocator := Allocator.init
  tensorObj := fun t =>
    if t = 9 then tensorOf 9 none [1] else if t = 11 then tensorOf 11 (some 1) [2]
    else if t = 12 then tensorOf 12 (some 2) [3] else if t = 21 then tensorOf 21 (some 3) [4]
    else if t = 10 then tensorOf 10 none [4] else tensorOf 30 (some 4) []
  opObj := fun o =>
    if o = 1 then { transposeOf 9 11 [] [2] with permute := [1, 0, 2, 3] }
    else if o = 2 then { transposeOf 11 12 [1] [3] with permute := [1, 0, 2, 3] }
    else if o = 3 then transposeOf 12 21 [2] [4]
    else matmulOf 10 21 30 [3] []

/-- An operator of a variant other than Transpose and Matmul. -/
def otherOf (input output : Nat) (preds succs : List Nat) : OperatorObj :=
  { opType := .Other, inputs := [input], outputs := [output], predecessors := preds,
    successors := succs }

/-- A chain `10 → Op1 → 11 → Op2 → 12` whose operators carry edge sets that do not mirror
the tensors: `Op2` consumes tensor 11, produced by `Op1`, and lists no predecessor, `Op1`
lists no successor, and `Op1` lists `Op2` as a predecessor although `Op2` produces none of
its inputs. -/
def unmirroredChain : GraphObj where
  tensors := [10, 11, 12]
  ops := [1, 2]
  sorted := false
  allocator := Allocator.init
  tensorObj := fun t =>
    if t = 10 then tensorOf 10 none [1] else if t = 11 then tensorOf 11 (some 1) [2]
    else tensorOf 12 (some 2) []
  opObj := fun o => if o = 1 then otherOf 10 11 [2] [] else otherOf 11 12 [] []

/-- The graph `Matmul(10, Transpose(20))` for a Transpose with permutation `perm`:
`20 → Op3 → 21`, `Matmul(10, 21) = Op4 → 30`, the tensors 10, 20 and 21 having the shapes
`shapeA`, `shapeB` and `shapeBt`. -/
def matmulOfPermuted (perm shapeA shapeB shapeBt : List Nat) : GraphObj where
  tensors := [10, 20, 21, 30]
  ops := [3, 4]
  sorted := false
  allocator := Allocator.init
  tensorObj := fun t =>
    if t = 10 then ⟨10, shapeA, 4, none, [4], none⟩
    else if t = 20 then ⟨20, shapeB, 4, none, [3], none⟩
    else if t = 21 then ⟨21, shapeBt, 4, some 3, [4], none⟩ else tensorOf 30 (some 4) []
  opObj := fun o =>
    if o = 3 then { transposeOf 20 21 [] [4] with permute := perm }
    else matmulOf 10 21 30 [3] []

/-- An operator of another variant in front of a Transpose pair:
`9 → Op8 → 10 → Op1 → 11 → Op2 → 12`. -/
def otherThenPair : GraphObj where
  tensors := [9, 10, 11, 12]
  ops := [8, 1, 2]
  sorted := false
  allocator := Allocator.init
  tensorObj := fun t =>
    if t = 9 then tensorOf 9 none [8] else if t = 10 then tensorOf 10 (some 8) [1]
    else if t = 11 then tensorOf 11 (some 1) [2] else tensorOf 12 (some 2) []
  opObj := fun o =>
    if o = 1 then transposeOf 10 11 [8] [2] else if o = 2 then transposeOf 11 12 [1] []
    else otherOf 9 10 [] [1]

/-- An operator of another variant between a Transpose and the Matmul that could absorb it:
`20 → Op3 → 21`, `9 → Op8 → 10`, `Matmul(10, 21) = Op4 → 30`. -/
def otherThenMatmul : GraphObj where
  tensors := [20, 21, 9, 10, 30]
  ops := [3, 8, 4]
  sorted := false
  allocator := Allocator.init
  tensorObj := fun t =>
    if t = 20 then tensorOf 20 none [3] else if t = 21 then tensorOf 21 (some 3) [4]
    else if t = 9 then tensorOf 9 none [8] else if t = 10 then tensorOf 10 (some 8) [4]
    else tensorOf 30 (some 4) []
  opObj := fun o =>
    if o = 3 then transposeOf 20 21 [] [4] else if o = 8 then otherOf 9 10 [] [4]
    else matmulOf 10 21 30 [8, 3] []

/-- A single operator of another variant: `9 → Op8 → 10`. -/
def otherAlone : GraphObj where
  tensors := [9, 10]
  ops := [8]
  sorted := false
  allocator := Allocator.init
  tensorObj := fun t => if t = 9 then tensorOf 9 none [8] else tensorOf 10 (some 8) []
  opObj := fun _ => otherOf 9 10 [] []

end GraphObj

/-- Modelled from the spec: `TensorObj::setShape` of `core/tensor.h` (not among the sources
at hand), by which "the tensor's shape is updated in place". -/
def TensorObj.setShape (t : TensorObj) (shape : List Nat) : TensorObj :=
  { t with dims := shape }

namespace GraphObj

/-- The function `GraphObj::getTensor`: the first tensor of the tensor vector with Fuid
`fuid`, `none` for `nullptr`. -/
def getTensor (g : GraphObj) (fuid : Nat) : Option Nat :=
  g.tensors.find? (fun tensor => (g.tensorObj tensor).fuid == fuid)

/-- Modelled from the spec: the call `op->inferShape()` of `core/operator.h` (not among the
sources at hand), "each operator exposes `inferShape(inputs)`", applied to the operator's own
input tensors. A Matmul runs `MatmulObj::inferShape`; the rule of any other variant, whose
code is not among the sources at hand, is the parameter `infer`. The result is the returned
shapes (`none` for no value or a failed assertion) and the operator afterwards. -/
def inferShapeOf (infer : OperatorObj → List TensorObj → Option (List (List Nat)))
    (g : GraphObj) (op : Nat) : Option (List (List Nat)) × OperatorObj :=
  match (g.opObj op).opType with
  | .MatMul => MatmulObj.inferShape (g.opObj op) ((g.opObj op).inputs.map g.tensorObj)
  | _ => (infer (g.opObj op) ((g.opObj op).inputs.map g.tensorObj), g.opObj op)

/-- Body of the inner loop of `shape_infer`, for the pair of `ans.value()[i]` and
`oldOutputs[i]`; `none` when `getTensor` returns `nullptr`. -/
def inferOutput (g : GraphObj) (p : List Nat × Nat) : Option GraphObj :=
  let newShape := p.1
  let oldShape := (g.tensorObj p.2).dims
  let fuid := (g.tensorObj p.2).fuid
  if newShape ≠ oldShape then
    match g.getTensor fuid with
    | none => none
    | some tensor => some (g.updTensor tensor (fun t => t.setShape newShape))
  else some g

/-- Body of the loop of `shape_infer` for the operator `op`; `none` when an assertion
fails. -/
def shapeInferOp (infer : OperatorObj → List TensorObj → Option (List (List Nat)))
    (g : GraphObj) (op : Nat) : Option GraphObj :=
  match inferShapeOf infer g op with
  | (none, _) => none
  | (some ans, o) =>
    let g1 := g.updOp op (fun _ => o)
    let oldOutputs := (g1.opObj op).outputs
    if ans.length = oldOutputs.length then foldOpt inferOutput g1 (ans.zip oldOutputs)
    else none

/-- The function `GraphObj::shape_infer`: the graph afterwards, `none` when an assertion
fails. -/
def shape_infer (infer : OperatorObj → List TensorObj → Option (List (List Nat)))
    (g : GraphObj) : Option GraphObj :=
  foldOpt (shapeInferOp infer) g g.ops

/-- What one step of `shape_infer` on operator `o` with the single output `t` does: the
operator becomes `o'`, the output gets the shape `s`, nothing else changes. -/
structure Inferred (g g' : GraphObj) (o t : Nat) (s : List Nat) (o' : OperatorObj) :
    Prop where
  tensors : g'.tensors = g.tensors
  ops : g'.ops = g.ops
  opAt : g'.opObj o = o'
  opOther : ∀ x, x ≠ o → g'.opObj x = g.opObj x
  tensorAt : g'.tensorObj t = { g.tensorObj t with dims := s }
  tensorOther : ∀ x, x ≠ t → g'.tensorObj x = g.tensorObj x

/-- Two Matmuls in a row with stale recorded shapes: `Matmul(1, 2) = Op1 → 3`,
`Matmul(3, 4) = Op2 → 5`, the inputs 1, 2, 4 of shapes `[2, 3]`, `[3, 4]`, `[4, 5]` and the
outputs 3 and 5 recorded with the shapes `[1, 4]` and `[1, 5]`. -/
def staleChain : GraphObj where
  tensors := [1, 2, 3, 4, 5]
  ops := [1, 2]
  sorted := false
  allocator := Allocator.init
  tensorObj := fun t =>
    if t = 1 then ⟨1, [2, 3], 4, none, [1], none⟩
    else if t = 2 then ⟨2, [3, 4], 4, none, [1], none⟩
    else if t = 3 then ⟨3, [1, 4], 4, some 1, [2], none⟩
    else if t = 4 then ⟨4, [4, 5], 4, none, [2], none⟩
    else ⟨5, [1, 5], 4, some 2, [], none⟩
  opObj := fun o => if o = 1 then matmulOf 1 2 3 [] [2] else matmulOf 3 4 5 [1] []

/-- A Transpose pair between two Matmuls: `Matmul(1, 2) = Op5 → 10`,
`10 → Op1 → 11 → Op2 → 12`, `Matmul(12, 6) = Op4 → 30`. -/
def pairBetweenMatmuls : GraphObj where
  tensors := [1, 2, 10, 11, 12, 6, 30]
  ops := [5, 1, 2, 4]
  sorted := false
  allocator := Allocator.init
  tensorObj := fun t =>
    if t = 1 then tensorOf 1 none [5] else if t = 2 then tensorOf 2 none [5]
    else if t = 10 then tensorOf 10 (some 5) [1] else if t = 11 then tensorOf 11 (some 1) [2]
    else if t = 12 then tensorOf 12 (some 2) [4] else if t = 6 then tensorOf 6 none [4]
    else tensorOf 30 (some 4) []
  opObj := fun o =>
    if o = 5 then matmulOf 1 2 10 [] [1] else if o = 1 then transposeOf 10 11 [5] [2]
    else if o = 2 then transposeOf 11 12 [1] [4] else matmulOf 12 6 30 [2] []

/-- Three Transposes with the permutation `[1, 0, 2, 3]` in a row feeding a Matmul:
`9 → Op7 → 10 → Op1 → 11 → Op2 → 12`, `Matmul(12, 6) = Op4 → 30`. -/
def transposeTriple : GraphObj where
  tensors := [9, 10, 11, 12, 6, 30]
  ops := [7, 1, 2, 4]
  sorted := false
  allocator := Allocator.init
  tensorObj := fun t =>
    if t = 9 then tensorOf 9 none [7] else if t = 10 then tensorOf 10 (some 7) [1]
    else if t = 11 then tensorOf 11 (some 1) [2] else if t = 12 then tensorOf 12 (some 2) [4]
    else if t = 6 then tensorOf 6 none [4] else tensorOf 30 (some 4) []
  opObj := fun o =>
    if o = 7 then { transposeOf 9 10 [] [1] with permute := [1, 0, 2, 3] }
    else if o = 1 then { transposeOf 10 11 [7] [2] with permute := [1, 0, 2, 3] }
    else if o = 2 then { transposeOf 11 12 [1] [4] with permute := [1, 0, 2, 3] }
    else matmulOf 12 6 30 [2] []

/-- A Transpose that swaps the last two axes in front of a pair of Transposes with the
permutation `[1, 0, 2, 3]` feeding a Matmul: `8 → Op7 → 10 → Op1 → 11 → Op2 → 12`,
`Matmul(12, 6) = Op4 → 30`. -/
def pairAfterSwap : GraphObj where
  tensors := [8, 10, 11, 12, 6, 30]
  ops := [7, 1, 2, 4]
  sorted := false
  allocator := Allocator.init
  tensorObj := fun t =>
    if t = 8 then tensorOf 8 none [7] else if t = 10 then tensorOf 10 (some 7) [1]
    else if t = 11 then tensorOf 11 (some 1) [2] else if t = 12 then tensorOf 12 (some 2) [4]
    else if t = 6 then tensorOf 6 none [4] else tensorOf 30 (some 4) []
  opObj := fun o =>
    if o = 7 then transposeOf 8 10 [] [1]
    else if o = 1 then { transposeOf 10 11 [7] [2] with permute := [1, 0, 2, 3] }
    else if o = 2 then { transposeOf 11 12 [1] [4] with permute := [1, 0, 2, 3] }
    else matmulOf 12 6 30 [2] []

/-- One operator with three graph inputs of 2^34, (2^31 - 1)^2 * 4 and 8 bytes and an output
of 8 bytes: tensors 1, 2, 3 are consumed by `Op1`, which produces tensor 4. The aligned
sizes add up to `2^64 + 24`. -/
def wideInputs : GraphObj where
  tensors := [1, 2, 3, 4]
  ops := [1]
  sorted := false
  allocator := Allocator.init
  tensorObj := fun t =>
    if t = 1 then ⟨1, [65536, 65536], 4, none, [1], none⟩
    else if t = 2 then ⟨2, [2147483647, 2147483647], 4, none, [1], none⟩
    else if t = 3 then ⟨3, [2], 4, none, [1], none⟩
    else ⟨4, [2], 4, some 1, [], none⟩
  opObj := fun _ =>
    { opType := .Other, inputs := [1, 2, 3], outputs := [4], predecessors := [],
      successors := [] }

end GraphObj

/-! ## Theorems -/

theorem addW_of_lt {a b : Nat} (h : a + b < sizeMod) : addW a b = a + b := by
  unfold addW; exact Nat.mod_eq_of_lt h

theorem subW_of_le {a b : Nat} (h : b ≤ a) (ha : a < sizeMod) : subW a b = a - b := by
  unfold subW sizeMod at *; omega

theorem mulW_of_lt {a b : Nat} (h : a * b < sizeMod) : mulW a b = a * b := by
  unfold mulW; exact Nat.mod_eq_of_lt h

theorem alignUp_ge (n : Nat) : n ≤ alignUp n := by unfold alignUp; omega

theorem alignUp_pos {n : Nat} (h : 0 < n) : 0 < alignUp n := by unfold alignUp; omega

theorem getAlignedSize_eq {s : Allocator} {n : Nat} (ha : s.alignment = 8) (hn : 0 < n)
    (hb : alignUp n < sizeMod) : s.getAlignedSize n = alignUp n := by
  have h1 : n < sizeMod := lt_of_le_of_lt (alignUp_ge n) hb
  unfold Allocator.getAlignedSize
  rw [ha, subW_of_le hn h1]
  have h2 : (n - 1) / 8 + 1 = (n + 7) / 8 := by omega
  have h3 : ((n - 1) / 8 + 1) * 8 = alignUp n := by unfold alignUp; omega
  rw [addW_of_lt (by unfold sizeMod at *; omega), mulW_of_lt (by rw [h3]; exact hb), h3]

theorem cmp_irrefl (a : freeBlockInfo) : cmpFreeBlockInfo a a = false := by
  simp [cmpFreeBlockInfo]

theorem cmp_iff (a b : freeBlockInfo) : cmpFreeBlockInfo a b = true ↔
    a.blockSize < b.blockSize ∨ (a.blockSize = b.blockSize ∧ a.addr < b.addr) := by
  unfold cmpFreeBlockInfo
  by_cases h : a.blockSize = b.blockSize
  · simp [h]
  · simp [h]

theorem cmp_trans {a b c : freeBlockInfo} (h1 : cmpFreeBlockInfo a b = true)
    (h2 : cmpFreeBlockInfo b c = true) : cmpFreeBlockInfo a c = true := by
  rw [cmp_iff] at *; omega

theorem cmp_connex {a b : freeBlockInfo} (h1 : cmpFreeBlockInfo a b = false)
    (h2 : cmpFreeBlockInfo b a = false) : a = b := by
  have h1' : ¬ cmpFreeBlockInfo a b = true := by simp [h1]
  have h2' : ¬ cmpFreeBlockInfo b a = true := by simp [h2]
  rw [cmp_iff] at h1' h2'
  cases a; cases b; simp at *; omega

theorem cmp_or_ne_iff (x b : freeBlockInfo) :
    (cmpFreeBlockInfo x b || cmpFreeBlockInfo b x) = true ↔ x ≠ b := by
  constructor
  · intro h he; subst he; simp [cmp_irrefl] at h
  · intro h
    by_contra hc
    simp at hc
    exact h (cmp_connex hc.1 hc.2)

theorem mem_setErase {b x : freeBlockInfo} {l : List freeBlockInfo} :
    x ∈ setErase b l ↔ x ∈ l ∧ x ≠ b := by
  unfold setErase
  rw [List.mem_filter, cmp_or_ne_iff]

theorem ascending_setErase {b : freeBlockInfo} {l : List freeBlockInfo} (h : Ascending l) :
    Ascending (setErase b l) := by
  unfold Ascending setErase at *
  exact h.filter _

theorem mem_setInsert {b x : freeBlockInfo} {l : List freeBlockInfo} :
    x ∈ setInsert b l ↔ x = b ∨ x ∈ l := by
  induction l with
  | nil => simp [setInsert]
  | cons y ys ih =>
    unfold setInsert
    by_cases h1 : cmpFreeBlockInfo b y = true
    · simp [h1]
    · by_cases h2 : cmpFreeBlockInfo y b = true
      · simp [h1, h2, ih]; tauto
      · have hby : b = y := cmp_connex (by simpa using h1) (by simpa using h2)
        subst hby
        simp [h1]

theorem ascending_setInsert {b : freeBlockInfo} {l : List freeBlockInfo} (h : Ascending l) :
    Ascending (setInsert b l) := by
  unfold Ascending at *
  induction l with
  | nil => simp [setInsert]
  | cons y ys ih =>
    rw [List.pairwise_cons] at h
    unfold setInsert
    by_cases h1 : cmpFreeBlockInfo b y = true
    · simp only [h1, if_true]
      rw [List.pairwise_cons]
      refine ⟨?_, List.pairwise_cons.2 h⟩
      intro z hz
      rcases List.mem_cons.1 hz with rfl | hz
      · exact h1
      · exact cmp_trans h1 (h.1 z hz)
    · by_cases h2 : cmpFreeBlockInfo y b = true
      · have h1' : cmpFreeBlockInfo b y = false := by simpa using h1
        simp only [h1', h2, if_true, Bool.false_eq_true, if_false]
        rw [List.pairwise_cons]
        refine ⟨?_, ih h.2⟩
        intro z hz
        rcases mem_setInsert.1 hz with rfl | hz
        · exact h2
        · exact h.1 z hz
      · have h1' : cmpFreeBlockInfo b y = false := by simpa using h1
        have h2' : cmpFreeBlockInfo y b = false := by simpa using h2
        simp only [h1', h2', Bool.false_eq_true, if_false]
        exact List.pairwise_cons.2 h

theorem ascending_nodup {l : List freeBlockInfo} (h : Ascending l) : l.Nodup := by
  unfold Ascending at h
  refine h.imp ?_
  intro a b hab he
  subst he
  simp [cmp_irrefl] at hab

theorem sum_setErase {b : freeBlockInfo} {l : List freeBlockInfo} (h : Ascending l)
    (hb : b ∈ l) :
    ((setErase b l).map (·.blockSize)).sum + b.blockSize = (l.map (·.blockSize)).sum := by
  induction l with
  | nil => simp at hb
  | cons y ys ih =>
    have hnd := ascending_nodup h
    unfold Ascending at h
    rw [List.pairwise_cons] at h
    rw [List.nodup_cons] at hnd
    by_cases hy : y = b
    · subst hy
      have : setErase y (y :: ys) = ys := by
        unfold setErase
        rw [List.filter_cons]
        simp only [cmp_irrefl, Bool.or_self, Bool.false_eq_true, if_false]
        rw [List.filter_eq_self]
        intro a ha
        rw [cmp_or_ne_iff]
        intro hay; subst hay; exact hnd.1 ha
      rw [this]; simp; omega
    · have hb' : b ∈ ys := by
        rcases List.mem_cons.1 hb with h' | h'
        · exact absurd h'.symm hy
        · exact h'
      have : setErase b (y :: ys) = y :: setErase b ys := by
        unfold setErase
        rw [List.filter_cons]
        have : (cmpFreeBlockInfo y b || cmpFreeBlockInfo b y) = true := (cmp_or_ne_iff y b).2 hy
        simp [this]
      rw [this]
      have := ih h.2 hb'
      simp at *; omega

theorem sum_setInsert {b : freeBlockInfo} {l : List freeBlockInfo} (hb : b ∉ l) :
    ((setInsert b l).map (·.blockSize)).sum = b.blockSize + (l.map (·.blockSize)).sum := by
  induction l with
  | nil => simp [setInsert]
  | cons y ys ih =>
    unfold setInsert
    have hne : b ≠ y := fun h => hb (h ▸ List.mem_cons_self _ _)
    have hb' : b ∉ ys := fun h => hb (List.mem_cons_of_mem _ h)
    by_cases h1 : cmpFreeBlockInfo b y = true
    · simp [h1]
    · by_cases h2 : cmpFreeBlockInfo y b = true
      · have h1' : cmpFreeBlockInfo b y = false := by simpa using h1
        simp only [h1', h2, if_true, Bool.false_eq_true, if_false]
        have := ih hb'
        simp at *; omega
      · exact absurd (cmp_connex (by simpa using h1) (by simpa using h2)) hne

theorem setLowerBound_some {size : Nat} {l : List freeBlockInfo} {it : freeBlockInfo}
    (hl : Ascending l) (h : setLowerBound ⟨0, size⟩ l = some it) :
    it ∈ l ∧ size ≤ it.blockSize ∧
      ∀ b ∈ l, size ≤ b.blockSize → b = it ∨ cmpFreeBlockInfo it b = true := by
  induction l with
  | nil => simp [setLowerBound] at h
  | cons y ys ih =>
    unfold Ascending at hl
    rw [List.pairwise_cons] at hl
    unfold setLowerBound at h
    rw [List.find?_cons] at h
    by_cases hy : cmpFreeBlockInfo y ⟨0, size⟩ = true
    · simp only [hy, Bool.not_true] at h
      have := ih hl.2 h
      refine ⟨List.mem_cons_of_mem _ this.1, this.2.1, ?_⟩
      intro b hb hsz
      rcases List.mem_cons.1 hb with rfl | hb
      · rw [cmp_iff] at hy; simp at hy; omega
      · exact this.2.2 b hb hsz
    · have hy' : cmpFreeBlockInfo y ⟨0, size⟩ = false := by simpa using hy
      simp only [hy', Bool.not_false, Option.some.injEq] at h
      subst h
      refine ⟨List.mem_cons_self _ _, ?_, ?_⟩
      · rw [cmp_iff] at hy; simp at hy; omega
      · intro b hb _
        rcases List.mem_cons.1 hb with rfl | hb
        · exact Or.inl rfl
        · exact Or.inr (hl.1 b hb)

theorem setLowerBound_none {size : Nat} {l : List freeBlockInfo}
    (h : setLowerBound ⟨0, size⟩ l = none) : ∀ b ∈ l, b.blockSize < size := by
  unfold setLowerBound at h
  rw [List.find?_eq_none] at h
  intro b hb
  have := h b hb
  simp at this
  rw [cmp_iff] at this
  simp at this
  omega

theorem inv_init : Inv Allocator.init [] := by
  refine ⟨rfl, rfl, ?_, ?_, ?_, ?_, ?_, ?_, ?_, ?_, ?_, ?_, ?_, ?_, ?_⟩ <;>
    simp [Allocator.init, Ascending]

theorem block_le_sum {l : List freeBlockInfo} {b : freeBlockInfo} (hb : b ∈ l) :
    b.blockSize ≤ (l.map (·.blockSize)).sum := by
  induction l with
  | nil => simp at hb
  | cons y ys ih =>
    rcases List.mem_cons.1 hb with rfl | h
    · simp
    · have := ih h; simp at *; omega

theorem live_le_sum {l : List (Nat × Nat)} {x : Nat × Nat} (hx : x ∈ l) :
    alignUp x.2 ≤ (l.map (fun l => alignUp l.2)).sum := by
  induction l with
  | nil => simp at hx
  | cons y ys ih =>
    rcases List.mem_cons.1 hx with rfl | h
    · simp
    · have := ih h; simp at *; omega

/-- Two free blocks with the same head address are the same block. -/
theorem Inv.eq_of_addr {s : Allocator} {live : List (Nat × Nat)} (h : Inv s live)
    {b1 b2 : freeBlockInfo} (h1 : b1 ∈ s.freeBlocks) (h2 : b2 ∈ s.freeBlocks)
    (he : b1.addr = b2.addr) : b1 = b2 := by
  by_contra hne
  have := h.sep b1 h1 b2 h2 hne
  have p1 := h.pos b1 h1
  have p2 := h.pos b2 h2
  omega

/-- Two free blocks with the same tail address are the same block. -/
theorem Inv.eq_of_tail {s : Allocator} {live : List (Nat × Nat)} (h : Inv s live)
    {b1 b2 : freeBlockInfo} (h1 : b1 ∈ s.freeBlocks) (h2 : b2 ∈ s.freeBlocks)
    (he : b1.addr + b1.blockSize = b2.addr + b2.blockSize) : b1 = b2 := by
  by_contra hne
  have := h.sep b1 h1 b2 h2 hne
  have p1 := h.pos b1 h1
  have p2 := h.pos b2 h2
  omega

theorem ne_of_addr2 {x y : freeBlockInfo} (h : x.addr ≠ y.addr) : x ≠ y := by
  intro he; exact h (by rw [he])

theorem free_pp {s : Allocator} {live : List (Nat × Nat)} {a n p q : Nat}
    (h : Inv s live) (hl : (a, n) ∈ live) (hpk : s.peak < sizeMod)
    (hpre : s.tailAddrToBlockSize a = some p)
    (hsub : s.headAddrToBlockSize (a + alignUp n) = some q) :
    (s.free a n).1 = true ∧ FreeShape s (s.free a n).2 a (alignUp n) p q := by
  have hn : 0 < n := h.livePos _ hl
  have hr : a + alignUp n ≤ s.peak := h.liveRange _ hl
  have hpos := alignUp_pos hn
  have hu := h.total
  have hle : alignUp n ≤ _ := live_le_sum hl
  have hue := h.usedEq
  obtain ⟨bp, hbp, hbp1, hbp2⟩ := (h.tail _ _).1 hpre
  have hbq := (h.head _ _).1 hsub
  have hpp := h.pos _ hbp
  have hqp : 0 < q := h.pos _ hbq
  have hqr : a + alignUp n + q ≤ s.peak := h.range _ hbq
  have hbpe : bp = ⟨a - p, p⟩ := by
    cases bp; simp at *; omega
  rw [hbpe] at hbp
  have hne : (⟨a - p, p⟩ : freeBlockInfo) ≠ ⟨a + alignUp n, q⟩ := by
    apply ne_of_addr2; simp; omega
  have hhp : s.headAddrToBlockSize (a - p) = some p := (h.head _ _).2 hbp
  have htq : s.tailAddrToBlockSize (a + alignUp n + q) = some q :=
    (h.tail _ _).2 ⟨_, hbq, rfl, rfl⟩
  have e0 := getAlignedSize_eq h.align hn (show alignUp n < sizeMod by omega)
  have e1 : addW a (alignUp n) = a + alignUp n := addW_of_lt (by omega)
  have e2 : subW (a + alignUp n) a = alignUp n := by
    rw [subW_of_le (by omega) (by omega)]; omega
  have e3 : subW s.used (alignUp n) = s.used - alignUp n := subW_of_le (by omega) (by omega)
  have e4 : mapSet s.tailAddrToBlockSize (a + alignUp n) (alignUp n) a = some p := by
    simp only [mapSet, show a ≠ a + alignUp n by omega, if_false, hpre]
  have e5 : mapSet s.headAddrToBlockSize a (alignUp n) (a + alignUp n) = some q := by
    simp only [mapSet, show a + alignUp n ≠ a by omega, if_false, hsub]
  have e6 : subW a p = a - p := subW_of_le (by omega) (by omega)
  have e7 : addW (alignUp n) p = p + alignUp n := by rw [addW_of_lt (by omega)]; omega
  have e8 : addW (p + alignUp n) q = p + alignUp n + q := addW_of_lt (by omega)
  have e9 : addW (a + alignUp n) q = a + alignUp n + q := addW_of_lt (by omega)
  have e10 : subW (a + alignUp n + q) q = a + alignUp n := by
    rw [subW_of_le (by omega) (by omega)]; omega
  have e11 : addW p (alignUp n) = p + alignUp n := addW_of_lt (by omega)
  have e12 : addW q (p + alignUp n) = p + alignUp n + q := by
    rw [addW_of_lt (by omega)]; omega
  have e13 : mapAdd (mapErase (mapSet s.headAddrToBlockSize a (alignUp n)) a) (a - p)
      (alignUp n) (a + alignUp n) = some q := by
    simp only [mapAdd, mapErase, mapSet, show a + alignUp n ≠ a - p by omega,
      show a + alignUp n ≠ a by omega, if_false, hsub]
  have eg : ¬ (a + alignUp n = a) := by omega
  unfold Allocator.free
  simp only [h.ptr0, ne_eq, not_true_eq_false, if_false, e0, e1, eg, e2, e3, e4, e5, e6, e7, e13,
    Option.getD_some, e8, e9, e10]
  refine ⟨trivial, h.ptr0.symm, rfl, rfl, rfl, ?_, ?_, ?_, ?_, ?_⟩
  · exact ascending_setInsert (ascending_setErase (ascending_setErase h.sorted))
  · intro x
    show x ∈ setInsert _ (setErase _ (setErase _ _)) ↔ _
    rw [mem_setInsert, mem_setErase, mem_setErase]
    constructor
    · rintro (h1 | ⟨⟨h1, h2⟩, h3⟩)
      · exact Or.inl h1
      · refine Or.inr ⟨h1, ?_, ?_⟩
        · intro ht; exact h2 (h.eq_of_tail h1 hbp (by simp; omega))
        · intro ht; exact h3 (h.eq_of_addr h1 hbq (by simp; omega))
    · rintro (h1 | ⟨h1, h2, h3⟩)
      · exact Or.inl h1
      · refine Or.inr ⟨⟨h1, ?_⟩, ?_⟩
        · intro he; subst he; simp at h2; omega
        · intro he; subst he; exact h3 rfl
  · show ((setInsert _ (setErase _ (setErase _ _))).map _).sum = _
    rw [sum_setInsert]
    · have s1 := sum_setErase h.sorted hbp
      have s2 := sum_setErase (b := ⟨a + alignUp n, q⟩) (ascending_setErase (b := ⟨a - p, p⟩) h.sorted)
        (mem_setErase.2 ⟨hbq, hne.symm⟩)
      simp only at s1 s2 ⊢
      omega
    · intro hin
      rw [mem_setErase, mem_setErase] at hin
      have := h.sep _ hin.1.1 _ hbp hin.1.2
      simp only at this; omega
  · intro k
    show mapAdd (mapErase (mapAdd (mapErase (mapSet _ _ _) _) _ _) _) _ _ k = _
    simp only [mapAdd, mapErase, mapSet]
    by_cases h1 : k = a - p
    · subst h1
      simp only [if_true, show a - p ≠ a + alignUp n by omega, show a - p ≠ a by omega, if_false,
        hhp, Option.getD_some, e11, e12, e8]
    · simp only [h1, if_false]
      by_cases h2 : k = a + alignUp n
      · simp [h2]
      · by_cases h3 : k = a
        · simp [h2, h3]
        · simp [h2, h3]
  · intro t
    show mapAdd (mapErase (mapAdd (mapErase (mapSet _ _ _) _) _ _) _) _ _ t = _
    simp only [mapAdd, mapErase, mapSet]
    by_cases h1 : t = a + alignUp n + q
    · subst h1
      simp only [if_true, show a + alignUp n + q ≠ a + alignUp n by omega,
        show a + alignUp n + q ≠ a by omega, if_false, htq, Option.getD_some, e12]
    · simp only [h1, if_false]
      by_cases h2 : t = a + alignUp n
      · simp [h2]
      · by_cases h3 : t = a
        · simp [h2, h3]
        · simp [h2, h3]

theorem free_nn {s : Allocator} {live : List (Nat × Nat)} {a n : Nat}
    (h : Inv s live) (hl : (a, n) ∈ live) (hpk : s.peak < sizeMod)
    (hpre : s.tailAddrToBlockSize a = none)
    (hsub : s.headAddrToBlockSize (a + alignUp n) = none) :
    (s.free a n).1 = true ∧ FreeShape s (s.free a n).2 a (alignUp n) 0 0 := by
  have hn : 0 < n := h.livePos _ hl
  have hr : a + alignUp n ≤ s.peak := h.liveRange _ hl
  have hpos := alignUp_pos hn
  have hu := h.total
  have hle : alignUp n ≤ _ := live_le_sum hl
  have hue := h.usedEq
  have hnp : ∀ x ∈ s.freeBlocks, x.addr + x.blockSize ≠ a := by
    intro x hx he
    have := (h.tail a x.blockSize).2 ⟨x, hx, he, rfl⟩
    rw [hpre] at this; cases this
  have hnq : ∀ x ∈ s.freeBlocks, x.addr ≠ a + alignUp n := by
    intro x hx he
    have := (h.head (a + alignUp n) x.blockSize).2 (by rw [← he]; exact hx)
    rw [hsub] at this; cases this
  have e0 := getAlignedSize_eq h.align hn (show alignUp n < sizeMod by omega)
  have e1 : addW a (alignUp n) = a + alignUp n := addW_of_lt (by omega)
  have e2 : subW (a + alignUp n) a = alignUp n := by
    rw [subW_of_le (by omega) (by omega)]; omega
  have e3 : subW s.used (alignUp n) = s.used - alignUp n := subW_of_le (by omega) (by omega)
  have e4 : mapSet s.tailAddrToBlockSize (a + alignUp n) (alignUp n) a = none := by
    simp only [mapSet, show a ≠ a + alignUp n by omega, if_false, hpre]
  have e5 : mapSet s.headAddrToBlockSize a (alignUp n) (a + alignUp n) = none := by
    simp only [mapSet, show a + alignUp n ≠ a by omega, if_false, hsub]
  have eg : ¬ (a + alignUp n = a) := by omega
  unfold Allocator.free
  simp only [h.ptr0, ne_eq, not_true_eq_false, if_false, e0, e1, eg, e2, e3, e4, e5]
  refine ⟨trivial, h.ptr0.symm, rfl, rfl, rfl, ?_, ?_, ?_, ?_, ?_⟩
  · exact ascending_setInsert h.sorted
  · intro x
    show x ∈ setInsert _ _ ↔ _
    simp only [mem_setInsert, Nat.sub_zero, Nat.zero_add, Nat.add_zero]
    constructor
    · rintro (h1 | h1)
      · exact Or.inl h1
      · exact Or.inr ⟨h1, hnp x h1, hnq x h1⟩
    · rintro (h1 | ⟨h1, -, -⟩)
      · exact Or.inl h1
      · exact Or.inr h1
  · show ((setInsert _ _).map _).sum = _
    rw [sum_setInsert]
    · simp only; omega
    · intro hin
      have := h.freeLive _ hin _ hl
      simp only [liveEnd] at this; omega
  · intro k
    show mapSet _ _ _ k = _
    simp only [mapSet, Nat.sub_zero, Nat.zero_add, Nat.add_zero]
    by_cases h1 : k = a
    · simp [h1]
    · by_cases h2 : k = a + alignUp n
      · simp [h2, hsub]
      · simp [h1, h2]
  · intro t
    show mapSet _ _ _ t = _
    simp only [mapSet, Nat.sub_zero, Nat.zero_add, Nat.add_zero]
    by_cases h1 : t = a + alignUp n
    · simp [h1]
    · by_cases h2 : t = a
      · simp [h2, hpre]
      · simp [h1, h2]

theorem free_pn {s : Allocator} {live : List (Nat × Nat)} {a n p : Nat}
    (h : Inv s live) (hl : (a, n) ∈ live) (hpk : s.peak < sizeMod)
    (hpre : s.tailAddrToBlockSize a = some p)
    (hsub : s.headAddrToBlockSize (a + alignUp n) = none) :
    (s.free a n).1 = true ∧ FreeShape s (s.free a n).2 a (alignUp n) p 0 := by
  have hn : 0 < n := h.livePos _ hl
  have hr : a + alignUp n ≤ s.peak := h.liveRange _ hl
  have hpos := alignUp_pos hn
  have hu := h.total
  have hle : alignUp n ≤ _ := live_le_sum hl
  have hue := h.usedEq
  obtain ⟨bp, hbp, hbp1, hbp2⟩ := (h.tail _ _).1 hpre
  have hpp := h.pos _ hbp
  have hbpe : bp = ⟨a - p, p⟩ := by
    cases bp; simp at *; omega
  rw [hbpe] at hbp
  have hnq : ∀ x ∈ s.freeBlocks, x.addr ≠ a + alignUp n := by
    intro x hx he
    have := (h.head (a + alignUp n) x.blockSize).2 (by rw [← he]; exact hx)
    rw [hsub] at this; cases this
  have hhp : s.headAddrToBlockSize (a - p) = some p := (h.head _ _).2 hbp
  have e0 := getAlignedSize_eq h.align hn (show alignUp n < sizeMod by omega)
  have e1 : addW a (alignUp n) = a + alignUp n := addW_of_lt (by omega)
  have e2 : subW (a + alignUp n) a = alignUp n := by
    rw [subW_of_le (by omega) (by omega)]; omega
  have e3 : subW s.used (alignUp n) = s.used - alignUp n := subW_of_le (by omega) (by omega)
  have e4 : mapSet s.tailAddrToBlockSize (a + alignUp n) (alignUp n) a = some p := by
    simp only [mapSet, show a ≠ a + alignUp n by omega, if_false, hpre]
  have e5 : mapSet s.headAddrToBlockSize a (alignUp n) (a + alignUp n) = none := by
    simp only [mapSet, show a + alignUp n ≠ a by omega, if_false, hsub]
  have e6 : subW a p = a - p := subW_of_le (by omega) (by omega)
  have e7 : addW (alignUp n) p = p + alignUp n := by rw [addW_of_lt (by omega)]; omega
  have e11 : addW p (alignUp n) = p + alignUp n := addW_of_lt (by omega)
  have eg : ¬ (a + alignUp n = a) := by omega
  unfold Allocator.free
  simp only [h.ptr0, ne_eq, not_true_eq_false, if_false, e0, e1, eg, e2, e3, e4, e5, e6, e7]
  refine ⟨trivial, h.ptr0.symm, rfl, rfl, rfl, ?_, ?_, ?_, ?_, ?_⟩
  · exact ascending_setInsert (ascending_setErase h.sorted)
  · intro x
    show x ∈ setInsert _ (setErase _ _) ↔ _
    simp only [mem_setInsert, mem_setErase, Nat.add_zero]
    constructor
    · rintro (h1 | ⟨h1, h2⟩)
      · exact Or.inl h1
      · refine Or.inr ⟨h1, ?_, hnq x h1⟩
        intro ht; exact h2 (h.eq_of_tail h1 hbp (by simp only; omega))
    · rintro (h1 | ⟨h1, h2, -⟩)
      · exact Or.inl h1
      · refine Or.inr ⟨h1, ?_⟩
        intro he; subst he; simp only at h2; omega
  · show ((setInsert _ (setErase _ _)).map _).sum = _
    rw [sum_setInsert]
    · have s1 := sum_setErase h.sorted hbp
      simp only at s1 ⊢
      omega
    · intro hin
      rw [mem_setErase] at hin
      have := h.sep _ hin.1 _ hbp hin.2
      simp only at this; omega
  · intro k
    show mapAdd (mapErase (mapSet _ _ _) _) _ _ k = _
    simp only [mapAdd, mapErase, mapSet, Nat.add_zero]
    by_cases h1 : k = a - p
    · subst h1
      simp only [if_true, show a - p ≠ a by omega, if_false, hhp, Option.getD_some, e11]
    · simp only [h1, if_false]
      by_cases h2 : k = a
      · simp [h2]
      · by_cases h3 : k = a + alignUp n
        · simp [h2, h3, hsub]
        · simp [h2, h3]
  · intro t
    show mapAdd (mapErase (mapSet _ _ _) _) _ _ t = _
    simp only [mapAdd, mapErase, mapSet, Nat.add_zero]
    by_cases h1 : t = a + alignUp n
    · subst h1
      simp only [if_true, show a + alignUp n ≠ a by omega, if_false, Option.getD_some, e7]
    · simp only [h1, if_false]
      by_cases h2 : t = a
      · simp [h2]
      · simp [h2]

theorem free_np {s : Allocator} {live : List (Nat × Nat)} {a n q : Nat}
    (h : Inv s live) (hl : (a, n) ∈ live) (hpk : s.peak < sizeMod)
    (hpre : s.tailAddrToBlockSize a = none)
    (hsub : s.headAddrToBlockSize (a + alignUp n) = some q) :
    (s.free a n).1 = true ∧ FreeShape s (s.free a n).2 a (alignUp n) 0 q := by
  have hn : 0 < n := h.livePos _ hl
  have hr : a + alignUp n ≤ s.peak := h.liveRange _ hl
  have hpos := alignUp_pos hn
  have hu := h.total
  have hle : alignUp n ≤ _ := live_le_sum hl
  have hue := h.usedEq
  have hbq := (h.head _ _).1 hsub
  have hqp : 0 < q := h.pos _ hbq
  have hqr : a + alignUp n + q ≤ s.peak := h.range _ hbq
  have hnp : ∀ x ∈ s.freeBlocks, x.addr + x.blockSize ≠ a := by
    intro x hx he
    have := (h.tail a x.blockSize).2 ⟨x, hx, he, rfl⟩
    rw [hpre] at this; cases this
  have htq : s.tailAddrToBlockSize (a + alignUp n + q) = some q :=
    (h.tail _ _).2 ⟨_, hbq, rfl, rfl⟩
  have e0 := getAlignedSize_eq h.align hn (show alignUp n < sizeMod by omega)
  have e1 : addW a (alignUp n) = a + alignUp n := addW_of_lt (by omega)
  have e2 : subW (a + alignUp n) a = alignUp n := by
    rw [subW_of_le (by omega) (by omega)]; omega
  have e3 : subW s.used (alignUp n) = s.used - alignUp n := subW_of_le (by omega) (by omega)
  have e4 : mapSet s.tailAddrToBlockSize (a + alignUp n) (alignUp n) a = none := by
    simp only [mapSet, show a ≠ a + alignUp n by omega, if_false, hpre]
  have e5 : mapSet s.headAddrToBlockSize a (alignUp n) (a + alignUp n) = some q := by
    simp only [mapSet, show a + alignUp n ≠ a by omega, if_false, hsub]
  have e8 : addW (alignUp n) q = alignUp n + q := addW_of_lt (by omega)
  have e9 : addW (a + alignUp n) q = a + alignUp n + q := addW_of_lt (by omega)
  have e10 : subW (a + alignUp n + q) q = a + alignUp n := by
    rw [subW_of_le (by omega) (by omega)]; omega
  have e12 : addW q (alignUp n) = alignUp n + q := by
    rw [addW_of_lt (by omega)]; omega
  have eg : ¬ (a + alignUp n = a) := by omega
  unfold Allocator.free
  simp only [h.ptr0, ne_eq, not_true_eq_false, if_false, e0, e1, eg, e2, e3, e4, e5,
    Option.getD_some, e8, e9, e10]
  refine ⟨trivial, h.ptr0.symm, rfl, rfl, rfl, ?_, ?_, ?_, ?_, ?_⟩
  · exact ascending_setInsert (ascending_setErase h.sorted)
  · intro x
    show x ∈ setInsert _ (setErase _ _) ↔ _
    simp only [mem_setInsert, mem_setErase, Nat.sub_zero, Nat.zero_add]
    constructor
    · rintro (h1 | ⟨h1, h2⟩)
      · exact Or.inl h1
      · refine Or.inr ⟨h1, hnp x h1, ?_⟩
        intro ht; exact h2 (h.eq_of_addr h1 hbq (by simp only; omega))
    · rintro (h1 | ⟨h1, -, h3⟩)
      · exact Or.inl h1
      · refine Or.inr ⟨h1, ?_⟩
        intro he; subst he; exact h3 rfl
  · show ((setInsert _ (setErase _ _)).map _).sum = _
    rw [sum_setInsert]
    · have s1 := sum_setErase h.sorted hbq
      simp only at s1 ⊢
      omega
    · intro hin
      rw [mem_setErase] at hin
      have := h.freeLive _ hin.1 _ hl
      simp only [liveEnd] at this; omega
  · intro k
    show mapAdd (mapErase (mapSet _ _ _) _) _ _ k = _
    simp only [mapAdd, mapErase, mapSet, Nat.sub_zero, Nat.zero_add]
    by_cases h1 : k = a
    · subst h1
      simp only [if_true, show k ≠ k + alignUp n by omega, if_false, Option.getD_some, e8]
    · simp only [h1, if_false]
      by_cases h2 : k = a + alignUp n
      · simp [h2]
      · simp [h2]
  · intro t
    show mapAdd (mapErase (mapSet _ _ _) _) _ _ t = _
    simp only [mapAdd, mapErase, mapSet, Nat.sub_zero, Nat.zero_add]
    by_cases h1 : t = a + alignUp n + q
    · subst h1
      simp only [if_true, show a + alignUp n + q ≠ a + alignUp n by omega, if_false, htq,
        Option.getD_some, e12]
    · simp only [h1, if_false]
      by_cases h2 : t = a + alignUp n
      · simp [h2]
      · by_cases h3 : t = a
        · simp [h2, h3, hpre]
        · simp [h2, h3]

theorem liveSum_erase {l : List (Nat × Nat)} {x : Nat × Nat} (hx : x ∈ l) :
    ((l.erase x).map (fun l => alignUp l.2)).sum + alignUp x.2 =
      (l.map (fun l => alignUp l.2)).sum := by
  induction l with
  | nil => simp at hx
  | cons y ys ih =>
    by_cases hy : y = x
    · subst hy; simp; omega
    · have hx' : x ∈ ys := by
        rcases List.mem_cons.1 hx with h' | h'
        · exact absurd h'.symm hy
        · exact h'
      have : (y :: ys).erase x = y :: ys.erase x := by
        rw [List.erase_cons_tail]
        simpa using hy
      rw [this]
      have := ih hx'
      simp at *; omega

theorem Inv.live_nodup {s : Allocator} {live : List (Nat × Nat)} (h : Inv s live) :
    live.Nodup := by
  have h1 := h.liveSep
  have h2 := h.livePos
  clear h
  induction live with
  | nil => exact List.nodup_nil
  | cons y ys ih =>
    rw [List.pairwise_cons] at h1
    rw [List.nodup_cons]
    refine ⟨?_, ih h1.2 (fun l hl => h2 l (List.mem_cons_of_mem _ hl))⟩
    intro hy
    have := h1.1 y hy
    have := alignUp_pos (h2 y (List.mem_cons_self _ _))
    simp only [liveEnd] at *
    omega

theorem Inv.live_disjoint {s : Allocator} {live : List (Nat × Nat)} (h : Inv s live)
    {l1 l2 : Nat × Nat} (h1 : l1 ∈ live) (h2 : l2 ∈ live) (hne : l1 ≠ l2) :
    liveEnd l1 ≤ l2.1 ∨ liveEnd l2 ≤ l1.1 := by
  refine h.liveSep.forall ?_ h1 h2 hne
  intro x y hxy
  exact hxy.symm

theorem inv_of_freeShape {s s' : Allocator} {live : List (Nat × Nat)} {a n p q : Nat}
    (h : Inv s live) (hl : (a, n) ∈ live) (sh : FreeShape s s' a (alignUp n) p q)
    (hP : (p = 0 ∧ ∀ x ∈ s.freeBlocks, x.addr + x.blockSize ≠ a) ∨
      (0 < p ∧ p ≤ a ∧ (⟨a - p, p⟩ : freeBlockInfo) ∈ s.freeBlocks))
    (hQ : (q = 0 ∧ ∀ x ∈ s.freeBlocks, x.addr ≠ a + alignUp n) ∨
      (0 < q ∧ (⟨a + alignUp n, q⟩ : freeBlockInfo) ∈ s.freeBlocks)) :
    Inv s' (live.erase (a, n)) := by
  have hn : 0 < n := h.livePos _ hl
  have hr : a + alignUp n ≤ s.peak := h.liveRange _ hl
  have hpos := alignUp_pos hn
  have hle : alignUp n ≤ _ := live_le_sum hl
  have hnd := h.live_nodup
  -- free blocks stay clear of the freed range
  have hclear : ∀ x ∈ s.freeBlocks, x.addr + x.blockSize ≤ a ∨ a + alignUp n ≤ x.addr :=
    fun x hx => h.freeLive x hx _ hl
  -- a block that ends at `a` is the left neighbour
  have hleft : ∀ x ∈ s.freeBlocks, x.addr + x.blockSize = a →
      0 < p ∧ p ≤ a ∧ x = ⟨a - p, p⟩ := by
    intro x hx he
    rcases hP with ⟨_, h2⟩ | ⟨h1, h2, h3⟩
    · exact absurd he (h2 x hx)
    · exact ⟨h1, h2, h.eq_of_tail hx h3 (by simp only; omega)⟩
  have hright : ∀ x ∈ s.freeBlocks, x.addr = a + alignUp n →
      0 < q ∧ x = ⟨a + alignUp n, q⟩ := by
    intro x hx he
    rcases hQ with ⟨_, h2⟩ | ⟨h1, h3⟩
    · exact absurd he (h2 x hx)
    · exact ⟨h1, h.eq_of_addr hx h3 (by simp only; omega)⟩
  have hpa : p ≤ a := by
    rcases hP with ⟨h1, _⟩ | ⟨_, h2, _⟩ <;> omega
  have hqr : a + alignUp n + q ≤ s.peak := by
    rcases hQ with ⟨h1, _⟩ | ⟨_, h3⟩
    · omega
    · exact h.range _ h3
  -- an old block that survives is strictly away from the merged block
  have haway : ∀ x ∈ s.freeBlocks, x.addr + x.blockSize ≠ a → x.addr ≠ a + alignUp n →
      x.addr + x.blockSize < a - p ∨ a + alignUp n + q < x.addr := by
    intro x hx h1 h2
    have hxp := h.pos x hx
    rcases hclear x hx with hc | hc
    · left
      rcases hP with ⟨hp0, _⟩ | ⟨hp1, hp2, hp3⟩
      · omega
      · have := h.sep x hx _ hp3 (by intro he; subst he; simp only at h1; omega)
        simp only at this; omega
    · right
      rcases hQ with ⟨hq0, _⟩ | ⟨hq1, hq3⟩
      · omega
      · have := h.sep x hx _ hq3 (by intro he; subst he; exact h2 rfl)
        simp only at this; omega
  have hlive' : ∀ l, l ∈ live.erase (a, n) ↔ l ≠ (a, n) ∧ l ∈ live := fun l =>
    hnd.mem_erase_iff
  refine ⟨sh.ptr.trans h.ptr0, sh.align.trans h.align, sh.sorted, ?_, ?_, ?_, ?_, ?_, ?_, ?_, ?_,
    ?_, ?_, ?_, ?_⟩
  · -- head
    intro k v
    rw [sh.head, sh.mem]
    by_cases h1 : k = a - p
    · subst h1
      simp only [if_true, Option.some.injEq, freeBlockInfo.mk.injEq, true_and]
      constructor
      · intro hv; exact Or.inl hv.symm
      · rintro (hv | ⟨h2, h3, h4⟩)
        · exact hv.symm
        · exfalso
          have hxp := h.pos _ h2
          rcases hP with ⟨hp0, _⟩ | ⟨hp1, hp2, hp3⟩
          · have := hclear _ h2; simp only at *; omega
          · have := h.eq_of_addr h2 hp3 rfl
            simp only [freeBlockInfo.mk.injEq, true_and] at this
            omega
    · simp only [h1, if_false]
      by_cases h2 : k = a ∨ k = a + alignUp n
      · simp only [h2, if_true]
        refine ⟨fun h0 => (by cases h0), fun h0 => False.elim ?_⟩
        rcases h0 with h0 | ⟨h3, h4, h5⟩
        · simp only [freeBlockInfo.mk.injEq] at h0; exact h1 h0.1
        · rcases h2 with h2 | h2
          · have := hclear _ h3; have := h.pos _ h3; simp only at *; omega
          · exact h5 h2
      · simp only [h2, if_false, h.head]
        constructor
        · intro h3
          refine Or.inr ⟨h3, ?_, ?_⟩
          · intro he
            have := (hleft _ h3 he).2.2
            simp only [freeBlockInfo.mk.injEq] at this
            exact h1 this.1
          · omega
        · rintro (h0 | ⟨h3, _, _⟩)
          · simp only [freeBlockInfo.mk.injEq] at h0; exact absurd h0.1 h1
          · exact h3
  · -- tail
    intro t v
    rw [sh.tail]
    simp only [sh.mem]
    by_cases h1 : t = a + alignUp n + q
    · subst h1
      simp only [if_true, Option.some.injEq]
      constructor
      · intro hv
        exact ⟨_, Or.inl rfl, by simp only; omega, by simp only; omega⟩
      · rintro ⟨x, (hx | ⟨h2, h3, h4⟩), h5, h6⟩
        · subst hx; simp only at h6; omega
        · exfalso
          have := haway x h2 h3 h4
          have := h.pos x h2
          omega
    · simp only [h1, if_false]
      by_cases h2 : t = a ∨ t = a + alignUp n
      · simp only [h2, if_true]
        refine ⟨fun h0 => (by cases h0), fun h0 => False.elim ?_⟩
        obtain ⟨x, (hx | ⟨h3, h4, h5⟩), h6, h7⟩ := h0
        · subst hx; simp only at h6; omega
        · have := hclear x h3; have := h.pos x h3
          rcases h2 with h2 | h2
          · omega
          · omega
      · simp only [h2, if_false, h.tail]
        constructor
        · rintro ⟨x, h3, h4, h5⟩
          refine ⟨x, Or.inr ⟨h3, by omega, ?_⟩, h4, h5⟩
          intro he
          have := (hright x h3 he).2
          subst this
          simp only at h4; omega
        · rintro ⟨x, (hx | ⟨h3, _, _⟩), h4, h5⟩
          · subst hx; simp only at h4; omega
          · exact ⟨x, h3, h4, h5⟩
  · -- pos
    intro x hx
    rcases (sh.mem x).1 hx with h1 | ⟨h1, _, _⟩
    · subst h1; simp only; omega
    · exact h.pos x h1
  · -- range
    intro x hx
    rw [sh.peak]
    rcases (sh.mem x).1 hx with h1 | ⟨h1, _, _⟩
    · subst h1; simp only; omega
    · exact h.range x h1
  · -- sep
    intro b1 hb1 b2 hb2 hne
    rcases (sh.mem b1).1 hb1 with h1 | ⟨h1, h1', h1''⟩ <;>
      rcases (sh.mem b2).1 hb2 with h2 | ⟨h2, h2', h2''⟩
    · exact absurd (h1.trans h2.symm) hne
    · have := haway b2 h2 h2' h2''; subst h1; simp only; omega
    · have := haway b1 h1 h1' h1''; subst h2; simp only; omega
    · exact h.sep b1 h1 b2 h2 hne
  · -- livePos
    intro l hl'
    exact h.livePos l ((hlive' l).1 hl').2
  · -- liveRange
    intro l hl'
    rw [sh.peak]
    exact h.liveRange l ((hlive' l).1 hl').2
  · -- liveSep
    exact h.liveSep.sublist (List.erase_sublist _ _)
  · -- freeLive
    intro x hx l hl'
    obtain ⟨hl1, hl2⟩ := (hlive' l).1 hl'
    rcases (sh.mem x).1 hx with h1 | ⟨h1, _, _⟩
    · subst h1
      have d0 := h.live_disjoint hl2 hl hl1
      have lp := alignUp_pos (h.livePos l hl2)
      simp only [liveEnd] at d0 ⊢
      have dp : 0 < p → (a - p) + p ≤ l.1 ∨ l.1 + alignUp l.2 ≤ a - p := by
        intro hp
        rcases hP with ⟨hp0, _⟩ | ⟨_, _, hp3⟩
        · omega
        · exact h.freeLive _ hp3 l hl2
      have dq : 0 < q → (a + alignUp n) + q ≤ l.1 ∨ l.1 + alignUp l.2 ≤ a + alignUp n := by
        intro hq
        rcases hQ with ⟨hq0, _⟩ | ⟨_, hq3⟩
        · omega
        · exact h.freeLive _ hq3 l hl2
      rcases Nat.eq_zero_or_pos p with hp | hp <;> rcases Nat.eq_zero_or_pos q with hq | hq
      · omega
      · have := dq hq; omega
      · have := dp hp; omega
      · have := dp hp; have := dq hq; omega
    · exact h.freeLive x h1 l hl2
  · -- cover
    intro x hx
    rw [sh.peak] at hx
    have hmerged : a - p ≤ x → x < a + alignUp n + q →
        ∃ b ∈ s'.freeBlocks, b.addr ≤ x ∧ x < b.addr + b.blockSize := by
      intro h1 h2
      exact ⟨_, (sh.mem _).2 (Or.inl rfl), h1, by simp only; omega⟩
    rcases h.cover x hx with ⟨c, hc, h1, h2⟩ | ⟨l, hl', h1, h2⟩
    · by_cases hc1 : c.addr + c.blockSize = a
      · obtain ⟨_, _, he⟩ := hleft c hc hc1
        subst he
        exact Or.inl (hmerged h1 (by simp only at h2; omega))
      · by_cases hc2 : c.addr = a + alignUp n
        · obtain ⟨_, he⟩ := hright c hc hc2
          subst he
          exact Or.inl (hmerged (by simp only at h1; omega) h2)
        · exact Or.inl ⟨c, (sh.mem c).2 (Or.inr ⟨hc, hc1, hc2⟩), h1, h2⟩
    · by_cases hla : l = (a, n)
      · subst hla
        simp only [liveEnd] at h2
        exact Or.inl (hmerged (by simp only at h1; omega) (by omega))
      · exact Or.inr ⟨l, (hlive' l).2 ⟨hla, hl'⟩, h1, h2⟩
  · -- usedEq
    rw [sh.used, h.usedEq]
    have := liveSum_erase hl
    simp only at this
    omega
  · -- total
    rw [sh.used, sh.sum, sh.peak]
    have := h.total
    have := h.usedEq
    omega

theorem ne_of_addr {x y : freeBlockInfo} (h : x.addr ≠ y.addr) : x ≠ y := by
  intro he; exact h (by rw [he])

theorem alloc_found_eq {s : Allocator} {live : List (Nat × Nat)} {n : Nat} {it : freeBlockInfo}
    (h : Inv s live) (hn : 0 < n) (hpk : s.peak < sizeMod) (hal : alignUp n < sizeMod)
    (hlb : setLowerBound ⟨0, alignUp n⟩ s.freeBlocks = some it) :
    s.alloc n = (some it.addr,
      { s with
        freeBlocks := setErase it
          (if alignUp n < it.blockSize then
            setInsert ⟨it.addr + alignUp n, it.blockSize - alignUp n⟩ s.freeBlocks
           else s.freeBlocks)
        headAddrToBlockSize :=
          if alignUp n < it.blockSize then
            mapSet (mapErase s.headAddrToBlockSize it.addr) (it.addr + alignUp n)
              (it.blockSize - alignUp n)
          else mapErase s.headAddrToBlockSize it.addr
        tailAddrToBlockSize :=
          if alignUp n < it.blockSize then
            mapSet (mapErase s.tailAddrToBlockSize (it.addr + alignUp n))
              (it.addr + it.blockSize) (it.blockSize - alignUp n)
          else mapErase s.tailAddrToBlockSize (it.addr + alignUp n)
        used := s.used + alignUp n }) := by
  obtain ⟨hit, hsz, -⟩ := setLowerBound_some h.sorted hlb
  have hr := h.range it hit
  have hu := h.total
  have hbs := block_le_sum hit
  have e1 : addW it.addr (alignUp n) = it.addr + alignUp n := addW_of_lt (by omega)
  have e2 : subW (it.addr + alignUp n) it.addr = alignUp n := by
    rw [subW_of_le (by omega) (by omega)]; omega
  have e3 : subW it.blockSize (alignUp n) = it.blockSize - alignUp n :=
    subW_of_le hsz (by omega)
  have e4 : addW it.addr it.blockSize = it.addr + it.blockSize := addW_of_lt (by omega)
  have e5 : addW s.used (alignUp n) = s.used + alignUp n := addW_of_lt (by omega)
  unfold Allocator.alloc
  simp only [h.ptr0, ne_eq, not_true_eq_false, if_false, getAlignedSize_eq h.align hn hal, hlb,
    e1, e2, e3, e4, e5, gt_iff_lt, decide_eq_true_eq]

theorem inv_alloc_found {s : Allocator} {live : List (Nat × Nat)} {n : Nat} {it : freeBlockInfo}
    (h : Inv s live) (hn : 0 < n) (hit : it ∈ s.freeBlocks) (hsz : alignUp n ≤ it.blockSize) :
    Inv { s with
        freeBlocks := setErase it
          (if alignUp n < it.blockSize then
            setInsert ⟨it.addr + alignUp n, it.blockSize - alignUp n⟩ s.freeBlocks
           else s.freeBlocks)
        headAddrToBlockSize :=
          if alignUp n < it.blockSize then
            mapSet (mapErase s.headAddrToBlockSize it.addr) (it.addr + alignUp n)
              (it.blockSize - alignUp n)
          else mapErase s.headAddrToBlockSize it.addr
        tailAddrToBlockSize :=
          if alignUp n < it.blockSize then
            mapSet (mapErase s.tailAddrToBlockSize (it.addr + alignUp n))
              (it.addr + it.blockSize) (it.blockSize - alignUp n)
          else mapErase s.tailAddrToBlockSize (it.addr + alignUp n)
        used := s.used + alignUp n } ((it.addr, n) :: live) := by
  have hpos := alignUp_pos hn
  have hr := h.range it hit
  -- membership in the new free-block set
  have hmem : ∀ x, x ∈ setErase it
          (if alignUp n < it.blockSize then
            setInsert ⟨it.addr + alignUp n, it.blockSize - alignUp n⟩ s.freeBlocks
           else s.freeBlocks) ↔
      (x ∈ s.freeBlocks ∧ x ≠ it) ∨
        (alignUp n < it.blockSize ∧ x = ⟨it.addr + alignUp n, it.blockSize - alignUp n⟩) := by
    intro x
    rw [mem_setErase]
    by_cases hs : alignUp n < it.blockSize
    · simp only [hs, if_true, mem_setInsert, true_and]
      constructor
      · rintro ⟨h1 | h1, h2⟩
        · exact Or.inr h1
        · exact Or.inl ⟨h1, h2⟩
      · rintro (⟨h1, h2⟩ | h1)
        · exact ⟨Or.inr h1, h2⟩
        · refine ⟨Or.inl h1, ?_⟩
          rw [h1]; apply ne_of_addr; simp; omega
    · simp only [hs, if_false, false_and, or_false]
  -- a block of the old set other than `it` is away from `it`
  have haway : ∀ x ∈ s.freeBlocks, x ≠ it →
      x.addr + x.blockSize < it.addr ∨ it.addr + it.blockSize < x.addr :=
    fun x hx hne => h.sep x hx it hit hne
  refine ⟨h.ptr0, h.align, ?_, ?_, ?_, ?_, ?_, ?_, ?_, ?_, ?_, ?_, ?_, ?_, ?_⟩
  · -- sorted
    apply ascending_setErase
    split_ifs
    · exact ascending_setInsert h.sorted
    · exact h.sorted
  · -- head
    intro a v
    show _ ↔ _ ∈ setErase _ _
    rw [hmem]
    by_cases hs : alignUp n < it.blockSize
    · simp only [hs, if_true, true_and, mapSet, mapErase]
      by_cases ha : a = it.addr + alignUp n
      · subst ha
        simp only [if_true, Option.some.injEq, freeBlockInfo.mk.injEq, true_and]
        constructor
        · intro hv; exact Or.inr hv.symm
        · rintro (⟨h1, h2⟩ | h1)
          · have := haway _ h1 h2; have := h.pos _ h1; simp at *; omega
          · exact h1.symm
      · simp only [ha, if_false]
        by_cases ha' : a = it.addr
        · subst ha'
          simp only [if_true]
          refine ⟨fun h0 => (by cases h0), fun h0 => False.elim ?_⟩
          revert h0
          rintro (⟨h1, h2⟩ | h1)
          · exact h2 (h.eq_of_addr h1 hit rfl)
          · simp at h1; omega
        · simp only [ha', if_false, h.head]
          constructor
          · intro h1; exact Or.inl ⟨h1, ne_of_addr ha'⟩
          · rintro (⟨h1, _⟩ | h1)
            · exact h1
            · simp at h1; omega
    · simp only [hs, if_false, false_and, or_false, mapErase]
      by_cases ha' : a = it.addr
      · subst ha'
        simp only [if_true]
        refine ⟨fun h0 => (by cases h0), fun h0 => False.elim ?_⟩
        revert h0
        rintro ⟨h1, h2⟩
        exact h2 (h.eq_of_addr h1 hit rfl)
      · simp only [ha', if_false, h.head]
        constructor
        · intro h1; exact ⟨h1, ne_of_addr ha'⟩
        · rintro ⟨h1, _⟩; exact h1
  · -- tail
    intro t v
    show _ ↔ ∃ b ∈ setErase _ _, _
    simp only [hmem]
    by_cases hs : alignUp n < it.blockSize
    · simp only [hs, if_true, true_and, mapSet, mapErase]
      by_cases ht : t = it.addr + it.blockSize
      · subst ht
        simp only [if_true, Option.some.injEq]
        constructor
        · intro hv
          exact ⟨_, Or.inr rfl, by simp; omega, by simp; omega⟩
        · rintro ⟨b, (⟨h1, h2⟩ | h1), h3, h4⟩
          · exact absurd (h.eq_of_tail h1 hit h3) h2
          · subst h1; simp at h4; omega
      · simp only [ht, if_false]
        by_cases ht' : t = it.addr + alignUp n
        · subst ht'
          simp only [if_true]
          refine ⟨fun h0 => (by cases h0), fun h0 => False.elim ?_⟩
          revert h0
          rintro ⟨b, (⟨h1, h2⟩ | h1), h3, h4⟩
          · have := haway _ h1 h2; have := h.pos _ h1; omega
          · subst h1; simp at h3; omega
        · simp only [ht', if_false, h.tail]
          constructor
          · rintro ⟨b, h1, h3, h4⟩
            refine ⟨b, Or.inl ⟨h1, ?_⟩, h3, h4⟩
            intro he; subst he; exact ht h3.symm
          · rintro ⟨b, (⟨h1, h2⟩ | h1), h3, h4⟩
            · exact ⟨b, h1, h3, h4⟩
            · subst h1; simp at h3; omega
    · simp only [hs, if_false, false_and, or_false, mapErase]
      have hbs : it.blockSize = alignUp n := by omega
      by_cases ht' : t = it.addr + alignUp n
      · subst ht'
        simp only [if_true]
        refine ⟨fun h0 => (by cases h0), fun h0 => False.elim ?_⟩
        revert h0
        rintro ⟨b, ⟨h1, h2⟩, h3, h4⟩
        exact h2 (h.eq_of_tail h1 hit (by omega))
      · simp only [ht', if_false, h.tail]
        constructor
        · rintro ⟨b, h1, h3, h4⟩
          refine ⟨b, ⟨h1, ?_⟩, h3, h4⟩
          intro he; subst he; omega
        · rintro ⟨b, ⟨h1, h2⟩, h3, h4⟩
          exact ⟨b, h1, h3, h4⟩
  · -- pos
    intro b hb
    rcases (hmem b).1 hb with ⟨h1, _⟩ | ⟨h1, h2⟩
    · exact h.pos b h1
    · subst h2; simp; omega
  · -- range
    intro b hb
    show _ ≤ s.peak
    rcases (hmem b).1 hb with ⟨h1, _⟩ | ⟨h1, h2⟩
    · exact h.range b h1
    · subst h2; simp; omega
  · -- sep
    intro b1 hb1 b2 hb2 hne
    rcases (hmem b1).1 hb1 with ⟨h1, h1'⟩ | ⟨h1, h1'⟩ <;>
      rcases (hmem b2).1 hb2 with ⟨h2, h2'⟩ | ⟨h2, h2'⟩
    · exact h.sep b1 h1 b2 h2 hne
    · have := haway _ h1 h1'; subst h2'; simp; omega
    · have := haway _ h2 h2'; subst h1'; simp; omega
    · exact absurd (h1'.trans h2'.symm) hne
  · -- livePos
    intro l hl
    rcases List.mem_cons.1 hl with rfl | hl
    · exact hn
    · exact h.livePos l hl
  · -- liveRange
    intro l hl
    show _ ≤ s.peak
    rcases List.mem_cons.1 hl with rfl | hl
    · simp only [liveEnd]; omega
    · exact h.liveRange l hl
  · -- liveSep
    rw [List.pairwise_cons]
    refine ⟨?_, h.liveSep⟩
    intro l hl
    have := h.freeLive it hit l hl
    simp only [liveEnd] at *
    omega
  · -- freeLive
    intro b hb l hl
    rcases (hmem b).1 hb with ⟨h1, h1'⟩ | ⟨h1, h1'⟩ <;>
      rcases List.mem_cons.1 hl with rfl | hl
    · have := haway _ h1 h1'; simp only [liveEnd]; omega
    · exact h.freeLive b h1 l hl
    · subst h1'; simp only [liveEnd]; omega
    · have := h.freeLive it hit l hl; subst h1'; simp only [liveEnd] at *; omega
  · -- cover
    intro x hx
    rcases h.cover x hx with ⟨b, hb, h1, h2⟩ | ⟨l, hl, h1, h2⟩
    · by_cases hbit : b = it
      · subst hbit
        by_cases hx' : x < b.addr + alignUp n
        · exact Or.inr ⟨_, List.mem_cons_self _ _, h1, hx'⟩
        · refine Or.inl ⟨⟨b.addr + alignUp n, b.blockSize - alignUp n⟩,
            (hmem _).2 (Or.inr ⟨by omega, rfl⟩), by simp; omega, by simp; omega⟩
      · exact Or.inl ⟨b, (hmem b).2 (Or.inl ⟨hb, hbit⟩), h1, h2⟩
    · exact Or.inr ⟨l, List.mem_cons_of_mem _ hl, h1, h2⟩
  · -- usedEq
    show s.used + alignUp n = _
    rw [h.usedEq]; simp; omega
  · -- total
    show s.used + alignUp n + _ = s.peak
    have ht := h.total
    by_cases hs : alignUp n < it.blockSize
    · simp only [hs, if_true]
      have hnot : (⟨it.addr + alignUp n, it.blockSize - alignUp n⟩ : freeBlockInfo) ∉
          s.freeBlocks := by
        intro hin
        have := haway _ hin (by apply ne_of_addr; simp; omega)
        simp at this; omega
      have e1 := sum_setErase (b := it) (ascending_setInsert (b := ⟨it.addr + alignUp n, it.blockSize - alignUp n⟩) h.sorted)
        (mem_setInsert.2 (Or.inr hit))
      have e2 := sum_setInsert hnot
      simp only at e1 e2
      omega
    · simp only [hs, if_false]
      have e1 := sum_setErase h.sorted hit
      omega

theorem alloc_fresh_eq {s : Allocator} {live : List (Nat × Nat)} {n : Nat}
    (h : Inv s live) (hn : 0 < n) (hpk : s.peak + alignUp n < sizeMod)
    (hlb : setLowerBound ⟨0, alignUp n⟩ s.freeBlocks = none)
    (htl : s.tailAddrToBlockSize s.peak = none) :
    s.alloc n = (some s.peak,
      { s with peak := s.peak + alignUp n, used := s.used + alignUp n }) := by
  have hu := h.total
  unfold Allocator.alloc
  simp only [h.ptr0, ne_eq, not_true_eq_false, if_false,
    getAlignedSize_eq h.align hn (show alignUp n < sizeMod by omega), hlb, htl,
    addW_of_lt hpk, addW_of_lt (show s.used + alignUp n < sizeMod by omega)]

theorem inv_alloc_fresh {s : Allocator} {live : List (Nat × Nat)} {n : Nat}
    (h : Inv s live) (hn : 0 < n) :
    Inv { s with peak := s.peak + alignUp n, used := s.used + alignUp n }
      ((s.peak, n) :: live) := by
  have hpos := alignUp_pos hn
  refine ⟨h.ptr0, h.align, h.sorted, h.head, h.tail, h.pos, ?_, h.sep, ?_, ?_, ?_, ?_, ?_, ?_, ?_⟩
  · intro b hb
    show _ ≤ s.peak + alignUp n
    have := h.range b hb; omega
  · intro l hl
    rcases List.mem_cons.1 hl with rfl | hl
    · exact hn
    · exact h.livePos l hl
  · intro l hl
    show _ ≤ s.peak + alignUp n
    rcases List.mem_cons.1 hl with rfl | hl
    · simp only [liveEnd]; omega
    · have := h.liveRange l hl; omega
  · rw [List.pairwise_cons]
    refine ⟨?_, h.liveSep⟩
    intro l hl
    have := h.liveRange l hl
    simp only [liveEnd] at *
    omega
  · intro b hb l hl
    rcases List.mem_cons.1 hl with rfl | hl
    · have := h.range b hb; simp only [liveEnd]; omega
    · exact h.freeLive b hb l hl
  · intro x hx
    by_cases hx' : x < s.peak
    · rcases h.cover x hx' with ⟨b, hb, h1, h2⟩ | ⟨l, hl, h1, h2⟩
      · exact Or.inl ⟨b, hb, h1, h2⟩
      · exact Or.inr ⟨l, List.mem_cons_of_mem _ hl, h1, h2⟩
    · refine Or.inr ⟨_, List.mem_cons_self _ _, ?_, ?_⟩
      · show s.peak ≤ x; omega
      · show x < s.peak + alignUp n; exact hx
  · show s.used + alignUp n = _
    rw [h.usedEq]; simp; omega
  · show s.used + alignUp n + (s.freeBlocks.map (·.blockSize)).sum = s.peak + alignUp n
    have := h.total; omega

theorem alloc_extend_eq {s : Allocator} {live : List (Nat × Nat)} {n tsz : Nat}
    (h : Inv s live) (hn : 0 < n) (hpk : s.peak + alignUp n < sizeMod)
    (hlb : setLowerBound ⟨0, alignUp n⟩ s.freeBlocks = none)
    (htl : s.tailAddrToBlockSize s.peak = some tsz) :
    s.alloc n = (some (s.peak - tsz),
      { s with
        peak := s.peak + (alignUp n - tsz)
        freeBlocks := setErase ⟨s.peak - tsz, tsz⟩ s.freeBlocks
        headAddrToBlockSize := mapErase s.headAddrToBlockSize (s.peak - tsz)
        tailAddrToBlockSize := mapErase s.tailAddrToBlockSize s.peak
        used := s.used + alignUp n }) := by
  have hu := h.total
  obtain ⟨b, hb, hb1, hb2⟩ := (h.tail _ _).1 htl
  have hlt := setLowerBound_none hlb b hb
  have e1 : subW s.peak tsz = s.peak - tsz := subW_of_le (by omega) (by omega)
  have e2 : subW (alignUp n) tsz = alignUp n - tsz := subW_of_le (by omega) (by omega)
  have e3 : addW (s.peak - tsz) tsz = s.peak := by
    rw [addW_of_lt (by omega)]; omega
  unfold Allocator.alloc
  simp only [h.ptr0, ne_eq, not_true_eq_false, if_false,
    getAlignedSize_eq h.align hn (show alignUp n < sizeMod by omega), hlb, htl, e1, e2, e3,
    addW_of_lt (show s.peak + (alignUp n - tsz) < sizeMod by omega),
    addW_of_lt (show s.used + alignUp n < sizeMod by omega),
    show tsz < alignUp n by omega, not_true_eq_false, if_false]

theorem inv_alloc_extend {s : Allocator} {live : List (Nat × Nat)} {n : Nat} {b : freeBlockInfo}
    (h : Inv s live) (hn : 0 < n) (hb : b ∈ s.freeBlocks) (hbt : b.addr + b.blockSize = s.peak)
    (hlt : b.blockSize < alignUp n) :
    Inv { s with
        peak := s.peak + (alignUp n - b.blockSize)
        freeBlocks := setErase b s.freeBlocks
        headAddrToBlockSize := mapErase s.headAddrToBlockSize b.addr
        tailAddrToBlockSize := mapErase s.tailAddrToBlockSize s.peak
        used := s.used + alignUp n } ((b.addr, n) :: live) := by
  have hbp := h.pos b hb
  have haway : ∀ x ∈ s.freeBlocks, x ≠ b →
      x.addr + x.blockSize < b.addr ∨ b.addr + b.blockSize < x.addr :=
    fun x hx hne => h.sep x hx b hb hne
  refine ⟨h.ptr0, h.align, ascending_setErase h.sorted, ?_, ?_, ?_, ?_, ?_, ?_, ?_, ?_, ?_, ?_,
    ?_, ?_⟩
  · intro a v
    show _ ↔ _ ∈ setErase _ _
    rw [mem_setErase]
    simp only [mapErase]
    by_cases ha : a = b.addr
    · subst ha
      simp only [if_true]
      refine ⟨fun h0 => (by cases h0), fun h0 => False.elim ?_⟩
      exact h0.2 (h.eq_of_addr h0.1 hb rfl)
    · simp only [ha, if_false, h.head]
      exact ⟨fun h1 => ⟨h1, ne_of_addr ha⟩, fun h1 => h1.1⟩
  · intro t v
    show _ ↔ ∃ x ∈ setErase _ _, _
    simp only [mem_setErase, mapErase]
    by_cases ht : t = s.peak
    · subst ht
      simp only [if_true]
      refine ⟨fun h0 => (by cases h0), fun h0 => False.elim ?_⟩
      obtain ⟨x, ⟨h1, h2⟩, h3, _⟩ := h0
      exact h2 (h.eq_of_tail h1 hb (by omega))
    · simp only [ht, if_false, h.tail]
      constructor
      · rintro ⟨x, h1, h3, h4⟩
        refine ⟨x, ⟨h1, ?_⟩, h3, h4⟩
        intro he; subst he; omega
      · rintro ⟨x, ⟨h1, _⟩, h3, h4⟩
        exact ⟨x, h1, h3, h4⟩
  · intro x hx
    exact h.pos x (mem_setErase.1 hx).1
  · intro x hx
    show _ ≤ s.peak + (alignUp n - b.blockSize)
    have := h.range x (mem_setErase.1 hx).1; omega
  · intro b1 hb1 b2 hb2 hne
    exact h.sep b1 (mem_setErase.1 hb1).1 b2 (mem_setErase.1 hb2).1 hne
  · intro l hl
    rcases List.mem_cons.1 hl with rfl | hl
    · exact hn
    · exact h.livePos l hl
  · intro l hl
    show _ ≤ s.peak + (alignUp n - b.blockSize)
    rcases List.mem_cons.1 hl with rfl | hl
    · simp only [liveEnd]; omega
    · have := h.liveRange l hl; omega
  · rw [List.pairwise_cons]
    refine ⟨?_, h.liveSep⟩
    intro l hl
    have := h.freeLive b hb l hl
    have := h.liveRange l hl
    have := alignUp_pos (h.livePos l hl)
    simp only [liveEnd] at *
    omega
  · intro x hx l hl
    obtain ⟨hx1, hx2⟩ := mem_setErase.1 hx
    rcases List.mem_cons.1 hl with rfl | hl
    · have := haway x hx1 hx2; have := h.range x hx1; simp only [liveEnd]; omega
    · exact h.freeLive x hx1 l hl
  · intro x hx
    by_cases hx' : x < s.peak
    · rcases h.cover x hx' with ⟨c, hc, h1, h2⟩ | ⟨l, hl, h1, h2⟩
      · by_cases hcb : c = b
        · subst hcb
          refine Or.inr ⟨_, List.mem_cons_self _ _, h1, ?_⟩
          simp only [liveEnd]; omega
        · exact Or.inl ⟨c, mem_setErase.2 ⟨hc, hcb⟩, h1, h2⟩
      · exact Or.inr ⟨l, List.mem_cons_of_mem _ hl, h1, h2⟩
    · refine Or.inr ⟨_, List.mem_cons_self _ _, ?_, ?_⟩
      · show b.addr ≤ x; omega
      · have hx2 : x < s.peak + (alignUp n - b.blockSize) := hx
        simp only [liveEnd]; omega
  · show s.used + alignUp n = _
    rw [h.usedEq]; simp; omega
  · show s.used + alignUp n + ((setErase b s.freeBlocks).map (·.blockSize)).sum =
      s.peak + (alignUp n - b.blockSize)
    have := h.total
    have := sum_setErase h.sorted hb
    omega

theorem inv_alloc {s : Allocator} {live : List (Nat × Nat)} {n : Nat}
    (h : Inv s live) (hn : 0 < n) (hpk : s.peak + alignUp n < sizeMod) :
    ∃ a, (s.alloc n).1 = some a ∧ Inv (s.alloc n).2 ((a, n) :: live) ∧
      s.peak ≤ (s.alloc n).2.peak ∧ (s.alloc n).2.peak ≤ s.peak + alignUp n := by
  cases hlb : setLowerBound ⟨0, alignUp n⟩ s.freeBlocks with
  | some it =>
    obtain ⟨hit, hsz, -⟩ := setLowerBound_some h.sorted hlb
    rw [alloc_found_eq h hn (by omega) (by omega) hlb]
    exact ⟨it.addr, rfl, inv_alloc_found h hn hit hsz, le_refl _, Nat.le_add_right _ _⟩
  | none =>
    cases htl : s.tailAddrToBlockSize s.peak with
    | none =>
      rw [alloc_fresh_eq h hn hpk hlb htl]
      exact ⟨s.peak, rfl, inv_alloc_fresh h hn, Nat.le_add_right _ _, le_refl _⟩
    | some tsz =>
      obtain ⟨b, hb, hb1, hb2⟩ := (h.tail _ _).1 htl
      have hlt := setLowerBound_none hlb b hb
      rw [alloc_extend_eq h hn hpk hlb htl]
      have hbe : s.peak - tsz = b.addr := by omega
      subst hb2
      rw [hbe]
      refine ⟨b.addr, rfl, inv_alloc_extend h hn hb hb1 hlt, ?_, ?_⟩
      · show s.peak ≤ s.peak + (alignUp n - b.blockSize); omega
      · show s.peak + (alignUp n - b.blockSize) ≤ s.peak + alignUp n; omega

theorem inv_free {s : Allocator} {live : List (Nat × Nat)} {a n : Nat}
    (h : Inv s live) (hl : (a, n) ∈ live) (hpk : s.peak < sizeMod) :
    (s.free a n).1 = true ∧ Inv (s.free a n).2 (live.erase (a, n)) ∧
      (s.free a n).2.peak = s.peak ∧ alignUp n ≤ s.used ∧
      (s.free a n).2.used = s.used - alignUp n := by
  have hn : 0 < n := h.livePos _ hl
  have hr : a + alignUp n ≤ s.peak := h.liveRange _ hl
  have hle : alignUp n ≤ s.used := by rw [h.usedEq]; exact live_le_sum hl
  cases hpre : s.tailAddrToBlockSize a with
  | none =>
    have hnp : ∀ x ∈ s.freeBlocks, x.addr + x.blockSize ≠ a := by
      intro x hx he
      have := (h.tail a x.blockSize).2 ⟨x, hx, he, rfl⟩
      rw [hpre] at this; cases this
    cases hsub : s.headAddrToBlockSize (a + alignUp n) with
    | none =>
      have hnq : ∀ x ∈ s.freeBlocks, x.addr ≠ a + alignUp n := by
        intro x hx he
        have := (h.head (a + alignUp n) x.blockSize).2 (by rw [← he]; exact hx)
        rw [hsub] at this; cases this
      obtain ⟨h1, sh⟩ := free_nn h hl hpk hpre hsub
      exact ⟨h1, inv_of_freeShape h hl sh (Or.inl ⟨rfl, hnp⟩) (Or.inl ⟨rfl, hnq⟩), sh.peak, hle,
        sh.used⟩
    | some q =>
      have hbq := (h.head _ _).1 hsub
      obtain ⟨h1, sh⟩ := free_np h hl hpk hpre hsub
      exact ⟨h1, inv_of_freeShape h hl sh (Or.inl ⟨rfl, hnp⟩) (Or.inr ⟨h.pos _ hbq, hbq⟩),
        sh.peak, hle, sh.used⟩
  | some p =>
    obtain ⟨bp, hbp, hbp1, hbp2⟩ := (h.tail _ _).1 hpre
    have hpp := h.pos _ hbp
    have hbpe : bp = ⟨a - p, p⟩ := by
      cases bp; simp at *; omega
    rw [hbpe] at hbp
    have hP : (p = 0 ∧ ∀ x ∈ s.freeBlocks, x.addr + x.blockSize ≠ a) ∨
        (0 < p ∧ p ≤ a ∧ (⟨a - p, p⟩ : freeBlockInfo) ∈ s.freeBlocks) :=
      Or.inr ⟨by omega, by omega, hbp⟩
    cases hsub : s.headAddrToBlockSize (a + alignUp n) with
    | none =>
      have hnq : ∀ x ∈ s.freeBlocks, x.addr ≠ a + alignUp n := by
        intro x hx he
        have := (h.head (a + alignUp n) x.blockSize).2 (by rw [← he]; exact hx)
        rw [hsub] at this; cases this
      obtain ⟨h1, sh⟩ := free_pn h hl hpk hpre hsub
      exact ⟨h1, inv_of_freeShape h hl sh hP (Or.inl ⟨rfl, hnq⟩), sh.peak, hle, sh.used⟩
    | some q =>
      have hbq := (h.head _ _).1 hsub
      obtain ⟨h1, sh⟩ := free_pp h hl hpk hpre hsub
      exact ⟨h1, inv_of_freeShape h hl sh hP (Or.inr ⟨h.pos _ hbq, hbq⟩), sh.peak, hle,
        sh.used⟩

theorem Planning.runFrom_append (σ : Planning) (xs ys : List Call) :
    σ.runFrom (xs ++ ys) = (σ.runFrom xs).runFrom ys := by
  unfold Planning.runFrom; rw [List.foldl_append]

theorem Planning.runFrom_cons (σ : Planning) (c : Call) (cs : List Call) :
    σ.runFrom (c :: cs) = (σ.step c).runFrom cs := rfl

theorem demand_append (xs ys : List Call) : demand (xs ++ ys) = demand xs + demand ys := by
  induction xs with
  | nil => simp [demand]
  | cons c cs ih => cases c <;> simp [demand, ih]; omega

theorem Planning.matchedFrom_append {σ : Planning} {xs ys : List Call} :
    σ.matchedFrom (xs ++ ys) ↔ σ.matchedFrom xs ∧ (σ.runFrom xs).matchedFrom ys := by
  induction xs generalizing σ with
  | nil => simp [Planning.matchedFrom, Planning.runFrom]
  | cons c cs ih =>
    cases c with
    | alloc n =>
      show (0 < n ∧ (σ.step (.alloc n)).matchedFrom (cs ++ ys)) ↔
        (0 < n ∧ (σ.step (.alloc n)).matchedFrom cs) ∧
          ((σ.step (.alloc n)).runFrom cs).matchedFrom ys
      rw [ih]; tauto
    | free a n =>
      show (0 < n ∧ (a, n) ∈ σ.live ∧ (σ.step (.free a n)).matchedFrom (cs ++ ys)) ↔
        (0 < n ∧ (a, n) ∈ σ.live ∧ (σ.step (.free a n)).matchedFrom cs) ∧
          ((σ.step (.free a n)).runFrom cs).matchedFrom ys
      rw [ih]; tauto

/-- One call of a matched sequence keeps the invariant. -/
theorem step_inv {σ : Planning} {c : Call} (h : Inv σ.allocator σ.live)
    (hb : σ.allocator.peak + demand [c] < sizeMod) (hm : σ.matchedFrom [c]) :
    Inv (σ.step c).allocator (σ.step c).live ∧
      σ.allocator.peak ≤ (σ.step c).allocator.peak ∧
      (σ.step c).allocator.peak ≤ σ.allocator.peak + demand [c] := by
  cases c with
  | alloc n =>
    simp only [demand, Nat.add_zero] at hb
    obtain ⟨a, h1, h2, h3, h4⟩ := inv_alloc h hm.1 hb
    have hs : σ.step (.alloc n) = ⟨(σ.allocator.alloc n).2, (a, n) :: σ.live⟩ := by
      show (match σ.allocator.alloc n with
        | (some a, s') => (⟨s', (a, n) :: σ.live⟩ : Planning)
        | (none, s') => ⟨s', σ.live⟩) = _
      rcases hr : σ.allocator.alloc n with ⟨r, s'⟩
      rw [hr] at h1
      simp only at h1
      subst h1
      rfl
    rw [hs]
    exact ⟨h2, h3, by simpa [demand] using h4⟩
  | free a n =>
    simp only [demand, Nat.add_zero] at hb
    obtain ⟨-, h2, h3, -, -⟩ := inv_free h hm.2.1 hb
    refine ⟨h2, ?_, ?_⟩
    · show _ ≤ (σ.allocator.free a n).2.peak; omega
    · show (σ.allocator.free a n).2.peak ≤ _; omega

/-- A matched sequence that fits the address space keeps the invariant. -/
theorem runFrom_inv (cs : List Call) : ∀ (σ : Planning), Inv σ.allocator σ.live →
    σ.allocator.peak + demand cs < sizeMod → σ.matchedFrom cs →
    Inv (σ.runFrom cs).allocator (σ.runFrom cs).live ∧
      σ.allocator.peak ≤ (σ.runFrom cs).allocator.peak ∧
      (σ.runFrom cs).allocator.peak ≤ σ.allocator.peak + demand cs := by
  induction cs with
  | nil => intro σ h _ _; exact ⟨h, le_refl _, le_refl _⟩
  | cons c cs ih =>
    intro σ h hb hm
    have hd : demand (c :: cs) = demand [c] + demand cs := demand_append [c] cs
    have hm' := (@Planning.matchedFrom_append σ [c] cs).1 hm
    obtain ⟨h1, h2, h3⟩ := step_inv (c := c) h (by omega) hm'.1
    obtain ⟨h4, h5, h6⟩ := ih (σ.step c) h1 (by omega) hm'.2
    rw [Planning.runFrom_cons]
    exact ⟨h4, by omega, by omega⟩

theorem run_inv {cs : List Call} (hm : Matched cs) (hf : Fits cs) :
    Inv (Planning.run cs).allocator (Planning.run cs).live ∧
      (Planning.run cs).allocator.peak ≤ demand cs := by
  have := runFrom_inv cs Planning.start inv_init
    (by simpa [Planning.start, Allocator.init] using hf) hm
  exact ⟨this.1, by simpa [Planning.start, Allocator.init] using this.2.2⟩

theorem matched_take {cs : List Call} (hm : Matched cs) (k : Nat) : Matched (cs.take k) := by
  have h := hm
  unfold Matched at *
  rw [← List.take_append_drop k cs, Planning.matchedFrom_append] at h
  exact h.1

theorem fits_take {cs : List Call} (hf : Fits cs) (k : Nat) : Fits (cs.take k) := by
  unfold Fits at *
  have := demand_append (cs.take k) (cs.drop k)
  rw [List.take_append_drop] at this
  omega

theorem alignedSize_eq {s : Allocator} {live : List (Nat × Nat)} (h : Inv s live)
    (hpk : s.peak < sizeMod) {l : Nat × Nat} (hl : l ∈ live) :
    s.getAlignedSize l.2 = alignUp l.2 := by
  have := h.liveRange l hl
  simp only [liveEnd] at this
  exact getAlignedSize_eq h.align (h.livePos l hl) (by omega)

/-- C1 (as amended): on a fresh allocator, after any initial part of a matched sequence of
calls with positive sizes in which the aligned sizes of the `alloc` calls add up to less than
`2^64`, the ranges `[addr, addr + alignedSize)` of the live allocations are pairwise disjoint
and lie inside `[0, peak)`. -/
theorem alloc_live_ranges_disjoint (cs : List Call) (hm : Matched cs) (hf : Fits cs) (k : Nat) :
    let σ := Planning.run (cs.take k)
    σ.live.Pairwise (fun l1 l2 =>
        l1.1 + σ.allocator.getAlignedSize l1.2 ≤ l2.1 ∨
        l2.1 + σ.allocator.getAlignedSize l2.2 ≤ l1.1) ∧
      ∀ l ∈ σ.live, l.1 + σ.allocator.getAlignedSize l.2 ≤ σ.allocator.peak := by
  intro σ
  obtain ⟨h, hp⟩ := run_inv (matched_take hm k) (fits_take hf k)
  have hpk : σ.allocator.peak < sizeMod := by
    have := fits_take hf k; unfold Fits at this
    show (Planning.run (cs.take k)).allocator.peak < sizeMod
    omega
  constructor
  · have := h.liveSep
    rw [List.pairwise_iff_forall_sublist] at this ⊢
    intro a b hab
    have ha : a ∈ σ.live := hab.subset (by simp)
    have hb : b ∈ σ.live := hab.subset (by simp)
    rw [alignedSize_eq h hpk ha, alignedSize_eq h hpk hb]
    exact this hab
  · intro l hl
    rw [alignedSize_eq h hpk hl]
    exact h.liveRange l hl

theorem alloc_live_ranges_disjoint_witness :
    Matched [.alloc 100, .alloc 200, .free 0 100, .alloc 100, .free 104 200] ∧
    Fits [.alloc 100, .alloc 200, .free 0 100, .alloc 100, .free 104 200] ∧
    (let σ := Planning.run
        (([.alloc 100, .alloc 200, .free 0 100, .alloc 100, .free 104 200] : List Call).take 4)
     σ.live.Pairwise (fun l1 l2 =>
        l1.1 + σ.allocator.getAlignedSize l1.2 ≤ l2.1 ∨
        l2.1 + σ.allocator.getAlignedSize l2.2 ≤ l1.1) ∧
      ∀ l ∈ σ.live, l.1 + σ.allocator.getAlignedSize l.2 ≤ σ.allocator.peak) :=
  ⟨by decide, by decide, alloc_live_ranges_disjoint _ (by decide) (by decide) 4⟩

theorem peak_pos_of_alloc {cs : List Call} (hm : Matched cs) (hf : Fits cs)
    (ha : ∃ n, Call.alloc n ∈ cs) : 0 < (Planning.run cs).allocator.peak := by
  obtain ⟨n, hn⟩ := ha
  obtain ⟨pre, post, rfl⟩ := List.append_of_mem hn
  unfold Matched at hm
  unfold Fits at hf
  rw [Planning.matchedFrom_append] at hm
  rw [demand_append] at hf
  have hd : demand (Call.alloc n :: post) = demand [Call.alloc n] + demand post :=
    demand_append [Call.alloc n] post
  obtain ⟨h1, -, h3⟩ := runFrom_inv pre Planning.start inv_init
    (by simp only [Planning.start, Allocator.init]; omega) hm.1
  have h3' : (Planning.start.runFrom pre).allocator.peak ≤ demand pre := by
    simpa [Planning.start, Allocator.init] using h3
  have hm2 := (@Planning.matchedFrom_append _ [Call.alloc n] post).1 hm.2
  obtain ⟨h4, h5, h6⟩ := step_inv (c := Call.alloc n) h1 (by omega) hm2.1
  obtain ⟨h7, h8, h9⟩ := runFrom_inv post _ h4 (by omega) hm2.2
  have hd1 : demand [Call.alloc n] = alignUp n := by simp [demand]
  obtain ⟨a, ha1, ha2, -, -⟩ := inv_alloc h1 hm2.1.1 (by omega)
  have hs : (Planning.start.runFrom pre).step (.alloc n) =
      ⟨((Planning.start.runFrom pre).allocator.alloc n).2,
        (a, n) :: (Planning.start.runFrom pre).live⟩ := by
    show (match (Planning.start.runFrom pre).allocator.alloc n with
      | (some a, s') => (⟨s', (a, n) :: (Planning.start.runFrom pre).live⟩ : Planning)
      | (none, s') => ⟨s', (Planning.start.runFrom pre).live⟩) = _
    rcases hr : (Planning.start.runFrom pre).allocator.alloc n with ⟨r, s'⟩
    rw [hr] at ha1
    simp only at ha1
    subst ha1
    rfl
  have hlr := h4.liveRange (a, n) (by rw [hs]; exact List.mem_cons_self _ _)
  have := alignUp_pos hm2.1.1
  simp only [liveEnd] at hlr
  show 0 < (Planning.start.runFrom (pre ++ Call.alloc n :: post)).allocator.peak
  rw [Planning.runFrom_append, Planning.runFrom_cons]
  omega

theorem eq_singleton_of_forall_eq {α : Type} {l : List α} {b : α} (hnd : l.Nodup)
    (hb : b ∈ l) (hall : ∀ x ∈ l, x = b) : l = [b] := by
  cases l with
  | nil => simp at hb
  | cons y ys =>
    have hy := hall y (List.mem_cons_self _ _)
    subst hy
    rw [List.nodup_cons] at hnd
    cases ys with
    | nil => rfl
    | cons z zs =>
      exfalso
      have hz := hall z (List.mem_cons_of_mem _ (List.mem_cons_self _ _))
      subst hz
      exact hnd.1 (List.mem_cons_self _ _)

/-- With nothing live and a nonempty address space, the free-block set is the single block
`[0, peak)`. -/
theorem Inv.single_block {s : Allocator} (h : Inv s []) (hp : 0 < s.peak) :
    s.freeBlocks = [⟨0, s.peak⟩] := by
  have hcov : ∀ x, x < s.peak → ∃ b ∈ s.freeBlocks, b.addr ≤ x ∧ x < b.addr + b.blockSize := by
    intro x hx
    rcases h.cover x hx with h1 | ⟨l, hl, _⟩
    · exact h1
    · simp at hl
  obtain ⟨b0, hb0, h01, h02⟩ := hcov 0 hp
  have hr0 := h.range b0 hb0
  have htail : b0.addr + b0.blockSize = s.peak := by
    by_contra hne
    obtain ⟨b1, hb1, h11, h12⟩ := hcov (b0.addr + b0.blockSize) (by omega)
    by_cases he : b1 = b0
    · subst he; omega
    · have := h.sep b1 hb1 b0 hb0 he
      omega
  have hb0e : b0 = ⟨0, s.peak⟩ := by
    cases b0; simp only [freeBlockInfo.mk.injEq] at *; omega
  subst hb0e
  refine eq_singleton_of_forall_eq (ascending_nodup h.sorted) hb0 ?_
  intro x hx
  by_contra hne
  have := h.sep x hx _ hb0 hne
  have := h.range x hx
  have := h.pos x hx
  simp only at *
  omega

/-- C2 (as amended): a matched sequence in which the aligned sizes of the `alloc` calls add
up to less than `2^64`, that allocates at least once and ends with every allocation freed,
leaves exactly one free block, `[0, peak)`, in the free-block set and in the head-address and
tail-address indices. -/
theorem free_all_coalesces (cs : List Call) (hm : Matched cs) (hf : Fits cs)
    (ha : ∃ n, Call.alloc n ∈ cs) (he : (Planning.run cs).live = []) :
    let s := (Planning.run cs).allocator
    s.freeBlocks = [⟨0, s.peak⟩] ∧
      (∀ k, s.headAddrToBlockSize k = if k = 0 then some s.peak else none) ∧
      (∀ t, s.tailAddrToBlockSize t = if t = s.peak then some s.peak else none) := by
  intro s
  obtain ⟨h, -⟩ := run_inv hm hf
  rw [he] at h
  have hp := peak_pos_of_alloc hm hf ha
  have hfb : s.freeBlocks = [⟨0, s.peak⟩] := h.single_block hp
  refine ⟨hfb, ?_, ?_⟩
  · intro k
    have hk := h.head k
    by_cases h0 : k = 0
    · subst h0
      simp only [if_true]
      exact (hk _).2 (by rw [hfb]; exact List.mem_singleton.2 rfl)
    · simp only [h0, if_false]
      cases hv : (Planning.run cs).allocator.headAddrToBlockSize k with
      | none => rfl
      | some v =>
        have := (hk v).1 hv
        rw [hfb] at this
        simp only [List.mem_singleton, freeBlockInfo.mk.injEq] at this
        exact absurd this.1 h0
  · intro t
    have ht := h.tail t
    by_cases h0 : t = s.peak
    · subst h0
      simp only [if_true]
      exact (h.tail _ _).2 ⟨_, by rw [hfb]; exact List.mem_singleton.2 rfl, by simp, rfl⟩
    · simp only [h0, if_false]
      cases hv : (Planning.run cs).allocator.tailAddrToBlockSize t with
      | none => rfl
      | some v =>
        obtain ⟨b, hb, hb1, -⟩ := (ht v).1 hv
        rw [hfb] at hb
        simp only [List.mem_singleton] at hb
        subst hb
        simp only [Nat.zero_add] at hb1
        exact absurd hb1.symm h0

theorem free_all_coalesces_witness :
    Matched [.alloc 8, .alloc 8, .alloc 8, .free 0 8, .free 16 8, .free 8 8] ∧
    Fits [.alloc 8, .alloc 8, .alloc 8, .free 0 8, .free 16 8, .free 8 8] ∧
    (∃ n, Call.alloc n ∈
      ([.alloc 8, .alloc 8, .alloc 8, .free 0 8, .free 16 8, .free 8 8] : List Call)) ∧
    (Planning.run [.alloc 8, .alloc 8, .alloc 8, .free 0 8, .free 16 8, .free 8 8]).live = [] ∧
    (let s := (Planning.run
        [.alloc 8, .alloc 8, .alloc 8, .free 0 8, .free 16 8, .free 8 8]).allocator
     s.freeBlocks = [⟨0, s.peak⟩] ∧
      (∀ k, s.headAddrToBlockSize k = if k = 0 then some s.peak else none) ∧
      (∀ t, s.tailAddrToBlockSize t = if t = s.peak then some s.peak else none)) :=
  ⟨by decide, by decide, ⟨8, by decide⟩, by decide,
    free_all_coalesces _ (by decide) (by decide) ⟨8, by decide⟩ (by decide)⟩

/-- C3 (as amended): at every call of a matched sequence with positive sizes in which the
aligned sizes of the `alloc` calls add up to less than `2^64`, `used ≤ peak` holds after the
call; an `alloc` leaves `peak` equal or larger; a `free` leaves `peak` unchanged and
subtracts no more than `used` holds. -/
theorem used_le_peak_and_peak_monotone (cs : List Call) (hm : Matched cs) (hf : Fits cs)
    (k : Nat) (c : Call) (hk : cs[k]? = some c) :
    let σ := Planning.run (cs.take k)
    let σ' := σ.step c
    Planning.run (cs.take (k + 1)) = σ' ∧
    σ'.allocator.used ≤ σ'.allocator.peak ∧
    (match c with
      | .alloc _ => σ.allocator.peak ≤ σ'.allocator.peak
      | .free _ n =>
        σ'.allocator.peak = σ.allocator.peak ∧
        σ.allocator.getAlignedSize n ≤ σ.allocator.used ∧
        σ'.allocator.used = σ.allocator.used - σ.allocator.getAlignedSize n) := by
  intro σ σ'
  have hlen : k < cs.length := by
    rcases Nat.lt_or_ge k cs.length with h | h
    · exact h
    · rw [List.getElem?_eq_none h] at hk; cases hk
  have hget : cs[k] = c := by
    rw [List.getElem?_eq_getElem hlen] at hk
    exact Option.some.inj hk
  have htake : cs.take (k + 1) = cs.take k ++ [c] := by
    rw [List.take_succ, hk]; rfl
  have hrun : Planning.run (cs.take (k + 1)) = σ' := by
    unfold Planning.run
    rw [htake, Planning.runFrom_append]
    rfl
  obtain ⟨h', -⟩ := run_inv (matched_take hm (k + 1)) (fits_take hf (k + 1))
  rw [hrun] at h'
  obtain ⟨h, hp⟩ := run_inv (matched_take hm k) (fits_take hf k)
  have hm1 := matched_take hm (k + 1)
  have hf1 := fits_take hf (k + 1)
  unfold Matched at hm1
  unfold Fits at hf1
  rw [htake, Planning.matchedFrom_append] at hm1
  rw [htake, demand_append] at hf1
  have hpk : σ.allocator.peak + demand [c] < sizeMod := by
    show (Planning.run (cs.take k)).allocator.peak + demand [c] < sizeMod
    omega
  refine ⟨hrun, ?_, ?_⟩
  · have := h'.total; omega
  · cases c with
    | alloc n => exact (step_inv h hpk hm1.2).2.1
    | free a n =>
      have hl : (a, n) ∈ σ.live := hm1.2.2.1
      have hpk' : σ.allocator.peak < sizeMod := lt_of_le_of_lt (Nat.le_add_right _ _) hpk
      obtain ⟨-, -, h3, h4, h5⟩ := inv_free h hl hpk'
      have hal : σ.allocator.getAlignedSize n = alignUp n :=
        alignedSize_eq (l := (a, n)) h hpk' hl
      have h4' : σ.allocator.getAlignedSize n ≤ σ.allocator.used := by rw [hal]; exact h4
      have h5' : (σ.allocator.free a n).2.used =
          σ.allocator.used - σ.allocator.getAlignedSize n := by rw [hal]; exact h5
      exact ⟨h3, h4', h5'⟩

theorem used_le_peak_and_peak_monotone_witness :
    Matched [.alloc 100, .alloc 200, .free 0 100, .alloc 100, .free 104 200] ∧
    Fits [.alloc 100, .alloc 200, .free 0 100, .alloc 100, .free 104 200] ∧
    ([.alloc 100, .alloc 200, .free 0 100, .alloc 100, .free 104 200] : List Call)[2]? =
      some (.free 0 100) ∧
    (let σ := Planning.run
        (([.alloc 100, .alloc 200, .free 0 100, .alloc 100, .free 104 200] : List Call).take 2)
     let σ' := σ.step (.free 0 100)
     Planning.run
        (([.alloc 100, .alloc 200, .free 0 100, .alloc 100, .free 104 200] : List Call).take
          (2 + 1)) = σ' ∧
     σ'.allocator.used ≤ σ'.allocator.peak ∧
     (σ'.allocator.peak = σ.allocator.peak ∧
        σ.allocator.getAlignedSize 100 ≤ σ.allocator.used ∧
        σ'.allocator.used = σ.allocator.used - σ.allocator.getAlignedSize 100)) :=
  ⟨by decide, by decide, rfl,
    used_le_peak_and_peak_monotone _ (by decide) (by decide) 2 (.free 0 100) rfl⟩

theorem setLowerBound_of_min {sz : Nat} {l : List freeBlockInfo} {it : freeBlockInfo}
    (hl : Ascending l) (hit : it ∈ l) (hsz : sz ≤ it.blockSize)
    (hmin : ∀ b ∈ l, sz ≤ b.blockSize → b = it ∨ cmpFreeBlockInfo it b = true) :
    setLowerBound ⟨0, sz⟩ l = some it := by
  cases hr : setLowerBound ⟨0, sz⟩ l with
  | none =>
    have := setLowerBound_none hr it hit
    omega
  | some it' =>
    obtain ⟨h1, h2, h3⟩ := setLowerBound_some hl hr
    rcases hmin it' h1 h2 with h4 | h4
    · rw [h4]
    · rcases h3 it hit hsz with h5 | h5
      · rw [h5]
      · rw [cmp_iff] at h4 h5
        omega

/-- C4 (as amended): in a state reached by a matched sequence in which the aligned sizes of
the `alloc` calls add up to less than `2^64`, when a live allocation `(a, S)` is freed and
`alloc(S)` follows at once, no free block had a size up to the aligned `S`, and no free block
was adjacent to the freed range, `alloc` returns `a`. -/
theorem best_fit_reuse_without_neighbours (cs : List Call) (hm : Matched cs) (hf : Fits cs)
    (a S : Nat) (hl : (a, S) ∈ (Planning.run cs).live)
    (hbig : ∀ b ∈ (Planning.run cs).allocator.freeBlocks,
      ¬ b.blockSize ≤ (Planning.run cs).allocator.getAlignedSize S)
    (hleft : ∀ b ∈ (Planning.run cs).allocator.freeBlocks, b.addr + b.blockSize ≠ a)
    (hright : ∀ b ∈ (Planning.run cs).allocator.freeBlocks,
      b.addr ≠ a + (Planning.run cs).allocator.getAlignedSize S) :
    (((Planning.run cs).allocator.free a S).2.alloc S).1 = some a := by
  obtain ⟨h, hp⟩ := run_inv hm hf
  have hpk : (Planning.run cs).allocator.peak < sizeMod := by
    unfold Fits at hf; omega
  have hal := alignedSize_eq (l := (a, S)) h hpk hl
  simp only at hal
  rw [hal] at hbig hright
  have hn : 0 < S := h.livePos _ hl
  have hr : a + alignUp S ≤ (Planning.run cs).allocator.peak := h.liveRange _ hl
  have hpre : (Planning.run cs).allocator.tailAddrToBlockSize a = none := by
    cases hv : (Planning.run cs).allocator.tailAddrToBlockSize a with
    | none => rfl
    | some v =>
      obtain ⟨b, hb, hb1, -⟩ := (h.tail _ _).1 hv
      exact absurd hb1 (hleft b hb)
  have hsub : (Planning.run cs).allocator.headAddrToBlockSize (a + alignUp S) = none := by
    cases hv : (Planning.run cs).allocator.headAddrToBlockSize (a + alignUp S) with
    | none => rfl
    | some v =>
      have hb := (h.head _ _).1 hv
      exact absurd rfl (hright _ hb)
  obtain ⟨-, sh⟩ := free_nn h hl hpk hpre hsub
  obtain ⟨-, h1, h2, -, -⟩ := inv_free h hl hpk
  have hlb : setLowerBound ⟨0, alignUp S⟩ ((Planning.run cs).allocator.free a S).2.freeBlocks =
      some ⟨a, alignUp S⟩ := by
    apply setLowerBound_of_min h1.sorted
    · exact (sh.mem _).2 (Or.inl (by simp))
    · exact le_refl _
    · intro b hb hsz
      rcases (sh.mem b).1 hb with h3 | ⟨h3, -, -⟩
      · left; rw [h3]; simp
      · right
        have := hbig b h3
        rw [cmp_iff]; simp only; omega
  rw [alloc_found_eq h1 hn (by omega) (by omega) hlb]

theorem best_fit_reuse_without_neighbours_witness :
    Matched [.alloc 16, .alloc 8, .alloc 8, .free 0 16] ∧
    Fits [.alloc 16, .alloc 8, .alloc 8, .free 0 16] ∧
    (24, 8) ∈ (Planning.run [.alloc 16, .alloc 8, .alloc 8, .free 0 16]).live ∧
    (((Planning.run [.alloc 16, .alloc 8, .alloc 8, .free 0 16]).allocator.free 24 8).2.alloc
      8).1 = some 24 :=
  ⟨by decide, by decide, by decide,
    best_fit_reuse_without_neighbours [.alloc 16, .alloc 8, .alloc 8, .free 0 16]
      (by decide) (by decide) 24 8 (by decide) (by decide) (by decide) (by decide)⟩

/-- C4 (as stated) fails when the freed range coalesces with a free neighbour. After
`alloc 16, alloc 8, free(0, 16)` the only free block has size 16; `free(16, 8)` merges into
it and `alloc(8)` returns 0, not 16. After `alloc 8, 16, 8, 8, 16, 8, free(8, 16),
free(40, 16)` both free blocks have size 16; `free(32, 8)` merges with its right neighbour
and `alloc(8)` returns 8, not 32. Beyond the address space a block counts as a neighbour
although its end, as a number, is not the freed address: after `alloc 8, alloc 8,
alloc (2^64 - 16), free(16, 2^64 - 16)` the free block `[16, 2^64)` ends at 0 in `size_t`;
`free(0, 8)` merges with it and `alloc(8)` returns 16, not 0. -/
theorem best_fit_reuse_counterexample :
    (Matched [.alloc 16, .alloc 8, .free 0 16] ∧
      (16, 8) ∈ (Planning.run [.alloc 16, .alloc 8, .free 0 16]).live ∧
      (∀ b ∈ (Planning.run [.alloc 16, .alloc 8, .free 0 16]).allocator.freeBlocks,
        ¬ b.blockSize ≤ 8) ∧
      (∀ b ∈ ((Planning.run [.alloc 16, .alloc 8, .free 0 16]).allocator.free 16 8).2.freeBlocks,
        ¬ (b.addr ≤ 16 ∧ 16 < b.addr + b.blockSize) → ¬ b.blockSize ≤ 8) ∧
      (((Planning.run [.alloc 16, .alloc 8, .free 0 16]).allocator.free 16 8).2.alloc 8).1 =
        some 0) ∧
    (Matched [.alloc 8, .alloc 16, .alloc 8, .alloc 8, .alloc 16, .alloc 8, .free 8 16,
        .free 40 16] ∧
      (32, 8) ∈ (Planning.run [.alloc 8, .alloc 16, .alloc 8, .alloc 8, .alloc 16, .alloc 8,
        .free 8 16, .free 40 16]).live ∧
      (∀ b ∈ (Planning.run [.alloc 8, .alloc 16, .alloc 8, .alloc 8, .alloc 16, .alloc 8,
        .free 8 16, .free 40 16]).allocator.freeBlocks, ¬ b.blockSize ≤ 8) ∧
      (∀ b ∈ ((Planning.run [.alloc 8, .alloc 16, .alloc 8, .alloc 8, .alloc 16, .alloc 8,
        .free 8 16, .free 40 16]).allocator.free 32 8).2.freeBlocks,
        ¬ (b.addr ≤ 32 ∧ 32 < b.addr + b.blockSize) → ¬ b.blockSize ≤ 8) ∧
      (((Planning.run [.alloc 8, .alloc 16, .alloc 8, .alloc 8, .alloc 16, .alloc 8,
        .free 8 16, .free 40 16]).allocator.free 32 8).2.alloc 8).1 = some 8) ∧
    (Matched [.alloc 8, .alloc 8, .alloc 18446744073709551600,
        .free 16 18446744073709551600] ∧
      (0, 8) ∈ (Planning.run [.alloc 8, .alloc 8, .alloc 18446744073709551600,
        .free 16 18446744073709551600]).live ∧
      (∀ b ∈ (Planning.run [.alloc 8, .alloc 8, .alloc 18446744073709551600,
        .free 16 18446744073709551600]).allocator.freeBlocks, ¬ b.blockSize ≤ 8) ∧
      (∀ b ∈ (Planning.run [.alloc 8, .alloc 8, .alloc 18446744073709551600,
        .free 16 18446744073709551600]).allocator.freeBlocks, b.addr + b.blockSize ≠ 0) ∧
      (∀ b ∈ (Planning.run [.alloc 8, .alloc 8, .alloc 18446744073709551600,
        .free 16 18446744073709551600]).allocator.freeBlocks, b.addr ≠ 0 + 8) ∧
      (((Planning.run [.alloc 8, .alloc 8, .alloc 18446744073709551600,
        .free 16 18446744073709551600]).allocator.free 0 8).2.alloc 8).1 = some 16) := by
  refine ⟨⟨by decide, by decide, by decide, by decide, by decide⟩,
    ⟨by decide, by decide, by decide, by decide, by decide⟩,
    ⟨by decide, by decide, by decide, by decide, by decide, by decide⟩⟩

theorem alloc_of_ptr_ne {s : Allocator} (h : s.ptr ≠ 0) (n : Nat) : s.alloc n = (none, s) := by
  unfold Allocator.alloc; rw [if_pos h]

theorem free_of_ptr_ne {s : Allocator} (h : s.ptr ≠ 0) (a n : Nat) :
    s.free a n = (false, s) := by
  unfold Allocator.free; rw [if_pos h]

theorem step_of_ptr_ne {σ : Planning} (h : σ.allocator.ptr ≠ 0) (c : Call) :
    (σ.step c).allocator = σ.allocator := by
  cases c with
  | alloc n =>
    show (match σ.allocator.alloc n with
      | (some a, s') => (⟨s', (a, n) :: σ.live⟩ : Planning)
      | (none, s') => ⟨s', σ.live⟩).allocator = _
    rw [alloc_of_ptr_ne h]
  | free a n =>
    show (σ.allocator.free a n).2 = _
    rw [free_of_ptr_ne h]

theorem runFrom_of_ptr_ne (cs : List Call) : ∀ (σ : Planning), σ.allocator.ptr ≠ 0 →
    (σ.runFrom cs).allocator = σ.allocator := by
  induction cs with
  | nil => intro σ _; rfl
  | cons c cs ih =>
    intro σ h
    rw [Planning.runFrom_cons, ih (σ.step c) (by rw [step_of_ptr_ne h]; exact h),
      step_of_ptr_ne h]

/-- C5: when the first `getPtr()` gets a buffer from the runtime, it asked for exactly `peak`
bytes; a later `getPtr()` returns the same pointer without asking again; every later `alloc`
and `free` fails its assertion and leaves the whole state, hence `used`, `peak` and the three
free-block indices, as they were. -/
theorem materialised_forbids_planning (runtimeAlloc : Nat → Nat) (s : Allocator)
    (hs : s.ptr = 0) (hp : runtimeAlloc s.peak ≠ 0) :
    let r := s.getPtr runtimeAlloc
    let m := r.2.2
    r.1 = runtimeAlloc s.peak ∧ r.2.1 = some s.peak ∧
    m.getPtr runtimeAlloc = (r.1, none, m) ∧
    (∀ n, m.alloc n = (none, m)) ∧ (∀ a n, m.free a n = (false, m)) ∧
    (∀ (live : List (Nat × Nat)) (cs : List Call),
      (Planning.runFrom ⟨m, live⟩ cs).allocator = m) ∧
    m.used = s.used ∧ m.peak = s.peak ∧ m.freeBlocks = s.freeBlocks ∧
    m.headAddrToBlockSize = s.headAddrToBlockSize ∧
    m.tailAddrToBlockSize = s.tailAddrToBlockSize := by
  intro r m
  have hr : r = (runtimeAlloc s.peak, some s.peak, { s with ptr := runtimeAlloc s.peak }) := by
    show s.getPtr runtimeAlloc = _
    unfold Allocator.getPtr; rw [if_pos hs]
  have hm : m = { s with ptr := runtimeAlloc s.peak } := by
    show r.2.2 = _; rw [hr]
  have hmp : m.ptr ≠ 0 := by rw [hm]; exact hp
  refine ⟨by rw [hr], by rw [hr], ?_, fun n => alloc_of_ptr_ne hmp n,
    fun a n => free_of_ptr_ne hmp a n, fun live cs => runFrom_of_ptr_ne cs ⟨m, live⟩ hmp,
    by rw [hm], by rw [hm], by rw [hm], by rw [hm], by rw [hm]⟩
  unfold Allocator.getPtr
  rw [if_neg hmp, hr, hm]

theorem materialised_forbids_planning_witness :
    (Planning.run [.alloc 100, .alloc 200]).allocator.ptr = 0 ∧
    (fun _ : Nat => 4096) (Planning.run [.alloc 100, .alloc 200]).allocator.peak ≠ 0 ∧
    (let r := (Planning.run [.alloc 100, .alloc 200]).allocator.getPtr (fun _ => 4096)
     let m := r.2.2
     r.1 = (fun _ : Nat => 4096) (Planning.run [.alloc 100, .alloc 200]).allocator.peak ∧
     r.2.1 = some (Planning.run [.alloc 100, .alloc 200]).allocator.peak ∧
     m.getPtr (fun _ => 4096) = (r.1, none, m) ∧
     (∀ n, m.alloc n = (none, m)) ∧ (∀ a n, m.free a n = (false, m)) ∧
     (∀ (live : List (Nat × Nat)) (cs : List Call),
       (Planning.runFrom ⟨m, live⟩ cs).allocator = m) ∧
     m.used = (Planning.run [.alloc 100, .alloc 200]).allocator.used ∧
     m.peak = (Planning.run [.alloc 100, .alloc 200]).allocator.peak ∧
     m.freeBlocks = (Planning.run [.alloc 100, .alloc 200]).allocator.freeBlocks ∧
     m.headAddrToBlockSize =
       (Planning.run [.alloc 100, .alloc 200]).allocator.headAddrToBlockSize ∧
     m.tailAddrToBlockSize =
       (Planning.run [.alloc 100, .alloc 200]).allocator.tailAddrToBlockSize) :=
  ⟨by decide, by decide,
    materialised_forbids_planning (fun _ => 4096)
      (Planning.run [.alloc 100, .alloc 200]).allocator (by decide) (by decide)⟩

theorem setInsert_ne_nil (b : freeBlockInfo) (l : List freeBlockInfo) : setInsert b l ≠ [] := by
  intro h
  have : b ∈ setInsert b l := mem_setInsert.2 (Or.inl rfl)
  rw [h] at this
  simp at this

theorem getAlignedSize_lt (s : Allocator) (size : Nat) : s.getAlignedSize size < sizeMod := by
  unfold Allocator.getAlignedSize mulW
  exact Nat.mod_lt _ (by unfold sizeMod; omega)

theorem addW_ne_self {addr sz : Nat} (hsz : sz ≠ 0) (hlt : sz < sizeMod) :
    addW addr sz ≠ addr := by
  unfold addW sizeMod at *
  omega

theorem subW_addW_self {addr sz : Nat} (haddr : addr < sizeMod) (hlt : sz < sizeMod) :
    subW (addW addr sz) addr = sz := by
  unfold subW addW sizeMod at *
  omega

/-- C6 (as amended): in the planning phase `free(addr, size)` makes no check that the pair
is a live allocation. For every address and every size whose aligned size is not 0 the call
returns normally, leaves `peak` unchanged, subtracts the aligned size from `used` (wrapping
around below zero) and leaves in the free-block set the block for the freed range: it starts
at `addr - p` and has the size `aligned + p + q` (in `size_t` arithmetic), `p` being the size
the tail-address index records at `addr` (0 when it records none) and `q` the size read from
the head-address index at `addr + aligned`, 0 when that index records nothing there. -/
theorem free_unchecked (s : Allocator) (addr size : Nat) (hs : s.ptr = 0)
    (haddr : addr < sizeMod) (hsz : s.getAlignedSize size ≠ 0) :
    (s.free addr size).1 = true ∧
    (s.free addr size).2.peak = s.peak ∧
    (s.free addr size).2.used = subW s.used (s.getAlignedSize size) ∧
    ∃ q, (s.headAddrToBlockSize (addW addr (s.getAlignedSize size)) = none → q = 0) ∧
      (⟨subW addr ((s.tailAddrToBlockSize addr).getD 0),
        addW (addW (s.getAlignedSize size) ((s.tailAddrToBlockSize addr).getD 0)) q⟩ :
        freeBlockInfo) ∈ (s.free addr size).2.freeBlocks := by
  have hlt := getAlignedSize_lt s size
  have hg : addW addr (s.getAlignedSize size) ≠ addr := addW_ne_self hsz hlt
  have e0 := subW_addW_self haddr hlt
  have h1 : mapSet s.tailAddrToBlockSize (addW addr (s.getAlignedSize size))
      (s.getAlignedSize size) addr = s.tailAddrToBlockSize addr := by
    simp [mapSet, Ne.symm hg]
  have h2 : mapSet s.headAddrToBlockSize addr (s.getAlignedSize size)
      (addW addr (s.getAlignedSize size)) =
      s.headAddrToBlockSize (addW addr (s.getAlignedSize size)) := by
    simp [mapSet, hg]
  have z1 : subW addr 0 = addr := by unfold subW sizeMod at *; omega
  have z2 : ∀ x, x < sizeMod → addW x 0 = x := by
    intro x hx; unfold addW sizeMod at *; omega
  have z3 : ∀ x y, addW x y < sizeMod := by
    intro x y; unfold addW; exact Nat.mod_lt _ (by unfold sizeMod; omega)
  refine ⟨?_, ?_, ?_, ?_⟩
  · unfold Allocator.free
    simp only [hs, ne_eq, not_true_eq_false, if_false, hg]
  · unfold Allocator.free
    simp only [hs, ne_eq, not_true_eq_false, if_false, hg]
  · unfold Allocator.free
    simp only [hs, ne_eq, not_true_eq_false, if_false, hg]
  · unfold Allocator.free
    simp only [hs, ne_eq, not_true_eq_false, if_false, hg, e0, h1, h2]
    cases hp : s.tailAddrToBlockSize addr with
    | none =>
      cases hq : s.headAddrToBlockSize (addW addr (s.getAlignedSize size)) with
      | none =>
        refine ⟨0, fun _ => rfl, mem_setInsert.2 (Or.inl ?_)⟩
        simp only [Option.getD_none, z1, z2 _ hlt]
      | some v =>
        refine ⟨v, fun h => (by cases h), mem_setInsert.2 (Or.inl ?_)⟩
        simp only [Option.getD_none, z1, z2 _ hlt, h2, hq, Option.getD_some]
    | some p =>
      cases hq : s.headAddrToBlockSize (addW addr (s.getAlignedSize size)) with
      | none =>
        refine ⟨0, fun _ => rfl, mem_setInsert.2 (Or.inl ?_)⟩
        simp only [Option.getD_some, z2 _ (z3 _ _)]
      | some v =>
        exact ⟨_, fun h => (by cases h), mem_setInsert.2 (Or.inl rfl)⟩

theorem free_unchecked_witness :
    (Allocator.init.ptr = 0 ∧ 0 < sizeMod ∧ Allocator.init.getAlignedSize 8 ≠ 0) ∧
    (Allocator.init.free 0 8).1 = true ∧
    (Allocator.init.free 0 8).2.peak = Allocator.init.peak ∧
    (Allocator.init.free 0 8).2.used =
      subW Allocator.init.used (Allocator.init.getAlignedSize 8) ∧
    ∃ q, (Allocator.init.headAddrToBlockSize
        (addW 0 (Allocator.init.getAlignedSize 8)) = none → q = 0) ∧
      (⟨subW 0 ((Allocator.init.tailAddrToBlockSize 0).getD 0),
        addW (addW (Allocator.init.getAlignedSize 8)
          ((Allocator.init.tailAddrToBlockSize 0).getD 0)) q⟩ :
        freeBlockInfo) ∈ (Allocator.init.free 0 8).2.freeBlocks :=
  ⟨⟨rfl, by decide, by decide⟩,
    free_unchecked Allocator.init 0 8 rfl (by decide) (by decide)⟩

/-- C6 (as stated) fails: a `free` of a range that was never allocated, of a range that has
already been freed, and with a size other than the allocated one all return normally and
change `used` or the free-block set. -/
theorem free_unchecked_counterexample :
    ((Allocator.init.free 0 8).1 = true ∧
      Allocator.init.freeBlocks = [] ∧
      (Allocator.init.free 0 8).2.freeBlocks = [⟨0, 8⟩] ∧
      Allocator.init.used = 0 ∧
      (Allocator.init.free 0 8).2.used = 18446744073709551608) ∧
    (((Planning.run [.alloc 8, .free 0 8]).allocator.free 0 8).1 = true ∧
      (Planning.run [.alloc 8, .free 0 8]).allocator.used = 0 ∧
      ((Planning.run [.alloc 8, .free 0 8]).allocator.free 0 8).2.used =
        18446744073709551608) ∧
    (((Planning.run [.alloc 16]).allocator.free 0 8).1 = true ∧
      (Planning.run [.alloc 16]).live = [(0, 16)] ∧
      (Planning.run [.alloc 16]).allocator.freeBlocks = [] ∧
      ((Planning.run [.alloc 16]).allocator.free 0 8).2.freeBlocks = [⟨0, 8⟩] ∧
      ((Planning.run [.alloc 16]).allocator.free 0 8).2.used = 8) := by
  refine ⟨⟨by decide, by decide, by decide, by decide, by decide⟩,
    ⟨by decide, by decide, by decide⟩,
    ⟨by decide, by decide, by decide, by decide, by decide⟩⟩

namespace GraphObj

/-- What one visit does: nothing, or one not yet flagged operator is appended. -/
theorem topoVisit_cases (g : GraphObj) (st : TopoState) (op : Nat) :
    (g.topoReady st.flags op = false ∧ g.topoVisit st op = st) ∨
    (g.topoReady st.flags op = true ∧
      g.topoVisit st op = ⟨st.sorted ++ [op], op :: st.flags, true⟩) := by
  unfold topoVisit
  cases h : g.topoReady st.flags op
  · left; simp
  · right; simp

theorem topoReady_iff (g : GraphObj) (flags : List Nat) (op : Nat) :
    g.topoReady flags op = true ↔ op ∉ flags ∧
      ∀ t ∈ (g.opObj op).inputs, ∀ p, (g.tensorObj t).source = some p → p ∈ flags := by
  unfold topoReady
  simp only [Bool.and_eq_true, Bool.not_eq_true', List.all_eq_true]
  constructor
  · rintro ⟨h1, h2⟩
    refine ⟨by simpa using h1, ?_⟩
    intro t ht p hp
    have := h2 t ht
    rw [hp] at this
    simpa using this
  · rintro ⟨h1, h2⟩
    refine ⟨by simpa using h1, ?_⟩
    intro t ht
    cases hs : (g.tensorObj t).source with
    | none => rfl
    | some p => simpa using h2 t ht p hs

theorem ScanLe.refl (st : TopoState) : ScanLe st st :=
  ⟨le_refl _, fun _ h => h, fun h => h, fun h => Or.inl h⟩

theorem ScanLe.trans {a b c : TopoState} (h1 : ScanLe a b) (h2 : ScanLe b c) : ScanLe a c := by
  refine ⟨le_trans h1.len h2.len, fun x hx => h2.flags x (h1.flags x hx),
    fun h => h2.modified (h1.modified h), ?_⟩
  intro h
  rcases h2.grown h with h3 | h3
  · rcases h1.grown h3 with h4 | h4
    · exact Or.inl h4
    · exact Or.inr (lt_of_lt_of_le h4 h2.len)
  · exact Or.inr (lt_of_le_of_lt h1.len h3)

theorem topoVisit_le (g : GraphObj) (st : TopoState) (op : Nat) :
    ScanLe st (g.topoVisit st op) := by
  rcases g.topoVisit_cases st op with ⟨-, h⟩ | ⟨-, h⟩
  · rw [h]; exact ScanLe.refl st
  · rw [h]
    exact ⟨by simp, fun x hx => List.mem_cons_of_mem _ hx, fun _ => rfl,
      fun _ => Or.inr (by simp)⟩

theorem foldl_topoVisit_le (g : GraphObj) (l : List Nat) :
    ∀ st, ScanLe st (l.foldl g.topoVisit st) := by
  induction l with
  | nil => intro st; exact ScanLe.refl st
  | cons op l ih =>
    intro st
    exact (g.topoVisit_le st op).trans (ih _)

/-- A pass that reports a modification has made `sorted` longer. -/
theorem topoPass_length (g : GraphObj) (st : TopoState) :
    st.sorted.length ≤ (g.topoPass st).sorted.length ∧
    ((g.topoPass st).modified = true → st.sorted.length < (g.topoPass st).sorted.length) := by
  have h := g.foldl_topoVisit_le g.ops { st with modified := false }
  refine ⟨h.len, ?_⟩
  intro hm
  rcases h.grown hm with h1 | h1
  · cases h1
  · exact h1

/-- With at least as many passes allowed as operators are missing from `sorted`, plus one,
the loop ends. -/
theorem topoLoop_isSome (g : GraphObj) : ∀ (fuel : Nat) (st : TopoState),
    g.ops.length - st.sorted.length < fuel → ∃ r, g.topoLoop fuel st = some r := by
  intro fuel
  induction fuel with
  | zero => intro st h; omega
  | succ fuel ih =>
    intro st h
    unfold topoLoop
    by_cases hlt : st.sorted.length < g.ops.length
    · simp only [hlt, if_true]
      cases hm : (g.topoPass st).modified with
      | false => exact ⟨none, by simp⟩
      | true =>
        have := (g.topoPass_length st).2 hm
        simpa using ih (g.topoPass st) (by omega)
    · simp only [hlt, if_false]
      exact ⟨_, rfl⟩

/-- The loop of `topo_sort` always ends within `ops.size() + 1` passes: `topo_sort` returns. -/
theorem topo_sort_terminates (g : GraphObj) : ∃ r, g.topo_sort = some r := by
  unfold topo_sort
  by_cases hs : g.sorted = true
  · simp [hs]
  · simp only [hs, Bool.false_eq_true, if_false]
    obtain ⟨r, hr⟩ := g.topoLoop_isSome (g.ops.length + 1) ⟨[], [], false⟩ (by simp)
    rw [hr]
    cases r with
    | none => exact ⟨_, rfl⟩
    | some l => exact ⟨_, rfl⟩

/-- A property of the scan state kept by every visit holds for the state the loop ends with. -/
theorem topoLoop_invariant (g : GraphObj) (I : TopoState → Prop)
    (hvisit : ∀ st op, op ∈ g.ops → I st → I (g.topoVisit st op))
    (hreset : ∀ st, I st → I { st with modified := false }) :
    ∀ (fuel : Nat) (st : TopoState) (l : List Nat), I st →
      g.topoLoop fuel st = some (some l) →
      ∃ st', I st' ∧ st'.sorted = l ∧ g.ops.length ≤ l.length := by
  have hfold : ∀ (l : List Nat), (∀ op ∈ l, op ∈ g.ops) → ∀ st, I st →
      I (l.foldl g.topoVisit st) := by
    intro l
    induction l with
    | nil => intro _ st h; exact h
    | cons op l ih =>
      intro hl st h
      exact ih (fun x hx => hl x (List.mem_cons_of_mem _ hx)) _
        (hvisit st op (hl op (List.mem_cons_self _ _)) h)
  intro fuel
  induction fuel with
  | zero => intro st l _ h; simp [topoLoop] at h
  | succ fuel ih =>
    intro st l hI h
    unfold topoLoop at h
    by_cases hlt : st.sorted.length < g.ops.length
    · simp only [hlt, if_true] at h
      cases hm : (g.topoPass st).modified with
      | false => simp [hm] at h
      | true =>
        simp only [hm, Bool.not_true, Bool.false_eq_true, if_false] at h
        exact ih (g.topoPass st) l (hfold g.ops (fun _ h => h) _ (hreset st hI)) h
    · simp only [hlt, if_false, Option.some.injEq] at h
      exact ⟨st, hI, h, by rw [← h]; omega⟩

theorem scanOk_init (g : GraphObj) : g.ScanOk ⟨[], [], false⟩ :=
  ⟨List.nodup_nil, by simp, by simp, by intro k o h; simp at h⟩

theorem topoOrdered_append (g : GraphObj) {l : List Nat} {op : Nat} (h : g.TopoOrdered l)
    (hop : ∀ t ∈ (g.opObj op).inputs, ∀ p, (g.tensorObj t).source = some p → p ∈ l) :
    g.TopoOrdered (l ++ [op]) := by
  intro k o hk t ht p hp
  rcases Nat.lt_trichotomy k l.length with hlt | heq | hgt
  · rw [List.getElem?_append_left hlt] at hk
    rw [List.take_append_of_le_length (le_of_lt hlt)]
    exact h k o hk t ht p hp
  · subst heq
    rw [List.getElem?_append_right (le_refl _)] at hk
    simp only [Nat.sub_self, List.getElem?_cons_zero, Option.some.injEq] at hk
    subst hk
    rw [List.take_append_of_le_length (le_refl _), List.take_length]
    exact hop t ht p hp
  · rw [List.getElem?_eq_none (by simp; omega)] at hk
    cases hk

theorem scanOk_visit (g : GraphObj) (st : TopoState) (op : Nat) (hop : op ∈ g.ops)
    (h : g.ScanOk st) : g.ScanOk (g.topoVisit st op) := by
  rcases g.topoVisit_cases st op with ⟨-, he⟩ | ⟨hr, he⟩
  · rw [he]; exact h
  · rw [he]
    rw [topoReady_iff] at hr
    refine ⟨?_, ?_, ?_, ?_⟩
    · show (st.sorted ++ [op]).Nodup
      rw [List.nodup_append]
      refine ⟨h.nodup, List.nodup_singleton _, ?_⟩
      intro x hx hx'
      rw [List.mem_singleton] at hx'
      subst hx'
      exact hr.1 ((h.flags x).2 hx)
    · intro x hx
      rcases List.mem_append.1 hx with h1 | h1
      · exact h.sub x h1
      · rw [List.mem_singleton] at h1; rw [h1]; exact hop
    · intro x
      show x ∈ op :: st.flags ↔ x ∈ st.sorted ++ [op]
      rw [List.mem_cons, List.mem_append, List.mem_singleton, h.flags x]
      tauto
    · exact g.topoOrdered_append h.ordered
        (fun t ht p hp => (h.flags p).1 (hr.2 t ht p hp))

theorem scanOk_reset (g : GraphObj) (st : TopoState) (h : g.ScanOk st) :
    g.ScanOk { st with modified := false } :=
  ⟨h.nodup, h.sub, h.flags, h.ordered⟩

/-- An operator on a cycle of the producer relation has a producer on a cycle. -/
theorem cycle_producer (g : GraphObj) {o : Nat} (h : Relation.TransGen g.Produces o o) :
    ∃ p, g.Produces p o ∧ Relation.TransGen g.Produces p p := by
  obtain ⟨p, h1, h2⟩ := Relation.TransGen.tail'_iff.1 h
  exact ⟨p, h2, Relation.TransGen.head' h2 h1⟩

theorem cycle_mem_ops (g : GraphObj) {o : Nat} (h : Relation.TransGen g.Produces o o) :
    o ∈ g.ops := by
  obtain ⟨p, h1, -⟩ := g.cycle_producer h
  exact h1.1

/-- No operator on a cycle is ever flagged. -/
theorem noCycle_visit (g : GraphObj) (st : TopoState) (op : Nat)
    (h : ∀ x ∈ st.flags, ¬ Relation.TransGen g.Produces x x) :
    ∀ x ∈ (g.topoVisit st op).flags, ¬ Relation.TransGen g.Produces x x := by
  rcases g.topoVisit_cases st op with ⟨-, he⟩ | ⟨hr, he⟩
  · rw [he]; exact h
  · rw [he]
    rw [topoReady_iff] at hr
    intro x hx
    rcases List.mem_cons.1 hx with h1 | h1
    · subst h1
      intro hc
      obtain ⟨p, ⟨-, t, ht, hp⟩, hpc⟩ := g.cycle_producer hc
      exact h p (hr.2 t ht p hp) hpc
    · exact h x h1

theorem length_lt_of_nodup_of_not_mem {l ops : List Nat} {o : Nat} (hnd : l.Nodup)
    (hsub : ∀ x ∈ l, x ∈ ops) (ho : o ∈ ops) (hno : o ∉ l) : l.length < ops.length := by
  have h1 : (o :: l).Nodup := List.nodup_cons.2 ⟨hno, hnd⟩
  have h2 : List.Subperm (o :: l) ops := h1.subperm (by
    intro x hx
    rcases List.mem_cons.1 hx with h | h
    · rw [h]; exact ho
    · exact hsub x h)
  have := h2.length_le
  simp at this
  omega

/-- C8: on a graph whose `sorted` flag is false and whose producer relation contains a cycle,
`topo_sort` returns `false` and leaves the graph, its `sorted` flag and its operator sequence
included, exactly as it was. -/
theorem topo_sort_cycle (g : GraphObj) (hs : g.sorted = false)
    (hc : ∃ o, Relation.TransGen g.Produces o o) :
    g.topo_sort = some (false, g) := by
  obtain ⟨o, ho⟩ := hc
  unfold topo_sort
  simp only [hs, Bool.false_eq_true, if_false]
  obtain ⟨r, hr⟩ := g.topoLoop_isSome (g.ops.length + 1) ⟨[], [], false⟩ (by simp)
  rw [hr]
  cases r with
  | none => rfl
  | some l =>
    exfalso
    obtain ⟨st', ⟨h1, h2⟩, h3, h4⟩ := g.topoLoop_invariant
      (fun st => g.ScanOk st ∧ ∀ x ∈ st.flags, ¬ Relation.TransGen g.Produces x x)
      (fun st op hop h => ⟨g.scanOk_visit st op hop h.1, g.noCycle_visit st op h.2⟩)
      (fun st h => ⟨g.scanOk_reset st h.1, h.2⟩)
      (g.ops.length + 1) ⟨[], [], false⟩ l ⟨g.scanOk_init, by simp⟩ hr
    have hno : o ∉ st'.sorted := fun hin => h2 o ((h1.flags o).2 hin) ho
    have := length_lt_of_nodup_of_not_mem h1.nodup h1.sub (g.cycle_mem_ops ho) hno
    rw [h3] at this
    omega

theorem fuidsDistinct_nodup : ∀ (l seen : List Nat), fuidsDistinct l seen = true →
    l.Nodup ∧ ∀ x ∈ l, x ∉ seen := by
  intro l
  induction l with
  | nil => intro seen _; exact ⟨List.nodup_nil, by simp⟩
  | cons f fs ih =>
    intro seen h
    unfold fuidsDistinct at h
    by_cases hf : seen.contains f = true
    · rw [if_pos hf] at h; cases h
    · rw [if_neg hf] at h
      obtain ⟨h1, h2⟩ := ih (f :: seen) h
      have hf' : f ∉ seen := by simpa using hf
      refine ⟨List.nodup_cons.2 ⟨fun hin => (h2 f hin) (List.mem_cons_self _ _), h1⟩, ?_⟩
      intro x hx
      rcases List.mem_cons.1 hx with h3 | h3
      · rw [h3]; exact hf'
      · exact fun hin => h2 x h3 (List.mem_cons_of_mem _ hin)

theorem valid_of_checkValid (g : GraphObj) (h : g.checkValid = true) : g.Valid := by
  unfold checkValid at h
  simp only [Bool.and_eq_true, List.all_eq_true, Bool.not_eq_true', Bool.and_eq_false_imp,
    beq_iff_eq, List.length_eq_zero] at h
  obtain ⟨⟨h1, h2⟩, h3⟩ := h
  refine ⟨?_, ?_, ?_, ?_, ?_, ?_, ?_, (fuidsDistinct_nodup _ _ h3).1⟩
  · intro t ht hc
    have := (h1 t ht).1.1 hc.1
    rw [hc.2] at this
    simp at this
  · intro t ht op hop
    simpa using (h1 t ht).1.2 op hop
  · intro t ht op hop
    have := (h1 t ht).2
    rw [hop] at this
    simpa using this
  · intro op hop t ht; simpa using (h2 op hop).1.1.1 t ht
  · intro op hop t ht; simpa using (h2 op hop).1.1.2 t ht
  · intro op hop t ht; simpa using (h2 op hop).1.2 t ht
  · intro op hop t ht; simpa using (h2 op hop).2 t ht

theorem Valid.tensors_nodup {g : GraphObj} (h : g.Valid) : g.tensors.Nodup :=
  List.Nodup.of_map _ h.fuids

/-- In a valid graph the producers of the operators of the graph are operators of the
graph. -/
theorem Valid.produces_mem {g : GraphObj} (h : g.Valid) {p o : Nat} (hp : g.Produces p o) :
    p ∈ g.ops := by
  obtain ⟨ho, t, ht, hs⟩ := hp
  exact h.source t (h.inputs o ho t ht) p hs

/-- Among the operators not yet flagged there is one all of whose producers are flagged. -/
theorem exists_ready (g : GraphObj) (hv : g.Valid) (hac : g.Acyclic) (flags : List Nat)
    (hex : ∃ o ∈ g.ops, o ∉ flags) :
    ∃ m ∈ g.ops, m ∉ flags ∧ ∀ p, g.Produces p m → p ∈ flags := by
  let r : {o // o ∈ g.ops} → {o // o ∈ g.ops} → Prop :=
    fun a b => Relation.TransGen g.Produces a.1 b.1
  haveI : IsTrans {o // o ∈ g.ops} r := ⟨fun a b c h1 h2 => Relation.TransGen.trans h1 h2⟩
  haveI : IsIrrefl {o // o ∈ g.ops} r := ⟨fun a h => hac a.1 h⟩
  have wf : WellFounded r := Finite.wellFounded_of_trans_of_irrefl r
  obtain ⟨o, ho, hof⟩ := hex
  obtain ⟨m, hm, hmin⟩ := wf.has_min {a | a.1 ∉ flags} ⟨⟨o, ho⟩, hof⟩
  refine ⟨m.1, m.2, hm, ?_⟩
  intro p hp
  by_contra hpf
  exact hmin ⟨p, hv.produces_mem hp⟩ hpf (Relation.TransGen.single hp)

theorem foldl_modified_of_modified (g : GraphObj) (l : List Nat) (st : TopoState)
    (h : st.modified = true) : (l.foldl g.topoVisit st).modified = true :=
  (g.foldl_topoVisit_le l st).modified h

/-- A scan that meets an operator whose producers are all flagged reports a modification. -/
theorem foldl_modified_of_ready (g : GraphObj) (m : Nat) (l : List Nat) (hm : m ∈ l) :
    ∀ st : TopoState, (∀ p, g.Produces p m → p ∈ st.flags) → m ∈ g.ops →
      (m ∈ st.flags → st.modified = true) → (l.foldl g.topoVisit st).modified = true := by
  induction l with
  | nil => simp at hm
  | cons op l ih =>
    intro st hp hmo hfl
    rw [List.foldl_cons]
    by_cases hop : op = m
    · subst hop
      apply g.foldl_modified_of_modified
      rcases g.topoVisit_cases st op with ⟨hr, he⟩ | ⟨-, he⟩
      · rw [he]
        apply hfl
        by_contra hno
        have : g.topoReady st.flags op = true := by
          rw [topoReady_iff]
          exact ⟨hno, fun t ht p hs => hp p ⟨hmo, t, ht, hs⟩⟩
        rw [this] at hr; cases hr
      · rw [he]
    · have hm' : m ∈ l := by
        rcases List.mem_cons.1 hm with h | h
        · exact absurd h.symm hop
        · exact h
      apply ih hm'
      · intro p hpm
        exact (g.topoVisit_le st op).flags p (hp p hpm)
      · exact hmo
      · intro hin
        rcases g.topoVisit_cases st op with ⟨-, he⟩ | ⟨-, he⟩
        · rw [he] at hin ⊢; exact hfl hin
        · rw [he]

/-- On a valid acyclic graph a pass that starts with operators still missing reports a
modification. -/
theorem topoPass_modified (g : GraphObj) (hv : g.Valid) (hnd : g.ops.Nodup) (hac : g.Acyclic)
    (st : TopoState) (hok : g.ScanOk st) (hlt : st.sorted.length < g.ops.length) :
    (g.topoPass st).modified = true := by
  have hex : ∃ o ∈ g.ops, o ∉ st.flags := by
    by_contra hno
    simp only [not_exists, not_and, not_not] at hno
    have hsub : List.Subperm g.ops st.sorted :=
      hnd.subperm (fun x hx => (hok.flags x).1 (hno x hx))
    have h1 := hsub.length_le
    omega
  obtain ⟨m, hm, hmf, hmp⟩ := g.exists_ready hv hac st.flags hex
  exact g.foldl_modified_of_ready m g.ops hm { st with modified := false } hmp hm
    (fun hin => absurd hin hmf)

theorem scanOk_pass (g : GraphObj) (st : TopoState) (h : g.ScanOk st) :
    g.ScanOk (g.topoPass st) := by
  have hfold : ∀ (l : List Nat), (∀ op ∈ l, op ∈ g.ops) → ∀ st, g.ScanOk st →
      g.ScanOk (l.foldl g.topoVisit st) := by
    intro l
    induction l with
    | nil => intro _ st h; exact h
    | cons op l ih =>
      intro hl st h
      exact ih (fun x hx => hl x (List.mem_cons_of_mem _ hx)) _
        (g.scanOk_visit st op (hl op (List.mem_cons_self _ _)) h)
  exact hfold g.ops (fun _ h => h) _ (g.scanOk_reset st h)

/-- On a valid acyclic graph the loop of `topo_sort` ends with a complete order. -/
theorem topoLoop_acyclic (g : GraphObj) (hv : g.Valid) (hnd : g.ops.Nodup) (hac : g.Acyclic) :
    ∀ (fuel : Nat) (st : TopoState), g.ScanOk st → g.ops.length - st.sorted.length < fuel →
      ∃ l, g.topoLoop fuel st = some (some l) ∧ l.Nodup ∧ (∀ x ∈ l, x ∈ g.ops) ∧
        g.TopoOrdered l ∧ g.ops.length ≤ l.length := by
  intro fuel
  induction fuel with
  | zero => intro st _ h; omega
  | succ fuel ih =>
    intro st hok h
    unfold topoLoop
    by_cases hlt : st.sorted.length < g.ops.length
    · simp only [hlt, if_true]
      have hm := g.topoPass_modified hv hnd hac st hok hlt
      have hl := (g.topoPass_length st).2 hm
      simp only [hm, Bool.not_true, Bool.false_eq_true, if_false]
      exact ih (g.topoPass st) (g.scanOk_pass st hok) (by omega)
    · simp only [hlt, if_false]
      exact ⟨st.sorted, rfl, hok.nodup, hok.sub, hok.ordered, by omega⟩

theorem acyclic_of_rankOk (g : GraphObj) (rank : Nat → Nat) (h : g.rankOk rank = true) :
    g.Acyclic := by
  have hedge : ∀ p o, g.Produces p o → rank p < rank o := by
    rintro p o ⟨ho, t, ht, hs⟩
    unfold rankOk at h
    rw [List.all_eq_true] at h
    have h1 := h o ho
    rw [List.all_eq_true] at h1
    have h2 := h1 t ht
    rw [hs] at h2
    simpa using h2
  have htrans : ∀ a b, Relation.TransGen g.Produces a b → rank a < rank b := by
    intro a b hab
    induction hab with
    | single h1 => exact hedge _ _ h1
    | tail _ h2 ih => exact lt_trans ih (hedge _ _ h2)
  intro o ho
  exact lt_irrefl _ (htrans o o ho)

/-- C7: on a structurally valid graph (`checkValid` passes, no operator is listed twice, a
`sorted` flag that is set is truthful) whose producer relation is acyclic, `topo_sort`
returns true and sets the `sorted` flag; the operator sequence afterwards is a reordering of
the one before, in which every operator comes after all operators that produce any of its
inputs; nothing else of the graph changes. -/
theorem topo_sort_acyclic (g : GraphObj) (hvalid : g.checkValid = true) (hnd : g.ops.Nodup)
    (hflag : g.sorted = true → g.TopoOrdered g.ops) (hac : g.Acyclic) :
    ∃ g', g.topo_sort = some (true, g') ∧ g'.sorted = true ∧ g'.ops.Perm g.ops ∧
      g'.TopoOrdered g'.ops ∧ g'.tensors = g.tensors ∧ g'.tensorObj = g.tensorObj ∧
      g'.opObj = g.opObj ∧ g'.allocator = g.allocator := by
  unfold topo_sort
  by_cases hs : g.sorted = true
  · simp only [hs, if_true]
    exact ⟨g, rfl, hs, List.Perm.refl _, hflag hs, rfl, rfl, rfl, rfl⟩
  · simp only [hs, Bool.false_eq_true, if_false]
    obtain ⟨l, h1, h2, h3, h4, h5⟩ := g.topoLoop_acyclic (valid_of_checkValid g hvalid) hnd hac
      (g.ops.length + 1) ⟨[], [], false⟩ g.scanOk_init (by simp)
    rw [h1]
    exact ⟨_, rfl, rfl, (h2.subperm h3).perm_of_length_le h5, h4, rfl, rfl, rfl, rfl⟩

theorem loopGraph_cycle : Relation.TransGen loopGraph.Produces 1 1 :=
  Relation.TransGen.tail
    (Relation.TransGen.single (show loopGraph.Produces 1 2 from
      ⟨by decide, 1, by decide, by decide⟩))
    (show loopGraph.Produces 2 1 from ⟨by decide, 2, by decide, by decide⟩)

theorem topo_sort_cycle_witness :
    loopGraph.sorted = false ∧ (∃ o, Relation.TransGen loopGraph.Produces o o) ∧
      loopGraph.topo_sort = some (false, loopGraph) :=
  ⟨rfl, ⟨1, loopGraph_cycle⟩, topo_sort_cycle loopGraph rfl ⟨1, loopGraph_cycle⟩⟩

theorem topo_sort_acyclic_witness :
    ({ chainGraph 100 200 100 with ops := [2, 1] } : GraphObj).checkValid = true ∧
    ({ chainGraph 100 200 100 with ops := [2, 1] } : GraphObj).ops.Nodup ∧
    (({ chainGraph 100 200 100 with ops := [2, 1] } : GraphObj).sorted = true →
      ({ chainGraph 100 200 100 with ops := [2, 1] } : GraphObj).TopoOrdered [2, 1]) ∧
    ({ chainGraph 100 200 100 with ops := [2, 1] } : GraphObj).Acyclic ∧
    ∃ g', ({ chainGraph 100 200 100 with ops := [2, 1] } : GraphObj).topo_sort =
        some (true, g') ∧ g'.sorted = true ∧ g'.ops.Perm [2, 1] ∧
      g'.TopoOrdered g'.ops ∧ g'.tensors = [1, 2, 3] ∧
      g'.tensorObj = (chainGraph 100 200 100).tensorObj ∧
      g'.opObj = (chainGraph 100 200 100).opObj ∧ g'.allocator = Allocator.init :=
  ⟨by decide, by decide, (fun h => absurd h (by decide)),
    acyclic_of_rankOk _ id (by decide),
    topo_sort_acyclic { chainGraph 100 200 100 with ops := [2, 1] } (by decide) (by decide)
      (fun h => absurd h (by decide)) (acyclic_of_rankOk _ id (by decide))⟩

theorem sum_map_erase_add {α : Type} [DecidableEq α] (f : α → Nat) {l : List α} {a : α}
    (h : a ∈ l) : ((l.erase a).map f).sum + f a = (l.map f).sum := by
  induction l with
  | nil => simp at h
  | cons y ys ih =>
    by_cases hy : y = a
    · subst hy; simp; omega
    · have h' : a ∈ ys := by
        rcases List.mem_cons.1 h with h1 | h1
        · exact absurd h1.symm hy
        · exact h1
      have : (y :: ys).erase a = y :: ys.erase a := by
        rw [List.erase_cons_tail]
        simpa using hy
      rw [this]
      have := ih h'
      simp at *; omega

theorem sum_map_le_of_nodup_subset {α : Type} [DecidableEq α] (f : α → Nat) :
    ∀ (A T : List α), A.Nodup → (∀ t ∈ A, t ∈ T) → (A.map f).sum ≤ (T.map f).sum := by
  intro A
  induction A with
  | nil => intro T _ _; simp
  | cons a A ih =>
    intro T hnd hsub
    rw [List.nodup_cons] at hnd
    have ha : a ∈ T := hsub a (List.mem_cons_self _ _)
    have h1 := sum_map_erase_add f ha
    have h2 := ih (T.erase a) hnd.2 (by
      intro t ht
      have hne : t ≠ a := fun he => hnd.1 (he ▸ ht)
      exact (List.mem_erase_of_ne hne).2 (hsub t (List.mem_cons_of_mem _ ht)))
    simp only [List.map_cons, List.sum_cons]
    omega

theorem le_sum_map_of_mem {α : Type} (f : α → Nat) {l : List α} {a : α} (h : a ∈ l) :
    f a ≤ (l.map f).sum := by
  induction l with
  | nil => simp at h
  | cons y ys ih =>
    rcases List.mem_cons.1 h with rfl | h1
    · simp
    · have := ih h1; simp at *; omega

/-- Fewer occurrences to come need fewer tensors. -/
theorem PlanInv.mono {g : GraphObj} {A fut fut' : List Nat} {al : Allocator}
    {offsets : AddrMap} (h : g.PlanInv A fut al offsets)
    (hn : ∀ t, g.Needed fut' t → g.Needed fut t) : g.PlanInv A fut' al offsets := by
  obtain ⟨live, h1, h2⟩ := h.held
  exact ⟨h.nodup, h.sub, h.peakLe, h.offs, ⟨live, h1, fun t ht hnt => h2 t ht (hn t hnt)⟩,
    fun t ht u hu hne h3 h4 => h.sep t ht u hu hne (hn t h3) (hn u h4), h.pairs⟩

/-- Allocating a tensor that has not been allocated yet. -/
theorem PlanInv.alloc {g : GraphObj} {A fut : List Nat} {al : Allocator} {offsets : AddrMap}
    (h : g.PlanInv A fut al offsets) {t : Nat} (ht : t ∈ g.tensors) (hnew : t ∉ A)
    (hpos : 0 < (g.tensorObj t).getBytes)
    (hfit : (g.tensors.map g.alignedBytes).sum < sizeMod)
    (hlive : ∀ x ∈ A, (∃ τ, g.LiveAt g.ops t τ ∧ g.LiveAt g.ops x τ) → g.Needed fut x) :
    ∃ off al', al.alloc (g.tensorObj t).getBytes = (some off, al') ∧
      g.PlanInv (t :: A) fut al' (mapSet offsets t off) := by
  obtain ⟨live, hinv, hheld⟩ := h.held
  have hnd : (t :: A).Nodup := List.nodup_cons.2 ⟨hnew, h.nodup⟩
  have hsub : ∀ x ∈ t :: A, x ∈ g.tensors := by
    intro x hx
    rcases List.mem_cons.1 hx with h1 | h1
    · rw [h1]; exact ht
    · exact h.sub x h1
  have hsum := sum_map_le_of_nodup_subset g.alignedBytes (t :: A) g.tensors hnd hsub
  simp only [List.map_cons, List.sum_cons] at hsum
  have hpl := h.peakLe
  have hab : g.alignedBytes t = alignUp (g.tensorObj t).getBytes := rfl
  obtain ⟨off, h1, h2, h3, h4⟩ := inv_alloc hinv hpos (by omega)
  refine ⟨off, (al.alloc (g.tensorObj t).getBytes).2, ?_, ?_⟩
  · rw [← h1]
  have hoff : ∀ x ∈ A, mapSet offsets t off x = offsets x := by
    intro x hx
    have : x ≠ t := fun he => hnew (he ▸ hx)
    simp [mapSet, this]
  have hofft : mapSet offsets t off t = some off := by simp [mapSet]
  -- the new range is apart from every needed tensor
  have hapart : ∀ x ∈ A, g.Needed fut x → g.Apart (mapSet offsets t off) t x := by
    intro x hx hnx a b ha hb
    rw [hofft] at ha
    rw [hoff x hx] at hb
    obtain ⟨ox, hox, hmem⟩ := hheld x hx hnx
    rw [hox] at hb
    have ha' : off = a := Option.some.inj ha
    have hb' : ox = b := Option.some.inj hb
    subst ha' hb'
    have := (List.pairwise_cons.1 h2.liveSep).1 _ hmem
    simpa [liveEnd, alignedBytes] using this
  have hsymm : ∀ x y, g.Apart (mapSet offsets t off) x y → g.Apart (mapSet offsets t off) y x := by
    intro x y hxy a b ha hb
    exact (hxy b a hb ha).symm
  refine ⟨hnd, hsub, ?_, ?_, ?_, ?_, ?_⟩
  · simp only [List.map_cons, List.sum_cons]; omega
  · intro x hx
    rcases List.mem_cons.1 hx with h5 | h5
    · rw [h5]; exact ⟨off, hofft⟩
    · rw [hoff x h5]; exact h.offs x h5
  · refine ⟨_, h2, ?_⟩
    intro x hx hnx
    rcases List.mem_cons.1 hx with h5 | h5
    · rw [h5]; exact ⟨off, hofft, List.mem_cons_self _ _⟩
    · rw [hoff x h5]
      obtain ⟨ox, hox, hmem⟩ := hheld x h5 hnx
      exact ⟨ox, hox, List.mem_cons_of_mem _ hmem⟩
  · intro x hx y hy hne hnx hny
    rcases List.mem_cons.1 hx with h5 | h5 <;> rcases List.mem_cons.1 hy with h6 | h6
    · exact absurd (h5.trans h6.symm) hne
    · rw [h5]; exact hapart y h6 hny
    · rw [h6]; exact hsymm _ _ (hapart x h5 hnx)
    · intro a b ha hb
      rw [hoff x h5] at ha
      rw [hoff y h6] at hb
      exact h.sep x h5 y h6 hne hnx hny a b ha hb
  · intro x hx y hy hne hov
    rcases List.mem_cons.1 hx with h5 | h5 <;> rcases List.mem_cons.1 hy with h6 | h6
    · exact absurd (h5.trans h6.symm) hne
    · rw [h5] at hov ⊢
      exact hapart y h6 (hlive y h6 hov)
    · rw [h6] at hov ⊢
      obtain ⟨τ, h7, h8⟩ := hov
      exact hsymm _ _ (hapart x h5 (hlive x h5 ⟨τ, h8, h7⟩))
    · intro a b ha hb
      rw [hoff x h5] at ha
      rw [hoff y h6] at hb
      exact h.pairs x h5 y h6 hne hov a b ha hb

/-- Freeing a tensor that is not needed any more. -/
theorem PlanInv.free {g : GraphObj} {A fut fut' : List Nat} {al : Allocator}
    {offsets : AddrMap} (h : g.PlanInv A fut al offsets) {t : Nat} (ht : t ∈ A)
    (hneed : g.Needed fut t) (hdone : ¬ g.Needed fut' t)
    (hn : ∀ x, g.Needed fut' x → g.Needed fut x)
    (hfit : (g.tensors.map g.alignedBytes).sum < sizeMod) :
    ∃ off al', offsets t = some off ∧
      al.free off (g.tensorObj t).getBytes = (true, al') ∧ g.PlanInv A fut' al' offsets := by
  obtain ⟨live, hinv, hheld⟩ := h.held
  obtain ⟨off, hoff, hmem⟩ := hheld t ht hneed
  have hsum := sum_map_le_of_nodup_subset g.alignedBytes A g.tensors h.nodup h.sub
  have hpl := h.peakLe
  obtain ⟨h1, h2, h3, -, -⟩ := inv_free hinv hmem (by omega)
  refine ⟨off, (al.free off (g.tensorObj t).getBytes).2, hoff, ?_, ?_⟩
  · rw [← h1]
  refine ⟨h.nodup, h.sub, by rw [h3]; exact hpl, h.offs, ⟨_, h2, ?_⟩,
    fun x hx y hy hne h3 h4 => h.sep x hx y hy hne (hn x h3) (hn y h4), h.pairs⟩
  intro x hx hnx
  have hxt : x ≠ t := fun he => hdone (he ▸ hnx)
  obtain ⟨ox, hox, hmx⟩ := hheld x hx (hn x hnx)
  refine ⟨ox, hox, ?_⟩
  have hap := h.sep x hx t ht hxt (hn x hnx) hneed ox off hox hoff
  have hpx : 0 < alignUp (g.tensorObj x).getBytes := alignUp_pos (hinv.livePos _ hmx)
  have hpt : 0 < alignUp (g.tensorObj t).getBytes := alignUp_pos (hinv.livePos _ hmem)
  refine (List.mem_erase_of_ne ?_).2 hmx
  intro he
  simp only [Prod.mk.injEq] at he
  simp only [alignedBytes] at hap
  rw [he.1, he.2] at hap
  omega

theorem mem_inputsOf (g : GraphObj) (l : List Nat) (t : Nat) :
    t ∈ g.inputsOf l ↔ ∃ o ∈ l, t ∈ (g.opObj o).inputs := by
  induction l with
  | nil => simp [inputsOf]
  | cons o os ih =>
    simp only [inputsOf, List.mem_append, ih, List.mem_cons]
    constructor
    · rintro (h | ⟨p, hp, h⟩)
      · exact ⟨o, Or.inl rfl, h⟩
      · exact ⟨p, Or.inr hp, h⟩
    · rintro ⟨p, (hp | hp), h⟩
      · subst hp; exact Or.inl h
      · exact Or.inr ⟨p, hp, h⟩

theorem inputsOf_append (g : GraphObj) (a b : List Nat) :
    g.inputsOf (a ++ b) = g.inputsOf a ++ g.inputsOf b := by
  induction a with
  | nil => simp [inputsOf]
  | cons o os ih => simp [inputsOf, ih]

theorem count_inputsOf (g : GraphObj) (l : List Nat) (t : Nat) :
    (g.inputsOf l).count t = (l.map (fun o => (g.opObj o).inputs.count t)).sum := by
  induction l with
  | nil => simp [inputsOf]
  | cons o os ih => simp [inputsOf, List.count_append, ih]

theorem length_eq_sum_count : ∀ (S l : List Nat), S.Nodup → (∀ x ∈ l, x ∈ S) →
    l.length = (S.map (fun o => l.count o)).sum := by
  intro S
  induction S with
  | nil =>
    intro l _ h
    cases l with
    | nil => rfl
    | cons x xs => exact absurd (h x (List.mem_cons_self _ _)) (by simp)
  | cons s S ih =>
    intro l hnd h
    rw [List.nodup_cons] at hnd
    have h1 := List.length_eq_countP_add_countP (p := fun a => a == s) l
    have h2 : List.countP (fun a => a == s) l = l.count s := rfl
    have h3 : List.countP (fun a => decide ¬(a == s) = true) l =
        (l.filter (fun a => decide ¬(a == s) = true)).length := List.countP_eq_length_filter _ _
    have h4 := ih (l.filter (fun a => decide ¬(a == s) = true)) hnd.2 (by
      intro x hx
      rw [List.mem_filter] at hx
      rcases List.mem_cons.1 (h x hx.1) with h5 | h5
      · simp [h5] at hx
      · exact h5)
    have h5 : S.map (fun o => (l.filter (fun a => decide ¬(a == s) = true)).count o) =
        S.map (fun o => l.count o) := by
      apply List.map_congr_left
      intro o ho
      apply List.count_filter
      have : o ≠ s := fun he => hnd.1 (he ▸ ho)
      simpa using this
    rw [h5] at h4
    simp only [List.map_cons, List.sum_cons]
    omega

/-- In a wired valid graph the number of targets of a tensor is the number of times it
occurs among the inputs of the operators. -/
theorem targets_length (g : GraphObj) (hv : g.Valid) (hw : g.Wired) (hnd : g.ops.Nodup)
    {t : Nat} (ht : t ∈ g.tensors) :
    (g.tensorObj t).targets.length = (g.inputsOf g.ops).count t := by
  rw [count_inputsOf, length_eq_sum_count g.ops _ hnd (hv.targets t ht)]
  congr 1
  apply List.map_congr_left
  intro o ho
  exact hw.consumer t ht o ho

theorem needed_all (g : GraphObj) (t : Nat) : g.Needed (g.inputsOf g.ops) t := by
  unfold Needed
  omega

theorem needed_mono (g : GraphObj) {fut fut' : List Nat}
    (h : ∀ t, fut'.count t ≤ fut.count t) (t : Nat) (hn : g.Needed fut' t) :
    g.Needed fut t := by
  unfold Needed at *
  have := h t
  omega

theorem foldOpt_append {σ α : Type} (f : σ → α → Option σ) (s : σ) (xs ys : List α) :
    foldOpt f s (xs ++ ys) =
      match foldOpt f s xs with
      | none => none
      | some s' => foldOpt f s' ys := by
  induction xs generalizing s with
  | nil => rfl
  | cons x xs ih =>
    simp only [List.cons_append, foldOpt]
    cases f s x with
    | none => rfl
    | some s' => exact ih s'

/-- The first loop of `dataMalloc`: every tensor gets its reference count and every tensor
without source is allocated. -/
theorem leaf_loop (g : GraphObj) (hp : g.Planable) :
    ∀ (T2 T1 : List Nat) (st : MallocState) (A : List Nat), T1 ++ T2 = g.tensors →
      g.PlanInv A (g.inputsOf g.ops) st.allocator st.tensorToOffset →
      (∀ x, x ∈ A ↔ x ∈ T1 ∧ (g.tensorObj x).source = none) →
      (∀ t ∈ T1, st.tensorToRefCount t = some (g.tensorObj t).targets.length) →
      ∃ st' A', foldOpt g.mallocLeaf st T2 = some st' ∧
        g.PlanInv A' (g.inputsOf g.ops) st'.allocator st'.tensorToOffset ∧
        (∀ x, x ∈ A' ↔ x ∈ g.tensors ∧ (g.tensorObj x).source = none) ∧
        (∀ t ∈ g.tensors, st'.tensorToRefCount t = some (g.tensorObj t).targets.length) := by
  intro T2
  induction T2 with
  | nil =>
    intro T1 st A hT hinv hA hrc
    rw [List.append_nil] at hT
    subst hT
    exact ⟨st, A, rfl, hinv, hA, hrc⟩
  | cons t T2 ih =>
    intro T1 st A hT hinv hA hrc
    have hT' : (T1 ++ [t]) ++ T2 = g.tensors := by rw [List.append_assoc]; exact hT
    have ht : t ∈ g.tensors := by rw [← hT]; simp
    have hnd : (T1 ++ t :: T2).Nodup := by rw [hT]; exact hp.valid.tensors_nodup
    have htn : t ∉ T1 := by
      intro hin
      have := (List.nodup_append.1 hnd).2.2 hin (List.mem_cons_self _ _)
      exact this
    have hrc' : ∀ x ∈ T1 ++ [t],
        mapSet st.tensorToRefCount t (g.tensorObj t).targets.length x =
          some (g.tensorObj x).targets.length := by
      intro x hx
      by_cases hxt : x = t
      · subst hxt; simp [mapSet]
      · rcases List.mem_append.1 hx with h1 | h1
        · simp only [mapSet, hxt, if_false]; exact hrc x h1
        · simp at h1; exact absurd h1 hxt
    cases hs : (g.tensorObj t).source with
    | some p =>
      have hstep : g.mallocLeaf st t =
          some ⟨st.allocator, mapSet st.tensorToRefCount t (g.tensorObj t).targets.length,
            st.tensorToOffset⟩ := by
        unfold mallocLeaf
        simp [hs]
      obtain ⟨st', A', h1, h2⟩ := ih (T1 ++ [t])
        ⟨st.allocator, mapSet st.tensorToRefCount t (g.tensorObj t).targets.length,
            st.tensorToOffset⟩ A hT' hinv
        (by
          intro x
          rw [hA x, List.mem_append, List.mem_singleton]
          constructor
          · rintro ⟨h3, h4⟩; exact ⟨Or.inl h3, h4⟩
          · rintro ⟨h3 | h3, h4⟩
            · exact ⟨h3, h4⟩
            · rw [h3, hs] at h4; cases h4)
        hrc'
      refine ⟨st', A', ?_, h2⟩
      simp only [foldOpt, hstep]
      exact h1
    | none =>
      have hnew : t ∉ A := fun hin => htn ((hA t).1 hin).1
      obtain ⟨off, al', ha1, ha2⟩ := hinv.alloc ht hnew (hp.pos t ht) hp.fit
        (fun x _ _ => g.needed_all x)
      have hstep : g.mallocLeaf st t =
          some ⟨al', mapSet st.tensorToRefCount t (g.tensorObj t).targets.length,
            mapSet st.tensorToOffset t off⟩ := by
        unfold mallocLeaf
        simp [hs, ha1]
      obtain ⟨st', A', h1, h2⟩ := ih (T1 ++ [t])
        ⟨al', mapSet st.tensorToRefCount t (g.tensorObj t).targets.length,
            mapSet st.tensorToOffset t off⟩ (t :: A) hT' ha2
        (by
          intro x
          rw [List.mem_cons, hA x, List.mem_append, List.mem_singleton]
          constructor
          · rintro (h3 | ⟨h3, h4⟩)
            · rw [h3]; exact ⟨Or.inr rfl, hs⟩
            · exact ⟨Or.inl h3, h4⟩
          · rintro ⟨h3 | h3, h4⟩
            · exact Or.inr ⟨h3, h4⟩
            · exact Or.inl h3)
        hrc'
      refine ⟨st', A', ?_, h2⟩
      simp only [foldOpt, hstep]
      exact h1

theorem not_mem_of_nodup_append {done rest : List Nat} {o : Nat}
    (h : (done ++ o :: rest).Nodup) : o ∉ done := fun hin =>
  (List.nodup_append.1 h).2.2 hin (List.mem_cons_self _ _)

theorem birth_of_source {g : GraphObj} {done rest : List Nat} {o u : Nat}
    (hS : g.ops = done ++ o :: rest) (hnd : g.ops.Nodup)
    (hs : (g.tensorObj u).source = some o) : g.birth g.ops u = done.length + 1 := by
  unfold birth
  rw [hs, hS]
  have : o ∉ done := not_mem_of_nodup_append (hS ▸ hnd)
  simp only [List.indexOf_append_of_not_mem this, List.indexOf_cons_self]

/-- A tensor that is live at a time from the processing of `o` on is needed while the inputs
of `o` and of the operators after it are still to come. -/
theorem needed_of_liveAt {g : GraphObj} {done rest : List Nat} {o x τ : Nat}
    (hS : g.ops = done ++ o :: rest) (hτ : done.length + 1 ≤ τ)
    (hl : g.LiveAt g.ops x τ) : g.Needed (g.inputsOf (o :: rest)) x := by
  rcases hl.2 with h1 | ⟨j, o', h1, h2, h3⟩
  · left
    rw [List.count_eq_zero]
    intro hin
    obtain ⟨p, hp, hx⟩ := (g.mem_inputsOf _ _).1 hin
    exact h1 p hp hx
  · right
    rw [List.count_pos_iff, mem_inputsOf]
    refine ⟨o', ?_, h2⟩
    rw [hS, List.getElem?_append_right (by omega)] at h1
    exact List.mem_iff_getElem?.2 ⟨_, h1⟩

/-- The loop over the outputs of operator `o`. -/
theorem output_loop (g : GraphObj) (hp : g.Planable) (done rest : List Nat) (o : Nat)
    (hS : g.ops = done ++ o :: rest) :
    ∀ (O2 O1 : List Nat) (st : MallocState) (A : List Nat),
      O1 ++ O2 = (g.opObj o).outputs →
      g.PlanInv A (g.inputsOf (o :: rest)) st.allocator st.tensorToOffset →
      (∀ x, x ∈ A ↔ x ∈ g.tensors ∧ ((g.tensorObj x).source = none ∨
        (∃ p ∈ done, (g.tensorObj x).source = some p) ∨ x ∈ O1)) →
      ∃ st' A', foldOpt g.mallocOutput st O2 = some st' ∧
        st'.tensorToRefCount = st.tensorToRefCount ∧
        g.PlanInv A' (g.inputsOf (o :: rest)) st'.allocator st'.tensorToOffset ∧
        (∀ x, x ∈ A' ↔ x ∈ g.tensors ∧ ((g.tensorObj x).source = none ∨
          (∃ p ∈ done, (g.tensorObj x).source = some p) ∨ x ∈ (g.opObj o).outputs)) := by
  have ho : o ∈ g.ops := by rw [hS]; simp
  have hod : o ∉ done := not_mem_of_nodup_append (hS ▸ hp.opsNodup)
  intro O2
  induction O2 with
  | nil =>
    intro O1 st A hO hinv hA
    rw [List.append_nil] at hO
    subst hO
    exact ⟨st, A, rfl, rfl, hinv, hA⟩
  | cons u O2 ih =>
    intro O1 st A hO hinv hA
    have hO' : (O1 ++ [u]) ++ O2 = (g.opObj o).outputs := by rw [List.append_assoc]; exact hO
    have huo : u ∈ (g.opObj o).outputs := by rw [← hO]; simp
    have hu : u ∈ g.tensors := hp.valid.outputs o ho u huo
    have hus : (g.tensorObj u).source = some o := (hp.wired.producer u hu o ho).2 huo
    have hnd : (O1 ++ u :: O2).Nodup := by rw [hO]; exact hp.wired.outputs o ho
    have hu1 : u ∉ O1 := not_mem_of_nodup_append hnd
    have hnew : u ∉ A := by
      intro hin
      rcases ((hA u).1 hin).2 with h1 | ⟨p, hp1, hp2⟩ | h1
      · rw [hus] at h1; cases h1
      · rw [hus] at hp2
        exact hod ((Option.some.inj hp2) ▸ hp1)
      · exact hu1 h1
    obtain ⟨off, al', ha1, ha2⟩ := hinv.alloc hu hnew (hp.pos u hu) hp.fit (by
      rintro x _ ⟨τ, h1, h2⟩
      have hb := birth_of_source hS hp.opsNodup hus
      have h3 := h1.1
      rw [hb] at h3
      exact needed_of_liveAt hS h3 h2)
    have hstep : g.mallocOutput st u =
        some ⟨al', st.tensorToRefCount, mapSet st.tensorToOffset u off⟩ := by
      unfold mallocOutput
      simp [ha1]
    obtain ⟨st', A', h1, h2, h3⟩ := ih (O1 ++ [u])
      ⟨al', st.tensorToRefCount, mapSet st.tensorToOffset u off⟩ (u :: A) hO' ha2
      (by
        intro x
        rw [List.mem_cons, hA x, List.mem_append, List.mem_singleton]
        constructor
        · rintro (h3 | ⟨h3, h4⟩)
          · rw [h3]; exact ⟨hu, Or.inr (Or.inr (Or.inr rfl))⟩
          · refine ⟨h3, ?_⟩
            rcases h4 with h4 | h4 | h4
            · exact Or.inl h4
            · exact Or.inr (Or.inl h4)
            · exact Or.inr (Or.inr (Or.inl h4))
        · rintro ⟨h3, h4 | h4 | h4 | h4⟩
          · exact Or.inr ⟨h3, Or.inl h4⟩
          · exact Or.inr ⟨h3, Or.inr (Or.inl h4)⟩
          · exact Or.inr ⟨h3, Or.inr (Or.inr h4)⟩
          · exact Or.inl h4)
    refine ⟨st', A', ?_, h2, h3⟩
    simp only [foldOpt, hstep]
    exact h1

/-- The loop over the inputs of operator `o`. -/
theorem input_loop (g : GraphObj) (hp : g.Planable) (done rest : List Nat) (o : Nat)
    (hS : g.ops = done ++ o :: rest) (A : List Nat)
    (hA : ∀ x, x ∈ g.tensors → ((g.tensorObj x).source = none ∨
        ∃ p ∈ done, (g.tensorObj x).source = some p) → x ∈ A) :
    ∀ (I2 I1 : List Nat) (st : MallocState), I1 ++ I2 = (g.opObj o).inputs →
      g.PlanInv A (I2 ++ g.inputsOf rest) st.allocator st.tensorToOffset →
      g.RefInv (I2 ++ g.inputsOf rest) st.tensorToRefCount →
      ∃ st', foldOpt g.mallocInput st I2 = some st' ∧
        g.PlanInv A (g.inputsOf rest) st'.allocator st'.tensorToOffset ∧
        g.RefInv (g.inputsOf rest) st'.tensorToRefCount := by
  have ho : o ∈ g.ops := by rw [hS]; simp
  intro I2
  induction I2 with
  | nil =>
    intro I1 st _ hinv href
    exact ⟨st, rfl, by simpa using hinv, by simpa using href⟩
  | cons i I2 ih =>
    intro I1 st hI hinv href
    have hI' : (I1 ++ [i]) ++ I2 = (g.opObj o).inputs := by rw [List.append_assoc]; exact hI
    have hio : i ∈ (g.opObj o).inputs := by rw [← hI]; simp
    have hi : i ∈ g.tensors := hp.valid.inputs o ho i hio
    have hall : 0 < (g.inputsOf g.ops).count i := by
      rw [List.count_pos_iff, mem_inputsOf]
      exact ⟨o, ho, hio⟩
    have hiA : i ∈ A := by
      apply hA i hi
      cases hs : (g.tensorObj i).source with
      | none => exact Or.inl rfl
      | some p =>
        right
        refine ⟨p, ?_, rfl⟩
        have hk : g.ops[done.length]? = some o := by
          rw [hS, List.getElem?_append_right (le_refl _)]
          simp
        have := hp.ordered done.length o hk i hio p hs
        rw [hS, List.take_left'] at this
        · exact this
        · rfl
    have hcount : (i :: I2 ++ g.inputsOf rest).count i =
        (I2 ++ g.inputsOf rest).count i + 1 := by
      simp
    have hrc : st.tensorToRefCount i = some ((I2 ++ g.inputsOf rest).count i + 1) := by
      rw [href i hi]
      simp
    have hneed : g.Needed (i :: I2 ++ g.inputsOf rest) i := Or.inr (by rw [hcount]; omega)
    have hmono : ∀ x, g.Needed (I2 ++ g.inputsOf rest) x →
        g.Needed (i :: I2 ++ g.inputsOf rest) x := by
      apply g.needed_mono
      intro t
      show (I2 ++ g.inputsOf rest).count t ≤ (i :: (I2 ++ g.inputsOf rest)).count t
      rw [List.count_cons]
      omega
    by_cases hz : (I2 ++ g.inputsOf rest).count i = 0
    · -- last occurrence: the tensor is freed
      have hdone : ¬ g.Needed (I2 ++ g.inputsOf rest) i := by
        unfold Needed; omega
      obtain ⟨off, al', ho1, ho2, ho3⟩ := hinv.free hiA hneed hdone hmono hp.fit
      have hstep : g.mallocInput st i =
          some ⟨al', mapErase (mapSet st.tensorToRefCount i 0) i, st.tensorToOffset⟩ := by
        unfold mallocInput
        simp only [hrc, Nat.add_sub_cancel, gt_iff_lt, Nat.zero_lt_succ, if_true, hz, ho1, ho2,
          Option.getD_some, Nat.zero_add, Nat.lt_add_one]
      obtain ⟨st', h1, h2⟩ := ih (I1 ++ [i])
        ⟨al', mapErase (mapSet st.tensorToRefCount i 0) i, st.tensorToOffset⟩ hI' ho3
        (by
          intro t ht
          by_cases hti : t = i
          · subst hti
            simp [mapErase, hz, hall]
          · have hc : (i :: I2 ++ g.inputsOf rest).count t = (I2 ++ g.inputsOf rest).count t := by
              show (i :: (I2 ++ g.inputsOf rest)).count t = _
              rw [List.count_cons]
              simp [Ne.symm hti]
            simp only [mapErase, mapSet, hti, if_false]
            rw [href t ht, hc])
      refine ⟨st', ?_, h2⟩
      simp only [foldOpt, hstep]
      exact h1
    · -- further occurrences follow
      have hstep : g.mallocInput st i =
          some ⟨st.allocator,
            mapSet st.tensorToRefCount i ((I2 ++ g.inputsOf rest).count i), st.tensorToOffset⟩ := by
        unfold mallocInput
        simp only [hrc, Nat.add_sub_cancel, gt_iff_lt, Nat.zero_lt_succ, if_true, hz, if_false,
          Nat.lt_add_one]
      obtain ⟨st', h1, h2⟩ := ih (I1 ++ [i])
        ⟨st.allocator,
          mapSet st.tensorToRefCount i ((I2 ++ g.inputsOf rest).count i), st.tensorToOffset⟩
        hI' (hinv.mono hmono)
        (by
          intro t ht
          by_cases hti : t = i
          · subst hti
            simp only [RefInv, mapSet, eq_self_iff_true, if_true]
            rw [if_neg (fun h => hz h.1)]
          · have hc : (i :: I2 ++ g.inputsOf rest).count t = (I2 ++ g.inputsOf rest).count t := by
              show (i :: (I2 ++ g.inputsOf rest)).count t = _
              rw [List.count_cons]
              simp [Ne.symm hti]
            simp only [mapSet, hti, if_false]
            rw [href t ht, hc])
      refine ⟨st', ?_, h2⟩
      simp only [foldOpt, hstep]
      exact h1

/-- One turn of the loop over `ops`: the outputs of `o` are allocated, then its inputs are
released. -/
theorem op_step (g : GraphObj) (hp : g.Planable) (done rest : List Nat) (o : Nat)
    (hS : g.ops = done ++ o :: rest) (st : MallocState) (A : List Nat)
    (hinv : g.PlanInv A (g.inputsOf (o :: rest)) st.allocator st.tensorToOffset)
    (href : g.RefInv (g.inputsOf (o :: rest)) st.tensorToRefCount)
    (hA : ∀ x, x ∈ A ↔ x ∈ g.tensors ∧ ((g.tensorObj x).source = none ∨
        ∃ p ∈ done, (g.tensorObj x).source = some p)) :
    ∃ st' A', g.mallocOp st o = some st' ∧
      g.PlanInv A' (g.inputsOf rest) st'.allocator st'.tensorToOffset ∧
      g.RefInv (g.inputsOf rest) st'.tensorToRefCount ∧
      (∀ x, x ∈ A' ↔ x ∈ g.tensors ∧ ((g.tensorObj x).source = none ∨
        ∃ p ∈ done ++ [o], (g.tensorObj x).source = some p)) := by
  have ho : o ∈ g.ops := by rw [hS]; simp
  obtain ⟨st1, A1, h1, h2, h3, h4⟩ := g.output_loop hp done rest o hS (g.opObj o).outputs []
    st A rfl hinv (by
      intro x
      rw [hA x]
      constructor
      · rintro ⟨h5, h6 | h6⟩
        · exact ⟨h5, Or.inl h6⟩
        · exact ⟨h5, Or.inr (Or.inl h6)⟩
      · rintro ⟨h5, h6 | h6 | h6⟩
        · exact ⟨h5, Or.inl h6⟩
        · exact ⟨h5, Or.inr h6⟩
        · simp at h6)
  obtain ⟨st2, h5, h6, h7⟩ := g.input_loop hp done rest o hS A1 (by
      intro x hx hsrc
      rw [h4 x]
      refine ⟨hx, ?_⟩
      rcases hsrc with h8 | h8
      · exact Or.inl h8
      · exact Or.inr (Or.inl h8)) (g.opObj o).inputs [] st1 rfl h3 (by rw [h2]; exact href)
  refine ⟨st2, A1, ?_, h6, h7, ?_⟩
  · unfold mallocOp
    rw [h1]
    exact h5
  · intro x
    rw [h4 x]
    constructor
    · rintro ⟨h8, h9 | ⟨p, hp1, hp2⟩ | h9⟩
      · exact ⟨h8, Or.inl h9⟩
      · exact ⟨h8, Or.inr ⟨p, List.mem_append_left _ hp1, hp2⟩⟩
      · exact ⟨h8, Or.inr ⟨o, by simp, (hp.wired.producer x h8 o ho).2 h9⟩⟩
    · rintro ⟨h8, h9 | ⟨p, hp1, hp2⟩⟩
      · exact ⟨h8, Or.inl h9⟩
      · rcases List.mem_append.1 hp1 with h10 | h10
        · exact ⟨h8, Or.inr (Or.inl ⟨p, h10, hp2⟩)⟩
        · rw [List.mem_singleton] at h10
          subst h10
          exact ⟨h8, Or.inr (Or.inr ((hp.wired.producer x h8 p ho).1 hp2))⟩

/-- The loop over `ops`. -/
theorem op_loop (g : GraphObj) (hp : g.Planable) :
    ∀ (rest done : List Nat) (st : MallocState) (A : List Nat), done ++ rest = g.ops →
      g.PlanInv A (g.inputsOf rest) st.allocator st.tensorToOffset →
      g.RefInv (g.inputsOf rest) st.tensorToRefCount →
      (∀ x, x ∈ A ↔ x ∈ g.tensors ∧ ((g.tensorObj x).source = none ∨
        ∃ p ∈ done, (g.tensorObj x).source = some p)) →
      ∃ st' A', foldOpt g.mallocOp st rest = some st' ∧
        g.PlanInv A' [] st'.allocator st'.tensorToOffset ∧ ∀ x ∈ g.tensors, x ∈ A' := by
  intro rest
  induction rest with
  | nil =>
    intro done st A hS hinv _ hA
    rw [List.append_nil] at hS
    refine ⟨st, A, rfl, hinv, ?_⟩
    intro x hx
    rw [hA x]
    refine ⟨hx, ?_⟩
    cases hs : (g.tensorObj x).source with
    | none => exact Or.inl rfl
    | some p => exact Or.inr ⟨p, hS ▸ hp.valid.source x hx p hs, rfl⟩
  | cons o rest ih =>
    intro done st A hS hinv href hA
    obtain ⟨st1, A1, h1, h2, h3, h4⟩ := g.op_step hp done rest o hS.symm st A hinv href hA
    obtain ⟨st2, A2, h5, h6⟩ := ih (done ++ [o]) st1 A1
      (by rw [List.append_assoc]; exact hS) h2 h3 h4
    refine ⟨st2, A2, ?_, h6⟩
    simp only [foldOpt, h1]
    exact h5

/-- The two planning loops on a graph that `topo_sort` has ordered, with a fresh allocator:
they end without a failed assertion, every tensor has an offset, and two tensors that are
live at a common time have ranges apart. -/
theorem plan_spec (g : GraphObj) (hp : g.Planable) (hfresh : g.allocator = Allocator.init) :
    ∃ st, g.plan = some st ∧ st.allocator.ptr = 0 ∧ st.allocator.alignment = 8 ∧
      st.allocator.peak ≤ (g.tensors.map g.alignedBytes).sum ∧
      (∀ t ∈ g.tensors, ∃ off, st.tensorToOffset t = some off) ∧
      (∀ t ∈ g.tensors, ∀ u ∈ g.tensors, t ≠ u →
        (∃ τ, g.LiveAt g.ops t τ ∧ g.LiveAt g.ops u τ) → g.Apart st.tensorToOffset t u) := by
  have h0 : g.PlanInv [] (g.inputsOf g.ops) g.allocator (fun _ => none) := by
    rw [hfresh]
    refine ⟨List.nodup_nil, by simp, by simp [Allocator.init], by simp, ⟨[], inv_init, by simp⟩,
      by simp, by simp⟩
  obtain ⟨st1, A1, h1, h2, h3, h4⟩ := g.leaf_loop hp g.tensors []
    ⟨g.allocator, fun _ => none, fun _ => none⟩ [] rfl h0 (by simp) (by simp)
  have href : g.RefInv (g.inputsOf g.ops) st1.tensorToRefCount := by
    intro t ht
    rw [h4 t ht, targets_length g hp.valid hp.wired hp.opsNodup ht]
    rw [if_neg (by omega)]
  obtain ⟨st2, A2, h5, h6, h7⟩ := g.op_loop hp g.ops [] st1 A1 rfl h2 href (by
    intro x
    rw [h3 x]
    simp)
  obtain ⟨live, hinv, -⟩ := h6.held
  have hsum := sum_map_le_of_nodup_subset g.alignedBytes A2 g.tensors h6.nodup h6.sub
  refine ⟨st2, ?_, hinv.ptr0, hinv.align, le_trans h6.peakLe hsum,
    fun t ht => h6.offs t (h7 t ht),
    fun t ht u hu hne hov => h6.pairs t (h7 t ht) u (h7 u hu) hne hov⟩
  unfold plan
  rw [h1]
  exact h5

/-- What `topo_sort` does on a valid acyclic graph. -/
theorem topo_sort_of_acyclic (g : GraphObj) (hv : g.Valid) (hnd : g.ops.Nodup)
    (hflag : g.sorted = true → g.TopoOrdered g.ops) (hac : g.Acyclic) :
    ∃ l, g.topo_sort = some (true, { g with ops := l, sorted := true }) ∧ l.Perm g.ops ∧
      g.TopoOrdered l := by
  unfold topo_sort
  by_cases hs : g.sorted = true
  · simp only [hs, if_true]
    refine ⟨g.ops, ?_, List.Perm.refl _, hflag hs⟩
    congr 2
    cases g
    simp only at hs
    simp [hs]
  · simp only [hs, Bool.false_eq_true, if_false]
    obtain ⟨l, h1, h2, h3, h4, h5⟩ := g.topoLoop_acyclic hv hnd hac
      (g.ops.length + 1) ⟨[], [], false⟩ g.scanOk_init (by simp)
    rw [h1]
    exact ⟨l, rfl, (h2.subperm h3).perm_of_length_le h5, h4⟩

/-- The planning hypotheses carry over to the graph with its operators reordered. -/
theorem planable_reorder (g : GraphObj) (l : List Nat) (hl : l.Perm g.ops) (hv : g.Valid)
    (hw : g.Wired) (hnd : g.ops.Nodup) (ho : g.TopoOrdered l)
    (hpos : ∀ t ∈ g.tensors, 0 < (g.tensorObj t).getBytes)
    (hfit : (g.tensors.map g.alignedBytes).sum < sizeMod) :
    ({ g with ops := l, sorted := true } : GraphObj).Planable := by
  have hm : ∀ x, x ∈ l ↔ x ∈ g.ops := fun x => hl.mem_iff
  refine ⟨⟨hv.notOrphan, ?_, ?_, ?_, ?_, ?_, ?_, hv.fuids⟩, ⟨?_, ?_, ?_⟩, hl.nodup_iff.2 hnd, ho,
    hpos, hfit⟩
  · intro t ht op hop; exact (hm op).2 (hv.targets t ht op hop)
  · intro t ht op hop; exact (hm op).2 (hv.source t ht op hop)
  · intro op hop t ht; exact hv.inputs op ((hm op).1 hop) t ht
  · intro op hop t ht; exact hv.outputs op ((hm op).1 hop) t ht
  · intro op hop p hp'; exact (hm p).2 (hv.predecessors op ((hm op).1 hop) p hp')
  · intro op hop p hp'; exact (hm p).2 (hv.successors op ((hm op).1 hop) p hp')
  · intro t ht p hp'; exact hw.producer t ht p ((hm p).1 hp')
  · intro o ho'; exact hw.outputs o ((hm o).1 ho')
  · intro t ht o ho'; exact hw.consumer t ht o ((hm o).1 ho')

/-- The last loop of `dataMalloc` ends when every tensor has an offset; it leaves the alignment
and the peak of the allocator as they were. -/
theorem bind_loop (runtimeAlloc : Nat → Nat) (offsets : AddrMap) :
    ∀ (l : List Nat) (st : Allocator × (Nat → TensorObj)),
      (∀ t ∈ l, ∃ off, offsets t = some off) →
      ∃ r, foldOpt (bindTensor runtimeAlloc offsets) st l = some r ∧
        r.1.alignment = st.1.alignment ∧ r.1.peak = st.1.peak := by
  intro l
  induction l with
  | nil => intro st _; exact ⟨st, rfl, rfl, rfl⟩
  | cons t l ih =>
    intro st h
    obtain ⟨off, hoff⟩ := h t (List.mem_cons_self _ _)
    have hal : (st.1.getPtr runtimeAlloc).2.2.alignment = st.1.alignment := by
      unfold Allocator.getPtr
      split_ifs <;> rfl
    have hpk : (st.1.getPtr runtimeAlloc).2.2.peak = st.1.peak := by
      unfold Allocator.getPtr
      split_ifs <;> rfl
    obtain ⟨r, h1, h2, h3⟩ := ih
      ((st.1.getPtr runtimeAlloc).2.2,
        fun x => if x = t then
          { st.2 x with data := some ((st.1.getPtr runtimeAlloc).1 + off) } else st.2 x)
      (fun x hx => h x (List.mem_cons_of_mem _ hx))
    refine ⟨r, ?_, h2.trans hal, h3.trans hpk⟩
    simp only [foldOpt, bindTensor, hoff]
    exact h1

theorem index_lt_of_mem_take {S : List Nat} (hnd : S.Nodup) {k j o : Nat}
    (hk : S[k]? = some o) (hj : o ∈ S.take j) : k < j := by
  obtain ⟨i, hi, he⟩ := List.mem_take_iff_getElem.1 hj
  have hklen : k < S.length := by
    rcases Nat.lt_or_ge k S.length with h | h
    · exact h
    · rw [List.getElem?_eq_none h] at hk; cases hk
  have hk' : S[k] = o := by
    rw [List.getElem?_eq_getElem hklen] at hk
    exact Option.some.inj hk
  have hilen : i < S.length := by omega
  have := (@List.Nodup.getElem_inj_iff _ S hnd i hilen k hklen).1 (he.trans hk'.symm)
  omega

/-- The inputs and the outputs of an operator are live while it is processed. -/
theorem live_at_operator (g : GraphObj) (hp : g.Planable) {k o : Nat}
    (hk : g.ops[k]? = some o) :
    (∀ i ∈ (g.opObj o).inputs, g.LiveAt g.ops i (k + 1)) ∧
    (∀ u ∈ (g.opObj o).outputs, g.LiveAt g.ops u (k + 1)) ∧
    (∀ i ∈ (g.opObj o).inputs, ∀ u ∈ (g.opObj o).outputs, i ≠ u) := by
  have ho : o ∈ g.ops := List.mem_iff_getElem?.2 ⟨k, hk⟩
  have hklen : k < g.ops.length := by
    rcases Nat.lt_or_ge k g.ops.length with h | h
    · exact h
    · rw [List.getElem?_eq_none h] at hk; cases hk
  have hidx : g.ops.indexOf o = k := by
    have hk' : g.ops[k] = o := by
      rw [List.getElem?_eq_getElem hklen] at hk
      exact Option.some.inj hk
    rw [← hk']
    exact List.indexOf_getElem hp.opsNodup k hklen
  have hsrc : ∀ u ∈ (g.opObj o).outputs, (g.tensorObj u).source = some o := fun u hu =>
    (hp.wired.producer u (hp.valid.outputs o ho u hu) o ho).2 hu
  refine ⟨?_, ?_, ?_⟩
  · intro i hi
    refine ⟨?_, Or.inr ⟨k, o, hk, hi, le_refl _⟩⟩
    unfold birth
    cases hs : (g.tensorObj i).source with
    | none => simp
    | some p =>
      have hpt := hp.ordered k o hk i hi p hs
      have hpm : p ∈ g.ops := List.mem_of_mem_take hpt
      obtain ⟨j, hj⟩ := List.mem_iff_getElem?.1 hpm
      have hjk := index_lt_of_mem_take hp.opsNodup hj hpt
      have hjlen : j < g.ops.length := by omega
      have hj' : g.ops[j] = p := by
        rw [List.getElem?_eq_getElem hjlen] at hj
        exact Option.some.inj hj
      have : g.ops.indexOf p = j := by
        rw [← hj']
        exact List.indexOf_getElem hp.opsNodup j hjlen
      simp only
      omega
  · intro u hu
    refine ⟨?_, ?_⟩
    · unfold birth
      rw [hsrc u hu]
      simp only
      omega
    · by_cases hused : ∃ o2 ∈ g.ops, u ∈ (g.opObj o2).inputs
      · obtain ⟨o2, ho2, hu2⟩ := hused
        obtain ⟨j, hj⟩ := List.mem_iff_getElem?.1 ho2
        have := index_lt_of_mem_take hp.opsNodup hk (hp.ordered j o2 hj u hu2 o (hsrc u hu))
        exact Or.inr ⟨j, o2, hj, hu2, by omega⟩
      · left
        intro o2 ho2 hu2
        exact hused ⟨o2, ho2, hu2⟩
  · intro i hi u hu he
    subst he
    have := index_lt_of_mem_take hp.opsNodup hk (hp.ordered k o hk i hi o (hsrc i hu))
    omega

/-- What `dataMalloc` does on a valid, wired, acyclic graph with a fresh allocator. -/
theorem dataMalloc_spec (runtimeAlloc : Nat → Nat) (g : GraphObj) (hv : g.Valid)
    (hnd : g.ops.Nodup) (hflag : g.sorted = true → g.TopoOrdered g.ops) (hac : g.Acyclic)
    (hw : g.Wired) (hfresh : g.allocator = Allocator.init)
    (hpos : ∀ t ∈ g.tensors, 0 < (g.tensorObj t).getBytes)
    (hfit : (g.tensors.map g.alignedBytes).sum < sizeMod) :
    ∃ g' offsets, g.dataMalloc runtimeAlloc = some (g', offsets) ∧
      g'.ops.Perm g.ops ∧ g.TopoOrdered g'.ops ∧
      ({ g with ops := g'.ops, sorted := true } : GraphObj).Planable ∧
      g'.allocator.alignment = 8 ∧
      (∀ t ∈ g.tensors, ∃ off, offsets t = some off) ∧
      (∀ t ∈ g.tensors, ∀ u ∈ g.tensors, t ≠ u →
        (∃ τ, g.LiveAt g'.ops t τ ∧ g.LiveAt g'.ops u τ) → g.Apart offsets t u) := by
  obtain ⟨l, h1, h2, h3⟩ := g.topo_sort_of_acyclic hv hnd hflag hac
  have hp := g.planable_reorder l h2 hv hw hnd h3 hpos hfit
  obtain ⟨st, h4, -, h6, -, h7, h8⟩ :=
    plan_spec { g with ops := l, sorted := true } hp hfresh
  obtain ⟨r, h9, h10, -⟩ := bind_loop runtimeAlloc st.tensorToOffset g.tensors
    (st.allocator, g.tensorObj) h7
  refine ⟨{ ({ g with ops := l, sorted := true } : GraphObj) with
      allocator := r.1, tensorObj := r.2 }, st.tensorToOffset, ?_, h2, h3, hp,
    h10.trans h6, h7, h8⟩
  unfold dataMalloc
  rw [h1]
  simp only [h4]
  rw [h9]

theorem alignedBytes_eq (g : GraphObj) (al : Allocator) (hal : al.alignment = 8) {t : Nat}
    (ht : t ∈ g.tensors) (hpos : 0 < (g.tensorObj t).getBytes)
    (hfit : (g.tensors.map g.alignedBytes).sum < sizeMod) :
    al.getAlignedSize (g.tensorObj t).getBytes = g.alignedBytes t := by
  have := le_sum_map_of_mem g.alignedBytes ht
  exact getAlignedSize_eq hal hpos (lt_of_le_of_lt this hfit)

/-- C9 (as amended): on a structurally valid acyclic graph with positive tensor sizes, the
aligned byte sizes of all tensors adding up to less than `2^64`, with each operator listed
once, a truthful `sorted` flag, wired producer and consumer lists and a fresh allocator,
`dataMalloc` ends without a failed assertion and gives every tensor an offset; any two
distinct tensors that are live at a common time, a tensor being live from its allocation (time
0 for a tensor without source, the turn of its producer otherwise) until the turn of its last
consumer in the order `topo_sort` installed (forever without consumer), have disjoint ranges
`[offset, offset + alignedBytes)`; in particular the range of an output of an operator is
disjoint from the range of each of its inputs. -/
theorem dataMalloc_live_ranges_disjoint (runtimeAlloc : Nat → Nat) (g : GraphObj)
    (hvalid : g.checkValid = true) (hnd : g.ops.Nodup)
    (hflag : g.sorted = true → g.TopoOrdered g.ops) (hac : g.Acyclic) (hw : g.Wired)
    (hfresh : g.allocator = Allocator.init)
    (hpos : ∀ t ∈ g.tensors, 0 < (g.tensorObj t).getBytes)
    (hfit : (g.tensors.map g.alignedBytes).sum < sizeMod) :
    ∃ g' offsets, g.dataMalloc runtimeAlloc = some (g', offsets) ∧
      g'.ops.Perm g.ops ∧ g.TopoOrdered g'.ops ∧
      (∀ t ∈ g.tensors, ∃ off, offsets t = some off) ∧
      (∀ t ∈ g.tensors, ∀ u ∈ g.tensors, t ≠ u → ∀ τ,
        g.LiveAt g'.ops t τ → g.LiveAt g'.ops u τ →
        ∀ a b, offsets t = some a → offsets u = some b →
          a + g'.allocator.getAlignedSize (g.tensorObj t).getBytes ≤ b ∨
          b + g'.allocator.getAlignedSize (g.tensorObj u).getBytes ≤ a) ∧
      (∀ o ∈ g'.ops, ∀ i ∈ (g.opObj o).inputs, ∀ u ∈ (g.opObj o).outputs,
        ∀ a b, offsets i = some a → offsets u = some b →
          a + g'.allocator.getAlignedSize (g.tensorObj i).getBytes ≤ b ∨
          b + g'.allocator.getAlignedSize (g.tensorObj u).getBytes ≤ a) := by
  have hv := valid_of_checkValid g hvalid
  obtain ⟨g', offsets, h1, h2, h3, hp, hal, h4, h5⟩ :=
    dataMalloc_spec runtimeAlloc g hv hnd hflag hac hw hfresh hpos hfit
  have hm : ∀ x, x ∈ g'.ops ↔ x ∈ g.ops := fun x => h2.mem_iff
  refine ⟨g', offsets, h1, h2, h3, h4, ?_, ?_⟩
  · intro t ht u hu hne τ hlt hlu a b ha hb
    rw [alignedBytes_eq g g'.allocator hal ht (hpos t ht) hfit,
      alignedBytes_eq g g'.allocator hal hu (hpos u hu) hfit]
    exact h5 t ht u hu hne ⟨τ, hlt, hlu⟩ a b ha hb
  · intro o ho i hi u hu a b ha hb
    have hit : i ∈ g.tensors := hv.inputs o ((hm o).1 ho) i hi
    have hut : u ∈ g.tensors := hv.outputs o ((hm o).1 ho) u hu
    obtain ⟨k, hk⟩ := List.mem_iff_getElem?.1 ho
    obtain ⟨l1, l2, l3⟩ := live_at_operator { g with ops := g'.ops, sorted := true } hp hk
    rw [alignedBytes_eq g g'.allocator hal hit (hpos i hit) hfit,
      alignedBytes_eq g g'.allocator hal hut (hpos u hut) hfit]
    exact h5 i hit u hut (l3 i hi u hu) ⟨k + 1, l1 i hi, l2 u hu⟩ a b ha hb

theorem chain_topo_sort (b1 b2 b3 : Nat) :
    (chainGraph b1 b2 b3).topo_sort =
      some (true, { chainGraph b1 b2 b3 with ops := [1, 2], sorted := true }) := by
  rfl

theorem chain_getBytes (b1 b2 b3 : Nat) (h1 : b1 < sizeMod) (h2 : b2 < sizeMod)
    (h3 : b3 < sizeMod) :
    ((chainGraph b1 b2 b3).tensorObj 1).getBytes = b1 ∧
    ((chainGraph b1 b2 b3).tensorObj 2).getBytes = b2 ∧
    ((chainGraph b1 b2 b3).tensorObj 3).getBytes = b3 := by
  refine ⟨?_, ?_, ?_⟩ <;>
    simp [chainGraph, TensorObj.getBytes, mulW, Nat.mod_eq_of_lt, h1, h2, h3]

theorem dataMalloc_of_steps (runtimeAlloc : Nat → Nat) (g g1 : GraphObj) (st : MallocState)
    (r : Allocator × (Nat → TensorObj)) (h1 : g.topo_sort = some (true, g1))
    (h2 : g1.plan = some st)
    (h3 : foldOpt (bindTensor runtimeAlloc st.tensorToOffset) (st.allocator, g1.tensorObj)
      g1.tensors = some r) :
    g.dataMalloc runtimeAlloc =
      some ({ g1 with allocator := r.1, tensorObj := r.2 }, st.tensorToOffset) := by
  unfold dataMalloc
  rw [h1]
  simp only [h2]
  rw [h3]

end GraphObj

theorem pair_eq_of_fst {α β : Type} {p : α × β} {a : α} (h : p.1 = a) : p = (a, p.2) := by
  cases p; simp only at h; rw [h]

/-- The five allocator calls `dataMalloc` makes for the chain `T1 → Op1 → T2 → Op2 → T3`. -/
theorem chain_calls (b1 b2 b3 : Nat) (h1 : 0 < b1) (h2 : 0 < b2) (h3 : 0 < b3)
    (hle : alignUp b3 ≤ alignUp b1) (hfit : alignUp b1 + alignUp b2 < sizeMod) :
    ∃ S1 S2 S3 S4 S5,
      Allocator.init.alloc b1 = (some 0, S1) ∧ S1.alloc b2 = (some (alignUp b1), S2) ∧
      S2.free 0 b1 = (true, S3) ∧ S3.alloc b3 = (some 0, S4) ∧
      S4.free (alignUp b1) b2 = (true, S5) ∧ S5.peak = alignUp b1 + alignUp b2 ∧
      S5.alignment = 8 := by
  have p1 := alignUp_pos h1
  have p2 := alignUp_pos h2
  -- alloc(T1)
  obtain ⟨S1, e1, i1, k1, f1, t1, d1⟩ : ∃ S1, Allocator.init.alloc b1 = (some 0, S1) ∧
      Inv S1 [(0, b1)] ∧ S1.peak = alignUp b1 ∧ S1.freeBlocks = [] ∧
      S1.tailAddrToBlockSize = (fun _ => none) ∧ S1.headAddrToBlockSize = (fun _ => none) :=
    ⟨_, alloc_fresh_eq inv_init h1
      (show Allocator.init.peak + alignUp b1 < sizeMod by
        simp only [Allocator.init, Nat.zero_add]; omega) rfl rfl,
      inv_alloc_fresh inv_init h1, by simp [Allocator.init], rfl, rfl, rfl⟩
  -- alloc(T2)
  obtain ⟨S2, e2, i2, k2, f2, t2, d2⟩ : ∃ S2, S1.alloc b2 = (some (alignUp b1), S2) ∧
      Inv S2 [(alignUp b1, b2), (0, b1)] ∧ S2.peak = alignUp b1 + alignUp b2 ∧
      S2.freeBlocks = [] ∧
      S2.tailAddrToBlockSize = (fun _ => none) ∧ S2.headAddrToBlockSize = (fun _ => none) := by
    have e := alloc_fresh_eq i1 h2 (show S1.peak + alignUp b2 < sizeMod by rw [k1]; exact hfit)
      (by rw [f1]; rfl) (by rw [t1])
    have i := inv_alloc_fresh i1 h2
    rw [k1] at e i
    exact ⟨_, e, i, rfl, f1, t1, d1⟩
  -- free(T1)
  have hl1 : (0, b1) ∈ [(alignUp b1, b2), (0, b1)] := by simp
  obtain ⟨g1, sh⟩ := free_nn i2 hl1 (by rw [k2]; exact hfit) (by rw [t2]) (by rw [d2])
  obtain ⟨-, i3, k3, -, -⟩ := inv_free i2 hl1 (by rw [k2]; exact hfit)
  have e3 := pair_eq_of_fst g1
  generalize (S2.free 0 b1).2 = S3 at e3 i3 k3 sh
  have hmem3 : ∀ x, x ∈ S3.freeBlocks ↔ x = ⟨0, alignUp b1⟩ := by
    intro x
    rw [sh.mem x, f2]
    simp
  -- alloc(T3)
  have hlb : setLowerBound ⟨0, alignUp b3⟩ S3.freeBlocks = some ⟨0, alignUp b1⟩ := by
    apply setLowerBound_of_min i3.sorted ((hmem3 _).2 rfl) hle
    intro b hb _
    exact Or.inl ((hmem3 b).1 hb)
  obtain ⟨S4, e4, i4, k4⟩ : ∃ S4, S3.alloc b3 = (some 0, S4) ∧
      Inv S4 ((0, b3) :: ([(alignUp b1, b2), (0, b1)] : List (Nat × Nat)).erase (0, b1)) ∧
      S4.peak = alignUp b1 + alignUp b2 :=
    ⟨_, alloc_found_eq i3 h3 (by rw [k3, k2]; exact hfit) (by omega) hlb,
      inv_alloc_found i3 h3 ((hmem3 _).2 rfl) hle, k3.trans k2⟩
  -- free(T2)
  have hl2 : (alignUp b1, b2) ∈
      (0, b3) :: ([(alignUp b1, b2), (0, b1)] : List (Nat × Nat)).erase (0, b1) := by
    apply List.mem_cons_of_mem
    apply (List.mem_erase_of_ne ?_).2 (by simp)
    intro he
    simp only [Prod.mk.injEq] at he
    omega
  obtain ⟨g5, i5, k5, -, -⟩ := inv_free i4 hl2 (by rw [k4]; exact hfit)
  exact ⟨S1, S2, S3, S4, (S4.free (alignUp b1) b2).2, e1, e2, e3, e4, pair_eq_of_fst g5,
    k5.trans k4, i5.align⟩

namespace GraphObj

/-- C10 (as amended): for the chain `T1 (leaf) → Op1 → T2 → Op2 → T3` with positive byte
sizes, the aligned size of `T3` at most that of `T1`, and the aligned sizes of `T1` and `T2`
adding up to less than `2^64`,
`dataMalloc` puts `T1` at 0, `T2` behind it and `T3` at 0 again, inside
`[0, aligned(T1) + aligned(T2))`, and the final `peak` is `aligned(T1) + aligned(T2)`, less
than `aligned(T1) + aligned(T2) + aligned(T3)`. -/
theorem dataMalloc_chain_reuse (runtimeAlloc : Nat → Nat) (b1 b2 b3 : Nat) (h1 : 0 < b1)
    (h2 : 0 < b2) (h3 : 0 < b3) (hle : alignUp b3 ≤ alignUp b1)
    (hfit : alignUp b1 + alignUp b2 < sizeMod) :
    ∃ g' offsets, (chainGraph b1 b2 b3).dataMalloc runtimeAlloc = some (g', offsets) ∧
      offsets 1 = some 0 ∧ offsets 2 = some (alignUp b1) ∧ offsets 3 = some 0 ∧
      0 + alignUp b3 ≤ alignUp b1 + alignUp b2 ∧
      g'.allocator.peak = alignUp b1 + alignUp b2 ∧
      g'.allocator.peak < alignUp b1 + alignUp b2 + alignUp b3 ∧
      g'.allocator.getAlignedSize ((chainGraph b1 b2 b3).tensorObj 1).getBytes = alignUp b1 ∧
      g'.allocator.getAlignedSize ((chainGraph b1 b2 b3).tensorObj 2).getBytes = alignUp b2 ∧
      g'.allocator.getAlignedSize ((chainGraph b1 b2 b3).tensorObj 3).getBytes = alignUp b3 := by
  have l1 : b1 < sizeMod := lt_of_le_of_lt (alignUp_ge b1) (by omega)
  have l2 : b2 < sizeMod := lt_of_le_of_lt (alignUp_ge b2) (by omega)
  have l3 : b3 < sizeMod := lt_of_le_of_lt (alignUp_ge b3) (by omega)
  obtain ⟨hb1, hb2, hb3⟩ := chain_getBytes b1 b2 b3 l1 l2 l3
  obtain ⟨S1, S2, S3, S4, S5, e1, e2, e3, e4, e5, k5, a5⟩ := chain_calls b1 b2 b3 h1 h2 h3 hle hfit
  have hplan : ({ chainGraph b1 b2 b3 with ops := [1, 2], sorted := true } : GraphObj).plan =
      some ⟨S5, mapErase (mapSet (mapErase (mapSet (mapSet (mapSet (mapSet (fun _ => none) 1 1)
        2 1) 3 0) 1 0) 1) 2 0) 2,
        mapSet (mapSet (mapSet (fun _ => none) 1 0) 2 (alignUp b1)) 3 0⟩ := by
    have c1 : ((chainGraph b1 b2 b3).tensorObj 1).source = none := rfl
    have c2 : ((chainGraph b1 b2 b3).tensorObj 2).source = some 1 := rfl
    have c3 : ((chainGraph b1 b2 b3).tensorObj 3).source = some 2 := rfl
    have n1 : ((chainGraph b1 b2 b3).tensorObj 1).targets = [1] := rfl
    have n2 : ((chainGraph b1 b2 b3).tensorObj 2).targets = [2] := rfl
    have n3 : ((chainGraph b1 b2 b3).tensorObj 3).targets = [] := rfl
    have o1 : ((chainGraph b1 b2 b3).opObj 1).outputs = [2] := rfl
    have o2 : ((chainGraph b1 b2 b3).opObj 2).outputs = [3] := rfl
    have i1 : ((chainGraph b1 b2 b3).opObj 1).inputs = [1] := rfl
    have i2 : ((chainGraph b1 b2 b3).opObj 2).inputs = [2] := rfl
    have ht : (chainGraph b1 b2 b3).tensors = [1, 2, 3] := rfl
    have ha : (chainGraph b1 b2 b3).allocator = Allocator.init := rfl
    simp only [plan, ht, ha, foldOpt, mallocLeaf, mallocOp, mallocOutput, mallocInput, c1, c2, c3,
      n1, n2, n3, o1, o2, i1, i2, hb1, hb2, hb3, e1, Option.isNone_none, Option.isNone_some,
      if_true, List.length_cons, List.length_nil, Bool.false_eq_true, if_false, e2]
    have m1 : mapSet (mapSet (mapSet (fun _ => none) 1 (0 + 1)) 2 (0 + 1)) 3 0 1 = some 1 := by
      simp [mapSet]
    have m2 : mapSet (mapSet (fun _ => none) 1 0) 2 (alignUp b1) 1 = some 0 := by
      simp [mapSet]
    simp only [m1, m2, Option.getD_some, gt_iff_lt, Nat.lt_add_one, if_true, Nat.sub_self, e3,
      e4]
    have m3 : mapErase (mapSet (mapSet (mapSet (mapSet (fun _ => none) 1 (0 + 1)) 2 (0 + 1)) 3 0)
        1 0) 1 2 = some 1 := by
      simp [mapSet, mapErase]
    have m4 : mapSet (mapSet (mapSet (fun _ => none) 1 0) 2 (alignUp b1)) 3 0 2 =
        some (alignUp b1) := by
      simp [mapSet]
    simp only [m3, m4, Option.getD_some, gt_iff_lt, Nat.lt_add_one, if_true, Nat.sub_self, e5,
      Nat.zero_add]
  have hoffs : ∀ t ∈ ([1, 2, 3] : List Nat),
      ∃ off, mapSet (mapSet (mapSet (fun _ => none) 1 0) 2 (alignUp b1)) 3 0 t = some off := by
    intro t ht
    simp only [List.mem_cons, List.mem_singleton, List.not_mem_nil, or_false] at ht
    rcases ht with rfl | rfl | rfl <;> simp [mapSet]
  obtain ⟨r, hr, hal, hpk⟩ := bind_loop runtimeAlloc
    (mapSet (mapSet (mapSet (fun _ => none) 1 0) 2 (alignUp b1)) 3 0) [1, 2, 3]
    (S5, (chainGraph b1 b2 b3).tensorObj) hoffs
  have hal' : r.1.alignment = 8 := hal.trans a5
  refine ⟨{ ({ chainGraph b1 b2 b3 with ops := [1, 2], sorted := true } : GraphObj) with
      allocator := r.1, tensorObj := r.2 },
    mapSet (mapSet (mapSet (fun _ => none) 1 0) 2 (alignUp b1)) 3 0, ?_, by simp [mapSet],
    by simp [mapSet], by simp [mapSet], by omega, hpk.trans k5,
    by rw [hpk.trans k5]; have := alignUp_pos h3; omega, ?_, ?_, ?_⟩
  · exact dataMalloc_of_steps runtimeAlloc _ _ _ _ (chain_topo_sort b1 b2 b3) hplan hr
  · rw [hb1]; exact getAlignedSize_eq hal' h1 (by omega)
  · rw [hb2]; exact getAlignedSize_eq hal' h2 (by omega)
  · rw [hb3]; exact getAlignedSize_eq hal' h3 (by omega)

theorem dataMalloc_chain_reuse_witness :
    (0 < 100 ∧ 0 < 200 ∧ 0 < 100 ∧ alignUp 100 ≤ alignUp 100 ∧
      alignUp 100 + alignUp 200 < sizeMod) ∧
    ∃ g' offsets, (chainGraph 100 200 100).dataMalloc (fun _ => 4096) = some (g', offsets) ∧
      offsets 1 = some 0 ∧ offsets 2 = some (alignUp 100) ∧ offsets 3 = some 0 ∧
      0 + alignUp 100 ≤ alignUp 100 + alignUp 200 ∧
      g'.allocator.peak = alignUp 100 + alignUp 200 ∧
      g'.allocator.peak < alignUp 100 + alignUp 200 + alignUp 100 ∧
      g'.allocator.getAlignedSize ((chainGraph 100 200 100).tensorObj 1).getBytes =
        alignUp 100 ∧
      g'.allocator.getAlignedSize ((chainGraph 100 200 100).tensorObj 2).getBytes =
        alignUp 200 ∧
      g'.allocator.getAlignedSize ((chainGraph 100 200 100).tensorObj 3).getBytes =
        alignUp 100 :=
  ⟨by decide, dataMalloc_chain_reuse (fun _ => 4096) 100 200 100 (by decide) (by decide)
    (by decide) (by decide) (by decide)⟩

theorem dataMalloc_live_ranges_disjoint_witness :
    ((chainGraph 100 200 100).checkValid = true ∧ (chainGraph 100 200 100).ops.Nodup ∧
      ((chainGraph 100 200 100).sorted = true →
        (chainGraph 100 200 100).TopoOrdered (chainGraph 100 200 100).ops) ∧
      (chainGraph 100 200 100).Acyclic ∧ (chainGraph 100 200 100).Wired ∧
      (chainGraph 100 200 100).allocator = Allocator.init ∧
      (∀ t ∈ (chainGraph 100 200 100).tensors,
        0 < ((chainGraph 100 200 100).tensorObj t).getBytes) ∧
      ((chainGraph 100 200 100).tensors.map (chainGraph 100 200 100).alignedBytes).sum <
        sizeMod) ∧
    ∃ g' offsets, (chainGraph 100 200 100).dataMalloc (fun _ => 4096) = some (g', offsets) ∧
      g'.ops.Perm (chainGraph 100 200 100).ops ∧
      (chainGraph 100 200 100).TopoOrdered g'.ops ∧
      (∀ t ∈ (chainGraph 100 200 100).tensors, ∃ off, offsets t = some off) ∧
      (∀ t ∈ (chainGraph 100 200 100).tensors, ∀ u ∈ (chainGraph 100 200 100).tensors,
        t ≠ u → ∀ τ, (chainGraph 100 200 100).LiveAt g'.ops t τ →
        (chainGraph 100 200 100).LiveAt g'.ops u τ →
        ∀ a b, offsets t = some a → offsets u = some b →
          a + g'.allocator.getAlignedSize ((chainGraph 100 200 100).tensorObj t).getBytes ≤ b ∨
          b + g'.allocator.getAlignedSize ((chainGraph 100 200 100).tensorObj u).getBytes ≤ a) ∧
      (∀ o ∈ g'.ops, ∀ i ∈ ((chainGraph 100 200 100).opObj o).inputs,
        ∀ u ∈ ((chainGraph 100 200 100).opObj o).outputs,
        ∀ a b, offsets i = some a → offsets u = some b →
          a + g'.allocator.getAlignedSize ((chainGraph 100 200 100).tensorObj i).getBytes ≤ b ∨
          b + g'.allocator.getAlignedSize ((chainGraph 100 200 100).tensorObj u).getBytes ≤ a) :=
  ⟨⟨by decide, by decide, (fun h => absurd h (by decide)),
      acyclic_of_rankOk _ id (by decide), ⟨by decide, by decide, by decide⟩, rfl, by decide,
      by decide⟩,
    dataMalloc_live_ranges_disjoint (fun _ => 4096) (chainGraph 100 200 100) (by decide)
      (by decide) (fun h => absurd h (by decide)) (acyclic_of_rankOk _ id (by decide))
      ⟨by decide, by decide, by decide⟩ rfl (by decide) (by decide)⟩

end GraphObj

theorem alignUp_dvd (n : Nat) : 8 ∣ alignUp n := ⟨(n + 7) / 8, rfl⟩

theorem alignUp_least {n m : Nat} (hd : 8 ∣ m) (h : n ≤ m) : alignUp n ≤ m := by
  obtain ⟨c, rfl⟩ := hd
  unfold alignUp
  omega

/-- The reuse branch of `alloc` in a state that satisfies the representation invariant. -/
theorem alloc_found_spec {s : Allocator} {live : List (Nat × Nat)} {n : Nat}
    (h : Inv s live) (hn : 0 < n) (hpk : s.peak < sizeMod)
    (hex : ∃ b ∈ s.freeBlocks, alignUp n ≤ b.blockSize) :
    s.getAlignedSize n = alignUp n ∧
    ∃ it ∈ s.freeBlocks, alignUp n ≤ it.blockSize ∧
      (∀ b ∈ s.freeBlocks, alignUp n ≤ b.blockSize →
        it.blockSize < b.blockSize ∨ (it.blockSize = b.blockSize ∧ it.addr ≤ b.addr)) ∧
      (s.alloc n).1 = some it.addr ∧
      (s.alloc n).2.peak = s.peak ∧
      (s.alloc n).2.used = s.used + alignUp n ∧
      (∀ b, b ∈ (s.alloc n).2.freeBlocks ↔
        (b ∈ s.freeBlocks ∧ b ≠ it) ∨
        (alignUp n < it.blockSize ∧ b = ⟨it.addr + alignUp n, it.blockSize - alignUp n⟩)) ∧
      Inv (s.alloc n).2 ((it.addr, n) :: live) := by
  obtain ⟨b0, hb0, hb0s⟩ := hex
  have hr0 := h.range b0 hb0
  have hal : alignUp n < sizeMod := by omega
  refine ⟨getAlignedSize_eq h.align hn hal, ?_⟩
  cases hlb : setLowerBound ⟨0, alignUp n⟩ s.freeBlocks with
  | none =>
    have := setLowerBound_none hlb b0 hb0
    omega
  | some it =>
    obtain ⟨hit, hsz, hmin⟩ := setLowerBound_some h.sorted hlb
    refine ⟨it, hit, hsz, ?_, ?_⟩
    · intro b hb hbs
      rcases hmin b hb hbs with h1 | h1
      · right; rw [h1]; exact ⟨rfl, le_refl _⟩
      · rw [cmp_iff] at h1
        rcases h1 with h1 | ⟨h1, h2⟩
        · left; exact h1
        · right; exact ⟨h1, by omega⟩
    · rw [alloc_found_eq h hn hpk hal hlb]
      refine ⟨rfl, rfl, rfl, ?_, inv_alloc_found h hn hit hsz⟩
      intro b
      show b ∈ setErase it _ ↔ _
      rw [mem_setErase]
      by_cases hsp : alignUp n < it.blockSize
      · rw [if_pos hsp, mem_setInsert]
        constructor
        · rintro ⟨h1 | h1, h2⟩
          · exact Or.inr ⟨hsp, h1⟩
          · exact Or.inl ⟨h1, h2⟩
        · rintro (⟨h1, h2⟩ | ⟨-, h1⟩)
          · exact ⟨Or.inr h1, h2⟩
          · refine ⟨Or.inl h1, ?_⟩
            rw [h1]
            apply ne_of_addr
            have := alignUp_pos hn
            show it.addr + alignUp n ≠ it.addr
            omega
      · rw [if_neg hsp]
        constructor
        · rintro ⟨h1, h2⟩; exact Or.inl ⟨h1, h2⟩
        · rintro (⟨h1, h2⟩ | ⟨h1, -⟩)
          · exact ⟨h1, h2⟩
          · exact absurd h1 hsp

/-- C18 (as amended): in a state reached by a matched sequence in which the aligned sizes of
the `alloc` calls add up to less than `2^64`, for `alloc(size)` with `size ≥ 1`, when some
free block is at least as large as the least multiple of 8 that is not below `size`: the
aligned size the code computes is that multiple, and the call returns the head address of the
smallest such block (the lowest address among equal sizes), takes that block out of the
free-block set, puts the remainder `[head + aligned, head + blockSize)` into it when the
block was larger, keeps the two address maps in step with the set, leaves `peak` unchanged
and adds the aligned size to `used`. -/
theorem alloc_reuse_branch (cs : List Call) (hm : Matched cs) (hf : Fits cs) (n : Nat)
    (hn : 0 < n)
    (hex : ∃ b ∈ (Planning.run cs).allocator.freeBlocks, alignUp n ≤ b.blockSize) :
    (Planning.run cs).allocator.getAlignedSize n = alignUp n ∧
    8 ∣ alignUp n ∧ n ≤ alignUp n ∧ (∀ m, 8 ∣ m → n ≤ m → alignUp n ≤ m) ∧
    ∃ it ∈ (Planning.run cs).allocator.freeBlocks, alignUp n ≤ it.blockSize ∧
      (∀ b ∈ (Planning.run cs).allocator.freeBlocks, alignUp n ≤ b.blockSize →
        it.blockSize < b.blockSize ∨ (it.blockSize = b.blockSize ∧ it.addr ≤ b.addr)) ∧
      ((Planning.run cs).allocator.alloc n).1 = some it.addr ∧
      ((Planning.run cs).allocator.alloc n).2.peak = (Planning.run cs).allocator.peak ∧
      ((Planning.run cs).allocator.alloc n).2.used =
        (Planning.run cs).allocator.used + alignUp n ∧
      (∀ b, b ∈ ((Planning.run cs).allocator.alloc n).2.freeBlocks ↔
        (b ∈ (Planning.run cs).allocator.freeBlocks ∧ b ≠ it) ∨
        (alignUp n < it.blockSize ∧
          b = ⟨it.addr + alignUp n, it.blockSize - alignUp n⟩)) ∧
      (∀ a sz, ((Planning.run cs).allocator.alloc n).2.headAddrToBlockSize a = some sz ↔
        (⟨a, sz⟩ : freeBlockInfo) ∈ ((Planning.run cs).allocator.alloc n).2.freeBlocks) ∧
      (∀ t sz, ((Planning.run cs).allocator.alloc n).2.tailAddrToBlockSize t = some sz ↔
        ∃ b ∈ ((Planning.run cs).allocator.alloc n).2.freeBlocks,
          b.addr + b.blockSize = t ∧ b.blockSize = sz) := by
  obtain ⟨h, hp⟩ := run_inv hm hf
  have hpk : (Planning.run cs).allocator.peak < sizeMod := by
    unfold Fits at hf; omega
  obtain ⟨e1, it, hit, hsz, hmin, e2, e3, e4, e5, hinv⟩ := alloc_found_spec h hn hpk hex
  exact ⟨e1, alignUp_dvd n, alignUp_ge n, fun m hd hle => alignUp_least hd hle,
    it, hit, hsz, hmin, e2, e3, e4, e5, hinv.head, hinv.tail⟩

theorem alloc_reuse_branch_witness :
    Matched [.alloc 16, .alloc 8, .alloc 24, .alloc 8, .free 0 16, .free 24 24] ∧
    Fits [.alloc 16, .alloc 8, .alloc 24, .alloc 8, .free 0 16, .free 24 24] ∧
    ∃ it ∈ (Planning.run [.alloc 16, .alloc 8, .alloc 24, .alloc 8, .free 0 16,
        .free 24 24]).allocator.freeBlocks,
      ((Planning.run [.alloc 16, .alloc 8, .alloc 24, .alloc 8, .free 0 16,
        .free 24 24]).allocator.alloc 5).1 = some it.addr :=
  ⟨by decide, by decide,
    (alloc_reuse_branch [.alloc 16, .alloc 8, .alloc 24, .alloc 8, .free 0 16, .free 24 24]
      (by decide) (by decide) 5 (by decide)
      ⟨⟨0, 16⟩, by decide, by decide⟩).2.2.2.2.imp
      (fun _ hx => ⟨hx.1, hx.2.2.2.1⟩)⟩

theorem setLowerBound_of_small {size : Nat} {l : List freeBlockInfo} (hl : Ascending l)
    (h : ∀ b ∈ l, b.blockSize < size) : setLowerBound ⟨0, size⟩ l = none := by
  cases hlb : setLowerBound ⟨0, size⟩ l with
  | none => rfl
  | some it =>
    obtain ⟨hit, hsz, -⟩ := setLowerBound_some hl hlb
    have := h it hit
    omega

/-- The growth branch of `alloc` in a state that satisfies the representation invariant. -/
theorem alloc_grow_spec {s : Allocator} {live : List (Nat × Nat)} {n : Nat}
    (h : Inv s live) (hn : 0 < n) (hpk : s.peak + alignUp n < sizeMod)
    (hsmall : ∀ b ∈ s.freeBlocks, b.blockSize < alignUp n) :
    (∀ b ∈ s.freeBlocks, b.addr + b.blockSize = s.peak →
      (s.alloc n).1 = some b.addr ∧
      (s.alloc n).2.peak = s.peak + (alignUp n - b.blockSize) ∧
      (s.alloc n).2.used = s.used + alignUp n ∧
      (∀ x, x ∈ (s.alloc n).2.freeBlocks ↔ x ∈ s.freeBlocks ∧ x ≠ b) ∧
      Inv (s.alloc n).2 ((b.addr, n) :: live)) ∧
    ((∀ b ∈ s.freeBlocks, b.addr + b.blockSize ≠ s.peak) →
      (s.alloc n).1 = some s.peak ∧
      (s.alloc n).2.peak = s.peak + alignUp n ∧
      (s.alloc n).2.used = s.used + alignUp n ∧
      (s.alloc n).2.freeBlocks = s.freeBlocks ∧
      (s.alloc n).2.headAddrToBlockSize = s.headAddrToBlockSize ∧
      (s.alloc n).2.tailAddrToBlockSize = s.tailAddrToBlockSize) := by
  have hlb := setLowerBound_of_small h.sorted hsmall
  constructor
  · intro b hb hbt
    have htl : s.tailAddrToBlockSize s.peak = some b.blockSize :=
      (h.tail _ _).2 ⟨b, hb, hbt, rfl⟩
    have hlt := hsmall b hb
    have hba : s.peak - b.blockSize = b.addr := by omega
    have hbe : (⟨s.peak - b.blockSize, b.blockSize⟩ : freeBlockInfo) = b := by
      rw [hba]
    have hinv := inv_alloc_extend h hn hb hbt hlt
    rw [alloc_extend_eq h hn hpk hlb htl, hbe, hba]
    refine ⟨rfl, rfl, rfl, ?_, hinv⟩
    intro x
    show x ∈ setErase b _ ↔ _
    rw [mem_setErase]
  · intro hno
    have htl : s.tailAddrToBlockSize s.peak = none := by
      cases hv : s.tailAddrToBlockSize s.peak with
      | none => rfl
      | some v =>
        obtain ⟨b, hb, hb1, -⟩ := (h.tail _ _).1 hv
        exact absurd hb1 (hno b hb)
    rw [alloc_fresh_eq h hn hpk hlb htl]
    exact ⟨rfl, rfl, rfl, rfl, rfl, rfl⟩

/-- C19 (as amended): in a state reached by a matched sequence, for `alloc(size)` with
`size ≥ 1`, the aligned sizes of the `alloc` calls of the sequence and of this request adding
up to less than `2^64`, when no free block is as large as the aligned size (the least
multiple of 8 that is not below `size`): (a) if a
free block ends at `peak`, `alloc` returns its head address (the assertion that the block is
smaller than the request holds), takes it out of the three indices and raises `peak` by the
aligned size minus the size of that block; (b) otherwise `alloc` returns the old `peak`,
raises `peak` by the aligned size and leaves the three indices alone. Either way `used` grows
by the aligned size. -/
theorem alloc_growth_branch (cs : List Call) (hm : Matched cs) (n : Nat) (hn : 0 < n)
    (hf : Fits (cs ++ [.alloc n]))
    (hsmall : ∀ b ∈ (Planning.run cs).allocator.freeBlocks, b.blockSize < alignUp n) :
    (∀ b ∈ (Planning.run cs).allocator.freeBlocks,
      b.addr + b.blockSize = (Planning.run cs).allocator.peak →
      ((Planning.run cs).allocator.alloc n).1 = some b.addr ∧
      ((Planning.run cs).allocator.alloc n).2.peak =
        (Planning.run cs).allocator.peak + (alignUp n - b.blockSize) ∧
      ((Planning.run cs).allocator.alloc n).2.used =
        (Planning.run cs).allocator.used + alignUp n ∧
      (∀ x, x ∈ ((Planning.run cs).allocator.alloc n).2.freeBlocks ↔
        x ∈ (Planning.run cs).allocator.freeBlocks ∧ x ≠ b) ∧
      (∀ a sz, ((Planning.run cs).allocator.alloc n).2.headAddrToBlockSize a = some sz ↔
        (⟨a, sz⟩ : freeBlockInfo) ∈ ((Planning.run cs).allocator.alloc n).2.freeBlocks) ∧
      (∀ t sz, ((Planning.run cs).allocator.alloc n).2.tailAddrToBlockSize t = some sz ↔
        ∃ x ∈ ((Planning.run cs).allocator.alloc n).2.freeBlocks,
          x.addr + x.blockSize = t ∧ x.blockSize = sz)) ∧
    ((∀ b ∈ (Planning.run cs).allocator.freeBlocks,
        b.addr + b.blockSize ≠ (Planning.run cs).allocator.peak) →
      ((Planning.run cs).allocator.alloc n).1 = some (Planning.run cs).allocator.peak ∧
      ((Planning.run cs).allocator.alloc n).2.peak =
        (Planning.run cs).allocator.peak + alignUp n ∧
      ((Planning.run cs).allocator.alloc n).2.used =
        (Planning.run cs).allocator.used + alignUp n ∧
      ((Planning.run cs).allocator.alloc n).2.freeBlocks =
        (Planning.run cs).allocator.freeBlocks ∧
      ((Planning.run cs).allocator.alloc n).2.headAddrToBlockSize =
        (Planning.run cs).allocator.headAddrToBlockSize ∧
      ((Planning.run cs).allocator.alloc n).2.tailAddrToBlockSize =
        (Planning.run cs).allocator.tailAddrToBlockSize) := by
  have hd : demand (cs ++ [.alloc n]) = demand cs + demand [.alloc n] := demand_append cs _
  have hd1 : demand [.alloc n] = alignUp n := by simp [demand]
  have hfc : Fits cs := by unfold Fits at *; omega
  obtain ⟨h, hp⟩ := run_inv hm hfc
  have hpk : (Planning.run cs).allocator.peak + alignUp n < sizeMod := by
    unfold Fits at hf; omega
  obtain ⟨ha, hb⟩ := alloc_grow_spec h hn hpk hsmall
  refine ⟨?_, hb⟩
  intro b hbm hbt
  obtain ⟨e1, e2, e3, e4, hinv⟩ := ha b hbm hbt
  exact ⟨e1, e2, e3, e4, hinv.head, hinv.tail⟩

theorem alloc_growth_branch_witness :
    Matched [.alloc 16, .alloc 8, .free 16 8] ∧
    Fits ([.alloc 16, .alloc 8, .free 16 8] ++ [.alloc 20]) ∧
    (∀ b ∈ (Planning.run [.alloc 16, .alloc 8, .free 16 8]).allocator.freeBlocks,
      b.blockSize < alignUp 20) ∧
    ((Planning.run [.alloc 16, .alloc 8, .free 16 8]).allocator.alloc 20).1 = some 16 ∧
    ((Planning.run [.alloc 16, .alloc 8, .free 16 8]).allocator.alloc 20).2.peak = 40 ∧
    (Matched [.alloc 16] ∧ Fits ([.alloc 16] ++ [.alloc 20]) ∧
      ((Planning.run [.alloc 16]).allocator.alloc 20).1 = some 16 ∧
      ((Planning.run [.alloc 16]).allocator.alloc 20).2.peak = 40) :=
  ⟨by decide, by decide, by decide,
    ((alloc_growth_branch [.alloc 16, .alloc 8, .free 16 8] (by decide) 20 (by decide)
      (by decide) (by decide)).1 ⟨16, 8⟩ (by decide) (by decide)).1,
    ((alloc_growth_branch [.alloc 16, .alloc 8, .free 16 8] (by decide) 20 (by decide)
      (by decide) (by decide)).1 ⟨16, 8⟩ (by decide) (by decide)).2.1,
    by decide, by decide,
    ((alloc_growth_branch [.alloc 16] (by decide) 20 (by decide) (by decide)
      (by decide)).2 (by decide)).1,
    ((alloc_growth_branch [.alloc 16] (by decide) 20 (by decide) (by decide)
      (by decide)).2 (by decide)).2.1⟩

theorem run_take_succ {cs : List Call} {k : Nat} {c : Call} (hk : cs[k]? = some c) :
    cs.take (k + 1) = cs.take k ++ [c] ∧
    Planning.run (cs.take (k + 1)) = (Planning.run (cs.take k)).step c := by
  have htake : cs.take (k + 1) = cs.take k ++ [c] := by
    rw [List.take_succ, hk]; rfl
  refine ⟨htake, ?_⟩
  unfold Planning.run
  rw [htake, Planning.runFrom_append]
  rfl

/-- What `free` does to the free-block set: the freed range is merged with the free block
that ends at `a` (of size `p`) and with the one that starts at `a + aligned` (of size `q`),
when there is one. -/
theorem free_merge_spec {s : Allocator} {live : List (Nat × Nat)} {a n : Nat}
    (h : Inv s live) (hl : (a, n) ∈ live) (hpk : s.peak < sizeMod) :
    ∃ p q,
      ((p = 0 ∧ ∀ x ∈ s.freeBlocks, x.addr + x.blockSize ≠ a) ∨
        (0 < p ∧ p ≤ a ∧ (⟨a - p, p⟩ : freeBlockInfo) ∈ s.freeBlocks)) ∧
      ((q = 0 ∧ ∀ x ∈ s.freeBlocks, x.addr ≠ a + alignUp n) ∨
        (0 < q ∧ (⟨a + alignUp n, q⟩ : freeBlockInfo) ∈ s.freeBlocks)) ∧
      ∀ x, x ∈ (s.free a n).2.freeBlocks ↔ x = ⟨a - p, p + alignUp n + q⟩ ∨
        (x ∈ s.freeBlocks ∧ x.addr + x.blockSize ≠ a ∧ x.addr ≠ a + alignUp n) := by
  cases hpre : s.tailAddrToBlockSize a with
  | none =>
    have hnp : ∀ x ∈ s.freeBlocks, x.addr + x.blockSize ≠ a := by
      intro x hx he
      have := (h.tail a x.blockSize).2 ⟨x, hx, he, rfl⟩
      rw [hpre] at this; cases this
    cases hsub : s.headAddrToBlockSize (a + alignUp n) with
    | none =>
      have hnq : ∀ x ∈ s.freeBlocks, x.addr ≠ a + alignUp n := by
        intro x hx he
        have := (h.head (a + alignUp n) x.blockSize).2 (by rw [← he]; exact hx)
        rw [hsub] at this; cases this
      obtain ⟨-, sh⟩ := free_nn h hl hpk hpre hsub
      exact ⟨0, 0, Or.inl ⟨rfl, hnp⟩, Or.inl ⟨rfl, hnq⟩, sh.mem⟩
    | some q =>
      have hbq := (h.head _ _).1 hsub
      obtain ⟨-, sh⟩ := free_np h hl hpk hpre hsub
      exact ⟨0, q, Or.inl ⟨rfl, hnp⟩, Or.inr ⟨h.pos _ hbq, hbq⟩, sh.mem⟩
  | some p =>
    obtain ⟨bp, hbp, hbp1, hbp2⟩ := (h.tail _ _).1 hpre
    have hpp := h.pos _ hbp
    have hbpe : bp = ⟨a - p, p⟩ := by
      cases bp; simp at *; omega
    rw [hbpe] at hbp
    have hP : (p = 0 ∧ ∀ x ∈ s.freeBlocks, x.addr + x.blockSize ≠ a) ∨
        (0 < p ∧ p ≤ a ∧ (⟨a - p, p⟩ : freeBlockInfo) ∈ s.freeBlocks) :=
      Or.inr ⟨by omega, by omega, hbp⟩
    cases hsub : s.headAddrToBlockSize (a + alignUp n) with
    | none =>
      have hnq : ∀ x ∈ s.freeBlocks, x.addr ≠ a + alignUp n := by
        intro x hx he
        have := (h.head (a + alignUp n) x.blockSize).2 (by rw [← he]; exact hx)
        rw [hsub] at this; cases this
      obtain ⟨-, sh⟩ := free_pn h hl hpk hpre hsub
      exact ⟨p, 0, hP, Or.inl ⟨rfl, hnq⟩, sh.mem⟩
    | some q =>
      have hbq := (h.head _ _).1 hsub
      obtain ⟨-, sh⟩ := free_pp h hl hpk hpre hsub
      exact ⟨p, q, hP, Or.inr ⟨h.pos _ hbq, hbq⟩, sh.mem⟩

/-- C20 (as amended): after every call of a matched sequence with positive sizes in which
the aligned sizes of the `alloc` calls add up to less than `2^64`, the free-block set is in `(size, addr)` order and the two maps describe the
same blocks (a block is in the set iff the head map sends its address to its size iff the
tail map sends its end to its size); two free blocks neither overlap nor touch; no free
block overlaps a live allocation; and a `free(a, n)` leaves the set with the freed range
merged with the free block that ended at `a` and the one that started at `a + aligned`,
those two gone. -/
theorem free_blocks_representation (cs : List Call) (hm : Matched cs) (hf : Fits cs)
    (k : Nat) :
    Ascending (Planning.run (cs.take k)).allocator.freeBlocks ∧
    (∀ a sz, (⟨a, sz⟩ : freeBlockInfo) ∈ (Planning.run (cs.take k)).allocator.freeBlocks ↔
      (Planning.run (cs.take k)).allocator.headAddrToBlockSize a = some sz) ∧
    (∀ a sz, (⟨a, sz⟩ : freeBlockInfo) ∈ (Planning.run (cs.take k)).allocator.freeBlocks ↔
      (Planning.run (cs.take k)).allocator.tailAddrToBlockSize (a + sz) = some sz) ∧
    (∀ t sz, (Planning.run (cs.take k)).allocator.tailAddrToBlockSize t = some sz →
      ∃ a, a + sz = t ∧
        (⟨a, sz⟩ : freeBlockInfo) ∈ (Planning.run (cs.take k)).allocator.freeBlocks) ∧
    (∀ b1 ∈ (Planning.run (cs.take k)).allocator.freeBlocks,
      ∀ b2 ∈ (Planning.run (cs.take k)).allocator.freeBlocks, b1 ≠ b2 →
        b1.addr + b1.blockSize ≤ b2.addr ∨ b2.addr + b2.blockSize ≤ b1.addr) ∧
    (∀ b1 ∈ (Planning.run (cs.take k)).allocator.freeBlocks,
      ∀ b2 ∈ (Planning.run (cs.take k)).allocator.freeBlocks,
        b1.addr + b1.blockSize ≠ b2.addr) ∧
    (∀ b ∈ (Planning.run (cs.take k)).allocator.freeBlocks,
      ∀ l ∈ (Planning.run (cs.take k)).live,
        b.addr + b.blockSize ≤ l.1 ∨
        l.1 + (Planning.run (cs.take k)).allocator.getAlignedSize l.2 ≤ b.addr) ∧
    (∀ a n, cs[k]? = some (.free a n) →
      ∃ p q,
        ((p = 0 ∧ ∀ x ∈ (Planning.run (cs.take k)).allocator.freeBlocks,
            x.addr + x.blockSize ≠ a) ∨
          (0 < p ∧ p ≤ a ∧
            (⟨a - p, p⟩ : freeBlockInfo) ∈ (Planning.run (cs.take k)).allocator.freeBlocks)) ∧
        ((q = 0 ∧ ∀ x ∈ (Planning.run (cs.take k)).allocator.freeBlocks,
            x.addr ≠ a + (Planning.run (cs.take k)).allocator.getAlignedSize n) ∨
          (0 < q ∧ (⟨a + (Planning.run (cs.take k)).allocator.getAlignedSize n, q⟩ :
            freeBlockInfo) ∈ (Planning.run (cs.take k)).allocator.freeBlocks)) ∧
        ∀ x, x ∈ (Planning.run (cs.take (k + 1))).allocator.freeBlocks ↔
          x = ⟨a - p, p + (Planning.run (cs.take k)).allocator.getAlignedSize n + q⟩ ∨
          (x ∈ (Planning.run (cs.take k)).allocator.freeBlocks ∧ x.addr + x.blockSize ≠ a ∧
            x.addr ≠ a + (Planning.run (cs.take k)).allocator.getAlignedSize n)) := by
  obtain ⟨h, hp⟩ := run_inv (matched_take hm k) (fits_take hf k)
  have hfk := fits_take hf k
  have hpk : (Planning.run (cs.take k)).allocator.peak < sizeMod := by
    unfold Fits at hfk; omega
  refine ⟨h.sorted, fun a sz => (h.head a sz).symm, ?_, ?_, ?_, ?_, ?_, ?_⟩
  · intro a sz
    rw [h.tail]
    constructor
    · intro hb; exact ⟨_, hb, rfl, rfl⟩
    · rintro ⟨b, hb, hb1, hb2⟩
      have : b = ⟨a, sz⟩ := by
        cases b; simp at *; omega
      rw [← this]; exact hb
  · intro t sz ht
    obtain ⟨b, hb, hb1, hb2⟩ := (h.tail _ _).1 ht
    refine ⟨b.addr, by omega, ?_⟩
    rw [← hb2]; exact hb
  · intro b1 h1 b2 h2 hne
    have := h.sep b1 h1 b2 h2 hne
    omega
  · intro b1 h1 b2 h2 he
    by_cases hne : b1 = b2
    · have := h.pos b1 h1
      rw [hne] at he this; omega
    · have := h.sep b1 h1 b2 h2 hne
      omega
  · intro b hb l hl
    rw [alignedSize_eq h hpk hl]
    exact h.freeLive b hb l hl
  · intro a n hk
    obtain ⟨htake, hrun⟩ := run_take_succ hk
    have hm1 := matched_take hm (k + 1)
    unfold Matched at hm1
    rw [htake, Planning.matchedFrom_append] at hm1
    have hl : (a, n) ∈ (Planning.run (cs.take k)).live := hm1.2.2.1
    have hal : (Planning.run (cs.take k)).allocator.getAlignedSize n = alignUp n :=
      alignedSize_eq (l := (a, n)) h hpk hl
    rw [hrun, hal]
    exact free_merge_spec h hl hpk

theorem free_blocks_representation_witness :
    Matched [.alloc 8, .alloc 8, .alloc 8, .free 0 8, .free 16 8, .free 8 8] ∧
    Fits [.alloc 8, .alloc 8, .alloc 8, .free 0 8, .free 16 8, .free 8 8] ∧
    Ascending (Planning.run ([Call.alloc 8, .alloc 8, .alloc 8, .free 0 8, .free 16 8,
      .free 8 8].take 5)).allocator.freeBlocks ∧
    ∃ p q, ∀ x, x ∈ (Planning.run ([Call.alloc 8, .alloc 8, .alloc 8, .free 0 8, .free 16 8,
        .free 8 8].take (5 + 1))).allocator.freeBlocks ↔
      x = ⟨8 - p, p + (Planning.run ([Call.alloc 8, .alloc 8, .alloc 8, .free 0 8,
        .free 16 8, .free 8 8].take 5)).allocator.getAlignedSize 8 + q⟩ ∨
      (x ∈ (Planning.run ([Call.alloc 8, .alloc 8, .alloc 8, .free 0 8, .free 16 8,
        .free 8 8].take 5)).allocator.freeBlocks ∧ x.addr + x.blockSize ≠ 8 ∧
        x.addr ≠ 8 + (Planning.run ([Call.alloc 8, .alloc 8, .alloc 8, .free 0 8,
          .free 16 8, .free 8 8].take 5)).allocator.getAlignedSize 8) :=
  ⟨by decide, by decide,
    (free_blocks_representation [.alloc 8, .alloc 8, .alloc 8, .free 0 8, .free 16 8,
      .free 8 8] (by decide) (by decide) 5).1,
    ((free_blocks_representation [.alloc 8, .alloc 8, .alloc 8, .free 0 8, .free 16 8,
      .free 8 8] (by decide) (by decide) 5).2.2.2.2.2.2.2 8 8 rfl).imp
      (fun _ hp => hp.imp (fun _ hq => hq.2.2))⟩

namespace GraphObj

theorem fuidsDistinct_of_nodup : ∀ (l seen : List Nat), l.Nodup → (∀ x ∈ l, x ∉ seen) →
    fuidsDistinct l seen = true := by
  intro l
  induction l with
  | nil => intro seen _ _; rfl
  | cons f fs ih =>
    intro seen hnd hs
    have hf : ¬ seen.contains f = true := by
      simpa using hs f (List.mem_cons_self _ _)
    unfold fuidsDistinct
    rw [if_neg hf]
    obtain ⟨h1, h2⟩ := List.nodup_cons.1 hnd
    apply ih _ h2
    intro x hx hin
    rcases List.mem_cons.1 hin with h3 | h3
    · rw [h3] at hx; exact h1 hx
    · exact hs x (List.mem_cons_of_mem _ hx) h3

theorem checkValid_of_valid (g : GraphObj) (h : g.Valid) : g.checkValid = true := by
  unfold checkValid
  simp only [Bool.and_eq_true, List.all_eq_true, Bool.not_eq_true', Bool.and_eq_false_imp,
    beq_iff_eq, List.length_eq_zero]
  refine ⟨⟨?_, ?_⟩, fuidsDistinct_of_nodup _ _ h.fuids (by simp)⟩
  · intro t ht
    refine ⟨⟨?_, ?_⟩, ?_⟩
    · intro hc
      cases hs : (g.tensorObj t).source with
      | none => exact absurd ⟨hc, hs⟩ (h.notOrphan t ht)
      | some o => rfl
    · intro op hop
      simpa using h.targets t ht op hop
    · cases hs : (g.tensorObj t).source with
      | none => rfl
      | some o => simpa using h.source t ht o hs
  · intro op hop
    refine ⟨⟨⟨?_, ?_⟩, ?_⟩, ?_⟩
    · intro t ht; simpa using h.inputs op hop t ht
    · intro t ht; simpa using h.outputs op hop t ht
    · intro t ht; simpa using h.predecessors op hop t ht
    · intro t ht; simpa using h.successors op hop t ht

theorem not_nodup_map_iff (f : Nat → Nat) (l : List Nat) :
    ¬ (l.map f).Nodup ↔
      ∃ (i j t u : Nat), i < j ∧ l[i]? = some t ∧ l[j]? = some u ∧ f t = f u := by
  rw [List.nodup_iff_getElem?_ne_getElem?]
  push_neg
  constructor
  · rintro ⟨i, j, hij, hj, he⟩
    rw [List.length_map] at hj
    have hi : i < l.length := by omega
    rw [List.getElem?_map, List.getElem?_map, List.getElem?_eq_getElem hi,
      List.getElem?_eq_getElem hj] at he
    exact ⟨i, j, l[i], l[j], hij, List.getElem?_eq_getElem hi, List.getElem?_eq_getElem hj,
      by simpa using he⟩
  · rintro ⟨i, j, t, u, hij, hi, hj, he⟩
    have hjl : j < l.length := by
      rcases Nat.lt_or_ge j l.length with h | h
      · exact h
      · rw [List.getElem?_eq_none h] at hj; cases hj
    refine ⟨i, j, hij, by rw [List.length_map]; exact hjl, ?_⟩
    rw [List.getElem?_map, List.getElem?_map, hi, hj]
    simp [he]

/-- C14: `checkValid` fails an assertion (and so does not return `true`) exactly when the
graph has an operator with an input or an output that is not in the tensor set, an orphan
tensor, a tensor whose producer or one of whose consumers is not in the operator sequence, an
operator with a predecessor or successor that is not in the operator sequence, or two
entries of the tensor set with the same Fuid; it returns `true` exactly when the facts
`Valid` hold, that is when none of these is the case. -/
theorem checkValid_fails_iff (g : GraphObj) :
    (g.checkValid = false ↔
      (∃ op ∈ g.ops, ∃ t ∈ (g.opObj op).inputs, t ∉ g.tensors) ∨
      (∃ op ∈ g.ops, ∃ t ∈ (g.opObj op).outputs, t ∉ g.tensors) ∨
      (∃ t ∈ g.tensors, (g.tensorObj t).targets = [] ∧ (g.tensorObj t).source = none) ∨
      (∃ t ∈ g.tensors, ∃ op, (g.tensorObj t).source = some op ∧ op ∉ g.ops) ∨
      (∃ t ∈ g.tensors, ∃ op ∈ (g.tensorObj t).targets, op ∉ g.ops) ∨
      (∃ op ∈ g.ops, ∃ p ∈ (g.opObj op).predecessors, p ∉ g.ops) ∨
      (∃ op ∈ g.ops, ∃ p ∈ (g.opObj op).successors, p ∉ g.ops) ∨
      (∃ (i j t u : Nat), i < j ∧ g.tensors[i]? = some t ∧ g.tensors[j]? = some u ∧
        (g.tensorObj t).fuid = (g.tensorObj u).fuid)) ∧
    (g.checkValid = true ↔ g.Valid) := by
  have hiff : g.checkValid = true ↔ g.Valid :=
    ⟨valid_of_checkValid g, checkValid_of_valid g⟩
  refine ⟨?_, hiff⟩
  rw [← Bool.not_eq_true, hiff]
  constructor
  · intro hnv
    by_contra hc
    push_neg at hc
    obtain ⟨c1, c2, c3, c4, c5, c6, c7, c8⟩ := hc
    apply hnv
    refine ⟨?_, ?_, ?_, c1, c2, c6, c7, ?_⟩
    · intro t ht ⟨h1, h2⟩
      exact c3 t ht h1 h2
    · intro t ht op hop; exact c5 t ht op hop
    · intro t ht op hop; exact c4 t ht op hop
    · by_contra hnd
      obtain ⟨i, j, t, u, hij, hi, hj, he⟩ :=
        (not_nodup_map_iff (fun t => (g.tensorObj t).fuid) g.tensors).1 hnd
      exact c8 i j t u hij hi hj he
  · intro hv h
    rcases hv with ⟨op, hop, t, ht, hn⟩ | ⟨op, hop, t, ht, hn⟩ | ⟨t, ht, h1, h2⟩ |
      ⟨t, ht, op, h1, hn⟩ | ⟨t, ht, op, hop, hn⟩ | ⟨op, hop, p, hp, hn⟩ |
      ⟨op, hop, p, hp, hn⟩ | hdup
    · exact hn (h.inputs op hop t ht)
    · exact hn (h.outputs op hop t ht)
    · exact h.notOrphan t ht ⟨h1, h2⟩
    · exact hn (h.source t ht op h1)
    · exact hn (h.targets t ht op hop)
    · exact hn (h.predecessors op hop p hp)
    · exact hn (h.successors op hop p hp)
    · exact (not_nodup_map_iff (fun t => (g.tensorObj t).fuid) g.tensors).2 hdup h.fuids

end GraphObj

theorem reverse_getD_two (l : List Nat) (a b : Nat) :
    (l ++ [a, b]).reverse.getD 0 0 = b ∧ (l ++ [a, b]).reverse.getD 1 0 = a ∧
    (l ++ [a, b]).take ((l ++ [a, b]).length - 2) = l ∧ ¬ (l ++ [a, b]).length < 2 := by
  refine ⟨by simp, by simp, ?_, by simp⟩
  have : (l ++ [a, b]).length - 2 = l.length := by simp
  rw [this, List.take_left']
  rfl

/-- The three outcomes of `inferShape` on operands of rank at least 2. -/
theorem inferShape_eq (op : OperatorObj) (A B : TensorObj) (la lb : List Nat)
    (a1 a2 b1 b2 : Nat) (hA : A.dims = la ++ [a1, a2]) (hB : B.dims = lb ++ [b1, b2]) :
    MatmulObj.inferShape op [A, B] =
      match infer_broadcast la lb with
      | none => (none, op)
      | some ret =>
        if (if op.transA then a1 else a2) ≠ (if op.transB then b2 else b1) then (none, op)
        else
          (some [ret ++ [if op.transA then a2 else a1, if op.transB then b1 else b2]],
            { op with
              m := if op.transA then a2 else a1
              n := if op.transB then b1 else b2
              k := if op.transA then a1 else a2 }) := by
  obtain ⟨x1, x2, x3, x4⟩ := reverse_getD_two la a1 a2
  obtain ⟨y1, y2, y3, y4⟩ := reverse_getD_two lb b1 b2
  have hlen : ¬ ((la ++ [a1, a2]).length < 2 ∨ (lb ++ [b1, b2]).length < 2) := by
    rintro (h | h)
    · exact x4 h
    · exact y4 h
  unfold MatmulObj.inferShape
  simp only [List.getElem?_cons_zero, List.getElem?_cons_succ, hA, hB, if_neg hlen, x1, x2, x3,
    y1, y2, y3]

theorem broadcastDim_isSome (a b : Nat) :
    (broadcastDim a b).isSome = true ↔ a = b ∨ a = 1 ∨ b = 1 := by
  unfold broadcastDim
  by_cases h1 : a = b ∨ b = 1
  · rw [if_pos h1]; simp; tauto
  · rw [if_neg h1]
    by_cases h2 : a = 1
    · rw [if_pos h2]; simp [h2]
    · rw [if_neg h2]; simp; tauto

theorem broadcastRev_isSome : ∀ (xs ys : List Nat),
    (broadcastRev xs ys).isSome = true ↔
      ∀ i, xs.getD i 1 = ys.getD i 1 ∨ xs.getD i 1 = 1 ∨ ys.getD i 1 = 1 := by
  intro xs
  induction xs with
  | nil =>
    intro ys
    simp [broadcastRev]
  | cons x xs ih =>
    intro ys
    cases ys with
    | nil => simp [broadcastRev]
    | cons y ys =>
      have hd := broadcastDim_isSome x y
      have ht := ih ys
      constructor
      · intro h i
        unfold broadcastRev at h
        cases hx : broadcastDim x y with
        | none => rw [hx] at h; simp at h
        | some d =>
          cases hr : broadcastRev xs ys with
          | none => rw [hx, hr] at h; simp at h
          | some r =>
            cases i with
            | zero =>
              have := hd.1 (by rw [hx]; rfl)
              simpa using this
            | succ i =>
              have := ht.1 (by rw [hr]; rfl) i
              simpa using this
      · intro h
        have h0 := h 0
        have hs : ∀ i, xs.getD i 1 = ys.getD i 1 ∨ xs.getD i 1 = 1 ∨ ys.getD i 1 = 1 := by
          intro i
          have := h (i + 1)
          simpa using this
        have e1 := hd.2 (by simpa using h0)
        have e2 := ht.2 hs
        unfold broadcastRev
        cases hx : broadcastDim x y with
        | none => rw [hx] at e1; simp at e1
        | some d =>
          cases hr : broadcastRev xs ys with
          | none => rw [hr] at e2; simp at e2
          | some r => rfl

theorem infer_broadcast_isSome (A B : List Nat) :
    (infer_broadcast A B).isSome = true ↔ BroadcastCompatible A B := by
  unfold infer_broadcast BroadcastCompatible
  rw [Option.isSome_map', broadcastRev_isSome]

/-- C15: for operands `A = la ++ [a1, a2]` and `B = lb ++ [b1, b2]` (rank at least 2) with
broadcast-compatible leading dimensions and equal contraction dimensions, `inferShape`
returns exactly one shape, the broadcast of `la` and `lb` followed by `[m, n]`, where `m` is
`a1` (`a2` if `transA`) and `n` is `b2` (`b1` if `transB`), and it stores `m`, `n` and
`k = a2` (`a1` if `transA`) on the operator, changing nothing else. -/
theorem matmul_inferShape_result (op : OperatorObj) (A B : TensorObj) (la lb : List Nat)
    (a1 a2 b1 b2 : Nat) (hA : A.dims = la ++ [a1, a2]) (hB : B.dims = lb ++ [b1, b2])
    (hc : BroadcastCompatible la lb)
    (hk : (if op.transA then a1 else a2) = (if op.transB then b2 else b1)) :
    ∃ r, infer_broadcast la lb = some r ∧
      (MatmulObj.inferShape op [A, B]).1 =
        some [r ++ [if op.transA then a2 else a1, if op.transB then b1 else b2]] ∧
      (MatmulObj.inferShape op [A, B]).2 =
        { op with
          m := if op.transA then a2 else a1
          n := if op.transB then b1 else b2
          k := if op.transA then a1 else a2 } := by
  have hs := (infer_broadcast_isSome la lb).2 hc
  cases hr : infer_broadcast la lb with
  | none => rw [hr] at hs; simp at hs
  | some r =>
    refine ⟨r, rfl, ?_⟩
    rw [inferShape_eq op A B la lb a1 a2 b1 b2 hA hB, hr]
    simp only [ne_eq, hk, not_true_eq_false, if_false, and_self]

theorem matmul_inferShape_result_witness :
    BroadcastCompatible [2, 1] [3] ∧
    (MatmulObj.inferShape
      { opType := .MatMul, inputs := [1, 2], outputs := [3], predecessors := [],
        successors := [], transB := true }
      [⟨1, [2, 1, 4, 5], 4, none, [1], none⟩, ⟨2, [3, 6, 5], 4, none, [1], none⟩]).1 =
      some [[2, 3, 4, 6]] ∧
    (MatmulObj.inferShape
      { opType := .MatMul, inputs := [1, 2], outputs := [3], predecessors := [],
        successors := [], transB := true }
      [⟨1, [2, 1, 4, 5], 4, none, [1], none⟩, ⟨2, [3, 6, 5], 4, none, [1], none⟩]).2 =
      { opType := .MatMul, inputs := [1, 2], outputs := [3], predecessors := [],
        successors := [], transB := true, m := 4, n := 6, k := 5 } :=
  ⟨(infer_broadcast_isSome [2, 1] [3]).1 (by decide),
    (matmul_inferShape_result
      { opType := .MatMul, inputs := [1, 2], outputs := [3], predecessors := [],
        successors := [], transB := true }
      ⟨1, [2, 1, 4, 5], 4, none, [1], none⟩ ⟨2, [3, 6, 5], 4, none, [1], none⟩
      [2, 1] [3] 4 5 6 5 rfl rfl ((infer_broadcast_isSome [2, 1] [3]).1 (by decide))
      rfl).elim (fun r hr =>
        ⟨hr.2.1.trans (by
          have h := hr.1
          have e : infer_broadcast [2, 1] [3] = some [2, 3] := by decide
          rw [e] at h
          cases h
          rfl), hr.2.2⟩)⟩

/-- C16: for operands `A = la ++ [a1, a2]` and `B = lb ++ [b1, b2]` (rank at least 2) with
broadcast-compatible leading dimensions, `inferShape` fails its assertion exactly when the
contraction dimension of `A` (`a2`, or `a1` when `transA`) differs from that of `B` (`b1`,
or `b2` when `transB`); when it fails it returns no shape and leaves the operator, `m`, `n`
and `k` included, as it was. -/
theorem matmul_inferShape_fails_iff (op : OperatorObj) (A B : TensorObj) (la lb : List Nat)
    (a1 a2 b1 b2 : Nat) (hA : A.dims = la ++ [a1, a2]) (hB : B.dims = lb ++ [b1, b2])
    (hc : BroadcastCompatible la lb) :
    ((MatmulObj.inferShape op [A, B]).1 = none ↔
      (if op.transA then a1 else a2) ≠ (if op.transB then b2 else b1)) ∧
    ((MatmulObj.inferShape op [A, B]).1 = none →
      (MatmulObj.inferShape op [A, B]).2 = op) := by
  have hs := (infer_broadcast_isSome la lb).2 hc
  cases hr : infer_broadcast la lb with
  | none => rw [hr] at hs; simp at hs
  | some r =>
    rw [inferShape_eq op A B la lb a1 a2 b1 b2 hA hB, hr]
    by_cases hk : (if op.transA then a1 else a2) = (if op.transB then b2 else b1)
    · dsimp only
      rw [if_neg (not_not.2 hk)]
      exact ⟨⟨fun h => (by cases h), fun h => absurd hk h⟩, fun h => (by cases h)⟩
    · dsimp only
      rw [if_pos hk]
      exact ⟨⟨fun _ => hk, fun _ => rfl⟩, fun _ => rfl⟩

theorem matmul_inferShape_fails_iff_witness :
    BroadcastCompatible [2, 1] [3] ∧
    ((MatmulObj.inferShape
      { opType := .MatMul, inputs := [1, 2], outputs := [3], predecessors := [],
        successors := [], m := 7, n := 8, k := 9 }
      [⟨1, [2, 1, 4, 5], 4, none, [1], none⟩, ⟨2, [3, 6, 5], 4, none, [1], none⟩]).1 = none) ∧
    (MatmulObj.inferShape
      { opType := .MatMul, inputs := [1, 2], outputs := [3], predecessors := [],
        successors := [], m := 7, n := 8, k := 9 }
      [⟨1, [2, 1, 4, 5], 4, none, [1], none⟩, ⟨2, [3, 6, 5], 4, none, [1], none⟩]).2.k = 9 :=
  ⟨(infer_broadcast_isSome [2, 1] [3]).1 (by decide),
    (matmul_inferShape_fails_iff
      { opType := .MatMul, inputs := [1, 2], outputs := [3], predecessors := [],
        successors := [], m := 7, n := 8, k := 9 }
      ⟨1, [2, 1, 4, 5], 4, none, [1], none⟩ ⟨2, [3, 6, 5], 4, none, [1], none⟩
      [2, 1] [3] 4 5 6 5 rfl rfl ((infer_broadcast_isSome [2, 1] [3]).1 (by decide))).1.2
      (by decide),
    by
      rw [(matmul_inferShape_fails_iff
        { opType := .MatMul, inputs := [1, 2], outputs := [3], predecessors := [],
          successors := [], m := 7, n := 8, k := 9 }
        ⟨1, [2, 1, 4, 5], 4, none, [1], none⟩ ⟨2, [3, 6, 5], 4, none, [1], none⟩
        [2, 1] [3] 4 5 6 5 rfl rfl ((infer_broadcast_isSome [2, 1] [3]).1 (by decide))).2
        (by decide)]⟩

theorem TensorObj.grow_empty (t : TensorObj) : t.grow [] = t := by
  simp [TensorObj.grow]

theorem TensorObj.grow_twice (t : TensorObj) (a b : List Nat) :
    (t.grow a).grow b = t.grow (a ++ b) := by
  simp [TensorObj.grow]

theorem OperatorObj.grow_none (o : OperatorObj) : o.grow [] [] = o := by
  simp [OperatorObj.grow]

theorem OperatorObj.grow_again (o : OperatorObj) (a b c d : List Nat) :
    (o.grow a b).grow c d = o.grow (a ++ c) (b ++ d) := by
  simp [OperatorObj.grow]

theorem OperatorObj.addPredecessors_eq (o : OperatorObj) (p : Nat) :
    o.addPredecessors p = o.grow [p] [] := by
  simp [OperatorObj.grow, OperatorObj.addPredecessors]

theorem OperatorObj.addSuccessors_eq (o : OperatorObj) (s : Nat) :
    o.addSuccessors s = o.grow [] [s] := by
  simp [OperatorObj.grow, OperatorObj.addSuccessors]

namespace GraphObj

theorem Connected.start (g : GraphObj) (op : Nat) :
    Connected g g op [] (fun _ => []) (fun _ => []) (fun _ => []) :=
  ⟨rfl, rfl, rfl, rfl, fun t => by simp [TensorObj.grow_empty],
    fun o => (OperatorObj.grow_none _).symm⟩

theorem setSource_grow (t : TensorObj) (op : Nat) (l : List Nat) :
    (t.setSource op).grow l = (t.grow l).setSource op := rfl

theorem setSource_setSource (t : TensorObj) (op : Nat) :
    (t.setSource op).setSource op = t.setSource op := rfl

theorem Connected.andThen {g g' g'' : GraphObj} {op : Nat} {src src' : List Nat}
    {T P S T' P' S' : Nat → List Nat} (h : Connected g g' op src T P S)
    (h' : Connected g' g'' op src' T' P' S') :
    Connected g g'' op (src ++ src') (fun t => T t ++ T' t) (fun o => P o ++ P' o)
      (fun o => S o ++ S' o) := by
  refine ⟨h'.tensors.trans h.tensors, h'.ops.trans h.ops, h'.sorted.trans h.sorted,
    h'.allocator.trans h.allocator, ?_, ?_⟩
  · intro t
    rw [h'.tensorObj, h.tensorObj]
    by_cases h1 : t ∈ src <;> by_cases h2 : t ∈ src' <;>
      simp [h1, h2, setSource_grow, setSource_setSource, TensorObj.grow_twice]
  · intro o
    rw [h'.opObj, h.opObj, OperatorObj.grow_again]

theorem connectInput_spec (op : Nat) (g : GraphObj) (t : Nat) :
    Connected g (connectInput op g t) op [] (fun x => if x = t then [op] else [])
      (fun o => match (g.tensorObj t).source with
        | some pred => if o = op then [pred] else []
        | none => [])
      (fun o => match (g.tensorObj t).source with
        | some pred => if o = pred then [op] else []
        | none => []) := by
  have hsrc : ((g.updTensor t (fun x => x.addTarget op)).tensorObj t).source =
      (g.tensorObj t).source := by
    simp [updTensor, TensorObj.addTarget]
  have htens : ∀ x, (g.updTensor t (fun x => x.addTarget op)).tensorObj x =
      (g.tensorObj x).grow (if x = t then [op] else []) := by
    intro x
    by_cases hx : x = t
    · simp [updTensor, hx, TensorObj.grow, TensorObj.addTarget]
    · simp [updTensor, hx, TensorObj.grow_empty]
  unfold connectInput
  simp only [hsrc]
  cases hs : (g.tensorObj t).source with
  | none =>
    refine ⟨rfl, rfl, rfl, rfl, fun x => ?_, fun o => ?_⟩
    · simp only [List.not_mem_nil, if_false]
      exact htens x
    · simp only
      exact (OperatorObj.grow_none _).symm
  | some pred =>
    refine ⟨rfl, rfl, rfl, rfl, fun x => ?_, fun o => ?_⟩
    · simp only [List.not_mem_nil, if_false]
      exact htens x
    · simp only [updOp, updTensor, OperatorObj.addPredecessors_eq,
        OperatorObj.addSuccessors_eq]
      by_cases h1 : o = op <;> by_cases h2 : o = pred <;> subst_vars <;>
        simp [*, OperatorObj.grow_again, OperatorObj.grow_none]

theorem connectTarget_spec (op : Nat) (g : GraphObj) (succ : Nat) :
    Connected g (connectTarget op g succ) op [] (fun _ => [])
      (fun o => if o = succ then [op] else [])
      (fun o => if o = op then [succ] else []) := by
  refine ⟨rfl, rfl, rfl, rfl, fun x => ?_, fun o => ?_⟩
  · simp [connectTarget, updOp, TensorObj.grow_empty]
  · simp only [connectTarget, updOp, OperatorObj.addPredecessors_eq,
      OperatorObj.addSuccessors_eq]
    by_cases h1 : o = op <;> by_cases h2 : o = succ <;> subst_vars <;>
      simp [*, OperatorObj.grow_again, OperatorObj.grow_none]

theorem Connected.source_eq {g g' : GraphObj} {op : Nat} {T P S : Nat → List Nat}
    (h : Connected g g' op [] T P S) (t : Nat) :
    (g'.tensorObj t).source = (g.tensorObj t).source := by
  rw [h.tensorObj]
  simp [TensorObj.grow]

theorem Connected.targets_eq {g g' : GraphObj} {op : Nat} {src : List Nat}
    {T P S : Nat → List Nat} (h : Connected g g' op src T P S) (t : Nat) :
    (g'.tensorObj t).targets = (g.tensorObj t).targets ++ T t := by
  rw [h.tensorObj]
  by_cases ht : t ∈ src <;> simp [ht, TensorObj.grow, TensorObj.setSource]

/-- The first loop of `addOperatorAndConnect`. -/
theorem input_connect_loop (op : Nat) : ∀ (L : List Nat) (g : GraphObj),
    ∃ T P S, Connected g (L.foldl (connectInput op) g) op [] T P S ∧
      (∀ t x, x ∈ T t ↔ x = op ∧ t ∈ L) ∧
      (∀ o p, p ∈ P o ↔ o = op ∧ ∃ t ∈ L, (g.tensorObj t).source = some p) ∧
      (∀ o s, s ∈ S o ↔ s = op ∧ ∃ t ∈ L, (g.tensorObj t).source = some o) := by
  intro L
  induction L with
  | nil =>
    intro g
    exact ⟨_, _, _, Connected.start g op, by simp, by simp, by simp⟩
  | cons i L ih =>
    intro g
    have h1 := connectInput_spec op g i
    obtain ⟨T, P, S, h2, hT, hP, hS⟩ := ih (connectInput op g i)
    have hsrc : ∀ t, ((connectInput op g i).tensorObj t).source = (g.tensorObj t).source :=
      fun t => h1.source_eq t
    refine ⟨_, _, _, h1.andThen h2, ?_, ?_, ?_⟩
    · intro t x
      simp only [List.mem_append, hT, List.mem_cons]
      by_cases ht : t = i
      · simp [ht]; tauto
      · simp [ht]
    · intro o p
      simp only [List.mem_append, hP, hsrc, List.mem_cons, exists_eq_or_imp]
      cases hs : (g.tensorObj i).source with
      | none => simp
      | some pred =>
        by_cases ho : o = op
        · simp [ho, eq_comm]
        · simp [ho]
    · intro o s
      simp only [List.mem_append, hS, hsrc, List.mem_cons, exists_eq_or_imp]
      cases hs : (g.tensorObj i).source with
      | none => simp
      | some pred =>
        by_cases ho : o = pred
        · simp [ho]; tauto
        · simp [ho, Ne.symm ho]

/-- The loop over the consumers of an output. -/
theorem target_connect_loop (op : Nat) : ∀ (L : List Nat) (g : GraphObj),
    ∃ T P S, Connected g (L.foldl (connectTarget op) g) op [] T P S ∧
      (∀ t, T t = []) ∧
      (∀ o p, p ∈ P o ↔ p = op ∧ o ∈ L) ∧
      (∀ o s, s ∈ S o ↔ o = op ∧ s ∈ L) := by
  intro L
  induction L with
  | nil =>
    intro g
    exact ⟨_, _, _, Connected.start g op, by simp, by simp, by simp⟩
  | cons i L ih =>
    intro g
    have h1 := connectTarget_spec op g i
    obtain ⟨T, P, S, h2, hT, hP, hS⟩ := ih (connectTarget op g i)
    refine ⟨_, _, _, h1.andThen h2, ?_, ?_, ?_⟩
    · intro t; simp [hT]
    · intro o p
      simp only [List.mem_append, hP, List.mem_cons]
      by_cases ho : o = i
      · simp [ho]; tauto
      · simp [ho]
    · intro o s
      simp only [List.mem_append, hS, List.mem_cons]
      by_cases ho : o = op
      · simp [ho]
      · simp [ho]

theorem setSource_spec (op : Nat) (g : GraphObj) (t : Nat) :
    Connected g (g.updTensor t (fun x => x.setSource op)) op [t] (fun _ => [])
      (fun _ => []) (fun _ => []) := by
  refine ⟨rfl, rfl, rfl, rfl, fun x => ?_, fun o => (OperatorObj.grow_none _).symm⟩
  by_cases hx : x = t
  · simp [updTensor, hx, TensorObj.grow_empty]
  · simp [updTensor, hx, TensorObj.grow_empty]

/-- The second loop of `addOperatorAndConnect`. -/
theorem output_connect_loop (op : Nat) : ∀ (L : List Nat) (g : GraphObj),
    ∃ T P S, Connected g (L.foldl (connectOutput op) g) op L T P S ∧
      (∀ t, T t = []) ∧
      (∀ o p, p ∈ P o ↔ p = op ∧ ∃ t ∈ L, o ∈ (g.tensorObj t).targets) ∧
      (∀ o s, s ∈ S o ↔ o = op ∧ ∃ t ∈ L, s ∈ (g.tensorObj t).targets) := by
  intro L
  induction L with
  | nil =>
    intro g
    exact ⟨_, _, _, Connected.start g op, by simp, by simp, by simp⟩
  | cons i L ih =>
    intro g
    have h0 := setSource_spec op g i
    obtain ⟨T1, P1, S1, h1, hT1, hP1, hS1⟩ := target_connect_loop op
      ((g.updTensor i (fun x => x.setSource op)).tensorObj i).targets
      (g.updTensor i (fun x => x.setSource op))
    have h01 := h0.andThen h1
    have htg0 : ((g.updTensor i (fun x => x.setSource op)).tensorObj i).targets =
        (g.tensorObj i).targets := by
      rw [h0.targets_eq]; simp
    rw [htg0] at hP1 hS1
    obtain ⟨T2, P2, S2, h2, hT2, hP2, hS2⟩ := ih (connectOutput op g i)
    have htg : ∀ t, ((connectOutput op g i).tensorObj t).targets = (g.tensorObj t).targets := by
      intro t
      have := h01.targets_eq t
      simp only [hT1, List.append_nil] at this
      exact this
    refine ⟨_, _, _, h01.andThen h2, ?_, ?_, ?_⟩
    · intro t; simp [hT1, hT2]
    · intro o p
      simp only [List.mem_append, hP1, hP2, htg, List.mem_cons, exists_eq_or_imp,
        List.not_mem_nil, false_or]
      tauto
    · intro o s
      simp only [List.mem_append, hS1, hS2, htg, List.mem_cons, exists_eq_or_imp,
        List.not_mem_nil, false_or]
      tauto

/-- The state `addOperatorAndConnect` leaves, relative to the state before. -/
theorem addOperatorAndConnect_connected (g : GraphObj) (op : Nat) :
    ∃ T P S,
      Connected { g with sorted := false, ops := g.ops ++ [op] } (g.addOperatorAndConnect op)
        op (g.opObj op).outputs T P S ∧
      (∀ t x, x ∈ T t ↔ x = op ∧ t ∈ (g.opObj op).inputs) ∧
      (∀ o p, p ∈ P o ↔
        (o = op ∧ ∃ t ∈ (g.opObj op).inputs, (g.tensorObj t).source = some p) ∨
        (p = op ∧ ∃ t ∈ (g.opObj op).outputs,
          (o ∈ (g.tensorObj t).targets ∨ (o = op ∧ t ∈ (g.opObj op).inputs)))) ∧
      (∀ o s, s ∈ S o ↔
        (s = op ∧ ∃ t ∈ (g.opObj op).inputs, (g.tensorObj t).source = some o) ∨
        (o = op ∧ ∃ t ∈ (g.opObj op).outputs,
          (s ∈ (g.tensorObj t).targets ∨ (s = op ∧ t ∈ (g.opObj op).inputs)))) := by
  obtain ⟨T1, P1, S1, h1, hT1, hP1, hS1⟩ := input_connect_loop op (g.opObj op).inputs
    { g with sorted := false, ops := g.ops ++ [op] }
  have hout : ((List.foldl (connectInput op) { g with sorted := false, ops := g.ops ++ [op] }
      (g.opObj op).inputs).opObj op).outputs = (g.opObj op).outputs := by
    rw [h1.opObj]; rfl
  obtain ⟨T2, P2, S2, h2, hT2, hP2, hS2⟩ := output_connect_loop op (g.opObj op).outputs
    (List.foldl (connectInput op) { g with sorted := false, ops := g.ops ++ [op] }
      (g.opObj op).inputs)
  have e : g.addOperatorAndConnect op =
      List.foldl (connectOutput op)
        (List.foldl (connectInput op) { g with sorted := false, ops := g.ops ++ [op] }
          (g.opObj op).inputs) (g.opObj op).outputs := by
    unfold addOperatorAndConnect
    simp only [hout]
  rw [e]
  refine ⟨_, _, _, h1.andThen h2, ?_, ?_, ?_⟩
  · intro t x
    simp only [List.mem_append, hT1, hT2, List.not_mem_nil, or_false]
  · intro o p
    simp only [List.mem_append, hP1, hP2, h1.targets_eq, hT1]
  · intro o s
    simp only [List.mem_append, hS1, hS2, h1.targets_eq, hT1]

/-- C17: for an operator `op` whose outputs have no producer yet, after
`addOperatorAndConnect(op)` the operator is the last element of the operator sequence, the
`sorted` flag is false, `op` is a consumer of each of its inputs, the producer of each input
(if any) is a predecessor of `op` and has `op` as a successor, each output has `op` as its
producer, every consumer already registered on an output is a successor of `op` and has `op`
as a predecessor; and for every operator whose predecessor and successor lists mirrored the
producer and consumer edges before the call, they still do afterwards. -/
theorem addOperatorAndConnect_wires (g : GraphObj) (op : Nat)
    (hout : ∀ t ∈ (g.opObj op).outputs, (g.tensorObj t).source = none) :
    (g.addOperatorAndConnect op).ops = g.ops ++ [op] ∧
    (g.addOperatorAndConnect op).sorted = false ∧
    (g.addOperatorAndConnect op).tensors = g.tensors ∧
    ((g.addOperatorAndConnect op).opObj op).inputs = (g.opObj op).inputs ∧
    ((g.addOperatorAndConnect op).opObj op).outputs = (g.opObj op).outputs ∧
    (∀ t ∈ (g.opObj op).inputs, op ∈ ((g.addOperatorAndConnect op).tensorObj t).targets) ∧
    (∀ t ∈ (g.opObj op).inputs, ∀ p, (g.tensorObj t).source = some p →
      p ∈ ((g.addOperatorAndConnect op).opObj op).predecessors ∧
      op ∈ ((g.addOperatorAndConnect op).opObj p).successors) ∧
    (∀ t ∈ (g.opObj op).outputs,
      ((g.addOperatorAndConnect op).tensorObj t).source = some op) ∧
    (∀ t ∈ (g.opObj op).outputs, ∀ s ∈ (g.tensorObj t).targets,
      s ∈ ((g.addOperatorAndConnect op).opObj op).successors ∧
      op ∈ ((g.addOperatorAndConnect op).opObj s).predecessors) ∧
    (∀ o, g.MirrorAt o → (g.addOperatorAndConnect op).MirrorAt o) := by
  obtain ⟨T, P, S, hc, hT, hP, hS⟩ := addOperatorAndConnect_connected g op
  have htg : ∀ t x, x ∈ ((g.addOperatorAndConnect op).tensorObj t).targets ↔
      x ∈ (g.tensorObj t).targets ∨ (x = op ∧ t ∈ (g.opObj op).inputs) := by
    intro t x
    rw [hc.targets_eq, List.mem_append, hT]
  have hsrc : ∀ t p, ((g.addOperatorAndConnect op).tensorObj t).source = some p ↔
      (t ∈ (g.opObj op).outputs ∧ p = op) ∨ (g.tensorObj t).source = some p := by
    intro t p
    rw [hc.tensorObj]
    by_cases ht : t ∈ (g.opObj op).outputs
    · rw [if_pos ht]
      have := hout t ht
      simp [TensorObj.setSource, TensorObj.grow, ht, this, eq_comm]
    · rw [if_neg ht]
      simp [TensorObj.grow, ht]
  have hpr : ∀ o p, p ∈ ((g.addOperatorAndConnect op).opObj o).predecessors ↔
      p ∈ (g.opObj o).predecessors ∨ p ∈ P o := by
    intro o p
    rw [hc.opObj]
    simp [OperatorObj.grow]
  have hsu : ∀ o s, s ∈ ((g.addOperatorAndConnect op).opObj o).successors ↔
      s ∈ (g.opObj o).successors ∨ s ∈ S o := by
    intro o s
    rw [hc.opObj]
    simp [OperatorObj.grow]
  refine ⟨hc.ops, hc.sorted, hc.tensors, by rw [hc.opObj]; rfl, by rw [hc.opObj]; rfl,
    ?_, ?_, ?_, ?_, ?_⟩
  · intro t ht
    exact (htg t op).2 (Or.inr ⟨rfl, ht⟩)
  · intro t ht p hp
    exact ⟨(hpr op p).2 (Or.inr ((hP op p).2 (Or.inl ⟨rfl, t, ht, hp⟩))),
      (hsu p op).2 (Or.inr ((hS p op).2 (Or.inl ⟨rfl, t, ht, hp⟩)))⟩
  · intro t ht
    exact (hsrc t op).2 (Or.inl ⟨ht, rfl⟩)
  · intro t ht s hs
    exact ⟨(hsu op s).2 (Or.inr ((hS op s).2 (Or.inr ⟨rfl, t, ht, Or.inl hs⟩))),
      (hpr s op).2 (Or.inr ((hP s op).2 (Or.inr ⟨rfl, t, ht, Or.inl hs⟩)))⟩
  · intro o ⟨hm1, hm2⟩
    constructor
    · intro p
      rw [hpr, hP, hm1]
      constructor
      · rintro (⟨t, h1, h2⟩ | ⟨rfl, t, h1, h2⟩ | ⟨rfl, t, h1, h2⟩)
        · exact ⟨t, (htg t o).2 (Or.inl h1), (hsrc t p).2 (Or.inr h2)⟩
        · exact ⟨t, (htg t o).2 (Or.inr ⟨rfl, h1⟩), (hsrc t p).2 (Or.inr h2)⟩
        · exact ⟨t, (htg t o).2 h2, (hsrc t p).2 (Or.inl ⟨h1, rfl⟩)⟩
      · rintro ⟨t, h1, h2⟩
        rcases (hsrc t p).1 h2 with ⟨h3, rfl⟩ | h3
        · exact Or.inr (Or.inr ⟨rfl, t, h3, (htg t o).1 h1⟩)
        · rcases (htg t o).1 h1 with h4 | ⟨rfl, h4⟩
          · exact Or.inl ⟨t, h4, h3⟩
          · exact Or.inr (Or.inl ⟨rfl, t, h4, h3⟩)
    · intro s
      rw [hsu, hS, hm2]
      constructor
      · rintro (⟨t, h1, h2⟩ | ⟨rfl, t, h1, h2⟩ | ⟨rfl, t, h1, h2⟩)
        · exact ⟨t, (hsrc t o).2 (Or.inr h1), (htg t s).2 (Or.inl h2)⟩
        · exact ⟨t, (hsrc t o).2 (Or.inr h2), (htg t s).2 (Or.inr ⟨rfl, h1⟩)⟩
        · exact ⟨t, (hsrc t o).2 (Or.inl ⟨h1, rfl⟩), (htg t s).2 h2⟩
      · rintro ⟨t, h1, h2⟩
        rcases (hsrc t o).1 h1 with ⟨h3, rfl⟩ | h3
        · exact Or.inr (Or.inr ⟨rfl, t, h3, (htg t s).1 h2⟩)
        · rcases (htg t s).1 h2 with h4 | ⟨rfl, h4⟩
          · exact Or.inl ⟨t, h3, h4⟩
          · exact Or.inr (Or.inl ⟨rfl, t, h4, h3⟩)

theorem addOperatorAndConnect_wires_witness :
    (∀ t ∈ ((unwiredChain.addOperatorAndConnect 1).opObj 2).outputs,
      ((unwiredChain.addOperatorAndConnect 1).tensorObj t).source = none) ∧
    ((unwiredChain.addOperatorAndConnect 1).addOperatorAndConnect 2).ops =
      (unwiredChain.addOperatorAndConnect 1).ops ++ [2] ∧
    ((unwiredChain.addOperatorAndConnect 1).addOperatorAndConnect 2).sorted = false ∧
    (1 ∈ (((unwiredChain.addOperatorAndConnect 1).addOperatorAndConnect 2).opObj
        2).predecessors ∧
      2 ∈ (((unwiredChain.addOperatorAndConnect 1).addOperatorAndConnect 2).opObj
        1).successors) ∧
    (((unwiredChain.addOperatorAndConnect 1).addOperatorAndConnect 2).tensorObj 3).source =
      some 2 :=
  ⟨by decide,
    (addOperatorAndConnect_wires (unwiredChain.addOperatorAndConnect 1) 2 (by decide)).1,
    (addOperatorAndConnect_wires (unwiredChain.addOperatorAndConnect 1) 2 (by decide)).2.1,
    (addOperatorAndConnect_wires (unwiredChain.addOperatorAndConnect 1) 2
      (by decide)).2.2.2.2.2.2.1 2 (by decide) 1 (by decide),
    (addOperatorAndConnect_wires (unwiredChain.addOperatorAndConnect 1) 2
      (by decide)).2.2.2.2.2.2.2.1 3 (by decide)⟩

theorem Core.same (g : GraphObj) : Core g g :=
  ⟨rfl, fun _ => rfl, fun _ => rfl, fun _ => rfl, fun _ => rfl⟩

theorem Core.comp {g g' g'' : GraphObj} (h : Core g g') (h' : Core g' g'') : Core g g'' :=
  ⟨h'.ops.trans h.ops, fun t => (h'.source t).trans (h.source t),
    fun o => (h'.opType o).trans (h.opType o), fun o => (h'.permute o).trans (h.permute o),
    fun o => (h'.outputs o).trans (h.outputs o)⟩

theorem Kept.unchanged (g : GraphObj) : Kept g g :=
  ⟨Core.same g, rfl, fun _ => rfl, fun _ => rfl, fun _ => rfl⟩

theorem Kept.followedBy {g g' g'' : GraphObj} (h : Kept g g') (h' : Kept g' g'') : Kept g g'' :=
  ⟨h.toCore.comp h'.toCore, h'.tensors.trans h.tensors,
    fun o => (h'.inputs o).trans (h.inputs o), fun o => (h'.transA o).trans (h.transA o),
    fun o => (h'.transB o).trans (h.transB o)⟩

theorem core_updOp (g : GraphObj) (o : Nat) (f : OperatorObj → OperatorObj)
    (hf : ∀ x, (f x).opType = x.opType ∧ (f x).permute = x.permute ∧
      (f x).outputs = x.outputs) : Core g (g.updOp o f) := by
  refine ⟨rfl, fun _ => rfl, fun x => ?_, fun x => ?_, fun x => ?_⟩ <;>
    (by_cases hx : x = o <;> simp [updOp, hx, hf])

theorem kept_updOp (g : GraphObj) (o : Nat) (f : OperatorObj → OperatorObj)
    (hf : ∀ x, (f x).opType = x.opType ∧ (f x).permute = x.permute ∧
      (f x).outputs = x.outputs ∧ (f x).inputs = x.inputs ∧ (f x).transA = x.transA ∧
      (f x).transB = x.transB) : Kept g (g.updOp o f) := by
  refine ⟨core_updOp g o f (fun x => ⟨(hf x).1, (hf x).2.1, (hf x).2.2.1⟩), rfl,
    fun x => ?_, fun x => ?_, fun x => ?_⟩ <;>
    (by_cases hx : x = o <;> simp [updOp, hx, hf])

theorem kept_updTensor (g : GraphObj) (t : Nat) (f : TensorObj → TensorObj)
    (hf : ∀ x, (f x).source = x.source) : Kept g (g.updTensor t f) := by
  refine ⟨⟨rfl, fun x => ?_, fun _ => rfl, fun _ => rfl, fun _ => rfl⟩, rfl, fun _ => rfl,
    fun _ => rfl, fun _ => rfl⟩
  by_cases hx : x = t <;> simp [updTensor, hx, hf]

theorem kept_removeSuccessors (g : GraphObj) (o s : Nat) :
    Kept g (g.updOp o (fun x => x.removeSuccessors s)) :=
  kept_updOp g o _ (fun _ => ⟨rfl, rfl, rfl, rfl, rfl, rfl⟩)

theorem kept_removePredecessors (g : GraphObj) (o s : Nat) :
    Kept g (g.updOp o (fun x => x.removePredecessors s)) :=
  kept_updOp g o _ (fun _ => ⟨rfl, rfl, rfl, rfl, rfl, rfl⟩)

theorem kept_addSuccessors (g : GraphObj) (o s : Nat) :
    Kept g (g.updOp o (fun x => x.addSuccessors s)) :=
  kept_updOp g o _ (fun _ => ⟨rfl, rfl, rfl, rfl, rfl, rfl⟩)

theorem kept_addPredecessors (g : GraphObj) (o s : Nat) :
    Kept g (g.updOp o (fun x => x.addPredecessors s)) :=
  kept_updOp g o _ (fun _ => ⟨rfl, rfl, rfl, rfl, rfl, rfl⟩)

theorem kept_removeTarget (g : GraphObj) (t op : Nat) :
    Kept g (g.updTensor t (fun x => x.removeTarget op)) :=
  kept_updTensor g t _ (fun _ => rfl)

theorem kept_addTarget (g : GraphObj) (t op : Nat) :
    Kept g (g.updTensor t (fun x => x.addTarget op)) :=
  kept_updTensor g t _ (fun _ => rfl)

theorem targets_updOp (g : GraphObj) (o : Nat) (f : OperatorObj → OperatorObj) (t : Nat) :
    ((g.updOp o f).tensorObj t).targets = (g.tensorObj t).targets := rfl

theorem mem_targets_removeTarget (g : GraphObj) (t op t' x : Nat) :
    x ∈ ((g.updTensor t (fun y => y.removeTarget op)).tensorObj t').targets ↔
      x ∈ (g.tensorObj t').targets ∧ ¬ (t' = t ∧ x = op) := by
  by_cases ht : t' = t
  · simp [updTensor, ht, TensorObj.removeTarget]
  · simp [updTensor, ht]

/-- The call `deleteConnection(tensor, op)` goes through when `op` is a consumer of
`tensor`; it edits edges only, and `op` is no longer a consumer of `tensor`. -/
theorem deleteConnection_spec (g : GraphObj) (tensor op : Nat)
    (h : op ∈ (g.tensorObj tensor).targets) :
    ∃ g', g.deleteConnection tensor op = some g' ∧ Kept g g' ∧
      ∀ t x, x ∈ (g'.tensorObj t).targets ↔
        x ∈ (g.tensorObj t).targets ∧ ¬ (t = tensor ∧ x = op) := by
  unfold deleteConnection
  rw [if_pos h]
  have k1 := kept_removeTarget g tensor op
  dsimp only
  cases hs : ((g.updTensor tensor (fun t => t.removeTarget op)).tensorObj tensor).source with
  | none =>
    exact ⟨_, rfl, k1, fun t x => mem_targets_removeTarget g tensor op t x⟩
  | some s =>
    refine ⟨_, rfl, k1.followedBy ((kept_removeSuccessors _ s op).followedBy
      (kept_removePredecessors _ op s)), fun t x => ?_⟩
    rw [targets_updOp, targets_updOp]
    exact mem_targets_removeTarget g tensor op t x

/-- The call `addConnection(tensor, op)` edits edges only. -/
theorem addConnection_kept (g : GraphObj) (tensor op : Nat) :
    Kept g (g.addConnection tensor op) := by
  unfold addConnection
  have k1 := kept_addTarget g tensor op
  dsimp only
  cases hs : ((g.updTensor tensor (fun t => t.addTarget op)).tensorObj tensor).source with
  | none => exact k1
  | some s => exact k1.followedBy ((kept_addSuccessors _ s op).followedBy (kept_addPredecessors _ op s))

theorem kept_removeTensor (g : GraphObj) (t : Nat) : Core g (g.removeTensor t) :=
  ⟨rfl, fun _ => rfl, fun _ => rfl, fun _ => rfl, fun _ => rfl⟩

/-- The rewrite of a Transpose pair goes through when the first Transpose is a consumer of
its input; it leaves the operator sequence alone and erases the two intermediate tensors. -/
theorem eliminatePair_spec (g : GraphObj) (O O2 t0 t1 t2 : Nat) (r r' : List Nat)
    (hi : (g.opObj O).inputs = t0 :: r) (hi2 : (g.opObj O2).inputs = t1 :: r')
    (ho : (g.opObj O2).outputs = [t2]) (ht : O ∈ (g.tensorObj t0).targets) :
    ∃ g1, g.eliminatePair O O2 = some g1 ∧ g1.ops = g.ops ∧
      g1.tensors = (g.tensors.erase t1).erase t2 := by
  unfold eliminatePair
  simp only [hi, hi2, OperatorObj.getOutput, ho, List.getElem?_cons_zero]
  have e1 : (((g.removeTensor t1).removeTensor t2).opObj O).predecessors =
      (g.opObj O).predecessors := rfl
  rw [e1]
  cases hp : (g.opObj O).predecessors with
  | nil =>
    dsimp only
    obtain ⟨g3, hg3, k3, -⟩ := deleteConnection_spec ((g.removeTensor t1).removeTensor t2) t0 O ht
    rw [hg3]
    dsimp only
    cases (g3.opObj O2).successors with
    | nil => exact ⟨_, rfl, k3.ops, k3.tensors⟩
    | cons nn ns =>
      have k4 := addConnection_kept g3 t0 nn
      exact ⟨_, rfl, k4.ops.trans k3.ops, k4.tensors.trans k3.tensors⟩
  | cons p ps =>
    dsimp only
    obtain ⟨g3, hg3, k3, -⟩ := deleteConnection_spec
      (((g.removeTensor t1).removeTensor t2).updOp p (fun o => o.removeSuccessors O)) t0 O ht
    rw [hg3]
    dsimp only
    cases (g3.opObj O2).successors with
    | nil => exact ⟨_, rfl, k3.ops, k3.tensors⟩
    | cons nn ns =>
      have k4 := addConnection_kept g3 t0 nn
      exact ⟨_, rfl, k4.ops.trans k3.ops, k4.tensors.trans k3.tensors⟩

theorem fuseInput_skip (g : GraphObj) (op it freq input : Nat) (h : g.skips input = true) :
    fuseInput op (g, it, freq) input = some (g, it, freq + 1) := by
  unfold skips at h
  unfold fuseInput
  cases hs : (g.tensorObj input).source with
  | none => rfl
  | some p =>
    rw [hs] at h
    dsimp only at h ⊢
    by_cases ht : (g.opObj p).opType = .Transpose
    · rw [if_pos ht] at h ⊢
      have : swapsLastTwo (g.opObj p).permute = some false := by simpa using h
      rw [this]
    · rw [if_neg ht]

theorem fuseInput_skip_fold (g : GraphObj) (op it : Nat) : ∀ (L : List Nat) (freq : Nat),
    (∀ input ∈ L, g.skips input = true) →
    foldOpt (fuseInput op) (g, it, freq) L = some (g, it, freq + L.length) := by
  intro L
  induction L with
  | nil => intro freq _; rfl
  | cons i L ih =>
    intro freq h
    unfold foldOpt
    rw [fuseInput_skip g op it freq i (h i (List.mem_cons_self _ _))]
    dsimp only
    rw [ih (freq + 1) (fun x hx => h x (List.mem_cons_of_mem _ hx))]
    simp only [List.length_cons]
    congr 3
    omega

theorem optStep_inert (g : GraphObj) (it o : Nat) (h : g.ops[it]? = some o)
    (hi : g.inert o = true) : g.optStep it = some (g, it + 1) := by
  unfold inert at hi
  unfold optStep
  rw [h]
  dsimp only
  cases ht : (g.opObj o).opType with
  | Transpose =>
    rw [ht] at hi
    dsimp only at hi ⊢
    cases hsu : (g.opObj o).successors with
    | nil => rfl
    | cons next ns =>
      rw [hsu] at hi
      dsimp only at hi ⊢
      have : ¬ ((g.opObj next).opType = .Transpose ∧
          (g.opObj o).permute = (g.opObj next).permute) := by
        intro hc
        simp [hc.1, hc.2] at hi
      rw [if_neg this]
  | MatMul =>
    rw [ht] at hi
    dsimp only at hi ⊢
    rw [fuseInput_skip_fold g o it _ 0 (by simpa using hi)]
  | Other =>
    rw [ht] at hi
    cases hi

theorem optLoop_end (g : GraphObj) (fuel : Nat) :
    optLoop (fuel + 1) g g.ops.length = some (some g) := by
  unfold optLoop
  rw [if_pos rfl]

/-- The scan passes over a stretch of operators on which no rewrite fires. -/
theorem optLoop_inert (g : GraphObj) (fuel : Nat) : ∀ (seg pre post : List Nat),
    g.ops = pre ++ seg ++ post → (∀ o ∈ seg, g.inert o = true) →
    optLoop (fuel + seg.length) g pre.length = optLoop fuel g (pre.length + seg.length) := by
  intro seg
  induction seg with
  | nil => intro pre post _ _; rfl
  | cons o seg ih =>
    intro pre post hops hin
    have hlen : g.ops.length = pre.length + (seg.length + 1) + post.length := by
      rw [hops]; simp; omega
    have hget : g.ops[pre.length]? = some o := by
      rw [hops, List.append_assoc, List.getElem?_append_right (le_refl _)]
      simp
    have e : fuel + (o :: seg).length = (fuel + seg.length) + 1 := by simp; omega
    rw [e]
    show (if pre.length = g.ops.length then some (some g)
      else if g.ops.length < pre.length then some none
      else match g.optStep pre.length with
        | none => some none
        | some st => optLoop (fuel + seg.length) st.1 st.2) = _
    rw [if_neg (by omega), if_neg (by omega),
      optStep_inert g _ o hget (hin o (List.mem_cons_self _ _))]
    dsimp only
    have := ih (pre ++ [o]) post (by rw [hops]; simp)
      (fun x hx => hin x (List.mem_cons_of_mem _ hx))
    simp only [List.length_append, List.length_singleton] at this
    rw [this]
    simp only [List.length_cons]
    congr 1
    omega

theorem eraseIdx_length_append (pre : List Nat) (x : Nat) (rest : List Nat) :
    (pre ++ x :: rest).eraseIdx pre.length = pre ++ rest := by
  induction pre with
  | nil => rfl
  | cons p pre ih => simp [List.eraseIdx, ih]

theorem getElem?_length_append (pre : List Nat) (x : Nat) (rest : List Nat) :
    (pre ++ x :: rest)[pre.length]? = some x := by
  rw [List.getElem?_append_right (le_refl _)]
  simp

theorem fuel_split (n k : Nat) (h : k ≤ n + 2) :
    ∃ r, (n + 1) * (n + 2) + 1 = r + k := by
  refine ⟨(n + 1) * (n + 2) + 1 - k, ?_⟩
  have : n + 2 ≤ (n + 1) * (n + 2) := Nat.le_mul_of_pos_left _ (by omega)
  omega

/-- The scan step at a Transpose `O` that is followed in the sequence by its first successor
`O2`, a Transpose with the same permutation. -/
theorem optStep_pair (g : GraphObj) (pre post : List Nat) (O O2 t0 t1 t2 : Nat)
    (ns r r' : List Nat)
    (hops : g.ops = pre ++ O :: O2 :: post)
    (hO : (g.opObj O).opType = .Transpose) (hO2 : (g.opObj O2).opType = .Transpose)
    (hperm : (g.opObj O).permute = (g.opObj O2).permute)
    (hsucc : (g.opObj O).successors = O2 :: ns)
    (hin : (g.opObj O).inputs = t0 :: r) (hin2 : (g.opObj O2).inputs = t1 :: r')
    (hout2 : (g.opObj O2).outputs = [t2]) (hcons : O ∈ (g.tensorObj t0).targets) :
    ∃ g1, g.eliminatePair O O2 = some g1 ∧ g1.tensors = (g.tensors.erase t1).erase t2 ∧
      g.optStep pre.length = some ({ g1 with ops := pre ++ post }, pre.length) := by
  obtain ⟨g1, h1, h2, h3⟩ := eliminatePair_spec g O O2 t0 t1 t2 r r' hin hin2 hout2 hcons
  refine ⟨g1, h1, h3, ?_⟩
  unfold optStep
  rw [hops, getElem?_length_append]
  dsimp only
  rw [hO]
  dsimp only
  rw [hsucc]
  dsimp only
  rw [if_pos ⟨hO2, hperm⟩, h1]
  dsimp only
  rw [h2, hops, eraseIdx_length_append, eraseIdx_length_append,
    if_pos (by simp)]

/-- C11 (as amended): on a valid graph that lists each operator once, let `O` be a Transpose
(input `t0`, which lists `O` as a consumer, output `t1`) whose only successor `O2` is a
Transpose with the same permutation (input `t1`, output `t2`) that directly follows `O` in
the operator sequence, every operator before `O` and, in the rewritten graph, every operator
after `O2` being inert: a Transpose whose first successor is no Transpose with the same
permutation, or a Matmul all of whose inputs are passed over. Then `optimize()` ends, neither `O` nor `O2` is in the operator sequence, every other
operator still is, in the same order, and the tensor set has lost exactly `t1` and `t2`. -/
theorem transpose_pair_eliminated (g : GraphObj) (pre post : List Nat)
    (O O2 t0 t1 t2 : Nat) (hvalid : g.checkValid = true) (hnd : g.ops.Nodup)
    (hops : g.ops = pre ++ O :: O2 :: post)
    (hpre : ∀ o ∈ pre, g.inert o = true)
    (hO : (g.opObj O).opType = .Transpose) (hO2 : (g.opObj O2).opType = .Transpose)
    (hperm : (g.opObj O).permute = (g.opObj O2).permute)
    (hsucc : (g.opObj O).successors = [O2])
    (hin : (g.opObj O).inputs = [t0]) (hout : (g.opObj O).outputs = [t1])
    (hin2 : (g.opObj O2).inputs = [t1]) (hout2 : (g.opObj O2).outputs = [t2])
    (hcons : O ∈ (g.tensorObj t0).targets)
    (hpost : (g.eliminatePair O O2).all (fun g1 => post.all g1.inert) = true) :
    ∃ g', g.optimize = some g' ∧ g'.ops = pre ++ post ∧ O ∉ g'.ops ∧ O2 ∉ g'.ops ∧
      (∀ o ∈ g.ops, o ≠ O → o ≠ O2 → o ∈ g'.ops) ∧
      t1 ∈ (g.opObj O).outputs ∧ t2 ∈ (g.opObj O2).outputs ∧
      t1 ∉ g'.tensors ∧ t2 ∉ g'.tensors ∧
      (∀ t ∈ g.tensors, t ≠ t1 → t ≠ t2 → t ∈ g'.tensors) := by
  have htn : g.tensors.Nodup := (valid_of_checkValid g hvalid).tensors_nodup
  obtain ⟨g1, h1, h2, h3⟩ := optStep_pair g pre post O O2 t0 t1 t2 [] [] [] hops hO hO2 hperm
    hsucc hin hin2 hout2 hcons
  rw [h1] at hpost
  have hpost' : ∀ o ∈ post, inert { g1 with ops := pre ++ post } o = true := by
    intro o ho
    have : post.all g1.inert = true := hpost
    rw [List.all_eq_true] at this
    exact this o ho
  have hlen : g.ops.length = pre.length + post.length + 2 := by
    rw [hops]; simp; omega
  obtain ⟨r, hr⟩ := fuel_split g.ops.length (post.length + 1 + 1 + pre.length) (by omega)
  refine ⟨{ g1 with ops := pre ++ post }, ?_, rfl, ?_, ?_, ?_, ?_, ?_, ?_, ?_, ?_⟩
  · unfold optimize
    have e1 := optLoop_inert g (r + post.length + 1 + 1) pre [] (O :: O2 :: post)
      (by rw [hops]; simp) hpre
    have e2 : optLoop (r + post.length + 1 + 1) g pre.length =
        optLoop (r + post.length + 1) { g1 with ops := pre ++ post } pre.length := by
      show (if pre.length = g.ops.length then some (some g)
        else if g.ops.length < pre.length then some none
        else match g.optStep pre.length with
          | none => some none
          | some st => optLoop (r + post.length + 1) st.1 st.2) = _
      rw [if_neg (by omega), if_neg (by omega), h3]
    have e3 := optLoop_inert { g1 with ops := pre ++ post } (r + 1) post pre []
      (by simp) hpost'
    have e4 := optLoop_end { g1 with ops := pre ++ post } r
    have e5 : ({ g1 with ops := pre ++ post } : GraphObj).ops.length =
        pre.length + post.length := by simp
    rw [e5] at e4
    have f1 : (g.ops.length + 1) * (g.ops.length + 2) + 1 =
        r + post.length + 1 + 1 + pre.length := by omega
    have f2 : r + 1 + post.length = r + post.length + 1 := by omega
    simp only [List.length_nil, Nat.zero_add] at e1
    rw [f1, e1, e2, ← f2, e3, e4]
  · intro hm
    have := hnd
    rw [hops] at this
    have h4 := List.nodup_append.1 this
    have h5 := List.nodup_cons.1 h4.2.1
    rcases List.mem_append.1 hm with h6 | h6
    · exact List.disjoint_left.1 h4.2.2 h6 (List.mem_cons_self _ _)
    · exact h5.1 (List.mem_cons_of_mem _ h6)
  · intro hm
    have := hnd
    rw [hops] at this
    have h4 := List.nodup_append.1 this
    have h5 := List.nodup_cons.1 h4.2.1
    have h7 := List.nodup_cons.1 h5.2
    rcases List.mem_append.1 hm with h6 | h6
    · exact List.disjoint_left.1 h4.2.2 h6 (List.mem_cons_of_mem _ (List.mem_cons_self _ _))
    · exact h7.1 h6
  · intro o ho hne1 hne2
    rw [hops] at ho
    show o ∈ pre ++ post
    simp only [List.mem_append, List.mem_cons] at ho ⊢
    tauto
  · rw [hout]; exact List.mem_cons_self _ _
  · rw [hout2]; exact List.mem_cons_self _ _
  · show t1 ∉ g1.tensors
    rw [h2]
    intro hm
    have := List.mem_of_mem_erase hm
    exact (List.Nodup.mem_erase_iff htn).1 this |>.1 rfl
  · show t2 ∉ g1.tensors
    rw [h2]
    intro hm
    exact (List.Nodup.mem_erase_iff (htn.erase t1)).1 hm |>.1 rfl
  · intro t ht hne1 hne2
    show t ∈ g1.tensors
    rw [h2]
    exact (List.mem_erase_of_ne hne2).2 ((List.mem_erase_of_ne hne1).2 ht)

theorem transpose_pair_eliminated_witness :
    (pairIntoMatmul.checkValid = true ∧ pairIntoMatmul.ops.Nodup ∧
      pairIntoMatmul.ops = [] ++ 1 :: 2 :: [4] ∧
      (pairIntoMatmul.eliminatePair 1 2).all (fun g1 => [4].all g1.inert) = true) ∧
    ∃ g', pairIntoMatmul.optimize = some g' ∧ g'.ops = [4] ∧ 1 ∉ g'.ops ∧ 2 ∉ g'.ops ∧
      11 ∉ g'.tensors ∧ 12 ∉ g'.tensors :=
  ⟨⟨by decide, by decide, rfl, by decide⟩,
    (transpose_pair_eliminated pairIntoMatmul [] [4] 1 2 10 11 12 (by decide) (by decide) rfl
      (by decide) rfl rfl rfl rfl rfl rfl rfl rfl (by decide) (by decide)).imp
      (fun _ h => ⟨h.1, h.2.1, h.2.2.1, h.2.2.2.1, h.2.2.2.2.2.2.2.1, h.2.2.2.2.2.2.2.2.1⟩)⟩

/-- C11 (as stated) fails. In `pairAndFusable [1, 2, 3, 4]` the Transpose 1 has the
Transpose 2 with the same permutation as its only successor; `optimize()` removes the pair
and then fuses the Transpose 3 into the Matmul, so operator 3, which is neither, is no longer
in the operator sequence. In `pairAndFusable [4, 1, 2, 3]` the Matmul is visited first and
absorbs the Transpose 2 (and 3), after which 1 has no Transpose successor and stays. -/
theorem transpose_pair_counterexample :
    ((pairAndFusable [1, 2, 3, 4]).checkValid = true ∧
      ((pairAndFusable [1, 2, 3, 4]).opObj 1).opType = .Transpose ∧
      ((pairAndFusable [1, 2, 3, 4]).opObj 1).successors = [2] ∧
      ((pairAndFusable [1, 2, 3, 4]).opObj 2).opType = .Transpose ∧
      ((pairAndFusable [1, 2, 3, 4]).opObj 1).permute =
        ((pairAndFusable [1, 2, 3, 4]).opObj 2).permute ∧
      3 ∈ (pairAndFusable [1, 2, 3, 4]).ops ∧
      (pairAndFusable [1, 2, 3, 4]).optimize.map (fun g => g.ops) = some [4]) ∧
    ((pairAndFusable [4, 1, 2, 3]).checkValid = true ∧
      ((pairAndFusable [4, 1, 2, 3]).opObj 1).successors = [2] ∧
      (pairAndFusable [4, 1, 2, 3]).optimize.map (fun g => g.ops) = some [4, 1]) := by
  refine ⟨⟨by decide, rfl, rfl, rfl, rfl, by decide, by decide⟩, by decide, rfl, by decide⟩

theorem predecessors_loop_kept (op : Nat) : ∀ (L : List Nat) (g : GraphObj),
    Kept g (L.foldl (fun g p =>
      (g.updOp op (fun o => o.addPredecessors p)).updOp p
        (fun o => o.addPredecessors op)) g) := by
  intro L
  induction L with
  | nil => intro g; exact Kept.unchanged g
  | cons p L ih =>
    intro g
    exact ((kept_addPredecessors g op p).followedBy (kept_addPredecessors _ p op)).followedBy (ih _)

/-- The absorption of a Transpose `Tr` (input `B`, output `x`) by the Matmul `M` that
consumes `x` goes through; it erases `Tr` from the operator sequence and `x` from the tensor
set, appends `B` to the inputs of `M` and replaces `x` by `B` there. -/
theorem absorbTranspose_spec (g : GraphObj) (M Tr x B : Nat) (rest : List Nat)
    (hne : Tr ≠ M) (hout : (g.opObj Tr).outputs = [x])
    (hin : (g.opObj Tr).inputs = B :: rest)
    (hcx : M ∈ (g.tensorObj x).targets) (hcB : Tr ∈ (g.tensorObj B).targets)
    (hmem : Tr ∈ g.ops) :
    ∃ g1, g.absorbTranspose M Tr x = some (g1, (g.ops.erase Tr).indexOf M) ∧
      g1.ops = g.ops.erase Tr ∧ g1.tensors = g.tensors.erase x ∧
      (∀ t, (g1.tensorObj t).source = (g.tensorObj t).source) ∧
      (∀ o, (g1.opObj o).opType = (g.opObj o).opType) ∧
      (∀ o, (g1.opObj o).permute = (g.opObj o).permute) ∧
      (∀ o, (g1.opObj o).outputs = (g.opObj o).outputs) ∧
      (g1.opObj M).inputs =
        ((g.opObj M).inputs ++ [B]).map (fun t => if t = x then B else t) ∧
      (g1.opObj M).transA = (g.opObj M).transA ∧
      (g1.opObj M).transB = (g.opObj M).transB := by
  unfold absorbTranspose
  simp only [OperatorObj.getOutput, hout]
  obtain ⟨g2, hg2, k2, tg2⟩ := deleteConnection_spec g x M hcx
  rw [hg2]
  dsimp only
  have e3 : ((g2.removeTensor x).opObj Tr).inputs = B :: rest := by
    show (g2.opObj Tr).inputs = _
    rw [k2.inputs, hin]
  have e3' : ((g2.removeTensor x).opObj Tr).outputs = [x] := by
    show (g2.opObj Tr).outputs = _
    rw [k2.outputs, hout]
  simp only [e3, e3', List.getElem?_cons_zero]
  have hB5 : Tr ∈ ((((g2.removeTensor x).updOp M
      (fun o => { o with inputs := o.inputs ++ [B] })).updTensor x
        (fun t => t.removeTarget M)).tensorObj B).targets := by
    rw [mem_targets_removeTarget]
    refine ⟨?_, fun h => hne h.2⟩
    show Tr ∈ (g2.tensorObj B).targets
    rw [tg2]
    exact ⟨hcB, fun h => hne h.2⟩
  obtain ⟨g6, hg6, k6, -⟩ := deleteConnection_spec _ B Tr hB5
  rw [hg6]
  dsimp only
  have k7 := addConnection_kept g6 B M
  have c5 : Core g (((g2.removeTensor x).updOp M
      (fun o => { o with inputs := o.inputs ++ [B] })).updTensor x
        (fun t => t.removeTarget M)) :=
    (k2.toCore.comp (kept_removeTensor g2 x)).comp
      ((core_updOp (g2.removeTensor x) M (fun o => { o with inputs := o.inputs ++ [B] })
        (fun _ => ⟨rfl, rfl, rfl⟩)).comp (kept_removeTarget _ x M).toCore)
  have c8 : Core g ((g6.addConnection B M).updOp M (fun o => o.replaceInput x B)) :=
    (c5.comp (k6.toCore.comp k7.toCore)).comp
      (core_updOp (g6.addConnection B M) M (fun o => o.replaceInput x B)
        (fun _ => ⟨rfl, rfl, rfl⟩))
  have i8 : (((g6.addConnection B M).updOp M (fun o => o.replaceInput x B)).opObj M).inputs =
      ((g.opObj M).inputs ++ [B]).map (fun t => if t = x then B else t) := by
    simp only [updOp, if_true, OperatorObj.replaceInput]
    rw [k7.inputs, k6.inputs]
    simp only [updTensor, updOp, if_true, removeTensor]
    rw [k2.inputs]
  have a8 : (((g6.addConnection B M).updOp M (fun o => o.replaceInput x B)).opObj M).transA =
      (g.opObj M).transA := by
    simp only [updOp, if_true, OperatorObj.replaceInput]
    rw [k7.transA, k6.transA]
    simp only [updTensor, updOp, if_true, removeTensor]
    rw [k2.transA]
  have b8 : (((g6.addConnection B M).updOp M (fun o => o.replaceInput x B)).opObj M).transB =
      (g.opObj M).transB := by
    simp only [updOp, if_true, OperatorObj.replaceInput]
    rw [k7.transB, k6.transB]
    simp only [updTensor, updOp, if_true, removeTensor]
    rw [k2.transB]
  have t8 : ((g6.addConnection B M).updOp M (fun o => o.replaceInput x B)).tensors =
      g.tensors.erase x := by
    show (g6.addConnection B M).tensors = _
    rw [k7.tensors, k6.tensors]
    show g2.tensors.erase x = _
    rw [k2.tensors]
  generalize ((g6.addConnection B M).updOp M (fun o => o.replaceInput x B)) = g8
    at c8 i8 a8 b8 t8 ⊢
  have k9 := predecessors_loop_kept M (g8.opObj Tr).predecessors g8
  generalize List.foldl (fun g p =>
      (g.updOp M (fun o => o.addPredecessors p)).updOp p
        (fun o => o.addPredecessors M)) g8 (g8.opObj Tr).predecessors = g9 at k9 ⊢
  have c9 := c8.comp k9.toCore
  rw [if_pos (by rw [c9.ops]; exact hmem)]
  refine ⟨{ g9 with ops := g9.ops.erase Tr }, by rw [c9.ops], by rw [c9.ops], ?_, c9.source,
    c9.opType, c9.permute, c9.outputs, ?_, ?_, ?_⟩
  · show g9.tensors = _
    rw [k9.tensors, t8]
  · show (g9.opObj M).inputs = _
    rw [k9.inputs, i8]
  · show (g9.opObj M).transA = _
    rw [k9.transA, a8]
  · show (g9.opObj M).transB = _
    rw [k9.transB, b8]

theorem flipTrans_core (g : GraphObj) (M freq : Nat) :
    Core g (g.flipTrans M freq) ∧ (g.flipTrans M freq).tensors = g.tensors ∧
    (g.flipTrans M freq).tensorObj = g.tensorObj ∧
    (∀ o, ((g.flipTrans M freq).opObj o).inputs = (g.opObj o).inputs) ∧
    ((g.flipTrans M freq).opObj M).transA =
      (if freq = 0 then !(g.opObj M).transA else (g.opObj M).transA) ∧
    ((g.flipTrans M freq).opObj M).transB =
      (if freq = 1 then !(g.opObj M).transB else (g.opObj M).transB) := by
  unfold flipTrans
  by_cases h0 : freq = 0
  · rw [if_pos h0]
    refine ⟨core_updOp g M _ (fun _ => ⟨rfl, rfl, rfl⟩), rfl, rfl, fun o => ?_, ?_, ?_⟩
    · by_cases ho : o = M <;> simp [updOp, ho]
    · simp [updOp, h0]
    · simp [updOp, h0]
  · rw [if_neg h0]
    by_cases h1 : freq = 1
    · rw [if_pos h1]
      refine ⟨core_updOp g M _ (fun _ => ⟨rfl, rfl, rfl⟩), rfl, rfl, fun o => ?_, ?_, ?_⟩
      · by_cases ho : o = M <;> simp [updOp, ho]
      · simp [updOp, h1]
      · simp [updOp, h1]
    · rw [if_neg h1]
      exact ⟨Core.same g, rfl, rfl, fun _ => rfl, by simp [h0], by simp [h1]⟩

/-- The loop body of the Matmul case on an input `x` produced by a Transpose `Tr` that swaps
the last two axes. -/
theorem fuseInput_fuse (g : GraphObj) (M Tr x B it freq : Nat) (rest : List Nat)
    (hsrc : (g.tensorObj x).source = some Tr)
    (hTr : (g.opObj Tr).opType = .Transpose)
    (hsw : swapsLastTwo (g.opObj Tr).permute = some true)
    (hne : Tr ≠ M) (hout : (g.opObj Tr).outputs = [x])
    (hin : (g.opObj Tr).inputs = B :: rest)
    (hcx : M ∈ (g.tensorObj x).targets) (hcB : Tr ∈ (g.tensorObj B).targets)
    (hmem : Tr ∈ g.ops) :
    ∃ g1, fuseInput M (g, it, freq) x = some (g1, (g.ops.erase Tr).indexOf M, freq + 1) ∧
      g1.ops = g.ops.erase Tr ∧ g1.tensors = g.tensors.erase x ∧
      (∀ t, (g1.tensorObj t).source = (g.tensorObj t).source) ∧
      (∀ o, (g1.opObj o).opType = (g.opObj o).opType) ∧
      (∀ o, (g1.opObj o).permute = (g.opObj o).permute) ∧
      (g1.opObj M).inputs =
        ((g.opObj M).inputs ++ [B]).map (fun t => if t = x then B else t) ∧
      (g1.opObj M).transA =
        (if freq = 0 then !(g.opObj M).transA else (g.opObj M).transA) ∧
      (g1.opObj M).transB =
        (if freq = 1 then !(g.opObj M).transB else (g.opObj M).transB) := by
  obtain ⟨cF, tF, oF, iF, aF, bF⟩ := flipTrans_core g M freq
  obtain ⟨g1, h1, h2, h3, h4, h5, h6, -, h8, h9, h10⟩ :=
    absorbTranspose_spec (g.flipTrans M freq) M Tr x B rest hne
      (by rw [cF.outputs, hout]) (by rw [iF, hin]) (by rw [oF]; exact hcx)
      (by rw [oF]; exact hcB) (by rw [cF.ops]; exact hmem)
  refine ⟨g1, ?_, by rw [h2, cF.ops], by rw [h3, tF], fun t => by rw [h4, oF],
    fun o => by rw [h5, cF.opType], fun o => by rw [h6, cF.permute], by rw [h8, iF],
    by rw [h9, aF], by rw [h10, bF]⟩
  unfold fuseInput
  simp only [hsrc, hTr, if_true, hsw]
  rw [h1, cF.ops]

theorem skips_congr {g g' : GraphObj}
    (hs : ∀ t, (g'.tensorObj t).source = (g.tensorObj t).source)
    (ht : ∀ o, (g'.opObj o).opType = (g.opObj o).opType)
    (hp : ∀ o, (g'.opObj o).permute = (g.opObj o).permute) (t : Nat) :
    g'.skips t = g.skips t := by
  unfold skips
  rw [hs]
  cases (g.tensorObj t).source with
  | none => rfl
  | some p =>
    dsimp only
    rw [ht, hp]

theorem erase_middle {pre post : List Nat} {M Tr : Nat}
    (hnd : (pre ++ M :: post).Nodup) (hne : Tr ≠ M) :
    (pre ++ M :: post).erase Tr = pre.erase Tr ++ M :: post.erase Tr ∧
    ((pre ++ M :: post).erase Tr).indexOf M = (pre.erase Tr).length := by
  have h4 := List.nodup_append.1 hnd
  have h5 := List.nodup_cons.1 h4.2.1
  have hM : M ∉ pre := fun h => List.disjoint_left.1 h4.2.2 h (List.mem_cons_self _ _)
  have hM' : M ∉ pre.erase Tr := fun h => hM (List.mem_of_mem_erase h)
  have e : (pre ++ M :: post).erase Tr = pre.erase Tr ++ M :: post.erase Tr := by
    by_cases hp : Tr ∈ pre
    · have : Tr ∉ post := fun h =>
        List.disjoint_left.1 h4.2.2 hp (List.mem_cons_of_mem _ h)
      rw [List.erase_append_left _ hp, List.erase_of_not_mem this]
    · rw [List.erase_append_right _ hp, List.erase_of_not_mem hp,
        List.erase_cons_tail (by simpa using Ne.symm hne)]
  refine ⟨e, ?_⟩
  rw [e, List.indexOf_append_of_not_mem hM', List.indexOf_cons_self]
  rfl

/-- The loop over the two inputs of a Matmul `M` whose input at position `i` is produced by
a Transpose `Tr` that swaps the last two axes, the other input being passed over. -/
theorem matmul_inputs_loop (g : GraphObj) (M Tr x y B i it : Nat) (rest : List Nat)
    (hinp : (i = 0 ∧ (g.opObj M).inputs = [x, y]) ∨ (i = 1 ∧ (g.opObj M).inputs = [y, x]))
    (hsrc : (g.tensorObj x).source = some Tr)
    (hTr : (g.opObj Tr).opType = .Transpose)
    (hsw : swapsLastTwo (g.opObj Tr).permute = some true)
    (hne : Tr ≠ M) (hout : (g.opObj Tr).outputs = [x])
    (hin : (g.opObj Tr).inputs = B :: rest)
    (hcx : M ∈ (g.tensorObj x).targets) (hcB : Tr ∈ (g.tensorObj B).targets)
    (hmem : Tr ∈ g.ops) (hy : g.skips y = true) :
    ∃ g1, foldOpt (fuseInput M) (g, it, 0) (g.opObj M).inputs =
        some (g1, (g.ops.erase Tr).indexOf M, 2) ∧
      g1.ops = g.ops.erase Tr ∧ g1.tensors = g.tensors.erase x ∧
      (g1.opObj M).inputs[i]? = some B ∧
      (g1.opObj M).transA =
        (if i = 0 then !(g.opObj M).transA else (g.opObj M).transA) ∧
      (g1.opObj M).transB =
        (if i = 1 then !(g.opObj M).transB else (g.opObj M).transB) := by
  rcases hinp with ⟨rfl, hinp⟩ | ⟨rfl, hinp⟩
  · obtain ⟨g1, h1, h2, h3, h4, h5, h6, h7, h8, h9⟩ :=
      fuseInput_fuse g M Tr x B it 0 rest hsrc hTr hsw hne hout hin hcx hcB hmem
    have hy1 : g1.skips y = true := by rw [skips_congr h4 h5 h6]; exact hy
    refine ⟨g1, ?_, h2, h3, ?_, h8, h9⟩
    · rw [hinp]
      unfold foldOpt
      rw [h1]
      dsimp only
      unfold foldOpt
      rw [fuseInput_skip g1 M _ _ y hy1]
      rfl
    · rw [h7, hinp]
      simp
  · obtain ⟨g1, h1, h2, h3, h4, h5, h6, h7, h8, h9⟩ :=
      fuseInput_fuse g M Tr x B it 1 rest hsrc hTr hsw hne hout hin hcx hcB hmem
    refine ⟨g1, ?_, h2, h3, ?_, h8, h9⟩
    · rw [hinp]
      unfold foldOpt
      rw [fuseInput_skip g M _ _ y hy]
      dsimp only
      unfold foldOpt
      rw [h1]
      rfl
    · rw [h7, hinp]
      simp

/-- C12 (as amended): on a valid graph that lists each operator once, let `M` be a Matmul
whose input at position `i` (0 or 1) is the output `x` of a Transpose `Tr` with permutation
`[0, 1, 3, 2]` (input `B`, which lists `Tr` as a consumer), consumed only by `M`, the other
of the two inputs being passed over (no producer, a producer that is no Transpose, or a
Transpose on whose permutation the test `permute[2] == 3 && permute[3] == 2` reads inside
the vector and is false), every operator before `M` and, in the rewritten graph, every
operator after `M` being inert: a Transpose whose first successor is no Transpose with the
same permutation, or a Matmul all of whose inputs are passed over. Then
`optimize()` ends, the flag of position `i` (`transA` for 0, `transB` for 1) is negated and
the other flag is unchanged, the input of `M` at position `i` is `B`, `Tr` is no longer in
the operator sequence while every other operator is, and `x` is no longer in the tensor set
while every other tensor is. -/
theorem transpose_fused_into_matmul (g : GraphObj) (pre post : List Nat)
    (M Tr x y B i : Nat) (hvalid : g.checkValid = true) (hnd : g.ops.Nodup)
    (hops : g.ops = pre ++ M :: post) (hpre : ∀ o ∈ pre, g.inert o = true)
    (hM : (g.opObj M).opType = .MatMul)
    (hinp : (i = 0 ∧ (g.opObj M).inputs = [x, y]) ∨ (i = 1 ∧ (g.opObj M).inputs = [y, x]))
    (hsrc : (g.tensorObj x).source = some Tr)
    (hTr : (g.opObj Tr).opType = .Transpose)
    (hperm : (g.opObj Tr).permute = [0, 1, 3, 2])
    (hout : (g.opObj Tr).outputs = [x]) (hin : (g.opObj Tr).inputs = [B])
    (hcx : (g.tensorObj x).targets = [M]) (hcB : Tr ∈ (g.tensorObj B).targets)
    (hy : g.skips y = true)
    (hpost : (foldOpt (fuseInput M) (g, pre.length, 0) (g.opObj M).inputs).all
      (fun st => post.all st.1.inert) = true) :
    ∃ g', g.optimize = some g' ∧
      (g'.opObj M).transA = (if i = 0 then !(g.opObj M).transA else (g.opObj M).transA) ∧
      (g'.opObj M).transB = (if i = 1 then !(g.opObj M).transB else (g.opObj M).transB) ∧
      (g'.opObj M).inputs[i]? = some B ∧
      Tr ∉ g'.ops ∧ (∀ o ∈ g.ops, o ≠ Tr → o ∈ g'.ops) ∧
      x ∉ g'.tensors ∧ (∀ t ∈ g.tensors, t ≠ x → t ∈ g'.tensors) := by
  have hv := valid_of_checkValid g hvalid
  have htn : g.tensors.Nodup := hv.tensors_nodup
  have hMops : M ∈ g.ops := by rw [hops]; simp
  have hxin : x ∈ (g.opObj M).inputs := by
    rcases hinp with ⟨-, h⟩ | ⟨-, h⟩ <;> rw [h] <;> simp
  have hmem : Tr ∈ g.ops := hv.source x (hv.inputs M hMops x hxin) Tr hsrc
  have hne : Tr ≠ M := by
    intro h
    rw [h, hM] at hTr
    cases hTr
  have hsw : swapsLastTwo (g.opObj Tr).permute = some true := by rw [hperm]; rfl
  obtain ⟨g1, h1, h2, h3, h4, h5, h6⟩ := matmul_inputs_loop g M Tr x y B i pre.length []
    hinp hsrc hTr hsw hne hout hin (by rw [hcx]; exact List.mem_cons_self _ _) hcB hmem hy
  rw [h1] at hpost
  have hpost' : ∀ o ∈ post.erase Tr, g1.inert o = true := by
    intro o ho
    have : post.all g1.inert = true := hpost
    rw [List.all_eq_true] at this
    exact this o (List.mem_of_mem_erase ho)
  have hnd' := hnd
  rw [hops] at hnd'
  obtain ⟨e1, e2⟩ := erase_middle hnd' hne
  rw [← hops] at e1 e2
  have hstep : g.optStep pre.length = some (g1, (pre.erase Tr).length + 1) := by
    unfold optStep
    rw [hops, getElem?_length_append]
    dsimp only
    rw [hM]
    dsimp only
    rw [h1]
    dsimp only
    rw [e2]
  have hlen : g.ops.length = pre.length + post.length + 1 := by
    rw [hops]; simp; omega
  have hlen1 : g1.ops.length = (pre.erase Tr).length + (post.erase Tr).length + 1 := by
    rw [h2, e1]; simp; omega
  have hle1 : (pre.erase Tr).length ≤ pre.length := by
    rw [List.length_erase]; split <;> omega
  have hle2 : (post.erase Tr).length ≤ post.length := by
    rw [List.length_erase]; split <;> omega
  obtain ⟨r, hr⟩ := fuel_split g.ops.length ((post.erase Tr).length + 1 + 1 + pre.length)
    (by omega)
  refine ⟨g1, ?_, h5, h6, h4, ?_, ?_, ?_, ?_⟩
  · unfold optimize
    have s1 := optLoop_inert g (r + (post.erase Tr).length + 1 + 1) pre [] (M :: post)
      (by rw [hops]; simp) hpre
    have s2 : optLoop (r + (post.erase Tr).length + 1 + 1) g pre.length =
        optLoop (r + (post.erase Tr).length + 1) g1 ((pre.erase Tr).length + 1) := by
      show (if pre.length = g.ops.length then some (some g)
        else if g.ops.length < pre.length then some none
        else match g.optStep pre.length with
          | none => some none
          | some st => optLoop (r + (post.erase Tr).length + 1) st.1 st.2) = _
      rw [if_neg (by omega), if_neg (by omega), hstep]
    have s3 := optLoop_inert g1 (r + 1) (post.erase Tr) (pre.erase Tr ++ [M]) []
      (by rw [h2, e1]; simp) hpost'
    have s4 := optLoop_end g1 r
    simp only [List.length_append, List.length_singleton] at s3
    have f1 : (g.ops.length + 1) * (g.ops.length + 2) + 1 =
        r + (post.erase Tr).length + 1 + 1 + pre.length := by omega
    have f2 : r + 1 + (post.erase Tr).length = r + (post.erase Tr).length + 1 := by omega
    have f3 : (pre.erase Tr).length + 1 + (post.erase Tr).length = g1.ops.length := by omega
    simp only [List.length_nil, Nat.zero_add] at s1
    rw [f1, s1, s2, ← f2, s3, f3, s4]
  · rw [h2]
    intro hm
    exact (List.Nodup.mem_erase_iff hnd).1 hm |>.1 rfl
  · intro o ho hne'
    rw [h2]
    exact (List.mem_erase_of_ne hne').2 ho
  · rw [h3]
    intro hm
    exact (List.Nodup.mem_erase_iff htn).1 hm |>.1 rfl
  · intro t ht hne'
    rw [h3]
    exact (List.mem_erase_of_ne hne').2 ht

theorem transpose_fused_into_matmul_witness :
    (matmulOfTransposed.checkValid = true ∧ matmulOfTransposed.ops.Nodup ∧
      matmulOfTransposed.ops = [3] ++ 4 :: [] ∧
      (∀ o ∈ [3], matmulOfTransposed.inert o = true) ∧
      matmulOfTransposed.skips 10 = true) ∧
    ∃ g', matmulOfTransposed.optimize = some g' ∧
      (g'.opObj 4).transA = false ∧ (g'.opObj 4).transB = true ∧
      (g'.opObj 4).inputs[1]? = some 20 ∧ 3 ∉ g'.ops ∧ 21 ∉ g'.tensors :=
  ⟨⟨by decide, by decide, rfl, by decide, by decide⟩,
    (transpose_fused_into_matmul matmulOfTransposed [3] [] 4 3 21 10 20 1 (by decide)
      (by decide) rfl (by decide) rfl (Or.inr ⟨rfl, rfl⟩) rfl rfl rfl rfl rfl rfl (by decide)
      (by decide) (by decide)).imp
      (fun _ h => ⟨h.1, h.2.1, h.2.2.1, h.2.2.2.1, h.2.2.2.2.1, h.2.2.2.2.2.2.1⟩)⟩

/-- C12 (as stated) fails, by what else the scan rewrites. In `matmulOfTwoTransposed` the
operand at position 0 of the Matmul is the output of a rank-4 Transpose with permutation
`[0, 1, 3, 2]` consumed only by the Matmul, and so is the operand at position 1:
`optimize()` absorbs both, so the other flag, `transB`, does not keep its value. In
`pairIntoMatmul` the Transpose 2 that produces the operand at position 0 is the second of a
cancelling pair that the scan meets first: the pair is removed, `transA` is not negated and
the operand becomes tensor 10, not the input 11 of that Transpose. In `fusedThenPair` the
Transpose 3 on the operand at position 1 is absorbed, and its input 12 is the result of a
cancelling pair that the scan meets after the Matmul: the input at position 1 ends as
tensor 9, not 12. -/
theorem transpose_fused_counterexample :
    (matmulOfTwoTransposed.checkValid = true ∧
      (matmulOfTwoTransposed.opObj 4).opType = .MatMul ∧
      (matmulOfTwoTransposed.opObj 4).inputs[0]? = some 11 ∧
      (matmulOfTwoTransposed.tensorObj 11).source = some 2 ∧
      (matmulOfTwoTransposed.opObj 2).opType = .Transpose ∧
      (matmulOfTwoTransposed.opObj 2).permute = [0, 1, 3, 2] ∧
      (matmulOfTwoTransposed.tensorObj 11).targets = [4] ∧
      (matmulOfTwoTransposed.opObj 4).transB = false ∧
      matmulOfTwoTransposed.optimize.map (fun g => ((g.opObj 4).transA, (g.opObj 4).transB)) =
        some (true, true)) ∧
    (pairIntoMatmul.checkValid = true ∧
      (pairIntoMatmul.opObj 4).opType = .MatMul ∧
      (pairIntoMatmul.opObj 4).inputs = [12, 5] ∧
      (pairIntoMatmul.tensorObj 12).source = some 2 ∧
      (pairIntoMatmul.opObj 2).opType = .Transpose ∧
      (pairIntoMatmul.opObj 2).permute = [0, 1, 3, 2] ∧
      (pairIntoMatmul.opObj 2).inputs = [11] ∧
      (pairIntoMatmul.tensorObj 12).targets = [4] ∧
      (pairIntoMatmul.tensorObj 5).source = none ∧
      (pairIntoMatmul.opObj 4).transA = false ∧
      pairIntoMatmul.optimize.map (fun g => ((g.opObj 4).transA, (g.opObj 4).inputs)) =
        some (false, [10, 5])) ∧
    (fusedThenPair.checkValid = true ∧ fusedThenPair.ops = [3, 4, 1, 2] ∧
      (fusedThenPair.opObj 4).opType = .MatMul ∧
      (fusedThenPair.opObj 4).inputs = [10, 21] ∧
      (fusedThenPair.tensorObj 21).source = some 3 ∧
      (fusedThenPair.opObj 3).opType = .Transpose ∧
      (fusedThenPair.opObj 3).permute = [0, 1, 3, 2] ∧
      (fusedThenPair.opObj 3).inputs = [12] ∧
      (fusedThenPair.tensorObj 21).targets = [4] ∧
      (fusedThenPair.tensorObj 10).source = none ∧
      fusedThenPair.inert 3 = true ∧
      fusedThenPair.optimize.map (fun g => ((g.opObj 4).transB, (g.opObj 4).inputs)) =
        some (true, [10, 9, 9])) := by
  refine ⟨⟨by decide, rfl, rfl, rfl, rfl, rfl, rfl, rfl, by decide⟩,
    ⟨by decide, rfl, rfl, rfl, rfl, rfl, rfl, rfl, rfl, rfl, by decide⟩,
    ⟨by decide, rfl, rfl, rfl, rfl, rfl, rfl, rfl, rfl, rfl, by decide, by decide⟩⟩

/-- C13: `optimize()` does not keep `checkValid()` true on `transposePair`, a valid graph in
which the result of the eliminated Transpose pair has no consumer: the two operators and the
two intermediate tensors are removed and the input tensor 10, a graph input, is left
without producer and without consumer, so that the first assertion of `checkValid()`
fails. -/
theorem optimize_leaves_orphan :
    transposePair.checkValid = true ∧
    transposePair.optimize.map (fun g => (g.tensors, g.ops, (g.tensorObj 10).source,
      (g.tensorObj 10).targets, g.checkValid)) = some ([10], [], none, [], false) := by
  refine ⟨by decide, by decide⟩

theorem deleteConnection_kept {g g' : GraphObj} {tensor op : Nat}
    (h : g.deleteConnection tensor op = some g') : Kept g g' := by
  by_cases hm : op ∈ (g.tensorObj tensor).targets
  · obtain ⟨g2, h2, k2, -⟩ := deleteConnection_spec g tensor op hm
    rw [h2] at h
    cases h
    exact k2
  · unfold deleteConnection at h
    rw [if_neg hm] at h
    cases h

theorem eliminatePair_ops {g g1 : GraphObj} {op next : Nat}
    (h : g.eliminatePair op next = some g1) : g1.ops = g.ops := by
  unfold eliminatePair at h
  cases h1 : (g.opObj op).inputs[0]? with
  | none => rw [h1] at h; cases h
  | some input =>
    cases h2 : (g.opObj next).inputs[0]? with
    | none => rw [h1, h2] at h; cases h
    | some input2 =>
      cases h3 : (g.opObj next).getOutput with
      | none => rw [h1, h2, h3] at h; cases h
      | some output =>
        rw [h1, h2, h3] at h
        dsimp only at h
        have e1 : (((g.removeTensor input2).removeTensor output).opObj op).predecessors =
            (g.opObj op).predecessors := rfl
        rw [e1] at h
        cases hp : (g.opObj op).predecessors with
        | nil =>
          rw [hp] at h
          dsimp only at h
          cases hd : ((g.removeTensor input2).removeTensor output).deleteConnection input op with
          | none => rw [hd] at h; cases h
          | some g3 =>
            rw [hd] at h
            dsimp only at h
            have k3 := deleteConnection_kept hd
            cases hs : (g3.opObj next).successors with
            | nil =>
              rw [hs] at h
              cases h
              exact k3.ops
            | cons nn ns =>
              rw [hs] at h
              cases h
              exact (addConnection_kept g3 input nn).ops.trans k3.ops
        | cons p ps =>
          rw [hp] at h
          dsimp only at h
          cases hd : (((g.removeTensor input2).removeTensor output).updOp p
              (fun o => o.removeSuccessors op)).deleteConnection input op with
          | none => rw [hd] at h; cases h
          | some g3 =>
            rw [hd] at h
            dsimp only at h
            have k3 := deleteConnection_kept hd
            cases hs : (g3.opObj next).successors with
            | nil =>
              rw [hs] at h
              cases h
              exact k3.ops
            | cons nn ns =>
              rw [hs] at h
              cases h
              exact (addConnection_kept g3 input nn).ops.trans k3.ops

theorem absorbTranspose_ops {g g1 : GraphObj} {op predecessor input it1 : Nat}
    (h : g.absorbTranspose op predecessor input = some (g1, it1)) :
    g1.ops.length < g.ops.length := by
  unfold absorbTranspose at h
  cases h1 : (g.opObj predecessor).getOutput with
  | none => rw [h1] at h; cases h
  | some out1 =>
    rw [h1] at h
    dsimp only at h
    cases hd : g.deleteConnection out1 op with
    | none => rw [hd] at h; cases h
    | some g2 =>
      rw [hd] at h
      dsimp only at h
      have k2 := deleteConnection_kept hd
      cases h3 : ((g2.removeTensor input).opObj predecessor).inputs[0]? with
      | none => rw [h3] at h; cases h
      | some tin =>
        cases h4 : ((g2.removeTensor input).opObj predecessor).getOutput with
        | none => rw [h3, h4] at h; cases h
        | some tout =>
          rw [h3, h4] at h
          dsimp only at h
          cases hd6 : (((g2.removeTensor input).updOp op
              (fun o => { o with inputs := o.inputs ++ [tin] })).updTensor tout
                (fun t => t.removeTarget op)).deleteConnection tin predecessor with
          | none => rw [hd6] at h; cases h
          | some g6 =>
            rw [hd6] at h
            dsimp only at h
            have k6 := deleteConnection_kept hd6
            have k7 := addConnection_kept g6 tin op
            have o8 : ((g6.addConnection tin op).updOp op
                (fun o => o.replaceInput input tin)).ops = g.ops := by
              show (g6.addConnection tin op).ops = _
              rw [k7.ops, k6.ops]
              show g2.ops = _
              rw [k2.ops]
            generalize ((g6.addConnection tin op).updOp op
              (fun o => o.replaceInput input tin)) = g8 at o8 h
            have k9 := predecessors_loop_kept op (g8.opObj predecessor).predecessors g8
            generalize List.foldl (fun g p =>
              (g.updOp op (fun o => o.addPredecessors p)).updOp p
                (fun o => o.addPredecessors op)) g8 (g8.opObj predecessor).predecessors = g9
              at k9 h
            have o9 : g9.ops = g.ops := k9.ops.trans o8
            by_cases hm : predecessor ∈ g9.ops
            · rw [if_pos hm] at h
              cases h
              show (g9.ops.erase predecessor).length < _
              rw [List.length_erase_of_mem hm, o9]
              have : 0 < g.ops.length := by
                rw [← o9]; exact List.length_pos_of_mem hm
              omega
            · rw [if_neg hm] at h
              cases h

theorem fuseInput_ops {op input : Nat} {st st' : GraphObj × Nat × Nat}
    (h : fuseInput op st input = some st') :
    (st'.1.ops = st.1.ops ∧ st'.2.1 = st.2.1) ∨ st'.1.ops.length < st.1.ops.length := by
  unfold fuseInput at h
  cases hs : (st.1.tensorObj input).source with
  | none =>
    rw [hs] at h
    cases h
    exact Or.inl ⟨rfl, rfl⟩
  | some p =>
    rw [hs] at h
    dsimp only at h
    by_cases ht : (st.1.opObj p).opType = .Transpose
    · rw [if_pos ht] at h
      cases hw : swapsLastTwo (st.1.opObj p).permute with
      | none => rw [hw] at h; cases h
      | some b =>
        rw [hw] at h
        cases b with
        | false =>
          cases h
          exact Or.inl ⟨rfl, rfl⟩
        | true =>
          dsimp only at h
          cases ha : (st.1.flipTrans op st.2.2).absorbTranspose op p input with
          | none => rw [ha] at h; cases h
          | some r =>
            rw [ha] at h
            cases h
            right
            have := @absorbTranspose_ops _ r.1 _ _ _ r.2 ha
            rw [(flipTrans_core st.1 op st.2.2).1.ops] at this
            exact this
    · rw [if_neg ht] at h
      cases h
      exact Or.inl ⟨rfl, rfl⟩

theorem fuseInput_fold_ops (op : Nat) : ∀ (L : List Nat) (st st' : GraphObj × Nat × Nat),
    foldOpt (fuseInput op) st L = some st' →
    (st'.1.ops = st.1.ops ∧ st'.2.1 = st.2.1) ∨ st'.1.ops.length < st.1.ops.length := by
  intro L
  induction L with
  | nil =>
    intro st st' h
    cases h
    exact Or.inl ⟨rfl, rfl⟩
  | cons i L ih =>
    intro st st' h
    unfold foldOpt at h
    cases h1 : fuseInput op st i with
    | none => rw [h1] at h; cases h
    | some s1 =>
      rw [h1] at h
      dsimp only at h
      rcases fuseInput_ops h1 with ⟨a1, a2⟩ | a1
      · rcases ih s1 st' h with ⟨b1, b2⟩ | b1
        · exact Or.inl ⟨b1.trans a1, b2.trans a2⟩
        · right; rw [← a1]; exact b1
      · rcases ih s1 st' h with ⟨b1, b2⟩ | b1
        · right; rw [b1]; exact a1
        · right; omega

theorem length_eraseIdx_lt {l : List Nat} {i : Nat} (h : i < l.length) :
    (l.eraseIdx i).length + 1 = l.length := by
  rw [List.length_eraseIdx]
  rw [if_pos h]
  omega

/-- Every iteration of the loop of `optimize` erases an operator or moves the iterator
forward. -/
theorem optStep_progress {g g' : GraphObj} {it it' : Nat} (hit : it < g.ops.length)
    (h : g.optStep it = some (g', it')) :
    (g'.ops = g.ops ∧ it < it') ∨ g'.ops.length < g.ops.length := by
  unfold optStep at h
  cases ho : g.ops[it]? with
  | none => rw [ho] at h; cases h
  | some op =>
    rw [ho] at h
    dsimp only at h
    cases ht : (g.opObj op).opType with
    | Other =>
      rw [ht] at h
      cases h
      exact Or.inl ⟨rfl, by omega⟩
    | MatMul =>
      rw [ht] at h
      dsimp only at h
      cases hf : foldOpt (fuseInput op) (g, it, 0) (g.opObj op).inputs with
      | none => rw [hf] at h; cases h
      | some st =>
        rw [hf] at h
        cases h
        rcases fuseInput_fold_ops op _ _ _ hf with ⟨a1, a2⟩ | a1
        · left
          refine ⟨a1, ?_⟩
          have : st.2.1 = it := a2
          omega
        · exact Or.inr a1
    | Transpose =>
      rw [ht] at h
      dsimp only at h
      cases hs : (g.opObj op).successors with
      | nil =>
        rw [hs] at h
        cases h
        exact Or.inl ⟨rfl, by omega⟩
      | cons next ns =>
        rw [hs] at h
        dsimp only at h
        by_cases hc : (g.opObj next).opType = .Transpose ∧
            (g.opObj op).permute = (g.opObj next).permute
        · rw [if_pos hc] at h
          cases he : g.eliminatePair op next with
          | none => rw [he] at h; cases h
          | some g1 =>
            rw [he] at h
            cases h
            right
            have e1 := eliminatePair_ops he
            have l1 := length_eraseIdx_lt (l := g1.ops) (i := it) (by rw [e1]; exact hit)
            show (if it < (g1.ops.eraseIdx it).length then (g1.ops.eraseIdx it).eraseIdx it
              else g1.ops.eraseIdx it).length < _
            rw [← e1]
            by_cases h2 : it < (g1.ops.eraseIdx it).length
            · rw [if_pos h2]
              have l2 := length_eraseIdx_lt h2
              omega
            · rw [if_neg h2]
              omega
        · rw [if_neg hc] at h
          cases h
          exact Or.inl ⟨rfl, by omega⟩

theorem measure_drop {L L' it it' : Nat} (hit : it < L)
    (h : (L' = L ∧ it < it') ∨ L' < L) :
    L' * (L' + 2) + (L' + 1 - it') < L * (L + 2) + (L + 1 - it) := by
  rcases h with ⟨rfl, h⟩ | h
  · omega
  · obtain ⟨k, rfl⟩ : ∃ k, L = L' + 1 + k := ⟨L - (L' + 1), by omega⟩
    have a := Nat.sub_le (L' + 1) it'
    have b : L' * (L' + 2) + (L' + 1) < (L' + 1 + k) * (L' + 1 + k + 2) := by nlinarith
    omega

theorem optLoop_enough : ∀ (fuel : Nat) (g : GraphObj) (it : Nat),
    g.ops.length * (g.ops.length + 2) + (g.ops.length + 1 - it) < fuel →
    optLoop fuel g it ≠ none := by
  intro fuel
  induction fuel with
  | zero => intro g it h; omega
  | succ fuel ih =>
    intro g it h
    unfold optLoop
    by_cases h1 : it = g.ops.length
    · rw [if_pos h1]; simp
    · rw [if_neg h1]
      by_cases h2 : g.ops.length < it
      · rw [if_pos h2]; simp
      · rw [if_neg h2]
        cases hs : g.optStep it with
        | none => simp
        | some st =>
          dsimp only
          apply ih
          have hit : it < g.ops.length := by omega
          have hp := @optStep_progress g st.1 it st.2 hit hs
          have := @measure_drop g.ops.length st.1.ops.length it st.2 hit (by
              rcases hp with ⟨a, b⟩ | a
              · exact Or.inl ⟨by rw [a], b⟩
              · exact Or.inr a)
          omega

/-- The bound on the number of iterations in `optimize` is never used up: the loop of
`optimize` ends, with a graph or with a failed assertion or access. -/
theorem optimize_terminates (g : GraphObj) :
    optLoop ((g.ops.length + 1) * (g.ops.length + 2) + 1) g 0 ≠ none := by
  apply optLoop_enough
  have : (g.ops.length + 1) * (g.ops.length + 2) =
      g.ops.length * (g.ops.length + 2) + (g.ops.length + 2) := by ring
  omega

end GraphObj

/-- C27: Matmul `inferShape` does not tell a swap of the last two dimensions of an operand
from the negation of the flag of that operand. For operands `A = la ++ [a1, a2]` and
`B = lb ++ [b1, b2]` (rank at least 2) and any flags, `inferShape` on `A` and `B` with its
last two dimensions swapped gives the same shapes (or fails in the same cases) and the same
`m`, `n`, `k` as `inferShape` on `A` and `B` with `transB` negated; the same holds for `A`
with its last two dimensions swapped and `transA` negated. The operator afterwards differs
in the negated flag alone. -/
theorem matmul_inferShape_fusion (op : OperatorObj) (A B A' B' : TensorObj)
    (la lb : List Nat) (a1 a2 b1 b2 : Nat)
    (hA : A.dims = la ++ [a1, a2]) (hB : B.dims = lb ++ [b1, b2])
    (hA' : A'.dims = la ++ [a2, a1]) (hB' : B'.dims = lb ++ [b2, b1]) :
    ((MatmulObj.inferShape op [A, B']).1 =
        (MatmulObj.inferShape { op with transB := !op.transB } [A, B]).1 ∧
      (MatmulObj.inferShape { op with transB := !op.transB } [A, B]).2 =
        { (MatmulObj.inferShape op [A, B']).2 with transB := !op.transB }) ∧
    ((MatmulObj.inferShape op [A', B]).1 =
        (MatmulObj.inferShape { op with transA := !op.transA } [A, B]).1 ∧
      (MatmulObj.inferShape { op with transA := !op.transA } [A, B]).2 =
        { (MatmulObj.inferShape op [A', B]).2 with transA := !op.transA }) := by
  rw [inferShape_eq op A B' la lb a1 a2 b2 b1 hA hB',
    inferShape_eq op A' B la lb a2 a1 b1 b2 hA' hB,
    inferShape_eq { op with transB := !op.transB } A B la lb a1 a2 b1 b2 hA hB,
    inferShape_eq { op with transA := !op.transA } A B la lb a1 a2 b1 b2 hA hB]
  cases infer_broadcast la lb with
  | none => exact ⟨⟨rfl, rfl⟩, rfl, rfl⟩
  | some ret =>
    cases hta : op.transA <;> cases htb : op.transB <;> dsimp only <;>
      simp only [Bool.not_true, Bool.not_false, if_true, if_false, Bool.false_eq_true] <;>
      (refine ⟨⟨?_, ?_⟩, ?_, ?_⟩ <;> split <;> simp_all)

theorem matmul_inferShape_fusion_witness :
    (MatmulObj.inferShape (GraphObj.matmulOf 1 2 3 [] [])
        [GraphObj.tensorOf 1 none [4], ⟨2, [2, 3, 5, 6], 4, none, [4], none⟩]).1 =
      (MatmulObj.inferShape { GraphObj.matmulOf 1 2 3 [] [] with transB := true }
        [GraphObj.tensorOf 1 none [4], ⟨2, [2, 3, 6, 5], 4, none, [4], none⟩]).1 ∧
    (MatmulObj.inferShape { GraphObj.matmulOf 1 2 3 [] [] with transB := true }
        [GraphObj.tensorOf 1 none [4], ⟨2, [2, 3, 6, 5], 4, none, [4], none⟩]).1 =
      some [[2, 3, 4, 6]] :=
  ⟨(matmul_inferShape_fusion (GraphObj.matmulOf 1 2 3 [] [])
      (GraphObj.tensorOf 1 none [4]) ⟨2, [2, 3, 6, 5], 4, none, [4], none⟩
      ⟨1, [2, 3, 5, 4], 4, none, [4], none⟩ ⟨2, [2, 3, 5, 6], 4, none, [4], none⟩
      [2, 3] [2, 3] 4 5 6 5 rfl rfl rfl rfl).1.1, by decide⟩

namespace GraphObj

/-- C23 (as amended): `checkValid()` looks at the predecessor and successor sets only for
membership. It fails its assertion on every graph in which an operator of the sequence lists
a predecessor or a successor that is not in the operator sequence; and a graph on which it
succeeds still passes after the predecessor and successor sets of any operator are replaced
by any operators of the sequence, so a mismatch between these sets and the producer and
consumer edges is not detected. -/
theorem checkValid_edge_sets (g : GraphObj) :
    (∀ o ∈ g.ops, ∀ p, (p ∈ (g.opObj o).predecessors ∨ p ∈ (g.opObj o).successors) →
      p ∉ g.ops → g.checkValid = false) ∧
    (g.checkValid = true → ∀ (o : Nat) (ps ss : List Nat),
      (∀ p ∈ ps, p ∈ g.ops) → (∀ s ∈ ss, s ∈ g.ops) →
      (g.updOp o (fun x => { x with predecessors := ps, successors := ss })).checkValid =
        true) := by
  constructor
  · intro o ho p hp hn
    cases hv : g.checkValid with
    | false => rfl
    | true =>
      have v := valid_of_checkValid g hv
      rcases hp with hp | hp
      · exact absurd (v.predecessors o ho p hp) hn
      · exact absurd (v.successors o ho p hp) hn
  · intro hv o ps ss hps hss
    have v := valid_of_checkValid g hv
    apply checkValid_of_valid
    refine ⟨v.notOrphan, v.targets, v.source, ?_, ?_, ?_, ?_, v.fuids⟩
    · intro op hop t ht
      refine v.inputs op hop t ?_
      by_cases h : op = o
      · simpa [updOp, h] using ht
      · simpa [updOp, h] using ht
    · intro op hop t ht
      refine v.outputs op hop t ?_
      by_cases h : op = o
      · simpa [updOp, h] using ht
      · simpa [updOp, h] using ht
    · intro op hop p hp
      by_cases h : op = o
      · exact hps p (by simpa [updOp, h] using hp)
      · exact v.predecessors op hop p (by simpa [updOp, h] using hp)
    · intro op hop p hp
      by_cases h : op = o
      · exact hss p (by simpa [updOp, h] using hp)
      · exact v.successors op hop p (by simpa [updOp, h] using hp)

theorem checkValid_edge_sets_witness :
    (1 ∈ transposePair.ops ∧ transposePair.checkValid = true) ∧
    (transposePair.updOp 2
      (fun x => { x with predecessors := [], successors := [1] })).checkValid = true :=
  ⟨⟨by decide, by decide⟩,
    (checkValid_edge_sets transposePair).2 (by decide) 2 [] [1] (by decide) (by decide)⟩

/-- C23 (as stated) fails. On `unmirroredChain` the operator 2 consumes tensor 11, produced
by operator 1, and 1 is not among its predecessors; operator 1 lists the predecessor 2, which
produces none of its inputs; the edge sets of operator 2 do not mirror the tensors. Every
reference is to a member of the graph, and `checkValid()` returns true. -/
theorem checkValid_mismatch_counterexample :
    11 ∈ (unmirroredChain.opObj 2).inputs ∧
    (unmirroredChain.tensorObj 11).source = some 1 ∧
    1 ∉ (unmirroredChain.opObj 2).predecessors ∧
    2 ∈ (unmirroredChain.opObj 1).predecessors ∧
    (∀ t ∈ (unmirroredChain.opObj 1).inputs, (unmirroredChain.tensorObj t).source ≠ some 2) ∧
    ¬ unmirroredChain.MirrorAt 2 ∧
    unmirroredChain.checkValid = true := by
  refine ⟨by decide, rfl, by decide, by decide, by decide, ?_, by decide⟩
  intro h
  have h1 := (h.1 1).2 ⟨11, by decide, rfl⟩
  revert h1
  decide

/-- C22: the test of `optimize()` for absorbing a Transpose into a Matmul reads the entries 2
and 3 of the permutation whatever its rank, and nothing else. On `Matmul(A, Transpose(B))`
the Transposes with permutation `[1, 0, 3, 2]` and `[0, 1, 3, 2, 4]`, which do not swap
exactly the last two axes, are absorbed (the Matmul is left alone in the sequence with
`transB` negated); the rank-3 Transpose `[0, 2, 1]`, which does, stays in place with the
flags unchanged; and on the rank-2 Transpose `[1, 0]` the test reads outside the
permutation. -/
theorem fusion_test_reads_fixed_axes :
    ((matmulOfPermuted [1, 0, 3, 2] [2, 3, 4, 5] [3, 2, 6, 5] [2, 3, 5, 6]).checkValid = true ∧
      (matmulOfPermuted [1, 0, 3, 2] [2, 3, 4, 5] [3, 2, 6, 5] [2, 3, 5, 6]).optimize.map
        (fun g => (g.ops, (g.opObj 4).transA, (g.opObj 4).transB)) =
        some ([4], false, true)) ∧
    ((matmulOfPermuted [0, 1, 3, 2, 4] [7, 2, 3, 4, 5] [7, 2, 5, 3, 6]
        [7, 2, 3, 5, 6]).checkValid = true ∧
      (matmulOfPermuted [0, 1, 3, 2, 4] [7, 2, 3, 4, 5] [7, 2, 5, 3, 6]
        [7, 2, 3, 5, 6]).optimize.map
        (fun g => (g.ops, (g.opObj 4).transA, (g.opObj 4).transB)) =
        some ([4], false, true)) ∧
    ((matmulOfPermuted [0, 2, 1] [3, 4, 5] [3, 6, 5] [3, 5, 6]).checkValid = true ∧
      (matmulOfPermuted [0, 2, 1] [3, 4, 5] [3, 6, 5] [3, 5, 6]).optimize.map
        (fun g => (g.ops, (g.opObj 4).transA, (g.opObj 4).transB)) =
        some ([3, 4], false, false)) ∧
    ((matmulOfPermuted [1, 0] [4, 5] [6, 5] [5, 6]).checkValid = true ∧
      swapsLastTwo [1, 0] = none ∧
      (optLoop 3 (matmulOfPermuted [1, 0] [4, 5] [6, 5] [5, 6]) 0).map Option.isSome =
        some false ∧
      (matmulOfPermuted [1, 0] [4, 5] [6, 5] [5, 6]).optimize.isNone = true) := by
  refine ⟨⟨by decide, by decide⟩, ⟨by decide, by decide⟩, ⟨by decide, by decide⟩,
    by decide, by decide, by decide, by decide⟩

/-- C25: the scan of `optimize()` advances twice past an operator that is neither a
Transpose nor a Matmul. In `otherThenPair` the first Transpose of a cancellable pair stands
directly after such an operator and is never visited: the graph comes out as it went in. In
`otherThenMatmul` the Matmul after such an operator is never visited and the Transpose on
its second operand stays. In `otherAlone` such an operator is the last of the sequence and
the iterator leaves the vector instead of stopping at its end. -/
theorem scan_skips_after_other :
    (otherThenPair.checkValid = true ∧
      (otherThenPair.opObj 1).opType = .Transpose ∧
      (otherThenPair.opObj 1).successors = [2] ∧
      (otherThenPair.opObj 2).opType = .Transpose ∧
      (otherThenPair.opObj 1).permute = (otherThenPair.opObj 2).permute ∧
      otherThenPair.optimize.map (fun g => (g.ops, g.tensors)) =
        some ([8, 1, 2], [9, 10, 11, 12])) ∧
    (otherThenMatmul.checkValid = true ∧
      otherThenMatmul.optimize.map (fun g => (g.ops, (g.opObj 4).transB, (g.opObj 4).inputs)) =
        some ([3, 8, 4], false, [10, 21])) ∧
    (otherAlone.checkValid = true ∧
      (optLoop 2 otherAlone 0).map Option.isSome = some false ∧
      otherAlone.optimize.isNone = true) := by
  refine ⟨⟨by decide, rfl, rfl, rfl, rfl, by decide⟩, ⟨by decide, by decide⟩,
    by decide, by decide, by decide⟩

/-- C26: the fusion of `optimize()` appends the input of the Transpose to the inputs of the
Matmul before it replaces the operand. On `matmulOfTransposed`, `Matmul(10, Transpose(20))`,
the Matmul ends with the three inputs `[10, 20, 20]`, tensor 20 lists the Matmul once as a
consumer while it occurs twice among the inputs, and `dataMalloc()` on the resulting graph
fails an assertion (the reference count of tensor 20 is used up at the first of the two
decrements). -/
theorem fusion_appends_input :
    matmulOfTransposed.checkValid = true ∧
    (matmulOfTransposed.opObj 4).inputs = [10, 21] ∧
    matmulOfTransposed.optimize.map
      (fun g => ((g.opObj 4).inputs, (g.tensorObj 20).targets, (g.opObj 4).transB)) =
      some ([10, 20, 20], [4], true) ∧
    matmulOfTransposed.optimize.map
      (fun g => (dataMalloc (fun _ => 0) g).isSome) = some false := by
  refine ⟨by decide, rfl, by decide, by decide⟩

theorem find_of_injOn (f : Nat → Nat) (t : Nat) : ∀ (l : List Nat), t ∈ l →
    (∀ x ∈ l, f x = f t → x = t) → l.find? (fun x => f x == f t) = some t := by
  intro l
  induction l with
  | nil => intro h _; cases h
  | cons a l ih =>
    intro hm hinj
    by_cases ha : f a = f t
    · have := hinj a (List.mem_cons_self _ _) ha
      subst this
      simp [List.find?]
    · have hne : a ≠ t := fun h => ha (by rw [h])
      have hm' : t ∈ l := by
        rcases List.mem_cons.1 hm with h | h
        · exact absurd h.symm hne
        · exact h
      rw [List.find?_cons_of_neg _ (by simpa using ha)]
      exact ih hm' (fun x hx => hinj x (List.mem_cons_of_mem _ hx))

theorem getTensor_of_mem (g : GraphObj) (t : Nat) (ht : t ∈ g.tensors)
    (hinj : ∀ x ∈ g.tensors, (g.tensorObj x).fuid = (g.tensorObj t).fuid → x = t) :
    g.getTensor (g.tensorObj t).fuid = some t :=
  find_of_injOn (fun x => (g.tensorObj x).fuid) t g.tensors ht hinj

theorem matmul_inferShape_frame (op : OperatorObj) (ins : List TensorObj) :
    (MatmulObj.inferShape op ins).2.opType = op.opType ∧
    (MatmulObj.inferShape op ins).2.inputs = op.inputs ∧
    (MatmulObj.inferShape op ins).2.outputs = op.outputs ∧
    (MatmulObj.inferShape op ins).2.transA = op.transA ∧
    (MatmulObj.inferShape op ins).2.transB = op.transB := by
  cases h0 : ins[0]? with
  | none => simp [MatmulObj.inferShape, h0]
  | some A =>
    cases h1 : ins[1]? with
    | none => simp [MatmulObj.inferShape, h0, h1]
    | some B =>
      simp only [MatmulObj.inferShape, h0, h1]
      by_cases hr : A.dims.length < 2 ∨ B.dims.length < 2
      · simp only [if_pos hr, and_self]
      · simp only [if_neg hr]
        cases hb : infer_broadcast (A.dims.take (A.dims.length - 2))
            (B.dims.take (B.dims.length - 2)) with
        | none => simp only [and_self]
        | some ret =>
          dsimp only
          split_ifs <;> exact ⟨rfl, rfl, rfl, rfl, rfl⟩

/-- A second run of `inferShape` on the same inputs gives the same shapes and leaves the
operator as the first run left it. -/
theorem matmul_inferShape_again (op : OperatorObj) (ins : List TensorObj) :
    MatmulObj.inferShape (MatmulObj.inferShape op ins).2 ins = MatmulObj.inferShape op ins := by
  cases h0 : ins[0]? with
  | none => simp [MatmulObj.inferShape, h0]
  | some A =>
    cases h1 : ins[1]? with
    | none => simp [MatmulObj.inferShape, h0, h1]
    | some B =>
      simp only [MatmulObj.inferShape, h0, h1]
      by_cases hr : A.dims.length < 2 ∨ B.dims.length < 2
      · simp only [if_pos hr, h0, h1]
      · simp only [if_neg hr]
        cases hb : infer_broadcast (A.dims.take (A.dims.length - 2))
            (B.dims.take (B.dims.length - 2)) with
        | none => simp only [if_neg hr, hb]
        | some ret =>
          dsimp only
          by_cases hk : (if op.transA = true then A.dims.reverse.getD 1 0
              else A.dims.reverse.getD 0 0) ≠
              (if op.transB = true then B.dims.reverse.getD 0 0 else B.dims.reverse.getD 1 0)
          · simp only [if_pos hk]
          · simp only [if_neg hk]

theorem inferShapeOf_frame (infer : OperatorObj → List TensorObj → Option (List (List Nat)))
    (g : GraphObj) (o : Nat) :
    (inferShapeOf infer g o).2.opType = (g.opObj o).opType ∧
    (inferShapeOf infer g o).2.inputs = (g.opObj o).inputs ∧
    (inferShapeOf infer g o).2.outputs = (g.opObj o).outputs := by
  unfold inferShapeOf
  cases h : (g.opObj o).opType with
  | MatMul =>
    have := matmul_inferShape_frame (g.opObj o) ((g.opObj o).inputs.map g.tensorObj)
    exact ⟨this.1.trans h, this.2.1, this.2.2.1⟩
  | Transpose => exact ⟨h, rfl, rfl⟩
  | Other => exact ⟨h, rfl, rfl⟩

/-- The inference of an operator that `shape_infer` has already visited, on inputs that
have not changed since, gives what it gave. -/
theorem inferShapeOf_again (infer : OperatorObj → List TensorObj → Option (List (List Nat)))
    (g g' : GraphObj) (o : Nat) (h1 : g'.opObj o = (inferShapeOf infer g o).2)
    (h2 : ∀ t ∈ (g.opObj o).inputs, g'.tensorObj t = g.tensorObj t) :
    inferShapeOf infer g' o = inferShapeOf infer g o := by
  obtain ⟨f1, f2, -⟩ := inferShapeOf_frame infer g o
  have hmap : (g.opObj o).inputs.map g'.tensorObj = (g.opObj o).inputs.map g.tensorObj :=
    List.map_congr_left h2
  unfold inferShapeOf at h1 f1 f2 ⊢
  rw [h1]
  cases h : (g.opObj o).opType with
  | MatMul =>
    rw [h] at h1 f1 f2
    dsimp only at h1 f1 f2 ⊢
    rw [f1]
    dsimp only
    rw [f2, hmap, matmul_inferShape_again]
  | Transpose =>
    rw [h] at h1 f1 f2
    dsimp only at h1 f1 f2 ⊢
    rw [h]
    dsimp only
    rw [hmap]
  | Other =>
    rw [h] at h1 f1 f2
    dsimp only at h1 f1 f2 ⊢
    rw [h]
    dsimp only
    rw [hmap]

theorem shapeInferOp_some (infer : OperatorObj → List TensorObj → Option (List (List Nat)))
    (g g' : GraphObj) (o t : Nat) (hout : (g.opObj o).outputs = [t])
    (h : shapeInferOp infer g o = some g') :
    ∃ s, (inferShapeOf infer g o).1 = some [s] := by
  have hf := (inferShapeOf_frame infer g o).2.2
  unfold shapeInferOp at h
  rcases hr : inferShapeOf infer g o with ⟨a, o'⟩
  rw [hr] at h hf
  cases a with
  | none => cases h
  | some ans =>
    dsimp only at h hf
    have e : ((g.updOp o (fun _ => o')).opObj o).outputs = [t] := by
      simp [updOp, hf, hout]
    rw [e] at h
    by_cases hl : ans.length = [t].length
    · match ans, hl with
      | [s], _ => exact ⟨s, rfl⟩
    · rw [if_neg hl] at h
      cases h

theorem setDims_self (t : TensorObj) : { t with dims := t.dims } = t := by
  cases t
  rfl

theorem shapeInferOp_spec (infer : OperatorObj → List TensorObj → Option (List (List Nat)))
    (g : GraphObj) (o t : Nat) (s : List Nat) (hout : (g.opObj o).outputs = [t])
    (ht : t ∈ g.tensors)
    (hinj : ∀ x ∈ g.tensors, (g.tensorObj x).fuid = (g.tensorObj t).fuid → x = t)
    (hr : (inferShapeOf infer g o).1 = some [s]) :
    ∃ g', shapeInferOp infer g o = some g' ∧
      Inferred g g' o t s (inferShapeOf infer g o).2 := by
  have hf := (inferShapeOf_frame infer g o).2.2
  unfold shapeInferOp
  rcases hq : inferShapeOf infer g o with ⟨a, o'⟩
  rw [hq] at hr hf
  dsimp only at hr hf
  subst hr
  dsimp only
  have e : ((g.updOp o (fun _ => o')).opObj o).outputs = [t] := by
    simp [updOp, hf, hout]
  rw [e, if_pos (by simp)]
  simp only [List.zip_cons_cons, List.zip_nil_right, foldOpt, inferOutput]
  have hop : (g.updOp o (fun _ => o')).opObj o = o' := by simp [updOp]
  have hoth : ∀ x, x ≠ o → (g.updOp o (fun _ => o')).opObj x = g.opObj x := by
    intro x hx
    simp [updOp, hx]
  by_cases hd : s ≠ ((g.updOp o (fun _ => o')).tensorObj t).dims
  · rw [if_pos hd]
    have hg : (g.updOp o (fun _ => o')).getTensor
        (((g.updOp o (fun _ => o')).tensorObj t).fuid) = some t :=
      getTensor_of_mem g t ht hinj
    rw [hg]
    refine ⟨_, rfl, rfl, rfl, hop, hoth, ?_, ?_⟩
    · simp [updTensor, updOp, TensorObj.setShape]
    · intro x hx
      simp [updTensor, updOp, hx]
  · rw [if_neg hd]
    have hd' : s = (g.tensorObj t).dims := not_not.1 hd
    refine ⟨_, rfl, rfl, rfl, hop, hoth, ?_, fun _ _ => rfl⟩
    rw [hd']
    exact (setDims_self _).symm

/-- A step of `shape_infer` keeps the tensor vector, the operator sequence, the Fuids and the
input and output lists. -/
theorem inferred_frame (infer : OperatorObj → List TensorObj → Option (List (List Nat)))
    (g g' : GraphObj) (o t : Nat) (s : List Nat)
    (h : Inferred g g' o t s (inferShapeOf infer g o).2) :
    g'.tensors = g.tensors ∧ g'.ops = g.ops ∧
    (∀ x, (g'.tensorObj x).fuid = (g.tensorObj x).fuid) ∧
    (∀ x, (g'.opObj x).outputs = (g.opObj x).outputs) ∧
    (∀ x, (g'.opObj x).inputs = (g.opObj x).inputs) := by
  obtain ⟨-, f2, f3⟩ := inferShapeOf_frame infer g o
  refine ⟨h.tensors, h.ops, fun x => ?_, fun x => ?_, fun x => ?_⟩
  · by_cases hx : x = t
    · rw [hx, h.tensorAt]
    · rw [h.tensorOther x hx]
  · by_cases hx : x = o
    · rw [hx, h.opAt, f3]
    · rw [h.opOther x hx]
  · by_cases hx : x = o
    · rw [hx, h.opAt, f2]
    · rw [h.opOther x hx]

/-- C24 (as amended): one pass of `shape_infer()` carries a changed shape through a chain.
On a valid graph whose operator sequence is `[o1, o2]`, `o1` with the single output `t1`,
which is an input of `o2`, and `o2` with the single output `t2`, neither output being an
input of its own operator nor of `o1`, a pass of `shape_infer()` that fails no assertion
gives `t1` the shape `s1` inferred by `o1` from its inputs and gives `t2` the shape `s2`
that `o2` infers from its inputs as they are after the pass, `t1` with the shape `s1`
among them; a second pass fails no assertion either and changes no tensor. -/
theorem shape_infer_chain (infer : OperatorObj → List TensorObj → Option (List (List Nat)))
    (g g' : GraphObj) (o1 o2 t1 t2 : Nat)
    (hvalid : g.checkValid = true) (hops : g.ops = [o1, o2]) (hne : o1 ≠ o2)
    (hout1 : (g.opObj o1).outputs = [t1]) (hout2 : (g.opObj o2).outputs = [t2])
    (hchain : t1 ∈ (g.opObj o2).inputs)
    (hin1 : t1 ∉ (g.opObj o1).inputs) (hin12 : t2 ∉ (g.opObj o1).inputs)
    (hin2 : t2 ∉ (g.opObj o2).inputs)
    (hpass : g.shape_infer infer = some g') :
    ∃ s1 s2, (inferShapeOf infer g o1).1 = some [s1] ∧ (g'.tensorObj t1).dims = s1 ∧
      t1 ∈ (g'.opObj o2).inputs ∧ (inferShapeOf infer g' o2).1 = some [s2] ∧
      (g'.tensorObj t2).dims = s2 ∧
      ∃ g'', g'.shape_infer infer = some g'' ∧ ∀ t, g''.tensorObj t = g'.tensorObj t := by
  have v := valid_of_checkValid g hvalid
  have ht1 : t1 ∈ g.tensors :=
    v.outputs o1 (by rw [hops]; simp) t1 (by rw [hout1]; simp)
  have ht2 : t2 ∈ g.tensors :=
    v.outputs o2 (by rw [hops]; simp) t2 (by rw [hout2]; simp)
  have hinj := List.inj_on_of_nodup_map v.fuids
  have ht12 : t1 ≠ t2 := fun h => hin2 (h ▸ hchain)
  unfold shape_infer at hpass
  rw [hops] at hpass
  simp only [foldOpt] at hpass
  cases h1 : shapeInferOp infer g o1 with
  | none => rw [h1] at hpass; cases hpass
  | some g1 =>
    rw [h1] at hpass
    dsimp only at hpass
    cases h2 : shapeInferOp infer g1 o2 with
    | none => rw [h2] at hpass; cases hpass
    | some g2 =>
      rw [h2] at hpass
      dsimp only at hpass
      have hg : g2 = g' := Option.some.inj hpass
      subst hg
      -- the first step
      obtain ⟨s1, hs1⟩ := shapeInferOp_some infer g g1 o1 t1 hout1 h1
      obtain ⟨g1', e1, I1⟩ := shapeInferOp_spec infer g o1 t1 s1 hout1 ht1
        (fun x hx hfx => hinj hx ht1 hfx) hs1
      rw [h1] at e1
      cases e1
      obtain ⟨F1t, F1o, F1f, F1out, F1in⟩ := inferred_frame infer g g1 o1 t1 s1 I1
      have hinj1 : ∀ x ∈ g1.tensors, ∀ y ∈ g1.tensors,
          (g1.tensorObj x).fuid = (g1.tensorObj y).fuid → x = y := by
        intro x hx y hy hxy
        rw [F1t] at hx hy
        rw [F1f, F1f] at hxy
        exact hinj hx hy hxy
      -- the second step
      have hout2' : (g1.opObj o2).outputs = [t2] := by rw [F1out, hout2]
      obtain ⟨s2, hs2⟩ := shapeInferOp_some infer g1 g2 o2 t2 hout2' h2
      obtain ⟨g2', e2, I2⟩ := shapeInferOp_spec infer g1 o2 t2 s2 hout2'
        (by rw [F1t]; exact ht2) (fun x hx hfx => hinj1 x hx t2 (by rw [F1t]; exact ht2) hfx)
        hs2
      rw [h2] at e2
      cases e2
      obtain ⟨F2t, F2o, F2f, F2out, F2in⟩ := inferred_frame infer g1 g2 o2 t2 s2 I2
      have hinj2 : ∀ x ∈ g2.tensors, ∀ y ∈ g2.tensors,
          (g2.tensorObj x).fuid = (g2.tensorObj y).fuid → x = y := by
        intro x hx y hy hxy
        rw [F2t] at hx hy
        rw [F2f, F2f] at hxy
        exact hinj1 x hx y hy hxy
      have T1 : g2.tensorObj t1 = { g.tensorObj t1 with dims := s1 } := by
        rw [I2.tensorOther t1 ht12, I1.tensorAt]
      have hin2' : ∀ t ∈ (g1.opObj o2).inputs, g2.tensorObj t = g1.tensorObj t := by
        intro t ht
        rw [F1in] at ht
        exact I2.tensorOther t (fun h => hin2 (h ▸ ht))
      have A0 : inferShapeOf infer g2 o2 = inferShapeOf infer g1 o2 :=
        inferShapeOf_again infer g1 g2 o2 I2.opAt hin2'
      -- the second pass
      have A1 : inferShapeOf infer g2 o1 = inferShapeOf infer g o1 := by
        refine inferShapeOf_again infer g g2 o1 ?_ ?_
        · rw [I2.opOther o1 hne, I1.opAt]
        · intro t ht
          rw [I2.tensorOther t (fun h => hin12 (h ▸ ht)),
            I1.tensorOther t (fun h => hin1 (h ▸ ht))]
      obtain ⟨g3, e3, I3⟩ := shapeInferOp_spec infer g2 o1 t1 s1
        (by rw [F2out, F1out, hout1]) (by rw [F2t, F1t]; exact ht1)
        (fun x hx hfx => hinj2 x hx t1 (by rw [F2t, F1t]; exact ht1) hfx)
        (by rw [A1]; exact hs1)
      obtain ⟨F3t, F3o, F3f, F3out, F3in⟩ := inferred_frame infer g2 g3 o1 t1 s1 I3
      have T3 : ∀ x, g3.tensorObj x = g2.tensorObj x := by
        intro x
        by_cases hx : x = t1
        · rw [hx, I3.tensorAt, T1]
        · exact I3.tensorOther x hx
      have A2 : inferShapeOf infer g3 o2 = inferShapeOf infer g1 o2 := by
        refine inferShapeOf_again infer g1 g3 o2 ?_ ?_
        · rw [I3.opOther o2 hne.symm, I2.opAt]
        · intro t ht
          rw [T3, hin2' t ht]
      obtain ⟨g4, e4, I4⟩ := shapeInferOp_spec infer g3 o2 t2 s2
        (by rw [F3out, F2out, hout2']) (by rw [F3t, F2t, F1t]; exact ht2)
        (fun x hx hfx => by
          rw [F3t] at hx
          rw [F3f, F3f] at hfx
          exact hinj2 x hx t2 (by rw [F2t, F1t]; exact ht2) hfx)
        (by rw [A2]; exact hs2)
      have T4 : ∀ x, g4.tensorObj x = g2.tensorObj x := by
        intro x
        by_cases hx : x = t2
        · rw [hx, I4.tensorAt, T3, I2.tensorAt]
        · rw [I4.tensorOther x hx, T3]
      refine ⟨s1, s2, hs1, ?_, ?_, ?_, ?_, g4, ?_, T4⟩
      · rw [T1]
      · rw [F2in, F1in]; exact hchain
      · rw [A0]; exact hs2
      · rw [I2.tensorAt]
      · unfold shape_infer
        rw [F2o, F1o, hops]
        simp only [foldOpt]
        rw [e3]
        dsimp only
        rw [e4]

theorem shape_infer_chain_witness :
    (staleChain.checkValid = true ∧
      (staleChain.shape_infer (fun _ _ => none)).isSome = true) ∧
    ∃ g', staleChain.shape_infer (fun _ _ => none) = some g' ∧
      ∃ g'', g'.shape_infer (fun _ _ => none) = some g'' ∧
        ∀ t, g''.tensorObj t = g'.tensorObj t :=
  ⟨⟨by decide, by decide⟩,
    (staleChain.shape_infer (fun _ _ => none)).get (by decide),
    (Option.some_get _).symm,
    (shape_infer_chain (fun _ _ => none) staleChain
      ((staleChain.shape_infer (fun _ _ => none)).get (by decide)) 1 2 3 5 (by decide) rfl
      (by decide) rfl rfl (by decide) (by decide) (by decide) (by decide)
      (Option.some_get _).symm).elim
      (fun _ h => h.elim (fun _ h' => h'.2.2.2.2.2))⟩

/-- C24 (as stated) fails. In `staleChain` the operators are stored producer before
consumer and the first infers the shape `[2, 4]` for its output, recorded as `[1, 4]`. A
single `shape_infer()` pass sets that output to `[2, 4]` and the output of the second
operator to `[2, 5]`, the shape derived from `[2, 4]` (the recorded `[1, 5]` was the one
derived from `[1, 4]`); a second pass changes no tensor shape. -/
theorem shape_infer_one_hop_counterexample :
    staleChain.checkValid = true ∧ staleChain.ops = [1, 2] ∧
    (staleChain.tensorObj 3).source = some 1 ∧ 3 ∈ (staleChain.opObj 2).inputs ∧
    (inferShapeOf (fun _ _ => none) staleChain 1).1 = some [[2, 4]] ∧
    (staleChain.tensorObj 3).dims = [1, 4] ∧
    (staleChain.shape_infer (fun _ _ => none)).map
      (fun g => g.tensors.map (fun t => (g.tensorObj t).dims)) =
      some [[2, 3], [3, 4], [2, 4], [4, 5], [2, 5]] ∧
    ((staleChain.shape_infer (fun _ _ => none)).bind (shape_infer (fun _ _ => none))).map
      (fun g => g.tensors.map (fun t => (g.tensorObj t).dims)) =
      some [[2, 3], [3, 4], [2, 4], [4, 5], [2, 5]] := by
  refine ⟨by decide, rfl, rfl, by decide, by decide, rfl, by decide, by decide⟩

theorem deleteConnection_none (g : GraphObj) (tensor op : Nat)
    (h : op ∈ (g.tensorObj tensor).targets) (hs : (g.tensorObj tensor).source = none) :
    g.deleteConnection tensor op = some (g.updTensor tensor (fun t => t.removeTarget op)) := by
  unfold deleteConnection
  rw [if_pos h]
  have : ((g.updTensor tensor (fun t => t.removeTarget op)).tensorObj tensor).source = none := by
    simp [updTensor, TensorObj.removeTarget, hs]
  simp only [this]

theorem deleteConnection_some (g : GraphObj) (tensor op s : Nat)
    (h : op ∈ (g.tensorObj tensor).targets) (hs : (g.tensorObj tensor).source = some s) :
    g.deleteConnection tensor op =
      some (((g.updTensor tensor (fun t => t.removeTarget op)).updOp s
        (fun o => o.removeSuccessors op)).updOp op (fun o => o.removePredecessors s)) := by
  unfold deleteConnection
  rw [if_pos h]
  have : ((g.updTensor tensor (fun t => t.removeTarget op)).tensorObj tensor).source =
      some s := by
    simp [updTensor, TensorObj.removeTarget, hs]
  simp only [this]

theorem addConnection_none (g : GraphObj) (tensor op : Nat)
    (hs : (g.tensorObj tensor).source = none) :
    g.addConnection tensor op = g.updTensor tensor (fun t => t.addTarget op) := by
  unfold addConnection
  have : ((g.updTensor tensor (fun t => t.addTarget op)).tensorObj tensor).source = none := by
    simp [updTensor, TensorObj.addTarget, hs]
  simp only [this]

theorem addConnection_some (g : GraphObj) (tensor op s : Nat)
    (hs : (g.tensorObj tensor).source = some s) :
    g.addConnection tensor op =
      ((g.updTensor tensor (fun t => t.addTarget op)).updOp s
        (fun o => o.addSuccessors op)).updOp op (fun o => o.addPredecessors s) := by
  unfold addConnection
  have : ((g.updTensor tensor (fun t => t.addTarget op)).tensorObj tensor).source =
      some s := by
    simp [updTensor, TensorObj.addTarget, hs]
  simp only [this]

/-- The rewrite of a Transpose pair `O`, `O2` whose second operator has the single successor
`S`: how it leaves the inputs and predecessors of `S`, the consumers of the input `X` of `O`
and the successors of the producer of `X`. -/
theorem eliminatePair_rewire (g : GraphObj) (O O2 S X t1 t2 : Nat)
    (hin : (g.opObj O).inputs = [X]) (hin2 : (g.opObj O2).inputs = [t1])
    (hout2 : (g.opObj O2).outputs = [t2]) (hcons : O ∈ (g.tensorObj X).targets)
    (hsucc2 : (g.opObj O2).successors = [S])
    (hpred : (g.opObj O).predecessors = (g.tensorObj X).source.toList)
    (hSO : S ≠ O) (hXO2 : (g.tensorObj X).source ≠ some O2) :
    ∃ g1, g.eliminatePair O O2 = some g1 ∧
      (g1.opObj S).inputs = (g.opObj S).inputs.map (fun t => if t = t2 then X else t) ∧
      S ∈ (g1.tensorObj X).targets ∧ O ∉ (g1.tensorObj X).targets ∧
      O2 ∉ (g1.opObj S).predecessors ∧
      ∀ P, (g.tensorObj X).source = some P →
        P ∈ (g1.opObj S).predecessors ∧ S ∈ (g1.opObj P).successors ∧
        O ∉ (g1.opObj P).successors := by
  unfold eliminatePair
  simp only [hin, hin2, OperatorObj.getOutput, hout2, List.getElem?_cons_zero]
  have e1 : (((g.removeTensor t1).removeTensor t2).opObj O).predecessors =
      (g.opObj O).predecessors := rfl
  rw [e1, hpred]
  cases hs : (g.tensorObj X).source with
  | none =>
    simp only [Option.toList]
    rw [deleteConnection_none ((g.removeTensor t1).removeTensor t2) X O hcons hs]
    dsimp only
    have hs3 : ((((g.removeTensor t1).removeTensor t2).updTensor X
        (fun t => t.removeTarget O)).opObj O2).successors = [S] := hsucc2
    rw [hs3]
    dsimp only
    rw [addConnection_none _ X S (by simp [updTensor, TensorObj.removeTarget, removeTensor, hs])]
    refine ⟨_, rfl, ?_, ?_, ?_, ?_, ?_⟩
    · simp [updOp, updTensor, removeTensor, OperatorObj.replaceInput,
        OperatorObj.removePredecessors]
    · simp [updOp, updTensor, removeTensor, TensorObj.addTarget]
    · simp [updOp, updTensor, removeTensor, TensorObj.addTarget, TensorObj.removeTarget,
        List.mem_filter, Ne.symm hSO]
    · simp [updOp, updTensor, removeTensor, OperatorObj.replaceInput,
        OperatorObj.removePredecessors, List.mem_filter]
    · intro P hP
      cases hP
  | some P =>
    simp only [Option.toList]
    have hPO2 : P ≠ O2 := fun h => hXO2 (by rw [hs, h])
    rw [deleteConnection_some (((g.removeTensor t1).removeTensor t2).updOp P
      (fun o => o.removeSuccessors O)) X O P hcons hs]
    dsimp only
    have hs3 : (((((((g.removeTensor t1).removeTensor t2).updOp P
        (fun o => o.removeSuccessors O)).updTensor X (fun t => t.removeTarget O)).updOp P
        (fun o => o.removeSuccessors O)).updOp O
        (fun o => o.removePredecessors P)).opObj O2).successors = [S] := by
      simp only [updOp, updTensor, removeTensor, OperatorObj.removeSuccessors,
        OperatorObj.removePredecessors]
      split_ifs <;> simp [hsucc2, hSO]
    rw [hs3]
    dsimp only
    rw [addConnection_some _ X S P (by simp [updOp, updTensor, TensorObj.removeTarget,
      removeTensor, hs])]
    refine ⟨_, rfl, ?_, ?_, ?_, ?_, ?_⟩
    · simp only [updOp, updTensor, removeTensor, OperatorObj.replaceInput,
        OperatorObj.removePredecessors, OperatorObj.addPredecessors,
        OperatorObj.addSuccessors, OperatorObj.removeSuccessors, if_true]
      split_ifs <;> rfl
    · simp [updOp, updTensor, removeTensor, TensorObj.addTarget]
    · simp [updOp, updTensor, removeTensor, TensorObj.addTarget, TensorObj.removeTarget,
        List.mem_filter, Ne.symm hSO]
    · simp only [updOp, updTensor, removeTensor, OperatorObj.replaceInput,
        OperatorObj.removePredecessors, OperatorObj.addPredecessors,
        OperatorObj.addSuccessors, OperatorObj.removeSuccessors, if_true]
      split_ifs <;> simp [List.mem_filter, hPO2.symm]
    · intro P' hP
      cases hP
      refine ⟨?_, ?_, ?_⟩
      · simp only [updOp, updTensor, removeTensor, OperatorObj.replaceInput,
          OperatorObj.removePredecessors, OperatorObj.addPredecessors,
          OperatorObj.addSuccessors, OperatorObj.removeSuccessors, if_true]
        split_ifs <;> simp
      · simp only [updOp, updTensor, removeTensor, OperatorObj.replaceInput,
          OperatorObj.removePredecessors, OperatorObj.addPredecessors,
          OperatorObj.addSuccessors, OperatorObj.removeSuccessors, if_true]
        split_ifs <;> simp
      · simp only [updOp, updTensor, removeTensor, OperatorObj.replaceInput,
          OperatorObj.removePredecessors, OperatorObj.addPredecessors,
          OperatorObj.addSuccessors, OperatorObj.removeSuccessors, if_true]
        split_ifs <;> simp [List.mem_filter, Ne.symm hSO]

/-- The whole scan when the only rewrite that fires is the elimination of the Transpose pair
`O`, `O2`, adjacent in the sequence: the result is the graph the rewrite leaves, without the
two operators. -/
theorem optimize_pair (g g1 : GraphObj) (pre post : List Nat) (O O2 t0 t1 t2 : Nat)
    (ns r r' : List Nat)
    (hops : g.ops = pre ++ O :: O2 :: post)
    (hpre : ∀ o ∈ pre, g.inert o = true)
    (hO : (g.opObj O).opType = .Transpose) (hO2 : (g.opObj O2).opType = .Transpose)
    (hperm : (g.opObj O).permute = (g.opObj O2).permute)
    (hsucc : (g.opObj O).successors = O2 :: ns)
    (hin : (g.opObj O).inputs = t0 :: r) (hin2 : (g.opObj O2).inputs = t1 :: r')
    (hout2 : (g.opObj O2).outputs = [t2]) (hcons : O ∈ (g.tensorObj t0).targets)
    (h1 : g.eliminatePair O O2 = some g1) (hpost : ∀ o ∈ post, g1.inert o = true) :
    g.optimize = some { g1 with ops := pre ++ post } := by
  obtain ⟨g1', h1', -, h3⟩ := optStep_pair g pre post O O2 t0 t1 t2 ns r r' hops hO hO2 hperm
    hsucc hin hin2 hout2 hcons
  rw [h1] at h1'
  cases h1'
  have hpost' : ∀ o ∈ post, inert { g1 with ops := pre ++ post } o = true := hpost
  have hlen : g.ops.length = pre.length + post.length + 2 := by
    rw [hops]; simp; omega
  obtain ⟨r, hr⟩ := fuel_split g.ops.length (post.length + 1 + 1 + pre.length) (by omega)
  unfold optimize
  have e1 := optLoop_inert g (r + post.length + 1 + 1) pre [] (O :: O2 :: post)
    (by rw [hops]; simp) hpre
  have e2 : optLoop (r + post.length + 1 + 1) g pre.length =
      optLoop (r + post.length + 1) { g1 with ops := pre ++ post } pre.length := by
    show (if pre.length = g.ops.length then some (some g)
      else if g.ops.length < pre.length then some none
      else match g.optStep pre.length with
        | none => some none
        | some st => optLoop (r + post.length + 1) st.1 st.2) = _
    rw [if_neg (by omega), if_neg (by omega), h3]
  have e3 := optLoop_inert { g1 with ops := pre ++ post } (r + 1) post pre []
    (by simp) hpost'
  have e4 := optLoop_end { g1 with ops := pre ++ post } r
  have e5 : ({ g1 with ops := pre ++ post } : GraphObj).ops.length =
      pre.length + post.length := by simp
  rw [e5] at e4
  have f1 : (g.ops.length + 1) * (g.ops.length + 2) + 1 =
      r + post.length + 1 + 1 + pre.length := by omega
  have f2 : r + 1 + post.length = r + post.length + 1 := by omega
  simp only [List.length_nil, Nat.zero_add] at e1
  rw [f1, e1, e2, ← f2, e3, e4]

/-- C21 (as amended): let `O` be a Transpose with the input `X`, which lists `O` as a
consumer, whose predecessors are the producer of `X` if it has one, and whose only successor
`O2` is a Transpose with the same permutation (one input, output `t2`) that directly follows
`O` in the operator sequence and has the single successor `S`, `S` not being `O` and `X` not
being produced by `O2`; let every operator before `O` and, in the rewritten graph, every
operator after `O2` be inert: a Transpose whose first successor is no Transpose with the
same permutation, or a Matmul all of whose inputs are passed over. Then
`optimize()` ends and leaves the operator sequence without `O` and `O2`; `S` has `X` as
input wherever it had the output `t2` of `O2`; `X` lists `S` and no longer `O` as a
consumer; `O2` is no predecessor of `S`; and a producer `P` of `X` is a predecessor of `S`,
has `S` as a successor and no longer has `O` as a successor. -/
theorem transpose_pair_rewired (g : GraphObj) (pre post : List Nat)
    (O O2 S X t1 t2 : Nat)
    (hops : g.ops = pre ++ O :: O2 :: post)
    (hpre : ∀ o ∈ pre, g.inert o = true)
    (hO : (g.opObj O).opType = .Transpose) (hO2 : (g.opObj O2).opType = .Transpose)
    (hperm : (g.opObj O).permute = (g.opObj O2).permute)
    (hsucc : (g.opObj O).successors = [O2])
    (hin : (g.opObj O).inputs = [X]) (hin2 : (g.opObj O2).inputs = [t1])
    (hout2 : (g.opObj O2).outputs = [t2])
    (hcons : O ∈ (g.tensorObj X).targets)
    (hsucc2 : (g.opObj O2).successors = [S])
    (hpred : (g.opObj O).predecessors = (g.tensorObj X).source.toList)
    (hSO : S ≠ O) (hXO2 : (g.tensorObj X).source ≠ some O2)
    (hpost : (g.eliminatePair O O2).all (fun g1 => post.all g1.inert) = true) :
    ∃ g', g.optimize = some g' ∧ g'.ops = pre ++ post ∧
      (g'.opObj S).inputs = (g.opObj S).inputs.map (fun t => if t = t2 then X else t) ∧
      S ∈ (g'.tensorObj X).targets ∧ O ∉ (g'.tensorObj X).targets ∧
      O2 ∉ (g'.opObj S).predecessors ∧
      ∀ P, (g.tensorObj X).source = some P →
        P ∈ (g'.opObj S).predecessors ∧ S ∈ (g'.opObj P).successors ∧
        O ∉ (g'.opObj P).successors := by
  obtain ⟨g1, h1, h2⟩ := eliminatePair_rewire g O O2 S X t1 t2 hin hin2 hout2 hcons hsucc2
    hpred hSO hXO2
  rw [h1] at hpost
  have hpost' : ∀ o ∈ post, g1.inert o = true := by
    intro o ho
    have : post.all g1.inert = true := hpost
    rw [List.all_eq_true] at this
    exact this o ho
  exact ⟨{ g1 with ops := pre ++ post },
    optimize_pair g g1 pre post O O2 X t1 t2 [] [] [] hops hpre hO hO2 hperm hsucc hin hin2
      hout2 hcons h1 hpost', rfl, h2⟩

theorem transpose_pair_rewired_witness :
    (pairBetweenMatmuls.checkValid = true ∧
      pairBetweenMatmuls.ops = [5] ++ 1 :: 2 :: [4] ∧
      (∀ o ∈ [5], pairBetweenMatmuls.inert o = true) ∧
      (pairBetweenMatmuls.opObj 2).successors = [4] ∧
      (pairBetweenMatmuls.tensorObj 10).source = some 5 ∧
      (pairBetweenMatmuls.eliminatePair 1 2).all (fun g1 => [4].all g1.inert) = true) ∧
    ∃ g', pairBetweenMatmuls.optimize = some g' ∧ g'.ops = [5] ++ [4] ∧
      (g'.opObj 4).inputs = [10, 6] ∧
      4 ∈ (g'.tensorObj 10).targets ∧ 1 ∉ (g'.tensorObj 10).targets ∧
      2 ∉ (g'.opObj 4).predecessors ∧
      5 ∈ (g'.opObj 4).predecessors ∧ 4 ∈ (g'.opObj 5).successors ∧
      1 ∉ (g'.opObj 5).successors :=
  ⟨⟨by decide, rfl, by decide, rfl, rfl, by decide⟩,
    (transpose_pair_rewired pairBetweenMatmuls [5] [4] 1 2 4 10 11 12 rfl (by decide) rfl rfl
      rfl rfl rfl rfl rfl (by decide) rfl rfl (by decide) (by decide) (by decide)).imp
      (fun _ h => ⟨h.1, h.2.1, h.2.2.1.trans (by decide), h.2.2.2.1, h.2.2.2.2.1,
        h.2.2.2.2.2.1, h.2.2.2.2.2.2 5 rfl⟩)⟩

/-- C21 (as stated) fails, by what else the scan rewrites. In `transposeTriple`, a valid
graph, the Transpose 1 (input 10, produced by operator 7) is followed by its only successor,
the Transpose 2 with the same permutation, which has the single successor 4. The scan meets
the Transpose 7 first and cancels it with 1, so 2 stays: after `optimize()` the operator
sequence is `[2, 4]`, the inputs of 4 are still `[12, 6]`, tensor 10 still lists 1 and not 4
as a consumer, and 2 is still the predecessor of 4. In `pairAfterSwap` the pair 1, 2 is
cancelled and 4 gets tensor 10 as its first input, but 10 is produced by the Transpose 7,
which swaps the last two axes, and the Matmul 4, visited next, absorbs it: after
`optimize()` the inputs of 4 are `[8, 6, 8]`, tensor 10 has no consumer, and 7 is no
predecessor of 4. -/
theorem transpose_rewiring_counterexample :
    (transposeTriple.checkValid = true ∧
      (transposeTriple.opObj 1).opType = .Transpose ∧
      (transposeTriple.opObj 1).inputs = [10] ∧
      (transposeTriple.tensorObj 10).source = some 7 ∧
      (transposeTriple.opObj 1).predecessors = [7] ∧
      (transposeTriple.opObj 1).successors = [2] ∧
      (transposeTriple.opObj 2).opType = .Transpose ∧
      (transposeTriple.opObj 1).permute = (transposeTriple.opObj 2).permute ∧
      (transposeTriple.opObj 2).outputs = [12] ∧
      (transposeTriple.opObj 2).successors = [4] ∧
      transposeTriple.optimize.map
        (fun g => (g.ops, (g.opObj 4).inputs, (g.tensorObj 10).targets,
          (g.opObj 4).predecessors)) = some ([2, 4], [12, 6], [1], [2])) ∧
    (pairAfterSwap.checkValid = true ∧ pairAfterSwap.ops = [7, 1, 2, 4] ∧
      pairAfterSwap.inert 7 = true ∧
      (pairAfterSwap.opObj 1).opType = .Transpose ∧
      (pairAfterSwap.opObj 1).inputs = [10] ∧
      (pairAfterSwap.tensorObj 10).source = some 7 ∧
      (pairAfterSwap.opObj 1).predecessors = [7] ∧
      (pairAfterSwap.opObj 1).successors = [2] ∧
      (pairAfterSwap.opObj 2).opType = .Transpose ∧
      (pairAfterSwap.opObj 1).permute = (pairAfterSwap.opObj 2).permute ∧
      (pairAfterSwap.opObj 2).outputs = [12] ∧
      (pairAfterSwap.opObj 2).successors = [4] ∧
      (pairAfterSwap.eliminatePair 1 2).map (fun g => (g.opObj 4).inputs) = some [10, 6] ∧
      pairAfterSwap.optimize.map
        (fun g => (g.ops, (g.opObj 4).inputs, (g.tensorObj 10).targets,
          (g.opObj 4).predecessors)) = some ([4], [8, 6, 8], [], [])) := by
  refine ⟨⟨by decide, rfl, rfl, rfl, rfl, rfl, rfl, rfl, rfl, rfl, by decide⟩,
    ⟨by decide, rfl, by decide, rfl, rfl, rfl, rfl, rfl, rfl, rfl, rfl, rfl, by decide,
      by decide⟩⟩

end GraphObj

/-- C1 (as stated) fails beyond the address space. The calls `alloc 16`, `alloc (2^64 - 8)`,
`alloc 8` have positive sizes and no `free`; the second moves `peak` from 16 to
`16 + 2^64 - 8`, which is 8 in `size_t`, and the third returns 8: the live ranges `[0, 16)`
and `[8, 16)` overlap. -/
theorem alloc_live_ranges_counterexample :
    Matched [.alloc 16, .alloc 18446744073709551608, .alloc 8] ∧
    (Planning.run [.alloc 16, .alloc 18446744073709551608, .alloc 8]).live =
      [(8, 8), (16, 18446744073709551608), (0, 16)] ∧
    (Planning.run [.alloc 16, .alloc 18446744073709551608, .alloc 8]).allocator.getAlignedSize
      16 = 16 ∧
    (Planning.run [.alloc 16, .alloc 18446744073709551608, .alloc 8]).allocator.getAlignedSize
      8 = 8 ∧
    ¬ (0 + 16 ≤ 8 ∨ 8 + 8 ≤ 0) := by
  refine ⟨by decide, by decide, by decide, by decide, by decide⟩

/-- C2 (as stated) fails beyond the address space. The matched sequence `alloc 16`,
`alloc (2^64 - 8)`, `alloc 8`, `free(8, 8)`, `free(0, 16)`, `free(16, 2^64 - 8)` allocates
and ends with every allocation freed; `peak` is 16 and the tail-address index holds
`16 → 8`, not `peak → peak`. -/
theorem free_all_coalesces_counterexample :
    Matched [.alloc 16, .alloc 18446744073709551608, .alloc 8, .free 8 8, .free 0 16,
      .free 16 18446744073709551608] ∧
    (Planning.run [.alloc 16, .alloc 18446744073709551608, .alloc 8, .free 8 8, .free 0 16,
      .free 16 18446744073709551608]).live = [] ∧
    (Planning.run [.alloc 16, .alloc 18446744073709551608, .alloc 8, .free 8 8, .free 0 16,
      .free 16 18446744073709551608]).allocator.peak = 16 ∧
    (Planning.run [.alloc 16, .alloc 18446744073709551608, .alloc 8, .free 8 8, .free 0 16,
      .free 16 18446744073709551608]).allocator.tailAddrToBlockSize 16 = some 8 := by
  refine ⟨by decide, by decide, by decide, by decide⟩

/-- C3 (as stated) fails beyond the address space. In the sequence `alloc 16`,
`alloc (2^64 - 8)` the second call, an `alloc` with a positive size, lowers `peak` from 16
to 8. -/
theorem peak_monotone_counterexample :
    Matched [.alloc 16, .alloc 18446744073709551608] ∧
    (Planning.run [.alloc 16]).allocator.peak = 16 ∧
    (Planning.run [.alloc 16, .alloc 18446744073709551608]).allocator.peak = 8 := by
  refine ⟨by decide, by decide, by decide⟩

/-- C18 (as stated) fails for a size above `2^64 - 8`. After `alloc 16`, `free(0, 16)` the
free-block set is `[0, 16)`. For `alloc (2^64 - 7)` the aligned size computed by the code is
0, no multiple of 8 at or above the size; the block found is the one of size 16, the call
returns 0 and takes the block out of the set without putting a remainder in, while the
head-address index still holds `0 → 16`, and `used` stays 0. -/
theorem alloc_reuse_counterexample :
    Matched [.alloc 16, .free 0 16] ∧
    (Planning.run [.alloc 16, .free 0 16]).allocator.freeBlocks = [⟨0, 16⟩] ∧
    (Planning.run [.alloc 16, .free 0 16]).allocator.getAlignedSize 18446744073709551609 = 0 ∧
    ((Planning.run [.alloc 16, .free 0 16]).allocator.alloc 18446744073709551609).1 = some 0 ∧
    ((Planning.run [.alloc 16, .free 0 16]).allocator.alloc
      18446744073709551609).2.freeBlocks = [] ∧
    ((Planning.run [.alloc 16, .free 0 16]).allocator.alloc
      18446744073709551609).2.headAddrToBlockSize 0 = some 16 ∧
    ((Planning.run [.alloc 16, .free 0 16]).allocator.alloc 18446744073709551609).2.used =
      0 := by
  refine ⟨by decide, by decide, by decide, by decide, by decide, by decide, by decide⟩

/-- C19 (as stated) fails beyond the address space. After `alloc 16` no block is free and
`peak` is 16; `alloc (2^64 - 8)`, whose aligned size is `2^64 - 8`, returns the old `peak`
and leaves `peak` at 8: it has not grown by the aligned size. -/
theorem alloc_growth_counterexample :
    Matched [.alloc 16] ∧
    (Planning.run [.alloc 16]).allocator.freeBlocks = [] ∧
    (Planning.run [.alloc 16]).allocator.peak = 16 ∧
    (Planning.run [.alloc 16]).allocator.getAlignedSize 18446744073709551608 =
      18446744073709551608 ∧
    ((Planning.run [.alloc 16]).allocator.alloc 18446744073709551608).1 = some 16 ∧
    ((Planning.run [.alloc 16]).allocator.alloc 18446744073709551608).2.peak = 8 := by
  refine ⟨by decide, by decide, by decide, by decide, by decide, by decide⟩

/-- C20 (as stated) fails beyond the address space. After the matched calls `alloc 16`,
`alloc (2^64 - 8)`, `alloc 8`, `free(8, 8)`, `free(0, 16)` the free-block set holds `[8, 16)`
and `[0, 16)`, which overlap, and the tail-address index holds at 16 the size 16 alone. -/
theorem free_blocks_counterexample :
    Matched [.alloc 16, .alloc 18446744073709551608, .alloc 8, .free 8 8, .free 0 16] ∧
    (Planning.run [.alloc 16, .alloc 18446744073709551608, .alloc 8, .free 8 8,
      .free 0 16]).allocator.freeBlocks = [⟨8, 8⟩, ⟨0, 16⟩] ∧
    ¬ (8 + 8 ≤ 0 ∨ 0 + 16 ≤ 8) ∧
    (Planning.run [.alloc 16, .alloc 18446744073709551608, .alloc 8, .free 8 8,
      .free 0 16]).allocator.tailAddrToBlockSize (8 + 8) = some 16 := by
  refine ⟨by decide, by decide, by decide, by decide⟩

namespace GraphObj

/-- C9 (as stated) fails beyond the address space. `wideInputs` is structurally valid,
acyclic and wired, and its tensors have positive byte sizes. `dataMalloc` places tensor 1
(2^34 bytes) at 0 and tensor 2 at 2^34, which moves `peak` to 8 in `size_t`; tensor 3 is
placed at 8 and the output 4 at 16. Tensors 1 and 3 are both live from the start until
`Op1` is processed, and the range `[8, 16)` of 3 lies inside the range `[0, 2^34)` of 1;
so does the range `[16, 24)` of the output 4 of `Op1`, of which 1 is an input. -/
theorem dataMalloc_overlap_counterexample :
    wideInputs.checkValid = true ∧ wideInputs.Acyclic ∧ wideInputs.Wired ∧
    (∀ t ∈ wideInputs.tensors, 0 < (wideInputs.tensorObj t).getBytes) ∧
    (wideInputs.dataMalloc (fun _ => 4096)).map
      (fun r => (r.1.ops, r.2 1, r.2 2, r.2 3, r.2 4)) =
      some ([1], some 0, some 17179869184, some 8, some 16) ∧
    wideInputs.LiveAt [1] 1 0 ∧ wideInputs.LiveAt [1] 3 0 ∧
    1 ∈ (wideInputs.opObj 1).inputs ∧ 4 ∈ (wideInputs.opObj 1).outputs ∧
    Allocator.init.getAlignedSize (wideInputs.tensorObj 1).getBytes = 17179869184 ∧
    Allocator.init.getAlignedSize (wideInputs.tensorObj 3).getBytes = 8 ∧
    Allocator.init.getAlignedSize (wideInputs.tensorObj 4).getBytes = 8 ∧
    ¬ (0 + 17179869184 ≤ 8 ∨ 8 + 8 ≤ 0) ∧ ¬ (0 + 17179869184 ≤ 16 ∨ 16 + 8 ≤ 0) := by
  refine ⟨by decide, acyclic_of_rankOk _ id (by decide), ⟨by decide, by decide, by decide⟩,
    by decide, by decide, ⟨by decide, Or.inr ⟨0, 1, rfl, by decide, by decide⟩⟩,
    ⟨by decide, Or.inr ⟨0, 1, rfl, by decide, by decide⟩⟩, by decide, by decide, by decide,
    by decide, by decide, by decide, by decide⟩

/-- C10 (as stated) fails beyond the address space. For the chain with the byte sizes
`2^63`, `2^63` and 8 the sizes are positive and the aligned size of `T3` is at most that of
`T1`; `dataMalloc` places `T1` at 0, `T2` at `2^63` and `T3` at 0, and the final `peak` is
0, not `aligned(T1) + aligned(T2)`, which is `2^64`. -/
theorem dataMalloc_chain_counterexample :
    (0 < 9223372036854775808 ∧ 0 < 8 ∧ alignUp 8 ≤ alignUp 9223372036854775808) ∧
    ((chainGraph 9223372036854775808 9223372036854775808 8).dataMalloc (fun _ => 4096)).map
      (fun r => (r.2 1, r.2 2, r.2 3, r.1.allocator.peak)) =
      some (some 0, some 9223372036854775808, some 0, 0) ∧
    alignUp 9223372036854775808 + alignUp 9223372036854775808 = 18446744073709551616 := by
  refine ⟨by decide, by decide, by decide⟩

end GraphObj

end infini
